import Mathlib

/-!
# Task store of the to-do application (`src/javascript/script.js`)

A shallow embedding of the `TodoApp` class: the in-memory task tree, the
mutating operations on it, and the filtered / sorted view.

Modelling conventions

* The object state `this` is a record `TodoApp`; every method is a function
  that takes the state and returns the new state (methods that also return a
  value return a pair).  A method that mutates an object found with
  `Array.prototype.find` rewrites the first matching element of the list.
* Built-ins whose result depends on the engine, the locale or the time zone
  (`toLowerCase`, `localeCompare`, `Date` parsing, `setHours(0,0,0,0)`) and
  the presence of the `todoList` element are fields of a `Host` record.
  General theorems are stated for an arbitrary host; evaluations at concrete
  inputs use `sampleHost`.
* The clock reading and the random id component are arguments of the
  operation that reads them.
* `saveToStorage` serialises the tasks and never touches the in-memory state,
  so it does not appear; `showNotification` likewise.  `render` and
  `updateStats` are kept for their one effect on the state, the filling of
  `cachedToday`.
* Timestamps written by the store are ISO-8601 strings; `TimeVal.iso n` stands
  for the string of the instant `n`, and `TimeVal.millis n` for a number, as
  records of older versions carry.
-/

namespace Todo

/-! ## JavaScript values used by the store -/

/-- The value of a timestamp field (`createdAt`, `completedAt`).
`absent` is a missing property, `millis n` the number `n` (epoch
milliseconds, as `Date.now()` returns), and `iso n` the string that
`new Date(n).toISOString()` returns for the instant `n`. -/
inductive TimeVal where
  | absent
  | millis (n : Int)
  | iso (n : Int)
  deriving DecidableEq, Repr

/-- A JavaScript number as far as the comparators need it: `NaN` or an integer. -/
inductive JSNumber where
  | nan
  | int (z : Int)
  deriving DecidableEq, Repr

namespace TimeVal

/-- JavaScript truthiness: a missing property and the number `0` are falsy, a
non-empty string is truthy. -/
def truthy : TimeVal → Bool
  | absent => false
  | millis n => n != 0
  | iso _ => true

/-- The operation `ToNumber`: an ISO-8601 string (`2024-01-01T00:00:00.000Z`) is not a
numeric literal, so it converts to `NaN`; a missing property converts to `NaN`. -/
def toNumber : TimeVal → JSNumber
  | absent => JSNumber.nan
  | millis n => JSNumber.int n
  | iso _ => JSNumber.nan

/-- The expression `v || 0`, already converted to a number. -/
def orZero (v : TimeVal) : JSNumber :=
  if v.truthy then v.toNumber else JSNumber.int 0

/-- The expression `v || w`. -/
def orElse (v w : TimeVal) : TimeVal :=
  if v.truthy then v else w

/-- The instant a timestamp value denotes, when it denotes one. -/
def instant : TimeVal → Option Int
  | absent => none
  | millis n => some n
  | iso n => some n

end TimeVal

/-- The prefix increment `++x`: `NaN` stays `NaN`. -/
def JSNumber.increment : JSNumber → JSNumber
  | JSNumber.nan => JSNumber.nan
  | JSNumber.int z => JSNumber.int (z + 1)

/-- The string a number becomes in a template literal. -/
def JSNumber.render : JSNumber → String
  | JSNumber.nan => "NaN"
  | JSNumber.int z => toString z

/-- Subtraction of numbers: `NaN` is absorbing. -/
def JSNumber.sub : JSNumber → JSNumber → JSNumber
  | JSNumber.int a, JSNumber.int b => JSNumber.int (a - b)
  | _, _ => JSNumber.nan

/-- The characters `String.prototype.trim` removes: white space and line terminators. -/
def isTrimChar (c : Char) : Bool :=
  let n := c.toNat
  n = 0x09 || n = 0x0A || n = 0x0B || n = 0x0C || n = 0x0D || n = 0x20 || n = 0xA0
    || n = 0x1680 || (0x2000 ≤ n && n ≤ 0x200A) || n = 0x2028 || n = 0x2029
    || n = 0x202F || n = 0x205F || n = 0x3000 || n = 0xFEFF

/-- The method `String.prototype.trim`. -/
def trim (s : String) : String :=
  String.mk ((s.data.dropWhile isTrimChar).reverse.dropWhile isTrimChar).reverse

/-! ## Data model -/

/-- A sub-subtask, the leaf of the hierarchy. -/
structure SubSubtask where
  id : String
  text : String
  completed : Bool
  pinned : Bool
  notes : String
  deriving DecidableEq, Repr

/-- A subtask and the sub-subtasks it owns. -/
structure Subtask where
  id : String
  text : String
  completed : Bool
  pinned : Bool
  notes : String
  subsubtasks : List SubSubtask
  showSubSubtaskForm : Bool
  deriving DecidableEq, Repr

/-- A top-level task.  `startDate` and `dueDate` are `none` when the property is
missing. -/
structure Task where
  id : String
  text : String
  startDate : Option String
  dueDate : Option String
  notes : String
  status : String
  completed : Bool
  pinned : Bool
  subtasks : List Subtask
  showSubtaskForm : Bool
  createdAt : TimeVal
  completedAt : TimeVal
  deriving DecidableEq, Repr

/-- The fields of `this` that the store logic reads or writes.  `idCounter` is a
number once the constructor has assigned it; `NaN` stands for the field that
was never assigned, which `++this.idCounter` turns into `NaN`. -/
structure TodoApp where
  tasks : List Task
  idCounter : JSNumber
  cachedToday : Option Int
  currentFilter : String
  currentSort : String
  editingTaskId : Option String
  deriving DecidableEq, Repr

/-- Built-ins that depend on the engine, the locale or the time zone, and the
part of the document the store looks at. -/
structure Host where
  /-- The method `String.prototype.toLowerCase`. -/
  toLowerCase : String → String
  /-- The method `String.prototype.localeCompare`: negative, zero or positive. -/
  localeCompare : String → String → Int
  /-- The value `new Date(s).getTime()`; `none` is `NaN` (an invalid date). -/
  parseDate : String → Option Int
  /-- The effect of `setHours(0, 0, 0, 0)` on an instant: local midnight of its day. -/
  startOfDay : Int → Int
  /-- Whether `document.getElementById('todoList')` finds an element. -/
  todoListPresent : Bool

/-- The values of the inputs of the add form; `none` is an element that is not in
the document. -/
structure TaskForm where
  taskInput : Option String
  startDateInput : Option String
  dueDateInput : Option String
  noteInput : Option String
  deriving DecidableEq, Repr

/-- The values of the inputs of the edit dialog; `none` is an element that is not
in the document. -/
structure EditForm where
  editTaskInput : Option String
  editStartDateInput : Option String
  editDueDateInput : Option String
  editNoteInput : Option String
  editStatusInput : Option String
  deriving DecidableEq, Repr

/-- The counters `updateStats` accumulates. -/
structure Stats where
  total : Nat
  completed : Nat
  pending : Nat
  overdue : Nat
  deriving DecidableEq, Repr

/-! ## Helpers for in-place mutation -/

/-- Rewrites the first element that satisfies `p`: the effect of mutating the
object that `find` returned. -/
def modifyFirst {α : Type} (p : α → Bool) (f : α → α) : List α → List α
  | [] => []
  | x :: xs => if p x then f x :: xs else x :: modifyFirst p f xs

/-- The ids of every entity of the tree: each task, then its subtasks, each
followed by its sub-subtasks. -/
def allIds (tasks : List Task) : List String :=
  tasks.flatMap fun t =>
    t.id :: t.subtasks.flatMap fun s => s.id :: s.subsubtasks.map fun ss => ss.id

namespace TodoApp

/-! ## Identity and dates -/

/-- The method `generateId`: the clock, the incremented counter and a random
component, joined by dashes. -/
def generateId (now : Int) (rnd : String) (app : TodoApp) : String × TodoApp :=
  let counter := app.idCounter.increment
  (toString now ++ "-" ++ counter.render ++ "-" ++ rnd, { app with idCounter := counter })

/-- The method `isValidDate`: the string is non-empty and parses to a date. -/
def isValidDate (h : Host) (dateString : String) : Bool :=
  dateString != "" && (h.parseDate dateString).isSome

/-- The comparison `new Date(a) > new Date(b)`; it is false when either date is invalid. -/
def dateAfter (h : Host) (a b : String) : Bool :=
  match h.parseDate a, h.parseDate b with
  | some x, some y => decide (y < x)
  | _, _ => false

/-! ## Overdue, filtering and sorting -/

/-- The method `isOverdue`: the result and the state, in which `cachedToday` has
been filled in when it was empty and the task has a due date. -/
def isOverdue (h : Host) (now : Int) (app : TodoApp) (task : Task) : Bool × TodoApp :=
  match task.dueDate with
  | none => (false, app)
  | some due =>
    if due = "" then (false, app)
    else
      let today : Int :=
        match app.cachedToday with
        | some d => d
        | none => h.startOfDay now
      let app1 : TodoApp := { app with cachedToday := some today }
      match h.parseDate due with
      | none => (false, app1)
      | some d => (decide (h.startOfDay d < today) && !task.completed, app1)

/-- The call `filtered.filter(t => this.isOverdue(t))`, threading the state. -/
def filterOverdue (h : Host) (now : Int) : List Task → TodoApp → List Task × TodoApp
  | [], app => ([], app)
  | t :: ts, app =>
    let r := isOverdue h now app t
    let rest := filterOverdue h now ts r.2
    (if r.1 then t :: rest.1 else rest.1, rest.2)

/-- The filter step of `getFilteredTasks`: the copy of the task sequence after the
`switch` on the current filter. -/
def filterTasks (h : Host) (now : Int) (app : TodoApp) : List Task × TodoApp :=
  if app.currentFilter = "pending" then
    (app.tasks.filter (fun t => t.status == "pending"), app)
  else if app.currentFilter = "in-progress" then
    (app.tasks.filter (fun t => t.status == "in-progress"), app)
  else if app.currentFilter = "completed" then
    (app.tasks.filter (fun t => t.completed), app)
  else if app.currentFilter = "overdue" then
    filterOverdue h now app.tasks app
  else if app.currentFilter = "pinned" then
    (app.tasks.filter (fun t => t.pinned), app)
  else
    (app.tasks, app)

/-- The comparator that `applySorting` passes to `sort`. -/
def compareTasks (h : Host) (currentSort : String) (a b : Task) : JSNumber :=
  if a.pinned && !b.pinned then JSNumber.int (-1)
  else if !a.pinned && b.pinned then JSNumber.int 1
  else if currentSort = "alphabet-az" then
    JSNumber.int (h.localeCompare (h.toLowerCase a.text) (h.toLowerCase b.text))
  else if currentSort = "alphabet-za" then
    JSNumber.int (h.localeCompare (h.toLowerCase b.text) (h.toLowerCase a.text))
  else if currentSort = "date-created" then
    JSNumber.sub a.createdAt.orZero b.createdAt.orZero
  else if currentSort = "date-closed" then
    if a.completed && !b.completed then JSNumber.int (-1)
    else if !a.completed && b.completed then JSNumber.int 1
    else if a.completed && b.completed then
      let aTime := (a.completedAt.orElse a.createdAt).orZero
      let bTime := (b.completedAt.orElse b.createdAt).orZero
      JSNumber.sub bTime aTime
    else JSNumber.int 0
  else
    JSNumber.int (h.localeCompare (h.toLowerCase a.text) (h.toLowerCase b.text))

end TodoApp

/-- The abstract operation `SortCompare` of `Array.prototype.sort`: the
comparator's result, with `NaN` read as `+0`. -/
def sortCompare {α : Type} (comparefn : α → α → JSNumber) (x y : α) : Int :=
  match comparefn x y with
  | JSNumber.nan => 0
  | JSNumber.int z => z

/-- One step of the insertion sort: `x` goes in front of the first element it
does not sort after. -/
def sortInsert {α : Type} (comparefn : α → α → JSNumber) (x : α) : List α → List α
  | [] => [x]
  | y :: ys =>
    if sortCompare comparefn x y ≤ 0 then x :: y :: ys
    else y :: sortInsert comparefn x ys

/-- The method `Array.prototype.sort` with a comparator, as a stable insertion
sort.  The language requires the sort to be stable, which fixes the result for
every comparator that is a consistent ordering; for other comparators the
order is left to the engine and this is one admissible choice.  The sort of V8
is `timSort` below. -/
def arraySort {α : Type} (comparefn : α → α → JSNumber) : List α → List α
  | [] => []
  | x :: xs => sortInsert comparefn x (arraySort comparefn xs)

/-! ## The sort of the V8 engine

`Array.prototype.sort` of V8 (Chrome, Edge, Node.js; `third_party/v8/builtins/array-sort.tq`
since version 7.0) is TimSort.  The receiver's elements are copied into a work
array, sorted there and copied back; a run is a segment of the work array, kept
here as the list of its elements, and the stack of pending runs as the list of
these segments from the bottom of the stack to its top.  Loops carry a fuel
argument that bounds their iterations. -/

/-- The test `order < 0` on the value of `sortState.Compare(x, y)`. -/
def orderLt {α : Type} (comparefn : α → α → JSNumber) (x y : α) : Bool :=
  decide (sortCompare comparefn x y < 0)

/-- The test made on the element at index `i` of a segment; an index outside the
segment is never probed. -/
def probe {α : Type} (array : List α) (test : α → Bool) (i : Nat) : Bool :=
  match array[i]? with
  | some e => test e
  | none => false

/-- The first loop of `GallopLeft` and `GallopRight`: `offset` becomes
`(offset << 1) + 1` while it is below `maxOfs` and the probe at that offset does
not stop the loop.  Returns `lastOfs` and `offset` as the loop leaves them.  The
offsets are natural numbers, so the guard `if (offset <= 0) offset = maxOfs`
against an overflow of the small integer never fires and is left out. -/
def gallopLoop (stop : Nat → Bool) (maxOfs : Nat) : Nat → Nat → Nat → Nat × Nat
  | 0, lastOfs, offset => (lastOfs, offset)
  | fuel + 1, lastOfs, offset =>
    if offset < maxOfs then
      if stop offset then (lastOfs, offset)
      else gallopLoop stop maxOfs fuel offset (2 * offset + 1)
    else (lastOfs, offset)

/-- The binary search that ends `GallopLeft` and `GallopRight` and that
`BinaryInsertionSort` makes: `belongsLeft m` tells that the key goes to the left
of index `m` (then `offset = m`), otherwise `lastOfs = m + 1`. -/
def binarySearch (belongsLeft : Nat → Bool) : Nat → Nat → Nat → Nat
  | 0, _, offset => offset
  | fuel + 1, lastOfs, offset =>
    if lastOfs < offset then
      let m := lastOfs + (offset - lastOfs) / 2
      if belongsLeft m then binarySearch belongsLeft fuel lastOfs m
      else binarySearch belongsLeft fuel (m + 1) offset
    else offset

/-- The common shape of `GallopLeft` and `GallopRight` on a segment of `length`
elements, started at `hint`.  When the key goes to the left of `hint` the offsets
run to the left (`maxOfs = hint + 1`, then `lastOfs = hint - offset` and
`offset = hint - lastOfs`), otherwise to the right (`maxOfs = length - hint`,
then both are moved by `hint`); `offset` is cut down to `maxOfs`, `lastOfs` is
incremented, and the binary search follows. -/
def gallop (belongsLeft : Nat → Bool) (length hint : Nat) : Nat :=
  if belongsLeft hint then
    let maxOfs := hint + 1
    let r := gallopLoop (fun ofs => !belongsLeft (hint - ofs)) maxOfs maxOfs 0 1
    let offset := min r.2 maxOfs
    binarySearch belongsLeft length (hint + 1 - offset) (hint - r.1)
  else
    let maxOfs := length - hint
    let r := gallopLoop (fun ofs => belongsLeft (hint + ofs)) maxOfs maxOfs 0 1
    let offset := min r.2 maxOfs
    binarySearch belongsLeft length (r.1 + hint + 1) (offset + hint)

/-- The builtin `GallopLeft(array, key, base, length, hint)` on the segment
`array`: every comparison is `Compare(array[i], key)`, and the key goes to the
left of `i` unless `order < 0`. -/
def gallopLeft {α : Type} (comparefn : α → α → JSNumber) (array : List α) (key : α)
    (hint : Nat) : Nat :=
  gallop (probe array (fun e => !orderLt comparefn e key)) array.length hint

/-- The builtin `GallopRight(array, key, base, length, hint)` on the segment
`array`: every comparison is `Compare(key, array[i])`, and the key goes to the
left of `i` when `order < 0`. -/
def gallopRight {α : Type} (comparefn : α → α → JSNumber) (array : List α) (key : α)
    (hint : Nat) : Nat :=
  gallop (probe array (fun e => orderLt comparefn key e)) array.length hint

/-- The loop of `CountAndMakeRun`: the number of elements after the first two
that continue the run. -/
def countRun {α : Type} (comparefn : α → α → JSNumber) (isDescending : Bool) :
    α → List α → Nat
  | _, [] => 0
  | previousElement, currentElement :: rest =>
    if isDescending then
      if orderLt comparefn currentElement previousElement then
        countRun comparefn isDescending currentElement rest + 1
      else 0
    else
      if orderLt comparefn currentElement previousElement then 0
      else countRun comparefn isDescending currentElement rest + 1

/-- The macro `CountAndMakeRun(low, high)` on the segment from `low` to `high`:
the length of the run that starts the segment, and the segment after a
descending run has been reversed. -/
def countAndMakeRun {α : Type} (comparefn : α → α → JSNumber) (work : List α) :
    Nat × List α :=
  match work with
  | [] => (0, [])
  | [e] => (1, [e])
  | elementHigh :: elementLow :: rest =>
    let isDescending := orderLt comparefn elementLow elementHigh
    let runLength := countRun comparefn isDescending elementLow rest + 2
    if isDescending then (runLength, (work.take runLength).reverse ++ work.drop runLength)
    else (runLength, work)

/-- The macro `BinaryInsertionSort(low, start, high)`: `sorted` is the segment
from `low` to `start`, `rest` the one from `start` to `high`.  Each pivot is put
where the binary search with `Compare(pivot, array[mid])` ends; with an empty
`sorted` the first pivot stays in place without a comparison, which is the
adjustment `start = low == startArg ? startArg + 1 : startArg`. -/
def binaryInsertionSort {α : Type} (comparefn : α → α → JSNumber) :
    List α → List α → List α
  | sorted, [] => sorted
  | sorted, pivot :: rest =>
    let left := binarySearch (probe sorted (fun e => orderLt comparefn pivot e))
      sorted.length 0 sorted.length
    binaryInsertionSort comparefn (sorted.take left ++ pivot :: sorted.drop left) rest

/-- The constant `kMinGallopWins`. -/
def kMinGallopWins : Nat := 7

/-- The two loops of `MergeLow`, one iteration at a time: `a` is what is left of
run A in the temporary array, `b` what is left of run B in the work array, and
the result starts with the elements written at `dest`.  With
`galloping = false` the step is one iteration of the loop that compares the two
front elements; with `galloping = true` it is one iteration of the galloping
loop.  The second component is `sortState.minGallop`. -/
def mergeLowLoop {α : Type} (comparefn : α → α → JSNumber) :
    Nat → Bool → Nat → Nat → Nat → List α → List α → List α × Nat
  | 0, _, minGallop, _, _, a, b => (a ++ b, minGallop)
  | fuel + 1, false, minGallop, nofWinsA, nofWinsB, a, b =>
    match a, b with
    | ea :: a1, eb :: b1 =>
      if orderLt comparefn eb ea then
        if b1.length = 0 then (eb :: a, minGallop)
        else if minGallop ≤ nofWinsB + 1 then
          let r := mergeLowLoop comparefn fuel true (minGallop + 1) 0 (nofWinsB + 1) a b1
          (eb :: r.1, r.2)
        else
          let r := mergeLowLoop comparefn fuel false minGallop 0 (nofWinsB + 1) a b1
          (eb :: r.1, r.2)
      else
        if a1.length = 1 then (ea :: (b ++ a1), minGallop)
        else if minGallop ≤ nofWinsA + 1 then
          let r := mergeLowLoop comparefn fuel true (minGallop + 1) (nofWinsA + 1) 0 a1 b
          (ea :: r.1, r.2)
        else
          let r := mergeLowLoop comparefn fuel false minGallop (nofWinsA + 1) 0 a1 b
          (ea :: r.1, r.2)
    | _, _ => (a ++ b, minGallop)
  | fuel + 1, true, minGallopArg, _, _, a, b =>
    match b with
    | [] => (a, minGallopArg)
    | eb :: b1 =>
      let minGallop := max 1 (minGallopArg - 1)
      let nofWinsA := gallopRight comparefn a eb 0
      let a1 := a.drop nofWinsA
      if 0 < nofWinsA ∧ a1.length = 1 then (a.take nofWinsA ++ (b ++ a1), minGallop)
      else if 0 < nofWinsA ∧ a1.length = 0 then (a.take nofWinsA ++ b, minGallop)
      else if b1.length = 0 then (a.take nofWinsA ++ eb :: a1, minGallop)
      else
        match a1 with
        | [] => (a.take nofWinsA ++ b, minGallop)
        | ea :: a2 =>
          let nofWinsB := gallopLeft comparefn b1 ea 0
          let b2 := b1.drop nofWinsB
          if 0 < nofWinsB ∧ b2.length = 0 then
            (a.take nofWinsA ++ eb :: (b1.take nofWinsB ++ a1), minGallop)
          else if a2.length = 1 then
            (a.take nofWinsA ++ eb :: (b1.take nofWinsB ++ ea :: (b2 ++ a2)), minGallop)
          else
            let r :=
              if kMinGallopWins ≤ nofWinsA ∨ kMinGallopWins ≤ nofWinsB then
                mergeLowLoop comparefn fuel true minGallop nofWinsA nofWinsB a2 b2
              else mergeLowLoop comparefn fuel false (minGallop + 1) 0 0 a2 b2
            (a.take nofWinsA ++ eb :: (b1.take nofWinsB ++ ea :: r.1), r.2)

/-- The macro `MergeLow(baseA, lengthA, baseB, lengthB)`: the merged segment
and `sortState.minGallop`.  The first element of run B is written first; the
label `Succeed` appends what is left of run A, the label `CopyB` what is left of
run B and then the last element of run A. -/
def mergeLow {α : Type} (comparefn : α → α → JSNumber) (minGallop : Nat)
    (a b : List α) : List α × Nat :=
  match b with
  | [] => (a, minGallop)
  | eb :: b1 =>
    if b1.length = 0 then (eb :: a, minGallop)
    else if a.length = 1 then (eb :: (b1 ++ a), minGallop)
    else
      let r := mergeLowLoop comparefn (a.length + b1.length) false minGallop 0 0 a b1
      (eb :: r.1, r.2)

/-- The two loops of `MergeHigh`, one iteration at a time: `a` is what is left
of run A in the work array, `b` what is left of run B in the temporary array,
both are used up from their ends, and the result ends with the elements written
at `dest`. -/
def mergeHighLoop {α : Type} (comparefn : α → α → JSNumber) :
    Nat → Bool → Nat → Nat → Nat → List α → List α → List α × Nat
  | 0, _, minGallop, _, _, a, b => (a ++ b, minGallop)
  | fuel + 1, false, minGallop, nofWinsA, nofWinsB, a, b =>
    match a.getLast?, b.getLast? with
    | some ea, some eb =>
      if orderLt comparefn eb ea then
        let a1 := a.dropLast
        if a1.length = 0 then (b ++ [ea], minGallop)
        else if minGallop ≤ nofWinsA + 1 then
          let r := mergeHighLoop comparefn fuel true (minGallop + 1) (nofWinsA + 1) 0 a1 b
          (r.1 ++ [ea], r.2)
        else
          let r := mergeHighLoop comparefn fuel false minGallop (nofWinsA + 1) 0 a1 b
          (r.1 ++ [ea], r.2)
      else
        let b1 := b.dropLast
        if b1.length = 1 then (b1 ++ (a ++ [eb]), minGallop)
        else if minGallop ≤ nofWinsB + 1 then
          let r := mergeHighLoop comparefn fuel true (minGallop + 1) 0 (nofWinsB + 1) a b1
          (r.1 ++ [eb], r.2)
        else
          let r := mergeHighLoop comparefn fuel false minGallop 0 (nofWinsB + 1) a b1
          (r.1 ++ [eb], r.2)
    | _, _ => (a ++ b, minGallop)
  | fuel + 1, true, minGallopArg, _, _, a, b =>
    match b.getLast? with
    | none => (a, minGallopArg)
    | some eb =>
      let minGallop := max 1 (minGallopArg - 1)
      let k := gallopRight comparefn a eb (a.length - 1)
      let nofWinsA := a.length - k
      let a1 := a.take k
      let b1 := b.dropLast
      if 0 < nofWinsA ∧ a1.length = 0 then (b ++ a.drop k, minGallop)
      else if b1.length = 1 then (b1 ++ (a1 ++ eb :: a.drop k), minGallop)
      else
        match a1.getLast? with
        | none => (b ++ a.drop k, minGallop)
        | some ea =>
          let j := gallopLeft comparefn b1 ea (b1.length - 1)
          let nofWinsB := b1.length - j
          let b2 := b1.take j
          let a2 := a1.dropLast
          if 0 < nofWinsB ∧ b2.length = 1 then
            (b2 ++ (a1 ++ (b1.drop j ++ eb :: a.drop k)), minGallop)
          else if 0 < nofWinsB ∧ b2.length = 0 then
            (a1 ++ (b1.drop j ++ eb :: a.drop k), minGallop)
          else if a2.length = 0 then
            (b2 ++ ea :: (b1.drop j ++ eb :: a.drop k), minGallop)
          else
            let r :=
              if kMinGallopWins ≤ nofWinsA ∨ kMinGallopWins ≤ nofWinsB then
                mergeHighLoop comparefn fuel true minGallop nofWinsA nofWinsB a2 b2
              else mergeHighLoop comparefn fuel false (minGallop + 1) 0 0 a2 b2
            (r.1 ++ ea :: (b1.drop j ++ eb :: a.drop k), r.2)

/-- The macro `MergeHigh(baseA, lengthA, baseB, lengthB)`: the merged segment
and `sortState.minGallop`.  The last element of run A is written first; the
label `Succeed` puts what is left of run B in front, the label `CopyA` the first
element of run B and then what is left of run A. -/
def mergeHigh {α : Type} (comparefn : α → α → JSNumber) (minGallop : Nat)
    (a b : List α) : List α × Nat :=
  match a.getLast? with
  | none => (b, minGallop)
  | some ea =>
    let a1 := a.dropLast
    if a1.length = 0 then (b ++ [ea], minGallop)
    else if b.length = 1 then (b ++ (a1 ++ [ea]), minGallop)
    else
      let r := mergeHighLoop comparefn (a1.length + b.length) false minGallop 0 0 a1 b
      (r.1 ++ [ea], r.2)

/-- The state of a sort: the stack of pending runs, from its bottom to its top,
and `minGallop`. -/
structure SortState (α : Type) where
  pendingRuns : List (List α)
  minGallop : Nat

/-- The part of `MergeAt` that works on the two runs: the front of run A that
stays below the first element of run B and the end of run B that stays above
the last element of run A are left in place, and what remains is merged by
`MergeLow` or `MergeHigh`. -/
def mergeRuns {α : Type} (comparefn : α → α → JSNumber) (minGallop : Nat)
    (a b : List α) : List α × Nat :=
  match b with
  | [] => (a, minGallop)
  | keyRight :: _ =>
    let k := gallopRight comparefn a keyRight 0
    let a1 := a.drop k
    match a1.getLast? with
    | none => (a ++ b, minGallop)
    | some keyLeft =>
      let lengthB := gallopLeft comparefn b keyLeft (b.length - 1)
      let b1 := b.take lengthB
      if lengthB = 0 then (a ++ b, minGallop)
      else
        let r :=
          if a1.length ≤ lengthB then mergeLow comparefn minGallop a1 b1
          else mergeHigh comparefn minGallop a1 b1
        (a.take k ++ (r.1 ++ b.drop lengthB), r.2)

/-- The length of the pending run at index `i`. -/
def runLength {α : Type} (pendingRuns : List (List α)) (i : Nat) : Nat :=
  match pendingRuns[i]? with
  | some run => run.length
  | none => 0

/-- The builtin `MergeAt(i)`: the runs at `i` and `i + 1` become one run, and a
run at `i + 2` slides down. -/
def mergeAt {α : Type} (comparefn : α → α → JSNumber) (sortState : SortState α)
    (i : Nat) : SortState α :=
  match sortState.pendingRuns[i]?, sortState.pendingRuns[i + 1]? with
  | some a, some b =>
    let r := mergeRuns comparefn sortState.minGallop a b
    { pendingRuns := sortState.pendingRuns.take i ++ r.1 :: sortState.pendingRuns.drop (i + 2)
      minGallop := r.2 }
  | _, _ => sortState

/-- The macro `RunInvariantEstablished(pendingRuns, n)`. -/
def runInvariantEstablished {α : Type} (pendingRuns : List (List α)) (n : Nat) : Bool :=
  if n < 2 then true
  else decide (runLength pendingRuns (n - 1) + runLength pendingRuns n
    < runLength pendingRuns (n - 2))

/-- The macro `MergeCollapse`. -/
def mergeCollapse {α : Type} (comparefn : α → α → JSNumber) :
    Nat → SortState α → SortState α
  | 0, sortState => sortState
  | fuel + 1, sortState =>
    if 1 < sortState.pendingRuns.length then
      let n := sortState.pendingRuns.length - 2
      if !runInvariantEstablished sortState.pendingRuns (n + 1) ||
          !runInvariantEstablished sortState.pendingRuns n then
        if runLength sortState.pendingRuns (n - 1) < runLength sortState.pendingRuns (n + 1) then
          mergeCollapse comparefn fuel (mergeAt comparefn sortState (n - 1))
        else mergeCollapse comparefn fuel (mergeAt comparefn sortState n)
      else if runLength sortState.pendingRuns n ≤ runLength sortState.pendingRuns (n + 1) then
        mergeCollapse comparefn fuel (mergeAt comparefn sortState n)
      else sortState
    else sortState

/-- The macro `MergeForceCollapse`. -/
def mergeForceCollapse {α : Type} (comparefn : α → α → JSNumber) :
    Nat → SortState α → SortState α
  | 0, sortState => sortState
  | fuel + 1, sortState =>
    if 1 < sortState.pendingRuns.length then
      let n := sortState.pendingRuns.length - 2
      if 0 < n ∧ runLength sortState.pendingRuns (n - 1) < runLength sortState.pendingRuns (n + 1) then
        mergeForceCollapse comparefn fuel (mergeAt comparefn sortState (n - 1))
      else mergeForceCollapse comparefn fuel (mergeAt comparefn sortState n)
    else sortState

/-- The macro `ComputeMinRunLength`: `r` becomes 1 when a 1 bit is shifted off. -/
def computeMinRunLength : Nat → Nat → Nat → Nat
  | 0, n, r => n + r
  | fuel + 1, n, r =>
    if 64 ≤ n then computeMinRunLength fuel (n / 2) (if n % 2 = 1 then 1 else r)
    else n + r

/-- The loop of `ArrayTimSortImpl`: `remaining` is the work array from `low` on. -/
def timSortLoop {α : Type} (comparefn : α → α → JSNumber) (minRunLength : Nat) :
    Nat → List α → SortState α → SortState α
  | 0, _, sortState => sortState
  | fuel + 1, remaining, sortState =>
    if remaining.length = 0 then sortState
    else
      let r := countAndMakeRun comparefn remaining
      let currentRunLength :=
        if r.1 < minRunLength then min minRunLength remaining.length else r.1
      let run :=
        if r.1 < minRunLength then
          binaryInsertionSort comparefn (r.2.take r.1) ((r.2.take currentRunLength).drop r.1)
        else r.2.take r.1
      let pushed : SortState α :=
        { sortState with pendingRuns := sortState.pendingRuns ++ [run] }
      timSortLoop comparefn minRunLength fuel (r.2.drop currentRunLength)
        (mergeCollapse comparefn pushed.pendingRuns.length pushed)

/-- The macro `ArrayTimSortImpl` on the work array: the work array when the sort
is over. -/
def timSort {α : Type} (comparefn : α → α → JSNumber) (array : List α) : List α :=
  if array.length < 2 then array
  else
    let sortState := timSortLoop comparefn (computeMinRunLength array.length array.length 0)
      array.length array { pendingRuns := [], minGallop := kMinGallopWins }
    (mergeForceCollapse comparefn sortState.pendingRuns.length sortState).pendingRuns.flatten

/-- Two neighbours that the comparisons of a sort can leave in this order: by
`Compare(x, y)` the element `x` does not sort after `y`, or by `Compare(y, x)`
the element `y` does not sort before `x`. -/
def LocallyOrdered {α : Type} (comparefn : α → α → JSNumber) (x y : α) : Prop :=
  sortCompare comparefn x y ≤ 0 ∨ 0 ≤ sortCompare comparefn y x

instance LocallyOrdered.decidable {α : Type} (comparefn : α → α → JSNumber) (x y : α) :
    Decidable (LocallyOrdered comparefn x y) :=
  inferInstanceAs (Decidable (sortCompare comparefn x y ≤ 0 ∨ 0 ≤ sortCompare comparefn y x))

/-- The key fits at index `k` of the segment: after the element before it and
before the element at it. -/
def Fits {α : Type} (comparefn : α → α → JSNumber) (key : α) (l : List α) (k : Nat) : Prop :=
  (∀ x ∈ (l.take k).getLast?, LocallyOrdered comparefn x key) ∧
  (∀ y ∈ (l.drop k).head?, LocallyOrdered comparefn key y)

namespace TodoApp

/-- The method `applySorting`. -/
def applySorting (h : Host) (currentSort : String) (tasks : List Task) : List Task :=
  arraySort (compareTasks h currentSort) tasks

/-- The method `getFilteredTasks`: the filtered and sorted copy, and the state. -/
def getFilteredTasks (h : Host) (now : Int) (app : TodoApp) : List Task × TodoApp :=
  let r := filterTasks h now app
  (applySorting h app.currentSort r.1, r.2)

/-- The method `applySorting` on an engine whose `Array.prototype.sort` is
TimSort. -/
def applySortingTimSort (h : Host) (currentSort : String) (tasks : List Task) : List Task :=
  timSort (compareTasks h currentSort) tasks

/-- The method `getFilteredTasks` on an engine whose `Array.prototype.sort` is
TimSort: the filtered and sorted copy, and the state. -/
def getFilteredTasksTimSort (h : Host) (now : Int) (app : TodoApp) : List Task × TodoApp :=
  let r := filterTasks h now app
  (applySortingTimSort h app.currentSort r.1, r.2)

/-- The method `render`, for its effect on the state: every task of the filtered
list is passed to `isOverdue`. -/
def render (h : Host) (now : Int) (app : TodoApp) : TodoApp :=
  if h.todoListPresent then
    let r := getFilteredTasks h now app
    r.1.foldl (fun a t => (isOverdue h now a t).2) r.2
  else app

/-- The method `updateStats`: one pass over the tasks, and the state. -/
def updateStats (h : Host) (now : Int) (app : TodoApp) : Stats × TodoApp :=
  app.tasks.foldl
    (fun (acc : Stats × TodoApp) task =>
      let r := isOverdue h now acc.2 task
      ({ total := acc.1.total + 1
         completed := if task.completed then acc.1.completed + 1 else acc.1.completed
         pending := if task.status = "pending" then acc.1.pending + 1 else acc.1.pending
         overdue := if r.1 then acc.1.overdue + 1 else acc.1.overdue }, r.2))
    ({ total := 0, completed := 0, pending := 0, overdue := 0 }, app)

/-- The calls `this.render(); this.updateStats();` that end a task-level operation. -/
def renderAndStats (h : Host) (now : Int) (app : TodoApp) : TodoApp :=
  (updateStats h now (render h now app)).2

/-- The method `setFilter`. -/
def setFilter (h : Host) (now : Int) (filter : String) (app : TodoApp) : TodoApp :=
  render h now { app with currentFilter := filter }

/-- The method `setSort`. -/
def setSort (h : Host) (now : Int) (sort : String) (app : TodoApp) : TodoApp :=
  render h now { app with currentSort := sort }

/-- The effect of the assignments made to the task object that
`this.tasks.find(t => t.id === id)` returned: the first task with that id is
replaced by its new value. -/
def putTask (id : String) (task : Task) (app : TodoApp) : TodoApp :=
  { app with tasks := modifyFirst (fun t => t.id == id) (fun _ => task) app.tasks }

/-! ## Task operations -/

/-- The method `addTask`, reading the add form. -/
def addTask (h : Host) (now : Int) (rnd : String) (form : TaskForm) (app : TodoApp) : TodoApp :=
  match form.taskInput, form.startDateInput, form.dueDateInput with
  | some taskInput, some startDate, some dueDate =>
    let taskText := trim taskInput
    if taskText = "" || startDate = "" || dueDate = "" then app
    else if !isValidDate h startDate || !isValidDate h dueDate || dateAfter h startDate dueDate then app
    else if app.tasks.any (fun t => h.toLowerCase t.text == h.toLowerCase taskText) then app
    else
      let r := generateId now rnd app
      let task : Task :=
        { id := r.1
          text := taskText
          startDate := some startDate
          dueDate := some dueDate
          notes := match form.noteInput with
            | some v => trim v
            | none => ""
          status := "pending"
          completed := false
          pinned := false
          subtasks := []
          showSubtaskForm := false
          createdAt := TimeVal.iso now
          completedAt := TimeVal.absent }
      renderAndStats h now { r.2 with tasks := task :: r.2.tasks }
  | _, _, _ => app

/-- The method `closeModal`. -/
def closeModal (app : TodoApp) : TodoApp :=
  { app with editingTaskId := none }

/-- The text block of `updateTask`: `none` when the method returns there, else the
task after `task.text = newText`. -/
def updateTaskText (h : Host) (app : TodoApp) (id : String) (form : EditForm) (task : Task) :
    Option Task :=
  match form.editTaskInput with
  | none => some task
  | some v =>
    let newText := trim v
    if newText = "" then none
    else if app.tasks.any
        (fun t => t.id != id && h.toLowerCase t.text == h.toLowerCase newText) then none
    else some { task with text := newText }

/-- The date block of `updateTask`: `none` when the method returns there, else the
task after the two date assignments. -/
def updateTaskDates (h : Host) (form : EditForm) (task : Task) : Option Task :=
  match form.editStartDateInput, form.editDueDateInput with
  | some startDate, some dueDate =>
    if !isValidDate h startDate || !isValidDate h dueDate || dateAfter h startDate dueDate then none
    else some { task with startDate := some startDate, dueDate := some dueDate }
  | _, _ => some task

/-- The notes block of `updateTask`. -/
def updateTaskNotes (form : EditForm) (task : Task) : Task :=
  match form.editNoteInput with
  | some v => { task with notes := trim v }
  | none => task

/-- The status block of `updateTask`. -/
def updateTaskStatus (now : Int) (form : EditForm) (task : Task) : Task :=
  match form.editStatusInput with
  | some v =>
    let wasCompleted := task.completed
    let completed := v == "completed"
    { task with
      status := v
      completed := completed
      completedAt :=
        if completed && !wasCompleted then TimeVal.iso now
        else if !completed && wasCompleted then TimeVal.absent
        else task.completedAt }
  | none => task

/-- The method `updateTask`, reading the edit dialog.  The blocks run in the order
of the source, each writing to the task object as it goes; a `return` keeps
what earlier blocks have written. -/
def updateTask (h : Host) (now : Int) (form : EditForm) (app : TodoApp) : TodoApp :=
  match app.editingTaskId with
  | none => app
  | some id =>
    match app.tasks.find? (fun t => t.id == id) with
    | none => app
    | some task =>
      match updateTaskText h app id form task with
      | none => app
      | some task1 =>
        match updateTaskDates h form task1 with
        | none => putTask id task1 app
        | some task2 =>
          let task4 := updateTaskStatus now form (updateTaskNotes form task2)
          closeModal (renderAndStats h now (putTask id task4 app))

/-- The assignments `toggleTask` makes to the task it found: `completed` is
negated, `status` follows it, and `completedAt` is set to the current time or
deleted. -/
def toggleCompletion (now : Int) (task : Task) : Task :=
  let completed := !task.completed
  { task with
    completed := completed
    status := if completed then "completed" else "pending"
    completedAt := if completed then TimeVal.iso now else TimeVal.absent }

/-- The method `toggleTask`. -/
def toggleTask (h : Host) (now : Int) (id : String) (app : TodoApp) : TodoApp :=
  match app.tasks.find? (fun t => t.id == id) with
  | none => app
  | some task => renderAndStats h now (putTask id (toggleCompletion now task) app)

/-- The method `togglePin`. -/
def togglePin (h : Host) (now : Int) (id : String) (app : TodoApp) : TodoApp :=
  match app.tasks.find? (fun t => t.id == id) with
  | none => app
  | some task => renderAndStats h now (putTask id { task with pinned := !task.pinned } app)

/-- The method `deleteTask`; `confirmed` is the answer of the confirmation dialog. -/
def deleteTask (h : Host) (now : Int) (confirmed : Bool) (id : String) (app : TodoApp) :
    TodoApp :=
  if confirmed then
    renderAndStats h now { app with tasks := app.tasks.filter (fun t => t.id != id) }
  else app

/-! ## Subtask operations -/

/-- The effect of the assignments made to the subtask object that
`task.subtasks.find(s => s.id === subtaskId)` returned: the first subtask with
that id is replaced by its new value. -/
def putSubtask (subtaskId : String) (subtask : Subtask) (task : Task) : Task :=
  { task with
    subtasks := modifyFirst (fun s => s.id == subtaskId) (fun _ => subtask) task.subtasks }

/-- The effect of the assignments made to the sub-subtask object that
`subtask.subsubtasks.find(ss => ss.id === subsubtaskId)` returned. -/
def putSubSubtask (subsubtaskId : String) (subsubtask : SubSubtask) (subtask : Subtask) :
    Subtask :=
  { subtask with
    subsubtasks :=
      modifyFirst (fun ss => ss.id == subsubtaskId) (fun _ => subsubtask) subtask.subsubtasks }

/-- The method `addSubtask`. -/
def addSubtask (h : Host) (now : Int) (rnd : String) (taskId subtaskText subtaskNotes : String)
    (app : TodoApp) : TodoApp :=
  match app.tasks.find? (fun t => t.id == taskId) with
  | none => app
  | some task =>
    let trimmedText := trim subtaskText
    if trimmedText = "" then app
    else if task.subtasks.any
        (fun s => h.toLowerCase s.text == h.toLowerCase trimmedText) then app
    else
      let r := generateId now rnd app
      let subtask : Subtask :=
        { id := r.1
          text := trimmedText
          completed := false
          pinned := false
          notes := subtaskNotes
          subsubtasks := []
          showSubSubtaskForm := false }
      render h now (putTask taskId { task with subtasks := task.subtasks ++ [subtask] } r.2)

/-- The method `toggleSubtask`. -/
def toggleSubtask (h : Host) (now : Int) (taskId subtaskId : String) (app : TodoApp) : TodoApp :=
  match app.tasks.find? (fun t => t.id == taskId) with
  | none => app
  | some task =>
    match task.subtasks.find? (fun s => s.id == subtaskId) with
    | none => app
    | some subtask =>
      let subtask1 : Subtask := { subtask with completed := !subtask.completed }
      render h now (putTask taskId (putSubtask subtaskId subtask1 task) app)

/-- The method `editSubtask`. -/
def editSubtask (h : Host) (now : Int) (taskId subtaskId newText : String) (app : TodoApp) :
    TodoApp :=
  match app.tasks.find? (fun t => t.id == taskId) with
  | none => app
  | some task =>
    if trim newText = "" then app
    else
      match task.subtasks.find? (fun s => s.id == subtaskId) with
      | none => app
      | some subtask =>
        let trimmedText := trim newText
        if task.subtasks.any (fun s =>
            s.id != subtaskId && h.toLowerCase s.text == h.toLowerCase trimmedText) then app
        else
          let subtask1 : Subtask := { subtask with text := trimmedText }
          render h now (putTask taskId (putSubtask subtaskId subtask1 task) app)

/-- The assignments `toggleSubtaskPin` makes to the task and the subtask it found:
the subtask's `pinned` is negated, and when it is now true the task is pinned. -/
def pinSubtaskToggled (subtaskId : String) (subtask : Subtask) (task : Task) : Task :=
  let subtask1 : Subtask := { subtask with pinned := !subtask.pinned }
  let task1 := putSubtask subtaskId subtask1 task
  if subtask1.pinned then { task1 with pinned := true } else task1

/-- The method `toggleSubtaskPin`. -/
def toggleSubtaskPin (h : Host) (now : Int) (taskId subtaskId : String) (app : TodoApp) :
    TodoApp :=
  match app.tasks.find? (fun t => t.id == taskId) with
  | none => app
  | some task =>
    match task.subtasks.find? (fun s => s.id == subtaskId) with
    | none => app
    | some subtask => render h now (putTask taskId (pinSubtaskToggled subtaskId subtask task) app)

/-- The method `deleteSubtask`. -/
def deleteSubtask (h : Host) (now : Int) (taskId subtaskId : String) (app : TodoApp) : TodoApp :=
  match app.tasks.find? (fun t => t.id == taskId) with
  | none => app
  | some task =>
    render h now (putTask taskId
      { task with subtasks := task.subtasks.filter (fun s => s.id != subtaskId) } app)

/-! ## Sub-subtask operations -/

/-- The method `addSubSubtask`. -/
def addSubSubtask (h : Host) (now : Int) (rnd : String)
    (taskId subtaskId subsubtaskText subsubtaskNotes : String) (app : TodoApp) : TodoApp :=
  match app.tasks.find? (fun t => t.id == taskId) with
  | none => app
  | some task =>
    if trim subsubtaskText = "" then app
    else
      match task.subtasks.find? (fun s => s.id == subtaskId) with
      | none => app
      | some subtask =>
        let trimmedText := trim subsubtaskText
        if subtask.subsubtasks.any
            (fun ss => h.toLowerCase ss.text == h.toLowerCase trimmedText) then app
        else
          let r := generateId now rnd app
          let subsubtask : SubSubtask :=
            { id := r.1
              text := trimmedText
              completed := false
              pinned := false
              notes := subsubtaskNotes }
          let subtask1 : Subtask :=
            { subtask with subsubtasks := subtask.subsubtasks ++ [subsubtask] }
          render h now (putTask taskId (putSubtask subtaskId subtask1 task) r.2)

/-- The method `toggleSubSubtask`. -/
def toggleSubSubtask (h : Host) (now : Int) (taskId subtaskId subsubtaskId : String)
    (app : TodoApp) : TodoApp :=
  match app.tasks.find? (fun t => t.id == taskId) with
  | none => app
  | some task =>
    match task.subtasks.find? (fun s => s.id == subtaskId) with
    | none => app
    | some subtask =>
      match subtask.subsubtasks.find? (fun ss => ss.id == subsubtaskId) with
      | none => app
      | some subsubtask =>
        let subsubtask1 : SubSubtask := { subsubtask with completed := !subsubtask.completed }
        let subtask1 := putSubSubtask subsubtaskId subsubtask1 subtask
        render h now (putTask taskId (putSubtask subtaskId subtask1 task) app)

/-- The assignments `toggleSubSubtaskPin` makes to the subtask and the sub-subtask
it found: the sub-subtask's `pinned` is negated, and when it is now true the
subtask is pinned. -/
def pinSubSubtaskToggled (subsubtaskId : String) (subsubtask : SubSubtask)
    (subtask : Subtask) : Subtask :=
  let subsubtask1 : SubSubtask := { subsubtask with pinned := !subsubtask.pinned }
  let subtask1 := putSubSubtask subsubtaskId subsubtask1 subtask
  if subsubtask1.pinned then { subtask1 with pinned := true } else subtask1

/-- The method `toggleSubSubtaskPin`. -/
def toggleSubSubtaskPin (h : Host) (now : Int) (taskId subtaskId subsubtaskId : String)
    (app : TodoApp) : TodoApp :=
  match app.tasks.find? (fun t => t.id == taskId) with
  | none => app
  | some task =>
    match task.subtasks.find? (fun s => s.id == subtaskId) with
    | none => app
    | some subtask =>
      match subtask.subsubtasks.find? (fun ss => ss.id == subsubtaskId) with
      | none => app
      | some subsubtask =>
        let task1 :=
          putSubtask subtaskId (pinSubSubtaskToggled subsubtaskId subsubtask subtask) task
        let task2 : Task :=
          if !subsubtask.pinned then { task1 with pinned := true } else task1
        render h now (putTask taskId task2 app)

/-- The method `deleteSubSubtask`. -/
def deleteSubSubtask (h : Host) (now : Int) (taskId subtaskId subsubtaskId : String)
    (app : TodoApp) : TodoApp :=
  match app.tasks.find? (fun t => t.id == taskId) with
  | none => app
  | some task =>
    match task.subtasks.find? (fun s => s.id == subtaskId) with
    | none => app
    | some subtask =>
      let subtask1 : Subtask :=
        { subtask with
          subsubtasks := subtask.subsubtasks.filter (fun ss => ss.id != subsubtaskId) }
      render h now (putTask taskId (putSubtask subtaskId subtask1 task) app)

end TodoApp

/-! ## A sample host -/

/-- Lower-casing of the ASCII letters, every other character kept. -/
def asciiLower (s : String) : String :=
  String.mk (s.data.map Char.toLower)

/-- Lexicographic comparison of two character lists by code point: `-1`, `0` or `1`. -/
def compareChars : List Char → List Char → Int
  | [], [] => 0
  | [], _ :: _ => -1
  | _ :: _, [] => 1
  | a :: as, b :: bs =>
    if a.toNat < b.toNat then -1
    else if b.toNat < a.toNat then 1
    else compareChars as bs

/-- Comparison of two strings by code point: `-1`, `0` or `1`. -/
def codePointCompare (a b : String) : Int :=
  compareChars a.data b.data

/-- The value of a decimal digit. -/
def digitValue (c : Char) : Option Nat :=
  if c.isDigit then some (c.toNat - 48) else none

/-- The number a list of decimal digits denotes. -/
def digitsValue : List Char → Option Nat
  | [] => none
  | cs => cs.foldl (fun acc c => acc.bind fun n => (digitValue c).map fun d => 10 * n + d) (some 0)

/-- Days from 1970-01-01 to the given civil date (proleptic Gregorian calendar). -/
def daysFromCivil (y m d : Int) : Int :=
  let y1 := if m ≤ 2 then y - 1 else y
  let era := y1 / 400
  let yoe := y1 - era * 400
  let mp := (m + 9) % 12
  let doy := (153 * mp + 2) / 5 + d - 1
  let doe := yoe * 365 + yoe / 4 - yoe / 100 + doy
  era * 146097 + doe - 719468

/-- The number of days of a month. -/
def daysInMonth (y m : Nat) : Nat :=
  if m = 2 then (if y % 4 = 0 ∧ (y % 100 ≠ 0 ∨ y % 400 = 0) then 29 else 28)
  else if m = 4 ∨ m = 6 ∨ m = 9 ∨ m = 11 then 30 else 31

/-- Parses the date-only form `YYYY-MM-DD` as midnight UTC, in milliseconds.  A
day beyond the length of the month is rejected, as the date-time string format
of the language has it; an engine that is lenient there (V8 reads `2024-02-30`
as the first of March) differs from this host on such strings. -/
def parseIsoDate (s : String) : Option Int :=
  match s.data with
  | [y1, y2, y3, y4, '-', m1, m2, '-', d1, d2] =>
    match digitsValue [y1, y2, y3, y4], digitsValue [m1, m2], digitsValue [d1, d2] with
    | some y, some m, some d =>
      if 1 ≤ m ∧ m ≤ 12 ∧ 1 ≤ d ∧ d ≤ daysInMonth y m then
        some (daysFromCivil y m d * 86400000)
      else none
    | _, _, _ => none
  | _ => none

/-- A host for examples: ASCII lower-casing, code-point collation, date-only ISO
parsing, days that start at midnight UTC, and a document with the task list. -/
def sampleHost : Host :=
  { toLowerCase := asciiLower
    localeCompare := codePointCompare
    parseDate := parseIsoDate
    startOfDay := fun t => t - t % 86400000
    todoListPresent := true }

/-! ## Sample data -/

/-- An empty store, as the constructor leaves it when nothing is persisted. -/
def emptyApp : TodoApp :=
  { tasks := []
    idCounter := JSNumber.int 1704067200000
    cachedToday := none
    currentFilter := "all"
    currentSort := "alphabet-az"
    editingTaskId := none }

/-- A task with the field values `addTask` gives a new task. -/
def sampleTask (id text : String) : Task :=
  { id := id
    text := text
    startDate := some "2024-01-01"
    dueDate := some "2024-01-10"
    notes := ""
    status := "pending"
    completed := false
    pinned := false
    subtasks := []
    showSubtaskForm := false
    createdAt := TimeVal.iso 1704067200000
    completedAt := TimeVal.absent }

/-- A store that holds the given tasks. -/
def appWith (tasks : List Task) : TodoApp :=
  { emptyApp with tasks := tasks }

/-- A filled-in add form. -/
def sampleForm (text startDate dueDate : String) : TaskForm :=
  { taskInput := some text
    startDateInput := some startDate
    dueDateInput := some dueDate
    noteInput := some "" }

namespace TodoApp

/-- A store with one task, `Buy milk`. -/
def milkApp : TodoApp :=
  appWith [sampleTask "1704067200000-1704067200001-k3x9" "Buy milk"]

/-- A store in which the task `Write report` is open in the edit dialog. -/
def reportApp : TodoApp :=
  { appWith [sampleTask "1704067200000-1704067200001-k3x9" "Write report"] with
    editingTaskId := some "1704067200000-1704067200001-k3x9" }

/-- An edit with a new text, and a start date after the due date. -/
def reportEdit : EditForm :=
  { editTaskInput := some "Write summary"
    editStartDateInput := some "2024-02-10"
    editDueDateInput := some "2024-02-01"
    editNoteInput := some ""
    editStatusInput := some "pending" }

/-- A store with one task whose status is `in-progress`. -/
def inProgressApp : TodoApp :=
  appWith [{ sampleTask "1704067200000-1704067200001-k3x9" "Write report" with
    status := "in-progress" }]

end TodoApp

namespace TodoApp

/-- A sub-subtask of the sample tree. -/
def sampleSubSubtask (id text : String) (pinned : Bool) : SubSubtask :=
  { id := id, text := text, completed := false, pinned := pinned, notes := "" }

/-- A subtask of the sample tree. -/
def sampleSubtask (id text : String) (pinned : Bool) (subsubtasks : List SubSubtask) : Subtask :=
  { id := id
    text := text
    completed := false
    pinned := pinned
    notes := ""
    subsubtasks := subsubtasks
    showSubSubtaskForm := false }

/-- The task `Write report` with two subtasks; the first has two sub-subtasks, one
of them pinned. -/
def treeTask : Task :=
  { sampleTask "t1" "Write report" with
    subtasks :=
      [sampleSubtask "s1" "Draft" false
        [sampleSubSubtask "u1" "Outline" false, sampleSubSubtask "u2" "Sources" true],
       sampleSubtask "s2" "Review" false []] }

/-- A store with the sample tree and a second task. -/
def treeApp : TodoApp :=
  appWith [sampleTask "t0" "Buy milk", treeTask, sampleTask "t2" "Call bank"]

end TodoApp

/-- A collation is consistent when "does not sort after" is a total preorder:
any two strings are comparable, and the relation is transitive. -/
def Host.CollationConsistent (h : Host) : Prop :=
  (∀ a b, h.localeCompare a b ≤ 0 ∨ h.localeCompare b a ≤ 0) ∧
  (∀ a b c, h.localeCompare a b ≤ 0 → h.localeCompare b c ≤ 0 → h.localeCompare a c ≤ 0)

namespace TodoApp

/-- The store of the pinned-first example: `A` (unpinned, text `B`) before `C`
(pinned, text `Z`), under the given sort mode and no filter. -/
def pinnedFirstApp (sortMode : String) : TodoApp :=
  { appWith [sampleTask "a" "B", { sampleTask "c" "Z" with pinned := true }] with
    currentSort := sortMode }

/-- A store under sort mode `date-created` whose tasks `a`, `b` and `d` hold a
number in `createdAt`, as the constructor gives a task that was stored without
one, and whose tasks `c` and `p` hold an ISO string, as `addTask` gives; `p` is
pinned. -/
def mixedCreatedApp : TodoApp :=
  { appWith
      [{ sampleTask "a" "A" with createdAt := TimeVal.millis 1704240000000 },
       { sampleTask "b" "B" with createdAt := TimeVal.millis 1704153600000 },
       sampleTask "c" "C",
       { sampleTask "d" "D" with createdAt := TimeVal.millis 1704067200000 },
       { sampleTask "p" "P" with pinned := true }] with
    currentSort := "date-created" }

/-- The store after `First` has been added, then `Second` a day later, and the
sort mode has been set to `date-created`. -/
def twoAddedApp : TodoApp :=
  setSort sampleHost 1704240000000 "date-created"
    (addTask sampleHost 1704153600000 "q7" (sampleForm "Second" "2024-01-01" "2024-01-10")
      (addTask sampleHost 1704067200000 "k3" (sampleForm "First" "2024-01-01" "2024-01-10")
        emptyApp))

/-- The store after `First` and `Second` have been added, `Second` has been
completed, then `First` a day later, and the sort mode has been set to
`date-closed`. -/
def twoClosedApp : TodoApp :=
  setSort sampleHost 1704412800000 "date-closed"
    (toggleTask sampleHost 1704326400000 "1704067200000-1704067200001-k3"
      (toggleTask sampleHost 1704240000000 "1704153600000-1704067200002-q7"
        (addTask sampleHost 1704153600000 "q7" (sampleForm "Second" "2024-01-01" "2024-01-10")
          (addTask sampleHost 1704067200000 "k3" (sampleForm "First" "2024-01-01" "2024-01-10")
            emptyApp))))

/-- The store of the alphabetical example: `Banana`, `apple`, `Cherry`, none pinned. -/
def fruitApp : TodoApp :=
  appWith [sampleTask "1" "Banana", sampleTask "2" "apple", sampleTask "3" "Cherry"]

end TodoApp

/-! ## Further methods, and the operations of a session -/

namespace TodoApp

/-- The day `isOverdue` compares a due date with: the cached day when there is
one, else the start of the current day (which the call then caches). -/
def effectiveToday (h : Host) (now : Int) (app : TodoApp) : Int :=
  match app.cachedToday with
  | some d => d
  | none => h.startOfDay now

/-- The method `editTask`, for its effect on the state: the task becomes the one
being edited. -/
def editTask (id : String) (app : TodoApp) : TodoApp :=
  match app.tasks.find? (fun t => t.id == id) with
  | none => app
  | some _ => { app with editingTaskId := some id }

/-- The method `toggleSubtaskForm`. -/
def toggleSubtaskForm (h : Host) (now : Int) (taskId : String) (app : TodoApp) : TodoApp :=
  match app.tasks.find? (fun t => t.id == taskId) with
  | none => app
  | some task =>
    render h now (putTask taskId { task with showSubtaskForm := !task.showSubtaskForm } app)

/-- The method `toggleSubSubtaskForm`. -/
def toggleSubSubtaskForm (h : Host) (now : Int) (taskId subtaskId : String) (app : TodoApp) :
    TodoApp :=
  match app.tasks.find? (fun t => t.id == taskId) with
  | none => app
  | some task =>
    match task.subtasks.find? (fun s => s.id == subtaskId) with
    | none => app
    | some subtask =>
      let subtask1 : Subtask :=
        { subtask with showSubSubtaskForm := !subtask.showSubSubtaskForm }
      render h now (putTask taskId (putSubtask subtaskId subtask1 task) app)

/-- The method `addSubtaskFromForm`; `input` and `noteInput` are the values of the
two inputs of the subtask form, `none` for an element that is not in the
document. -/
def addSubtaskFromForm (h : Host) (now : Int) (rnd : String) (taskId : String)
    (input noteInput : Option String) (app : TodoApp) : TodoApp :=
  match input with
  | none => app
  | some v =>
    if trim v = "" then app
    else
      let notes := match noteInput with
        | some n => trim n
        | none => ""
      let app1 := addSubtask h now rnd taskId v notes app
      match app1.tasks.find? (fun t => t.id == taskId) with
      | none => app1
      | some task => putTask taskId { task with showSubtaskForm := false } app1

/-- The method `addSubSubtaskFromForm`. -/
def addSubSubtaskFromForm (h : Host) (now : Int) (rnd : String) (taskId subtaskId : String)
    (input noteInput : Option String) (app : TodoApp) : TodoApp :=
  match input with
  | none => app
  | some v =>
    if trim v = "" then app
    else
      let notes := match noteInput with
        | some n => trim n
        | none => ""
      let app1 := addSubSubtask h now rnd taskId subtaskId v notes app
      match app1.tasks.find? (fun t => t.id == taskId) with
      | none => app1
      | some task =>
        match task.subtasks.find? (fun s => s.id == subtaskId) with
        | none => app1
        | some subtask =>
          putTask taskId
            (putSubtask subtaskId { subtask with showSubSubtaskForm := false } task) app1

end TodoApp

/-- A user intent with its arguments, the clock reading and the random id
component of the call. -/
inductive Op where
  | addTask (now : Int) (rnd : String) (form : TaskForm)
  | editTask (id : String)
  | updateTask (now : Int) (form : EditForm)
  | closeModal
  | toggleTask (now : Int) (id : String)
  | togglePin (now : Int) (id : String)
  | deleteTask (now : Int) (confirmed : Bool) (id : String)
  | addSubtask (now : Int) (rnd : String) (taskId text notes : String)
  | toggleSubtask (now : Int) (taskId subtaskId : String)
  | editSubtask (now : Int) (taskId subtaskId newText : String)
  | toggleSubtaskPin (now : Int) (taskId subtaskId : String)
  | deleteSubtask (now : Int) (taskId subtaskId : String)
  | addSubSubtask (now : Int) (rnd : String) (taskId subtaskId text notes : String)
  | toggleSubSubtask (now : Int) (taskId subtaskId subsubtaskId : String)
  | toggleSubSubtaskPin (now : Int) (taskId subtaskId subsubtaskId : String)
  | deleteSubSubtask (now : Int) (taskId subtaskId subsubtaskId : String)
  | setFilter (now : Int) (filter : String)
  | setSort (now : Int) (sort : String)
  | toggleSubtaskForm (now : Int) (taskId : String)
  | toggleSubSubtaskForm (now : Int) (taskId subtaskId : String)
  | addSubtaskFromForm (now : Int) (rnd : String) (taskId : String)
      (input noteInput : Option String)
  | addSubSubtaskFromForm (now : Int) (rnd : String) (taskId subtaskId : String)
      (input noteInput : Option String)
  deriving DecidableEq, Repr

/-- Runs one operation on the store. -/
def step (h : Host) : Op → TodoApp → TodoApp
  | Op.addTask now rnd form, app => TodoApp.addTask h now rnd form app
  | Op.editTask id, app => TodoApp.editTask id app
  | Op.updateTask now form, app => TodoApp.updateTask h now form app
  | Op.closeModal, app => TodoApp.closeModal app
  | Op.toggleTask now id, app => TodoApp.toggleTask h now id app
  | Op.togglePin now id, app => TodoApp.togglePin h now id app
  | Op.deleteTask now confirmed id, app => TodoApp.deleteTask h now confirmed id app
  | Op.addSubtask now rnd taskId text notes, app =>
    TodoApp.addSubtask h now rnd taskId text notes app
  | Op.toggleSubtask now taskId subtaskId, app => TodoApp.toggleSubtask h now taskId subtaskId app
  | Op.editSubtask now taskId subtaskId newText, app =>
    TodoApp.editSubtask h now taskId subtaskId newText app
  | Op.toggleSubtaskPin now taskId subtaskId, app =>
    TodoApp.toggleSubtaskPin h now taskId subtaskId app
  | Op.deleteSubtask now taskId subtaskId, app => TodoApp.deleteSubtask h now taskId subtaskId app
  | Op.addSubSubtask now rnd taskId subtaskId text notes, app =>
    TodoApp.addSubSubtask h now rnd taskId subtaskId text notes app
  | Op.toggleSubSubtask now taskId subtaskId subsubtaskId, app =>
    TodoApp.toggleSubSubtask h now taskId subtaskId subsubtaskId app
  | Op.toggleSubSubtaskPin now taskId subtaskId subsubtaskId, app =>
    TodoApp.toggleSubSubtaskPin h now taskId subtaskId subsubtaskId app
  | Op.deleteSubSubtask now taskId subtaskId subsubtaskId, app =>
    TodoApp.deleteSubSubtask h now taskId subtaskId subsubtaskId app
  | Op.setFilter now filter, app => TodoApp.setFilter h now filter app
  | Op.setSort now sort, app => TodoApp.setSort h now sort app
  | Op.toggleSubtaskForm now taskId, app => TodoApp.toggleSubtaskForm h now taskId app
  | Op.toggleSubSubtaskForm now taskId subtaskId, app =>
    TodoApp.toggleSubSubtaskForm h now taskId subtaskId app
  | Op.addSubtaskFromForm now rnd taskId input noteInput, app =>
    TodoApp.addSubtaskFromForm h now rnd taskId input noteInput app
  | Op.addSubSubtaskFromForm now rnd taskId subtaskId input noteInput, app =>
    TodoApp.addSubSubtaskFromForm h now rnd taskId subtaskId input noteInput app

/-- Runs a sequence of operations, first to last. -/
def run (h : Host) (ops : List Op) (app : TodoApp) : TodoApp :=
  ops.foldl (fun a op => step h op a) app

/-- The states a session can be in: it starts with no tasks and changes by the
operations. -/
inductive Reachable (h : Host) : TodoApp → Prop where
  | init (app : TodoApp) (hempty : app.tasks = []) : Reachable h app
  | step (app : TodoApp) (op : Op) (hprev : Reachable h app) : Reachable h (step h op app)

/-- The completion fields of a task agree: `completed` is true exactly when the
status is `completed`, and `completedAt` is present exactly when `completed`
is true. -/
def Task.StatusConsistent (t : Task) : Prop :=
  (t.completed = true ↔ t.status = "completed") ∧
  (t.completedAt ≠ TimeVal.absent ↔ t.completed = true)

/-! ## The progress percentage

`updateStats` computes `Math.round((stats.completed / stats.total) * 100)` in
IEEE-754 double arithmetic.  The two counters are integers below `2 ^ 53`, so
they are doubles; the quotient and the product are each rounded to the nearest
double, ties to even.  The doubles that occur are positive, below `2 ^ 53` and
far above the subnormal range, so each is `mant / 2 ^ scale` with a 53-bit
`mant`. -/

/-- A non-negative double below `2 ^ 53`: the number `mant / 2 ^ scale`. -/
structure Double where
  mant : Nat
  scale : Nat
  deriving DecidableEq, Repr

/-- The integer nearest to `n / d`, a tie going to the even neighbour. -/
def roundHalfEven (n d : Nat) : Nat :=
  let q := n / d
  let r := n % d
  if 2 * r < d then q
  else if d < 2 * r then q + 1
  else if q % 2 = 0 then q else q + 1

/-- Helper of `floorLog2`, with a bound on the number of halvings. -/
def floorLog2Aux : Nat → Nat → Nat
  | 0, _ => 0
  | fuel + 1, n => if n < 2 then 0 else floorLog2Aux fuel (n / 2) + 1

/-- The position of the leading bit of `n`: the largest `e` with `2 ^ e ≤ n`. -/
def floorLog2 (n : Nat) : Nat :=
  floorLog2Aux n n

/-- The scale `k` at which `n / d` has a 53-bit integer part:
`2 ^ 52 ≤ n * 2 ^ k / d < 2 ^ 53`. -/
def binaryScale (n d : Nat) : Nat :=
  let k := 52 + floorLog2 d - floorLog2 n
  if n * 2 ^ k < 2 ^ 52 * d then k + 1 else k

/-- The double nearest to the positive ratio `n / d` (ties to even); zero for `n = 0`. -/
def Double.ofRatio (n d : Nat) : Double :=
  if n = 0 then { mant := 0, scale := 0 }
  else
    let k := binaryScale n d
    { mant := roundHalfEven (n * 2 ^ k) d, scale := k }

/-- The double quotient `a / b` of two integers. -/
def Double.divNat (a b : Nat) : Double :=
  Double.ofRatio a b

/-- The double product `x * n` of a double and an integer. -/
def Double.mulNat (x : Double) (n : Nat) : Double :=
  Double.ofRatio (x.mant * n) (2 ^ x.scale)

/-- The function `Math.round` on a non-negative double: the nearest integer, a
tie going up. -/
def mathRound (x : Double) : Nat :=
  (2 * x.mant + 2 ^ x.scale) / 2 ^ (x.scale + 1)

/-- The integer nearest to `100 * completed / total`, a half rounding up, in
exact arithmetic. -/
def nearestPercent (completed total : Nat) : Nat :=
  (200 * completed + total) / (2 * total)

namespace TodoApp

/-- The constant `progress` of `updateStats`. -/
def progress (stats : Stats) : Nat :=
  if 0 < stats.total then mathRound ((Double.divNat stats.completed stats.total).mulNat 100)
  else 0

/-- A task of the statistics examples. -/
def statsTask (id text dueDate status : String) (completed : Bool) : Task :=
  { sampleTask id text with
    dueDate := some dueDate
    status := status
    completed := completed
    completedAt := if completed then TimeVal.iso 1704153600000 else TimeVal.absent }

/-- The store of the statistics scenario: one completed task, one pending task
that was due on 2024-01-05, one pending task due on 2024-03-01. -/
def statsApp : TodoApp :=
  appWith
    [statsTask "1" "File taxes" "2024-01-03" "completed" true,
     statsTask "2" "Pay rent" "2024-01-05" "pending" false,
     statsTask "3" "Book flight" "2024-03-01" "pending" false]

/-- A store with forty tasks, of which the first twenty-three are completed. -/
def fortyApp : TodoApp :=
  appWith ((List.range 40).map fun i =>
    statsTask (toString i) ("Task " ++ toString i) "2024-03-01"
      (if i < 23 then "completed" else "pending") (decide (i < 23)))

end TodoApp

/-- Every task of the store has consistent completion fields. -/
def TodoApp.AllConsistent (app : TodoApp) : Prop :=
  ∀ t ∈ app.tasks, t.StatusConsistent

/-- The two tasks have the same completion fields. -/
def Task.SameCompletion (t t1 : Task) : Prop :=
  t1.completed = t.completed ∧ t1.status = t.status ∧ t1.completedAt = t.completedAt

/-- A session: two tasks are added, the first is put in progress through the
edit dialog, the second is completed and reopened with its checkbox, then
completed through the edit dialog. -/
def sampleSession : List Op :=
  [Op.addTask 1704067200000 "k3" (sampleForm "First" "2024-01-01" "2024-01-10"),
   Op.addTask 1704153600000 "q7" (sampleForm "Second" "2024-01-01" "2024-01-10"),
   Op.editTask "1704067200000-1704067200001-k3",
   Op.updateTask 1704240000000
     { editTaskInput := some "First"
       editStartDateInput := some "2024-01-01"
       editDueDateInput := some "2024-01-10"
       editNoteInput := some ""
       editStatusInput := some "in-progress" },
   Op.toggleTask 1704326400000 "1704153600000-1704067200002-q7",
   Op.toggleTask 1704412800000 "1704153600000-1704067200002-q7",
   Op.editTask "1704153600000-1704067200002-q7",
   Op.updateTask 1704499200000
     { editTaskInput := some "Second"
       editStartDateInput := some "2024-01-01"
       editDueDateInput := some "2024-01-10"
       editNoteInput := some ""
       editStatusInput := some "completed" }]

/-! ## Persisted data and the constructor

The constructor reads the blob stored under the key `tasks`, parses it and
fills in defaults.  What `JSON.parse` returns is a JSON value; the records of
the blob are objects whose properties may be missing or of any JSON type, so
the defaulting is modelled on JSON values.  A thrown `TypeError` is `none`. -/

/-- A JSON value.  Numbers are the integer-valued ones; an object is the list of
its properties in insertion order. -/
inductive Json where
  | null
  | bool (b : Bool)
  | num (n : Int)
  | str (s : String)
  | arr (items : List Json)
  | obj (fields : List (String × Json))
  deriving Repr

/-- What reading and parsing the persisted blob gives: no blob (`getItem` returns
`null`, which parses to `null`), a blob on which `JSON.parse` throws, or the
parsed value. -/
inductive Blob where
  | absent
  | malformed
  | parsed (v : Json)
  deriving Repr

namespace Json

/-- JavaScript truthiness of a JSON value. -/
def truthy : Json → Bool
  | null => false
  | bool b => b
  | num n => n != 0
  | str s => s != ""
  | arr _ => true
  | obj _ => true

/-- The first property with the given key. -/
def lookup (k : String) : List (String × Json) → Option Json
  | [] => none
  | (k1, v) :: rest => if k1 = k then some v else lookup k rest

/-- The property access `v.k` for one of the keys the constructor reads; `none` is
`undefined`.  Arrays, strings, numbers and booleans have none of these
properties. -/
def prop (v : Json) (k : String) : Option Json :=
  match v with
  | obj fields => lookup k fields
  | _ => none

/-- Defines the property `k`: an existing property keeps its place and takes the
new value, a new one goes to the end. -/
def setKey (k : String) (v : Json) : List (String × Json) → List (String × Json)
  | [] => [(k, v)]
  | (k1, v1) :: rest => if k1 = k then (k1, v) :: rest else (k1, v1) :: setKey k v rest

/-- Pairs the items of a list with their indices as property keys, from `i` on. -/
def indexed : Nat → List Json → List (String × Json)
  | _, [] => []
  | i, v :: rest => (toString i, v) :: indexed (i + 1) rest

/-- The own enumerable properties that the spread `...v` copies. -/
def spread : Json → List (String × Json)
  | obj fields => fields
  | arr items => indexed 0 items
  | str s => indexed 0 (s.data.map fun c => str (String.singleton c))
  | _ => []

/-- The expression `x || d` for a property that may be `undefined`. -/
def orDefault (x : Option Json) (d : Json) : Json :=
  match x with
  | some v => if v.truthy then v else d
  | none => d

/-- The receiver of `(x || []).map(...)`: the items of the array, none for a
missing or falsy value; a truthy value that is not an array has no `map`
method and the call throws. -/
def orEmptyArray (x : Option Json) : Option (List Json) :=
  match x with
  | none => some []
  | some v =>
    if v.truthy then
      match v with
      | arr items => some items
      | _ => none
    else some []

end Json

/-- Maps a function that may throw over a list; the first throw ends the map. -/
def mapThrowing {α β : Type} (f : α → Option β) : List α → Option (List β)
  | [] => some []
  | x :: xs =>
    match f x with
    | none => none
    | some y =>
      match mapThrowing f xs with
      | none => none
      | some ys => some (y :: ys)

/-- Whether the value is `null`, on which reading a property throws. -/
def Json.isNull : Json → Bool
  | Json.null => true
  | _ => false

/-- The object literal the constructor builds for a sub-subtask: the record with
`notes` defaulted.  Reading a property of `null` throws. -/
def normalizeSubSubtask (subsubtask : Json) : Option Json :=
  if subsubtask.isNull then none
  else
    some (Json.obj
      (Json.setKey "notes" (Json.orDefault (subsubtask.prop "notes") (Json.str ""))
        subsubtask.spread))

/-- The object literal the constructor builds for a subtask: the record with
`notes` defaulted and `subsubtasks` mapped. -/
def normalizeSubtask (subtask : Json) : Option Json :=
  if subtask.isNull then none
  else
    (Json.orEmptyArray (subtask.prop "subsubtasks")).bind fun items =>
      (mapThrowing normalizeSubSubtask items).map fun subsubtasks =>
        Json.obj
          (Json.setKey "subsubtasks" (Json.arr subsubtasks)
            (Json.setKey "notes" (Json.orDefault (subtask.prop "notes") (Json.str ""))
              subtask.spread))

/-- The object literal the constructor builds for a task: the record with
`subtasks` mapped and `status`, `completed`, `pinned`, `notes` and `createdAt`
defaulted. -/
def normalizeTask (now : Int) (task : Json) : Option Json :=
  if task.isNull then none
  else
    (Json.orEmptyArray (task.prop "subtasks")).bind fun items =>
      (mapThrowing normalizeSubtask items).map fun subtasks =>
        Json.obj
          (Json.setKey "createdAt"
            (Json.orDefault (task.prop "createdAt")
              (Json.orDefault (task.prop "id") (Json.num now)))
          (Json.setKey "notes" (Json.orDefault (task.prop "notes") (Json.str ""))
          (Json.setKey "pinned" (Json.orDefault (task.prop "pinned") (Json.bool false))
          (Json.setKey "completed" (Json.orDefault (task.prop "completed") (Json.bool false))
          (Json.setKey "status" (Json.orDefault (task.prop "status") (Json.str "pending"))
          (Json.setKey "subtasks" (Json.arr subtasks) task.spread))))))

/-- The load-time normalization: the `map` over the task sequence. -/
def normalize (now : Int) (tasks : List Json) : Option (List Json) :=
  mapThrowing (normalizeTask now) tasks

/-- The fields the constructor's `try` block leaves behind: the task records, and
`idCounter`, which is `NaN` (never assigned) when `JSON.parse` threw. -/
structure Loaded where
  tasks : List Json
  idCounter : JSNumber
  deriving Repr

/-- The `try` block of the constructor and its `catch`. -/
def construct (now : Int) (blob : Blob) : Loaded :=
  match blob with
  | Blob.malformed => { tasks := [], idCounter := JSNumber.nan }
  | Blob.absent => { tasks := [], idCounter := JSNumber.int now }
  | Blob.parsed v =>
    if v.truthy then
      match v with
      | Json.arr items =>
        match normalize now items with
        | some tasks => { tasks := tasks, idCounter := JSNumber.int now }
        | none => { tasks := [], idCounter := JSNumber.int now }
      | _ => { tasks := [], idCounter := JSNumber.int now }
    else { tasks := [], idCounter := JSNumber.int now }

/-- The state of a session whose constructor has loaded no task. -/
def Loaded.session (l : Loaded) : TodoApp :=
  { tasks := []
    idCounter := l.idCounter
    cachedToday := none
    currentFilter := "all"
    currentSort := "alphabet-az"
    editingTaskId := none }

/-! ## Serialization of the store's own records -/

/-- The decimal digits of `n`, left-padded with zeros to the given width. -/
def padZeros (width n : Nat) : String :=
  String.mk (List.replicate (width - (toString n).length) '0') ++ toString n

/-- The civil date (year, month, day) of the day `z` days after 1970-01-01. -/
def civilFromDays (z : Int) : Int × Int × Int :=
  let z1 := z + 719468
  let era := z1 / 146097
  let doe := z1 - era * 146097
  let yoe := (doe - doe / 1460 + doe / 36524 - doe / 146096) / 365
  let doy := doe - (365 * yoe + yoe / 4 - yoe / 100)
  let mp := (5 * doy + 2) / 153
  let d := doy - (153 * mp + 2) / 5 + 1
  let m := if mp < 10 then mp + 3 else mp - 9
  let y := yoe + era * 400
  (if m ≤ 2 then y + 1 else y, m, d)

/-- The method `Date.prototype.toISOString` for the instant `t` (epoch
milliseconds): `YYYY-MM-DDTHH:mm:ss.sssZ`, with a signed six-digit year outside
0 to 9999. -/
def toISOString (t : Int) : String :=
  let days := t / 86400000
  let ms := (t % 86400000).toNat
  let ymd := civilFromDays days
  let year :=
    if 0 ≤ ymd.1 ∧ ymd.1 ≤ 9999 then padZeros 4 ymd.1.toNat
    else (if ymd.1 < 0 then "-" else "+") ++ padZeros 6 ymd.1.natAbs
  year ++ "-" ++ padZeros 2 ymd.2.1.toNat ++ "-" ++ padZeros 2 ymd.2.2.toNat ++ "T"
    ++ padZeros 2 (ms / 3600000) ++ ":" ++ padZeros 2 (ms / 60000 % 60) ++ ":"
    ++ padZeros 2 (ms / 1000 % 60) ++ "." ++ padZeros 3 (ms % 1000) ++ "Z"

/-- The JSON value of a timestamp field, none for a missing property. -/
def TimeVal.toJson : TimeVal → Option Json
  | TimeVal.absent => none
  | TimeVal.millis n => some (Json.num n)
  | TimeVal.iso n => some (Json.str (toISOString n))

/-- An optional property of an object under construction. -/
def optionalField (k : String) (v : Option Json) : List (String × Json) :=
  match v with
  | some x => [(k, x)]
  | none => []

/-- The value `JSON.parse(JSON.stringify(subsubtask))`. -/
def SubSubtask.toJson (ss : SubSubtask) : Json :=
  Json.obj
    [("id", Json.str ss.id), ("text", Json.str ss.text), ("completed", Json.bool ss.completed),
     ("pinned", Json.bool ss.pinned), ("notes", Json.str ss.notes)]

/-- The value `JSON.parse(JSON.stringify(subtask))`. -/
def Subtask.toJson (s : Subtask) : Json :=
  Json.obj
    [("id", Json.str s.id), ("text", Json.str s.text), ("completed", Json.bool s.completed),
     ("pinned", Json.bool s.pinned), ("notes", Json.str s.notes),
     ("subsubtasks", Json.arr (s.subsubtasks.map SubSubtask.toJson)),
     ("showSubSubtaskForm", Json.bool s.showSubSubtaskForm)]

/-- The value `JSON.parse(JSON.stringify(task))`: a missing property stays missing. -/
def Task.toJson (t : Task) : Json :=
  Json.obj
    ([("id", Json.str t.id), ("text", Json.str t.text)]
      ++ optionalField "startDate" (t.startDate.map Json.str)
      ++ optionalField "dueDate" (t.dueDate.map Json.str)
      ++ [("notes", Json.str t.notes), ("status", Json.str t.status),
          ("completed", Json.bool t.completed), ("pinned", Json.bool t.pinned),
          ("subtasks", Json.arr (t.subtasks.map Subtask.toJson)),
          ("showSubtaskForm", Json.bool t.showSubtaskForm)]
      ++ optionalField "createdAt" t.createdAt.toJson
      ++ optionalField "completedAt" t.completedAt.toJson)

/-- The value `JSON.parse(JSON.stringify(this.tasks))`. -/
def serialize (tasks : List Task) : List Json :=
  tasks.map Task.toJson

/-- Whether the record has the property `k`. -/
def Json.has (v : Json) (k : String) : Bool :=
  (v.prop k).isSome

/-- The items of a property that holds an array; no items otherwise. -/
def Json.itemsOf (x : Option Json) : List Json :=
  match x with
  | some (Json.arr items) => items
  | _ => []

/-- A blob of an older schema: one task with one subtask and one sub-subtask, each
with only `id` and `text`. -/
def legacyBlob : Blob :=
  Blob.parsed (Json.arr
    [Json.obj
      [("id", Json.str "1"), ("text", Json.str "Write report"),
       ("subtasks", Json.arr
         [Json.obj
           [("id", Json.str "2"), ("text", Json.str "Draft"),
            ("subsubtasks", Json.arr
              [Json.obj [("id", Json.str "3"), ("text", Json.str "Outline")]])]])]])

/-! ## Relations between a task before and after an operation -/

/-- A relation between the old and the new value of a task that every assignment
the operations make to a task respects; `ok` says which edit dialogs are
considered. -/
structure TaskRelClosed (ok : EditForm → Prop) (R : Task → Task → Prop) : Prop where
  refl : ∀ t, R t t
  trans : ∀ t1 t2 t3, R t1 t2 → R t2 t3 → R t1 t3
  text : ∀ (t : Task) (s : String), R t { t with text := s }
  dates : ∀ (t : Task) (s d : String), R t { t with startDate := some s, dueDate := some d }
  notes : ∀ (t : Task) (n : String), R t { t with notes := n }
  pinned : ∀ (t : Task) (b : Bool), R t { t with pinned := b }
  subtasks : ∀ (t : Task) (subs : List Subtask), R t { t with subtasks := subs }
  showForm : ∀ (t : Task) (b : Bool), R t { t with showSubtaskForm := b }
  toggle : ∀ (now : Int) (t : Task), R t (TodoApp.toggleCompletion now t)
  status : ∀ (now : Int) (form : EditForm) (t : Task), ok form →
    R t (TodoApp.updateTaskStatus now form t)

/-- The edit dialog of the operation, if it has one, satisfies `ok`. -/
def Op.FormOk (ok : EditForm → Prop) : Op → Prop
  | Op.updateTask _ form => ok form
  | _ => True

/-- The operations that can change the number of tasks. -/
def Op.changesLength : Op → Bool
  | Op.addTask _ _ _ => true
  | Op.deleteTask _ _ _ => true
  | _ => false

/-- The field values `addTask` gives a new task at the clock reading `now`. -/
def Task.Fresh (now : Int) (t : Task) : Prop :=
  t.text ≠ "" ∧ t.status = "pending" ∧ t.completed = false ∧ t.pinned = false ∧
  t.subtasks = [] ∧ t.createdAt = TimeVal.iso now ∧ t.completedAt = TimeVal.absent

/-- What a task needs for the load-time defaults to leave it alone: a status
that is not the empty string and a creation stamp that is truthy. -/
def Task.Storable (t : Task) : Prop :=
  t.status ≠ "" ∧ t.createdAt.truthy = true

/-- The status field of the edit dialog, when present, holds a non-empty value
(the dialog offers the status names only). -/
def EditForm.StatusChosen (form : EditForm) : Prop :=
  ∀ v, form.editStatusInput = some v → v ≠ ""

/-! ## What the ids of a call match -/

namespace TodoApp

/-- Whether `this.tasks.find(t => t.id === taskId)` finds a task. -/
def hasTask (taskId : String) (app : TodoApp) : Bool :=
  (app.tasks.find? (fun t => t.id == taskId)).isSome

/-- Whether the task found under `taskId` has a subtask with the id `subtaskId`. -/
def hasSubtask (taskId subtaskId : String) (app : TodoApp) : Bool :=
  match app.tasks.find? (fun t => t.id == taskId) with
  | none => false
  | some task => (task.subtasks.find? (fun s => s.id == subtaskId)).isSome

/-- Whether the subtask found under `taskId` and `subtaskId` has a sub-subtask with
the id `subsubtaskId`. -/
def hasSubSubtask (taskId subtaskId subsubtaskId : String) (app : TodoApp) : Bool :=
  match app.tasks.find? (fun t => t.id == taskId) with
  | none => false
  | some task =>
    match task.subtasks.find? (fun s => s.id == subtaskId) with
    | none => false
    | some subtask => (subtask.subsubtasks.find? (fun ss => ss.id == subsubtaskId)).isSome

end TodoApp

/-! ## Id strings -/

/-- The number a list of decimal digits denotes, most significant digit first. -/
def decimalValue (l : List Char) : Nat :=
  l.foldl (fun a c => 10 * a + (c.toNat - 48)) 0

/-- The template literal of `generateId` for a numeric counter: the clock reading,
the counter and the random component, joined by dashes. -/
def idString (now counter : Int) (rnd : String) : String :=
  toString now ++ "-" ++ toString counter ++ "-" ++ rnd

/-! ## Sibling texts -/

/-- An id that `generateId` made from a counter value of at most `c`. -/
def IdBelow (c : Int) (id : String) : Prop :=
  ∃ n k r, id = idString n k r ∧ k ≤ c

/-- The texts of a list of siblings are non-empty and no two of them are equal
after lower-casing. -/
def TextsUnique (h : Host) (texts : List String) : Prop :=
  (∀ x ∈ texts, x ≠ "") ∧ (texts.map h.toLowerCase).Nodup

/-- A subtask in order: its id was generated from a counter of at most `c`, and
the texts of its sub-subtasks are unique. -/
def Subtask.Ok (h : Host) (c : Int) (s : Subtask) : Prop :=
  IdBelow c s.id ∧ TextsUnique h (s.subsubtasks.map (fun ss => ss.text))

/-- A task in order: its id was generated from a counter of at most `c`, its
subtasks are in order and have pairwise different ids, and their texts are
unique. -/
def Task.Ok (h : Host) (c : Int) (t : Task) : Prop :=
  IdBelow c t.id ∧ (∀ s ∈ t.subtasks, s.Ok h c) ∧ (t.subtasks.map (fun s => s.id)).Nodup ∧
  TextsUnique h (t.subtasks.map (fun s => s.text))

/-- A task sequence in order: its tasks are in order and have pairwise different
ids, and their texts are unique. -/
def StoreOk (h : Host) (c : Int) (tasks : List Task) : Prop :=
  (∀ t ∈ tasks, t.Ok h c) ∧ (tasks.map (fun t => t.id)).Nodup ∧
  TextsUnique h (tasks.map (fun t => t.text))

/-- The invariant of a session whose id counter is a number: the task sequence is
in order for the current counter value. -/
def TodoApp.Sound (h : Host) (app : TodoApp) : Prop :=
  ∃ c, app.idCounter = JSNumber.int c ∧ StoreOk h c app.tasks

/-- Texts are non-empty and unique among siblings at the three levels: the tasks,
the subtasks of each task, the sub-subtasks of each subtask. -/
def TodoApp.SiblingTextsUnique (h : Host) (app : TodoApp) : Prop :=
  TextsUnique h (app.tasks.map (fun t => t.text)) ∧
  ∀ t ∈ app.tasks, TextsUnique h (t.subtasks.map (fun s => s.text)) ∧
    ∀ s ∈ t.subtasks, TextsUnique h (s.subsubtasks.map (fun ss => ss.text))

/-- A session after a stored blob that could not be parsed: two tasks added at the
same clock reading with the same random component, then the newer one
renamed to the other's text in lower case. -/
def collidingSession : List Op :=
  [Op.addTask 1704067200000 "k3" (sampleForm "Alpha" "2024-01-01" "2024-01-10"),
   Op.addTask 1704067200000 "k3" (sampleForm "Beta" "2024-01-01" "2024-01-10"),
   Op.editTask "1704067200000-NaN-k3",
   Op.updateTask 1704240000000
     { editTaskInput := some "alpha"
       editStartDateInput := some "2024-01-01"
       editDueDateInput := some "2024-01-10"
       editNoteInput := some ""
       editStatusInput := some "pending" }]

/-! ## Further hosts and sessions -/

/-- A host five hours behind UTC: as `sampleHost`, but a day starts at local
midnight, which is 05:00 UTC.  A date-only string is still parsed as midnight
UTC, as the language prescribes. -/
def westHost : Host :=
  { sampleHost with startOfDay := fun t => t - (t - 18000000) % 86400000 }

/-- A session from the empty store: a task is added, opened in the edit dialog and
saved with an empty status field. -/
def emptyStatusSession : List Op :=
  [Op.addTask 1704067200000 "k3" (sampleForm "First" "2024-01-01" "2024-01-10"),
   Op.editTask "1704067200000-1704067200001-k3",
   Op.updateTask 1704240000000
     { editTaskInput := some "First"
       editStartDateInput := some "2024-01-01"
       editDueDateInput := some "2024-01-10"
       editNoteInput := some ""
       editStatusInput := some "" }]

/-- The string a property holds, if it holds one. -/
def Json.stringOf (x : Option Json) : Option String :=
  match x with
  | some (Json.str s) => some s
  | _ => none

/-- Whether the value is an array. -/
def Json.isArray : Json → Bool
  | Json.arr _ => true
  | _ => false

/-- Whether `(x || []).map(...)` throws: `x` is truthy and not an array. -/
def Json.mapThrows (x : Option Json) : Bool :=
  match x with
  | some v => v.truthy && !v.isArray
  | none => false

/-- Whether filling in the defaults of a subtask throws: it is `null`, its
`subsubtasks` is a truthy value that is not an array, or one of its
sub-subtasks is `null`. -/
def Json.subtaskThrows (s : Json) : Bool :=
  s.isNull || Json.mapThrows (s.prop "subsubtasks") ||
    (Json.itemsOf (s.prop "subsubtasks")).any Json.isNull

/-- Whether filling in the defaults of a task throws: it is `null`, its `subtasks`
is a truthy value that is not an array, or the defaults of one of its subtasks
throw. -/
def Json.taskThrows (t : Json) : Bool :=
  t.isNull || Json.mapThrows (t.prop "subtasks") ||
    (Json.itemsOf (t.prop "subtasks")).any Json.subtaskThrows

/-! ## Rendering and statistics leave the task sequence alone -/

namespace TodoApp

theorem isOverdue_tasks (h : Host) (now : Int) (app : TodoApp) (task : Task) :
    (isOverdue h now app task).2.tasks = app.tasks := by
  unfold isOverdue
  split
  · rfl
  · split
    · rfl
    · split <;> (dsimp only; split <;> rfl)

theorem filterOverdue_tasks (h : Host) (now : Int) (ts : List Task) (app : TodoApp) :
    (filterOverdue h now ts app).2.tasks = app.tasks := by
  induction ts generalizing app with
  | nil => rfl
  | cons t ts ih =>
    simp only [filterOverdue]
    rw [ih, isOverdue_tasks]

theorem filterTasks_tasks (h : Host) (now : Int) (app : TodoApp) :
    (filterTasks h now app).2.tasks = app.tasks := by
  unfold filterTasks
  split_ifs <;> first | rfl | exact filterOverdue_tasks h now _ _

theorem foldl_isOverdue_tasks (h : Host) (now : Int) (ts : List Task) (app : TodoApp) :
    (ts.foldl (fun a t => (isOverdue h now a t).2) app).tasks = app.tasks := by
  induction ts generalizing app with
  | nil => rfl
  | cons t ts ih =>
    simp only [List.foldl_cons]
    rw [ih, isOverdue_tasks]

theorem render_tasks (h : Host) (now : Int) (app : TodoApp) :
    (render h now app).tasks = app.tasks := by
  unfold render
  split_ifs
  · simp only [getFilteredTasks]
    rw [foldl_isOverdue_tasks, filterTasks_tasks]
  · rfl

theorem updateStats_foldl_tasks (h : Host) (now : Int) (ts : List Task) (acc : Stats × TodoApp) :
    (ts.foldl
      (fun (acc : Stats × TodoApp) task =>
        let r := isOverdue h now acc.2 task
        (({ total := acc.1.total + 1
            completed := if task.completed then acc.1.completed + 1 else acc.1.completed
            pending := if task.status = "pending" then acc.1.pending + 1 else acc.1.pending
            overdue := if r.1 then acc.1.overdue + 1 else acc.1.overdue } : Stats), r.2))
      acc).2.tasks = acc.2.tasks := by
  induction ts generalizing acc with
  | nil => rfl
  | cons t ts ih =>
    simp only [List.foldl_cons]
    rw [ih]
    exact isOverdue_tasks h now _ _

theorem updateStats_tasks (h : Host) (now : Int) (app : TodoApp) :
    (updateStats h now app).2.tasks = app.tasks := by
  unfold updateStats
  exact updateStats_foldl_tasks h now app.tasks _

theorem renderAndStats_tasks (h : Host) (now : Int) (app : TodoApp) :
    (renderAndStats h now app).tasks = app.tasks := by
  unfold renderAndStats
  rw [updateStats_tasks, render_tasks]

end TodoApp

/-! ## Lists: the first match and its replacement -/

theorem modifyFirst_of_find {α : Type} (p : α → Bool) (f : α → α) (l : List α) (a : α)
    (hfind : l.find? p = some a) :
    ∃ pre post, l = pre ++ a :: post ∧ (∀ x ∈ pre, p x = false) ∧
      modifyFirst p f l = pre ++ f a :: post := by
  induction l with
  | nil => simp at hfind
  | cons x xs ih =>
    by_cases hx : p x = true
    · have hxa : x = a := by simpa [List.find?, hx] using hfind
      subst hxa
      exact ⟨[], xs, rfl, by simp, by simp [modifyFirst, hx]⟩
    · have hxs : xs.find? p = some a := by simpa [List.find?, hx] using hfind
      obtain ⟨pre, post, h1, h2, h3⟩ := ih hxs
      refine ⟨x :: pre, post, by simp [h1], ?_, by simp [modifyFirst, hx, h3]⟩
      intro y hy
      rcases List.mem_cons.mp hy with rfl | hy
      · simpa using hx
      · exact h2 y hy

theorem modifyFirst_of_find_none {α : Type} (p : α → Bool) (f : α → α) (l : List α)
    (hfind : l.find? p = none) : modifyFirst p f l = l := by
  induction l with
  | nil => rfl
  | cons x xs ih =>
    by_cases hx : p x = true
    · simp [List.find?, hx] at hfind
    · have hxs : xs.find? p = none := by simpa [List.find?, hx] using hfind
      simp [modifyFirst, hx, ih hxs]

theorem find_append_of_first {α : Type} (p : α → Bool) (pre post : List α) (a : α)
    (hpre : ∀ x ∈ pre, p x = false) (ha : p a = true) :
    (pre ++ a :: post).find? p = some a := by
  induction pre with
  | nil => simp [List.find?, ha]
  | cons x xs ih =>
    have hx : p x = false := hpre x (List.mem_cons_self _ _)
    have := ih (fun y hy => hpre y (List.mem_cons_of_mem _ hy))
    simpa [List.find?, hx] using this

theorem find_modifyFirst {α : Type} (p : α → Bool) (f : α → α) (l : List α) (a : α)
    (hfind : l.find? p = some a) (hf : p (f a) = true) :
    (modifyFirst p f l).find? p = some (f a) := by
  obtain ⟨pre, post, _, h2, h3⟩ := modifyFirst_of_find p f l a hfind
  rw [h3]
  exact find_append_of_first p pre post (f a) h2 hf

namespace TodoApp

/-! ## Adding a task -/

/-- C1: when the trimmed text of the add form equals, after lower-casing, the
lower-cased text of a task of the store, `addTask` changes nothing: the task
sequence (and the whole state) after the call is the one before it, whatever
the dates of the form are. -/
theorem addTask_rejects_duplicate (h : Host) (now : Int) (rnd : String) (form : TaskForm)
    (app : TodoApp) (text : String) (htext : form.taskInput = some text)
    (hdup : ∃ t ∈ app.tasks, h.toLowerCase t.text = h.toLowerCase (trim text)) :
    (addTask h now rnd form app).tasks = app.tasks ∧ addTask h now rnd form app = app := by
  have hany : app.tasks.any
      (fun t => h.toLowerCase t.text == h.toLowerCase (trim text)) = true := by
    obtain ⟨t, ht, heq⟩ := hdup
    exact List.any_eq_true.mpr ⟨t, ht, by simp [heq]⟩
  have key : addTask h now rnd form app = app := by
    unfold addTask
    rw [htext]
    cases form.startDateInput with
    | none => rfl
    | some startDate =>
      cases form.dueDateInput with
      | none => rfl
      | some dueDate =>
        dsimp only
        rw [hany]
        split_ifs with h1 h2 h3
        · rfl
        · rfl
        · rfl
        · exact absurd rfl h3
  exact ⟨by rw [key], key⟩

/-- C1 on the store with `Buy milk`: the input `  buy MILK ` with valid dates is
rejected, while `Buy bread` with the same dates is added at the head. -/
theorem addTask_rejects_duplicate_witness :
    (sampleForm "  buy MILK " "2024-01-01" "2024-01-10").taskInput = some "  buy MILK " ∧
    (∃ t ∈ milkApp.tasks,
      sampleHost.toLowerCase t.text = sampleHost.toLowerCase (trim "  buy MILK ")) ∧
    (addTask sampleHost 1704153600000 "q7" (sampleForm "  buy MILK " "2024-01-01" "2024-01-10")
        milkApp).tasks = milkApp.tasks ∧
    ((addTask sampleHost 1704153600000 "q7" (sampleForm "Buy bread" "2024-01-01" "2024-01-10")
        milkApp).tasks.map fun t => t.text) = ["Buy bread", "Buy milk"] :=
  ⟨rfl, ⟨sampleTask "1704067200000-1704067200001-k3x9" "Buy milk", by decide, by decide⟩,
    (addTask_rejects_duplicate sampleHost 1704153600000 "q7"
      (sampleForm "  buy MILK " "2024-01-01" "2024-01-10") milkApp "  buy MILK " rfl
      ⟨sampleTask "1704067200000-1704067200001-k3x9" "Buy milk", by decide, by decide⟩).1,
    by decide⟩

end TodoApp

namespace TodoApp

/-! ## Editing a task -/

/-- C2: an edit whose new text is valid and whose start date (2024-02-10) is after
its due date (2024-02-01) fails the date validation, yet the task sequence
after the call differs from the one before: the task already carries the new
text `Write summary`, with its old dates. -/
theorem updateTask_rejected_dates_keeps_new_text :
    dateAfter sampleHost "2024-02-10" "2024-02-01" = true ∧
    (reportApp.tasks.map fun t => (t.text, t.startDate, t.dueDate)) =
      [("Write report", some "2024-01-01", some "2024-01-10")] ∧
    ((updateTask sampleHost 1704153600000 reportEdit reportApp).tasks.map
      fun t => (t.text, t.startDate, t.dueDate)) =
      [("Write summary", some "2024-01-01", some "2024-01-10")] ∧
    (updateTask sampleHost 1704153600000 reportEdit reportApp).tasks ≠ reportApp.tasks := by
  decide

/-! ## Toggling the completion of a task -/

theorem toggleTask_tasks (h : Host) (now : Int) (id : String) (app : TodoApp) (task : Task)
    (hfind : app.tasks.find? (fun t => t.id == id) = some task) :
    (toggleTask h now id app).tasks =
      modifyFirst (fun t => t.id == id) (fun _ => toggleCompletion now task) app.tasks := by
  unfold toggleTask
  rw [hfind]
  dsimp only
  rw [renderAndStats_tasks]
  rfl

/-- C3, as stated, fails: a task with status `in-progress` has status `pending`
after `toggleTask` has been applied to it twice. -/
theorem toggleTask_twice_in_progress :
    (inProgressApp.tasks.map fun t => (t.completed, t.status)) = [(false, "in-progress")] ∧
    ((toggleTask sampleHost 1704240000000 "1704067200000-1704067200001-k3x9"
        (toggleTask sampleHost 1704153600000 "1704067200000-1704067200001-k3x9"
          inProgressApp)).tasks.map fun t => (t.completed, t.status)) = [(false, "pending")] ∧
    ((toggleTask sampleHost 1704240000000 "1704067200000-1704067200001-k3x9"
        (toggleTask sampleHost 1704153600000 "1704067200000-1704067200001-k3x9"
          inProgressApp)).tasks.map fun t => t.status) ≠
      (inProgressApp.tasks.map fun t => t.status) := by
  decide

/-- C3 (amended): applying `toggleTask` twice to the task that `id` finds gives a
task that differs from the original at most in `status` and `completedAt`:
`completed` has its prior value, `status` is `completed` for a completed task
and `pending` otherwise, and `completedAt` is present exactly when the task is
completed.  So `status` returns to its prior value when it was `completed` or
`pending` in agreement with `completed`, and the presence of `completedAt`
returns to its prior value when it agreed with `completed`. -/
theorem toggleTask_twice (h : Host) (now1 now2 : Int) (id : String) (app : TodoApp) (task : Task)
    (hfind : app.tasks.find? (fun t => t.id == id) = some task) :
    ∃ task2,
      (toggleTask h now2 id (toggleTask h now1 id app)).tasks.find? (fun t => t.id == id)
        = some task2 ∧
      task2 = { task with
        status := if task.completed = true then "completed" else "pending"
        completedAt := if task.completed = true then TimeVal.iso now2 else TimeVal.absent } ∧
      task2.completed = task.completed ∧
      (task.status = (if task.completed = true then "completed" else "pending") →
        task2.status = task.status) ∧
      ((task.completedAt ≠ TimeVal.absent ↔ task.completed = true) →
        (task2.completedAt ≠ TimeVal.absent ↔ task.completedAt ≠ TimeVal.absent)) := by
  have hid : (task.id == id) = true := by
    have := List.find?_some hfind
    simpa using this
  have hid1 : ((toggleCompletion now1 task).id == id) = true := hid
  have hid2 : ((toggleCompletion now2 (toggleCompletion now1 task)).id == id) = true := hid
  have hfind1 : (toggleTask h now1 id app).tasks.find? (fun t => t.id == id)
      = some (toggleCompletion now1 task) := by
    rw [toggleTask_tasks h now1 id app task hfind]
    exact find_modifyFirst (fun t : Task => t.id == id) (fun _ => toggleCompletion now1 task)
      app.tasks task hfind hid1
  have hfind2 : (toggleTask h now2 id (toggleTask h now1 id app)).tasks.find?
      (fun t => t.id == id) = some (toggleCompletion now2 (toggleCompletion now1 task)) := by
    rw [toggleTask_tasks h now2 id _ _ hfind1]
    exact find_modifyFirst (fun t : Task => t.id == id)
      (fun _ => toggleCompletion now2 (toggleCompletion now1 task)) _ _ hfind1 hid2
  refine ⟨_, hfind2, ?_, ?_, ?_, ?_⟩
  · cases hc : task.completed <;> simp [toggleCompletion, hc]
  · simp [toggleCompletion]
  · intro hs
    cases hc : task.completed <;> simp [toggleCompletion, hc] at hs ⊢ <;> exact hs.symm
  · intro hp
    cases hc : task.completed <;> simp [toggleCompletion, hc] at hp ⊢ <;> exact hp

/-- C3 (amended) on the store with the pending task `Buy milk`: after two toggles
`completed`, `status` and the absence of `completedAt` are as before. -/
theorem toggleTask_twice_witness :
    milkApp.tasks.find? (fun t => t.id == "1704067200000-1704067200001-k3x9")
      = some (sampleTask "1704067200000-1704067200001-k3x9" "Buy milk") ∧
    ∃ task2,
      (toggleTask sampleHost 1704240000000 "1704067200000-1704067200001-k3x9"
        (toggleTask sampleHost 1704153600000 "1704067200000-1704067200001-k3x9"
          milkApp)).tasks.find? (fun t => t.id == "1704067200000-1704067200001-k3x9")
        = some task2 ∧
      task2.completed = (sampleTask "1704067200000-1704067200001-k3x9" "Buy milk").completed ∧
      task2.status = (sampleTask "1704067200000-1704067200001-k3x9" "Buy milk").status ∧
      (task2.completedAt ≠ TimeVal.absent ↔
        (sampleTask "1704067200000-1704067200001-k3x9" "Buy milk").completedAt ≠
          TimeVal.absent) := by
  refine ⟨by decide, ?_⟩
  obtain ⟨task2, h1, _, h3, h4, h5⟩ :=
    toggleTask_twice sampleHost 1704153600000 1704240000000
      "1704067200000-1704067200001-k3x9" milkApp
      (sampleTask "1704067200000-1704067200001-k3x9" "Buy milk") (by decide)
  exact ⟨task2, h1, h3, h4 (by decide), h5 (by decide)⟩

end TodoApp

namespace TodoApp

/-! ## Pinning a subtask or a sub-subtask -/

theorem putTask_tasks_of_find (id : String) (task1 : Task) (app : TodoApp) (task : Task)
    (hfind : app.tasks.find? (fun t => t.id == id) = some task) :
    ∃ pre post, app.tasks = pre ++ task :: post ∧ (∀ t ∈ pre, t.id ≠ id) ∧
      (putTask id task1 app).tasks = pre ++ task1 :: post := by
  obtain ⟨pre, post, h1, h2, h3⟩ :=
    modifyFirst_of_find (fun t : Task => t.id == id) (fun _ => task1) app.tasks task hfind
  refine ⟨pre, post, h1, ?_, h3⟩
  intro t ht hid
  have := h2 t ht
  simp [hid] at this

theorem putSubtask_subtasks_of_find (id : String) (subtask1 : Subtask) (task : Task)
    (subtask : Subtask) (hfind : task.subtasks.find? (fun s => s.id == id) = some subtask) :
    ∃ spre spost, task.subtasks = spre ++ subtask :: spost ∧ (∀ s ∈ spre, s.id ≠ id) ∧
      (putSubtask id subtask1 task).subtasks = spre ++ subtask1 :: spost := by
  obtain ⟨pre, post, h1, h2, h3⟩ :=
    modifyFirst_of_find (fun s : Subtask => s.id == id) (fun _ => subtask1) task.subtasks
      subtask hfind
  refine ⟨pre, post, h1, ?_, h3⟩
  intro t ht hid
  have := h2 t ht
  simp [hid] at this

/-- C5: `toggleSubtaskPin` on an existing task and subtask negates the `pinned`
flag of that subtask and changes nothing else below the task level: the
subtask keeps its sub-subtasks and other fields, the other subtasks and the
other tasks are the same records at the same places, and the task differs at
most in `pinned`, which is true when the subtask is now pinned and unchanged
when the subtask is now unpinned. -/
theorem toggleSubtaskPin_flips_and_cascades_up (h : Host) (now : Int) (taskId subtaskId : String)
    (app : TodoApp) (task : Task) (subtask : Subtask)
    (htask : app.tasks.find? (fun t => t.id == taskId) = some task)
    (hsub : task.subtasks.find? (fun s => s.id == subtaskId) = some subtask) :
    ∃ pre post spre spost task1 subtask1,
      app.tasks = pre ++ task :: post ∧ (∀ t ∈ pre, t.id ≠ taskId) ∧
      (toggleSubtaskPin h now taskId subtaskId app).tasks = pre ++ task1 :: post ∧
      task.subtasks = spre ++ subtask :: spost ∧ (∀ s ∈ spre, s.id ≠ subtaskId) ∧
      task1.subtasks = spre ++ subtask1 :: spost ∧
      subtask1 = { subtask with pinned := !subtask.pinned } ∧
      task1 = { task with pinned := task1.pinned, subtasks := task1.subtasks } ∧
      (subtask1.pinned = true → task1.pinned = true) ∧
      (subtask1.pinned = false → task1.pinned = task.pinned) := by
  obtain ⟨spre, spost, hs1, hs2, hs3⟩ := putSubtask_subtasks_of_find subtaskId
    { subtask with pinned := !subtask.pinned } task subtask hsub
  obtain ⟨pre, post, ht1, ht2, ht3⟩ :=
    putTask_tasks_of_find taskId (pinSubtaskToggled subtaskId subtask task) app task htask
  have hres : (toggleSubtaskPin h now taskId subtaskId app).tasks
      = pre ++ pinSubtaskToggled subtaskId subtask task :: post := by
    unfold toggleSubtaskPin
    rw [htask]
    dsimp only
    rw [hsub]
    dsimp only
    rw [render_tasks]
    exact ht3
  have hsubs : (pinSubtaskToggled subtaskId subtask task).subtasks
      = spre ++ { subtask with pinned := !subtask.pinned } :: spost := by
    rw [← hs3]
    unfold pinSubtaskToggled
    dsimp only
    split_ifs <;> rfl
  refine ⟨pre, post, spre, spost, pinSubtaskToggled subtaskId subtask task,
    { subtask with pinned := !subtask.pinned }, ht1, ht2, hres, hs1, hs2, hsubs, rfl, ?_, ?_, ?_⟩
  · unfold pinSubtaskToggled putSubtask
    dsimp only
    split_ifs <;> rfl
  · intro hp
    simp only at hp
    simp [pinSubtaskToggled, hp]
  · intro hp
    simp only at hp
    simp [pinSubtaskToggled, hp, putSubtask]

end TodoApp

namespace TodoApp

/-- C5 on the sample tree: pinning the subtask `Review` of `Write report`. -/
theorem toggleSubtaskPin_flips_and_cascades_up_witness :
    ∃ pre post spre spost task1 subtask1,
      treeApp.tasks = pre ++ treeTask :: post ∧ (∀ t ∈ pre, t.id ≠ "t1") ∧
      (toggleSubtaskPin sampleHost 1704153600000 "t1" "s2" treeApp).tasks
        = pre ++ task1 :: post ∧
      treeTask.subtasks = spre ++ sampleSubtask "s2" "Review" false [] :: spost ∧
      (∀ s ∈ spre, s.id ≠ "s2") ∧
      task1.subtasks = spre ++ subtask1 :: spost ∧
      subtask1 = { sampleSubtask "s2" "Review" false [] with
        pinned := !(sampleSubtask "s2" "Review" false []).pinned } ∧
      task1 = { treeTask with pinned := task1.pinned, subtasks := task1.subtasks } ∧
      (subtask1.pinned = true → task1.pinned = true) ∧
      (subtask1.pinned = false → task1.pinned = treeTask.pinned) :=
  toggleSubtaskPin_flips_and_cascades_up sampleHost 1704153600000 "t1" "s2" treeApp treeTask
    (sampleSubtask "s2" "Review" false []) (by decide) (by decide)

/-- C4: `toggleSubSubtaskPin` on an existing task, subtask and sub-subtask negates
the `pinned` flag of the sub-subtask; when it goes from false to true the
parent subtask and the grandparent task are pinned afterwards, and when it
goes from true to false both keep the `pinned` value they had. -/
theorem toggleSubSubtaskPin_cascades_up (h : Host) (now : Int)
    (taskId subtaskId subsubtaskId : String) (app : TodoApp) (task : Task) (subtask : Subtask)
    (subsubtask : SubSubtask)
    (htask : app.tasks.find? (fun t => t.id == taskId) = some task)
    (hsub : task.subtasks.find? (fun s => s.id == subtaskId) = some subtask)
    (hsubsub : subtask.subsubtasks.find? (fun ss => ss.id == subsubtaskId) = some subsubtask) :
    ∃ task1 subtask1 subsubtask1,
      (toggleSubSubtaskPin h now taskId subtaskId subsubtaskId app).tasks.find?
        (fun t => t.id == taskId) = some task1 ∧
      task1.subtasks.find? (fun s => s.id == subtaskId) = some subtask1 ∧
      subtask1.subsubtasks.find? (fun ss => ss.id == subsubtaskId) = some subsubtask1 ∧
      subsubtask1 = { subsubtask with pinned := !subsubtask.pinned } ∧
      (subsubtask.pinned = false → subtask1.pinned = true ∧ task1.pinned = true) ∧
      (subsubtask.pinned = true →
        subtask1.pinned = subtask.pinned ∧ task1.pinned = task.pinned) := by
  have hssid : (subsubtask.id == subsubtaskId) = true := by
    simpa using List.find?_some hsubsub
  have hsid : (subtask.id == subtaskId) = true := by
    simpa using List.find?_some hsub
  have htid : (task.id == taskId) = true := by
    simpa using List.find?_some htask
  have hsid1 : ((pinSubSubtaskToggled subsubtaskId subsubtask subtask).id == subtaskId) = true := by
    unfold pinSubSubtaskToggled putSubSubtask
    dsimp only
    split_ifs <;> exact hsid
  have hfs : (putSubtask subtaskId (pinSubSubtaskToggled subsubtaskId subsubtask subtask)
      task).subtasks.find? (fun s => s.id == subtaskId)
      = some (pinSubSubtaskToggled subsubtaskId subsubtask subtask) :=
    find_modifyFirst (fun s : Subtask => s.id == subtaskId)
      (fun _ => pinSubSubtaskToggled subsubtaskId subsubtask subtask) task.subtasks subtask
      hsub hsid1
  have hfss : (pinSubSubtaskToggled subsubtaskId subsubtask subtask).subsubtasks.find?
      (fun ss => ss.id == subsubtaskId) = some { subsubtask with pinned := !subsubtask.pinned } := by
    have := find_modifyFirst (fun ss : SubSubtask => ss.id == subsubtaskId)
      (fun _ => ({ subsubtask with pinned := !subsubtask.pinned } : SubSubtask))
      subtask.subsubtasks subsubtask hsubsub hssid
    unfold pinSubSubtaskToggled putSubSubtask
    dsimp only
    split_ifs <;> exact this
  have hres : (toggleSubSubtaskPin h now taskId subtaskId subsubtaskId app).tasks.find?
      (fun t => t.id == taskId)
      = some (if (!subsubtask.pinned) = true then
          { putSubtask subtaskId (pinSubSubtaskToggled subsubtaskId subsubtask subtask) task with
            pinned := true }
        else putSubtask subtaskId (pinSubSubtaskToggled subsubtaskId subsubtask subtask) task) := by
    unfold toggleSubSubtaskPin
    rw [htask]
    dsimp only
    rw [hsub]
    dsimp only
    rw [hsubsub]
    dsimp only
    rw [render_tasks]
    refine find_modifyFirst (fun t : Task => t.id == taskId) (fun _ => _) app.tasks task htask ?_
    dsimp only
    split_ifs <;> exact htid
  refine ⟨_, _, _, hres, ?_, hfss, rfl, ?_, ?_⟩
  · split_ifs <;> exact hfs
  · intro hp
    simp [hp, pinSubSubtaskToggled]
  · intro hp
    simp [hp, pinSubSubtaskToggled, putSubSubtask, putSubtask]

/-- C4 on the sample tree: pinning `Outline` pins its subtask and its task;
unpinning `Sources` leaves both unpinned as they were. -/
theorem toggleSubSubtaskPin_cascades_up_witness :
    (∃ task1 subtask1 subsubtask1,
      (toggleSubSubtaskPin sampleHost 1704153600000 "t1" "s1" "u1" treeApp).tasks.find?
        (fun t => t.id == "t1") = some task1 ∧
      task1.subtasks.find? (fun s => s.id == "s1") = some subtask1 ∧
      subtask1.subsubtasks.find? (fun ss => ss.id == "u1") = some subsubtask1 ∧
      subsubtask1 = sampleSubSubtask "u1" "Outline" true ∧
      subtask1.pinned = true ∧ task1.pinned = true) ∧
    (∃ task1 subtask1 subsubtask1,
      (toggleSubSubtaskPin sampleHost 1704153600000 "t1" "s1" "u2" treeApp).tasks.find?
        (fun t => t.id == "t1") = some task1 ∧
      task1.subtasks.find? (fun s => s.id == "s1") = some subtask1 ∧
      subtask1.subsubtasks.find? (fun ss => ss.id == "u2") = some subsubtask1 ∧
      subsubtask1 = sampleSubSubtask "u2" "Sources" false ∧
      subtask1.pinned = false ∧ task1.pinned = false) := by
  constructor
  · obtain ⟨task1, subtask1, subsubtask1, h1, h2, h3, h4, h5, _⟩ :=
      toggleSubSubtaskPin_cascades_up sampleHost 1704153600000 "t1" "s1" "u1" treeApp treeTask
        (sampleSubtask "s1" "Draft" false
          [sampleSubSubtask "u1" "Outline" false, sampleSubSubtask "u2" "Sources" true])
        (sampleSubSubtask "u1" "Outline" false) (by decide) (by decide) (by decide)
    exact ⟨task1, subtask1, subsubtask1, h1, h2, h3, h4, h5 rfl⟩
  · obtain ⟨task1, subtask1, subsubtask1, h1, h2, h3, h4, _, h6⟩ :=
      toggleSubSubtaskPin_cascades_up sampleHost 1704153600000 "t1" "s1" "u2" treeApp treeTask
        (sampleSubtask "s1" "Draft" false
          [sampleSubSubtask "u1" "Outline" false, sampleSubSubtask "u2" "Sources" true])
        (sampleSubSubtask "u2" "Sources" true) (by decide) (by decide) (by decide)
    exact ⟨task1, subtask1, subsubtask1, h1, h2, h3, h4, h6 rfl⟩

end TodoApp

/-! ## Deleting a task -/

theorem allIds_append (l1 l2 : List Task) : allIds (l1 ++ l2) = allIds l1 ++ allIds l2 := by
  simp [allIds, List.flatMap_append]

theorem id_mem_allIds (l : List Task) (t : Task) (ht : t ∈ l) : t.id ∈ allIds l := by
  unfold allIds
  rw [List.mem_flatMap]
  exact ⟨t, ht, List.mem_cons_self _ _⟩

theorem filter_id_ne_eq_self (l : List Task) (id : String) (hl : ∀ t ∈ l, t.id ≠ id) :
    l.filter (fun t => t.id != id) = l := by
  rw [List.filter_eq_self]
  intro t ht
  simpa using hl t ht

namespace TodoApp

/-- C6: in a store whose entity ids are pairwise distinct, a confirmed
`deleteTask(id)` of a task of the store yields exactly the prior sequence
without that task (the tasks before it and after it are kept, unchanged and in
order); no remaining task has that id, and no entity of the remaining tree has
the id of the deleted task, of one of its subtasks or of one of their
sub-subtasks. -/
theorem deleteTask_removes_subtree (h : Host) (now : Int) (id : String) (app : TodoApp)
    (task : Task) (hids : (allIds app.tasks).Nodup) (hmem : task ∈ app.tasks)
    (hid : task.id = id) :
    ∃ pre post,
      app.tasks = pre ++ task :: post ∧
      (deleteTask h now true id app).tasks = pre ++ post ∧
      (∀ t ∈ (deleteTask h now true id app).tasks, t.id ≠ id) ∧
      (∀ x ∈ allIds (deleteTask h now true id app).tasks, x ∉ allIds [task]) := by
  obtain ⟨pre, post, hsplit⟩ := List.append_of_mem hmem
  have hnd : (allIds pre ++ (allIds [task] ++ allIds post)).Nodup := by
    have := hids
    rw [hsplit, allIds_append, show task :: post = [task] ++ post from rfl, allIds_append] at this
    exact this
  have hself : id ∈ allIds [task] := by
    rw [← hid]
    exact id_mem_allIds [task] task (List.mem_singleton.mpr rfl)
  have hpre : ∀ x ∈ allIds pre, x ∉ allIds [task] := by
    intro x hx hx2
    exact (List.nodup_append.mp hnd).2.2 hx (List.mem_append_left _ hx2)
  have hpost : ∀ x ∈ allIds post, x ∉ allIds [task] := by
    intro x hx hx2
    exact (List.nodup_append.mp (List.nodup_append.mp hnd).2.1).2.2 hx2 hx
  have hpre_id : ∀ t ∈ pre, t.id ≠ id := by
    intro t ht heq
    exact hpre t.id (id_mem_allIds pre t ht) (heq ▸ hself)
  have hpost_id : ∀ t ∈ post, t.id ≠ id := by
    intro t ht heq
    exact hpost t.id (id_mem_allIds post t ht) (heq ▸ hself)
  have hres : (deleteTask h now true id app).tasks = pre ++ post := by
    unfold deleteTask
    simp only [if_true]
    rw [renderAndStats_tasks]
    simp only
    rw [hsplit, List.filter_append, List.filter_cons, filter_id_ne_eq_self pre id hpre_id,
      filter_id_ne_eq_self post id hpost_id]
    simp [hid]
  refine ⟨pre, post, hsplit, hres, ?_, ?_⟩
  · rw [hres]
    intro t ht
    rcases List.mem_append.mp ht with ht | ht
    · exact hpre_id t ht
    · exact hpost_id t ht
  · rw [hres, allIds_append]
    intro x hx
    rcases List.mem_append.mp hx with hx | hx
    · exact hpre x hx
    · exact hpost x hx

/-- C6 on the sample tree: deleting `Write report`, whose subtree has five ids. -/
theorem deleteTask_removes_subtree_witness :
    (allIds treeApp.tasks).Nodup ∧ treeTask ∈ treeApp.tasks ∧
    allIds [treeTask] = ["t1", "s1", "u1", "u2", "s2"] ∧
    ∃ pre post,
      treeApp.tasks = pre ++ treeTask :: post ∧
      (deleteTask sampleHost 1704153600000 true "t1" treeApp).tasks = pre ++ post ∧
      (∀ t ∈ (deleteTask sampleHost 1704153600000 true "t1" treeApp).tasks, t.id ≠ "t1") ∧
      (∀ x ∈ allIds (deleteTask sampleHost 1704153600000 true "t1" treeApp).tasks,
        x ∉ allIds [treeTask]) :=
  ⟨by decide, by decide, by decide,
    deleteTask_removes_subtree sampleHost 1704153600000 "t1" treeApp treeTask (by decide)
      (by decide) rfl⟩

end TodoApp

/-! ## The sort -/

theorem sortInsert_eq_orderedInsert {α : Type} (comparefn : α → α → JSNumber) (x : α)
    (l : List α) :
    sortInsert comparefn x l
      = List.orderedInsert (fun a b => sortCompare comparefn a b ≤ 0) x l := by
  induction l with
  | nil => rfl
  | cons y ys ih =>
    simp only [sortInsert, List.orderedInsert]
    rw [ih]

theorem arraySort_eq_insertionSort {α : Type} (comparefn : α → α → JSNumber) (l : List α) :
    arraySort comparefn l
      = List.insertionSort (fun a b => sortCompare comparefn a b ≤ 0) l := by
  induction l with
  | nil => rfl
  | cons x xs ih =>
    simp only [arraySort, List.insertionSort]
    rw [ih, sortInsert_eq_orderedInsert]

theorem mem_sortInsert {α : Type} (comparefn : α → α → JSNumber) (x y : α) (l : List α) :
    y ∈ sortInsert comparefn x l ↔ y = x ∨ y ∈ l := by
  rw [sortInsert_eq_orderedInsert]
  exact List.mem_orderedInsert _

/-! ## TimSort leaves neighbours that are locally ordered -/

theorem locallyOrdered_of_orderLt {α : Type} (c : α → α → JSNumber) (x y : α)
    (h : orderLt c x y = true) : LocallyOrdered c x y := by
  simp only [orderLt, decide_eq_true_eq] at h
  exact Or.inl (le_of_lt h)

theorem locallyOrdered_of_not_orderLt {α : Type} (c : α → α → JSNumber) (x y : α)
    (h : orderLt c x y = false) : LocallyOrdered c y x := by
  simp only [orderLt, decide_eq_false_iff_not, not_lt] at h
  exact Or.inr h

theorem binarySearch_spec (p : Nat → Bool) : ∀ fuel lo hi, lo ≤ hi → hi - lo ≤ fuel →
    lo ≤ binarySearch p fuel lo hi ∧ binarySearch p fuel lo hi ≤ hi ∧
    (binarySearch p fuel lo hi = lo ∨ p (binarySearch p fuel lo hi - 1) = false) ∧
    (binarySearch p fuel lo hi = hi ∨ p (binarySearch p fuel lo hi) = true) := by
  intro fuel
  induction fuel with
  | zero =>
    intro lo hi h1 h2
    have : lo = hi := by omega
    subst this
    simp [binarySearch]
  | succ fuel ih =>
    intro lo hi h1 h2
    simp only [binarySearch]
    split_ifs with hlt hp
    · have hm1 : lo ≤ lo + (hi - lo) / 2 := by omega
      have hm2 : lo + (hi - lo) / 2 < hi := by omega
      obtain ⟨i1, i2, i3, i4⟩ := ih lo (lo + (hi - lo) / 2) hm1 (by omega)
      refine ⟨i1, by omega, i3, ?_⟩
      rcases i4 with i4 | i4
      · right; rw [i4]; exact hp
      · right; exact i4
    · have hm1 : lo ≤ lo + (hi - lo) / 2 := by omega
      have hm2 : lo + (hi - lo) / 2 < hi := by omega
      obtain ⟨i1, i2, i3, i4⟩ := ih (lo + (hi - lo) / 2 + 1) hi (by omega) (by omega)
      refine ⟨by omega, i2, ?_, i4⟩
      rcases i3 with i3 | i3
      · right; rw [i3]; simpa using hp
      · right; exact i3
    · have : lo = hi := by omega
      subst this
      simp

theorem gallopLoop_spec (stop : Nat → Bool) (maxOfs : Nat) : ∀ fuel lastOfs offset,
    maxOfs ≤ fuel + offset → lastOfs < offset → lastOfs < maxOfs →
    (lastOfs = 0 ∨ stop lastOfs = false) →
    (gallopLoop stop maxOfs fuel lastOfs offset).1 < (gallopLoop stop maxOfs fuel lastOfs offset).2 ∧
    (gallopLoop stop maxOfs fuel lastOfs offset).1 < maxOfs ∧
    ((gallopLoop stop maxOfs fuel lastOfs offset).1 = 0 ∨
      stop (gallopLoop stop maxOfs fuel lastOfs offset).1 = false) ∧
    (maxOfs ≤ (gallopLoop stop maxOfs fuel lastOfs offset).2 ∨
      ((gallopLoop stop maxOfs fuel lastOfs offset).2 < maxOfs ∧
        stop (gallopLoop stop maxOfs fuel lastOfs offset).2 = true)) := by
  intro fuel
  induction fuel with
  | zero =>
    intro lastOfs offset h1 h2 h3 h4
    simp only [gallopLoop]
    exact ⟨h2, h3, h4, Or.inl (by omega)⟩
  | succ fuel ih =>
    intro lastOfs offset h1 h2 h3 h4
    simp only [gallopLoop]
    split_ifs with hlt hs
    · exact ⟨h2, h3, h4, Or.inr ⟨hlt, hs⟩⟩
    · exact ih offset (2 * offset + 1) (by omega) (by omega) hlt (Or.inr (by simpa using hs))
    · exact ⟨h2, h3, h4, Or.inl (by omega)⟩

theorem gallop_spec (p : Nat → Bool) (length hint : Nat) (hh : hint < length) :
    gallop p length hint ≤ length ∧
    (gallop p length hint = 0 ∨ p (gallop p length hint - 1) = false) ∧
    (gallop p length hint = length ∨ p (gallop p length hint) = true) := by
  unfold gallop
  split_ifs with hp
  · obtain ⟨g1, g2, g3, g4⟩ := gallopLoop_spec (fun ofs => !p (hint - ofs)) (hint + 1)
      (hint + 1) 0 1 (by omega) (by omega) (by omega) (Or.inl rfl)
    simp only []
    generalize (gallopLoop (fun ofs => !p (hint - ofs)) (hint + 1) (hint + 1) 0 1) = r at *
    obtain ⟨b1, b2, b3, b4⟩ := binarySearch_spec p length (hint + 1 - min r.2 (hint + 1))
      (hint - r.1) (by omega) (by omega)
    generalize binarySearch p length (hint + 1 - min r.2 (hint + 1)) (hint - r.1) = k at *
    refine ⟨by omega, ?_, ?_⟩
    · rcases b3 with b3 | b3
      · rcases g4 with g4 | ⟨g4, g5⟩
        · left; omega
        · right
          have hk : k - 1 = hint - r.2 := by omega
          rw [hk]; simpa using g5
      · right; exact b3
    · rcases b4 with b4 | b4
      · right
        rcases g3 with g3 | g3
        · have hk : k = hint := by omega
          rw [hk]; exact hp
        · rw [b4]; simpa using g3
      · right; exact b4
  · have hp0 : p hint = false := by simpa using hp
    obtain ⟨g1, g2, g3, g4⟩ := gallopLoop_spec (fun ofs => p (hint + ofs)) (length - hint)
      (length - hint) 0 1 (by omega) (by omega) (by omega) (Or.inl rfl)
    simp only []
    generalize (gallopLoop (fun ofs => p (hint + ofs)) (length - hint) (length - hint) 0 1) = r at *
    obtain ⟨b1, b2, b3, b4⟩ := binarySearch_spec p length (r.1 + hint + 1)
      (min r.2 (length - hint) + hint) (by omega) (by omega)
    generalize binarySearch p length (r.1 + hint + 1) (min r.2 (length - hint) + hint) = k at *
    refine ⟨by omega, ?_, ?_⟩
    · rcases b3 with b3 | b3
      · right
        rcases g3 with g3 | g3
        · have hk : k - 1 = hint := by omega
          rw [hk]; exact hp0
        · have hk : k - 1 = hint + r.1 := by omega
          rw [hk]; exact g3
      · right; exact b3
    · rcases b4 with b4 | b4
      · rcases g4 with g4 | ⟨g4, g5⟩
        · left; omega
        · right
          have hk : k = hint + r.2 := by omega
          rw [hk]; exact g5
      · right; exact b4

theorem fits_of_search {α : Type} (c : α → α → JSNumber) (key : α) (l : List α)
    (test : α → Bool) (k : Nat)
    (hfalse : ∀ e, test e = false → LocallyOrdered c e key)
    (htrue : ∀ e, test e = true → LocallyOrdered c key e)
    (h1 : k ≤ l.length)
    (h2 : k = 0 ∨ probe l test (k - 1) = false)
    (h3 : k = l.length ∨ probe l test k = true) : Fits c key l k := by
  constructor
  · intro x hx
    rw [List.getLast?_take] at hx
    split_ifs at hx with hk
    · cases hx
    · have hlt : k - 1 < l.length := by omega
      rw [List.getElem?_eq_getElem hlt] at hx
      simp only [Option.or_some, Option.mem_def, Option.some.injEq] at hx
      rcases h2 with h2 | h2
      · exact absurd h2 hk
      · simp only [probe, List.getElem?_eq_getElem hlt] at h2
        rw [← hx]; exact hfalse _ h2
  · intro y hy
    rw [List.head?_drop] at hy
    rcases h3 with h3 | h3
    · rw [h3, List.getElem?_eq_none (le_refl _)] at hy
      cases hy
    · simp only [Option.mem_def] at hy
      simp only [probe, hy] at h3
      exact htrue _ h3

theorem gallopRight_fits {α : Type} (c : α → α → JSNumber) (l : List α) (key : α)
    (hint : Nat) (hh : hint < l.length) :
    gallopRight c l key hint ≤ l.length ∧ Fits c key l (gallopRight c l key hint) := by
  obtain ⟨g1, g2, g3⟩ := gallop_spec (probe l (fun e => orderLt c key e)) l.length hint hh
  refine ⟨g1, fits_of_search c key l _ _ ?_ ?_ g1 g2 g3⟩
  · intro e he; exact locallyOrdered_of_not_orderLt c key e he
  · intro e he; exact locallyOrdered_of_orderLt c key e he

theorem gallopLeft_fits {α : Type} (c : α → α → JSNumber) (l : List α) (key : α)
    (hint : Nat) (hh : hint < l.length) :
    gallopLeft c l key hint ≤ l.length ∧ Fits c key l (gallopLeft c l key hint) := by
  obtain ⟨g1, g2, g3⟩ := gallop_spec (probe l (fun e => !orderLt c e key)) l.length hint hh
  refine ⟨g1, fits_of_search c key l _ _ ?_ ?_ g1 g2 g3⟩
  · intro e he
    exact locallyOrdered_of_orderLt c e key (by simpa using he)
  · intro e he
    exact locallyOrdered_of_not_orderLt c e key (by simpa using he)

theorem binarySearch_fits {α : Type} (c : α → α → JSNumber) (l : List α) (pivot : α) :
    binarySearch (probe l (fun e => orderLt c pivot e)) l.length 0 l.length ≤ l.length ∧
    Fits c pivot l (binarySearch (probe l (fun e => orderLt c pivot e)) l.length 0 l.length) := by
  obtain ⟨b1, b2, b3, b4⟩ := binarySearch_spec (probe l (fun e => orderLt c pivot e))
    l.length 0 l.length (Nat.zero_le _) (by omega)
  refine ⟨b2, fits_of_search c pivot l _ _ ?_ ?_ b2 b3 b4⟩
  · intro e he; exact locallyOrdered_of_not_orderLt c pivot e he
  · intro e he; exact locallyOrdered_of_orderLt c pivot e he

/-- A key put where it fits keeps the segment a chain. -/
theorem chain_insert_fits {α : Type} (c : α → α → JSNumber) (key : α) (l : List α) (k : Nat)
    (hl : List.Chain' (LocallyOrdered c) l) (hf : Fits c key l k) :
    List.Chain' (LocallyOrdered c) (l.take k ++ key :: l.drop k) := by
  rw [List.chain'_split]
  constructor
  · rw [List.chain'_append]
    refine ⟨hl.take k, List.chain'_singleton _, ?_⟩
    intro x hx y hy
    simp only [List.head?_cons, Option.mem_def, Option.some.injEq] at hy
    rw [← hy]; exact hf.1 x hx
  · rw [List.chain'_cons']
    exact ⟨hf.2, hl.drop k⟩

theorem binaryInsertionSort_chain {α : Type} (c : α → α → JSNumber) :
    ∀ (rest sorted : List α), List.Chain' (LocallyOrdered c) sorted →
      List.Chain' (LocallyOrdered c) (binaryInsertionSort c sorted rest) := by
  intro rest
  induction rest with
  | nil => intro sorted h; simpa [binaryInsertionSort] using h
  | cons pivot rest ih =>
    intro sorted h
    simp only [binaryInsertionSort]
    exact ih _ (chain_insert_fits c pivot sorted _ h (binarySearch_fits c sorted pivot).2)

theorem binaryInsertionSort_perm {α : Type} (c : α → α → JSNumber) :
    ∀ (rest sorted : List α), (binaryInsertionSort c sorted rest).Perm (sorted ++ rest) := by
  intro rest
  induction rest with
  | nil => intro sorted; simp [binaryInsertionSort]
  | cons pivot rest ih =>
    intro sorted
    simp only [binaryInsertionSort]
    refine (ih _).trans ?_
    have h1 : (sorted.take (binarySearch (probe sorted (fun e => orderLt c pivot e))
        sorted.length 0 sorted.length) ++ pivot :: sorted.drop (binarySearch
        (probe sorted (fun e => orderLt c pivot e)) sorted.length 0 sorted.length)).Perm
        (pivot :: sorted) := by
      refine List.perm_middle.trans ?_
      rw [List.take_append_drop]
    refine (List.Perm.append_right rest h1).trans ?_
    simp only [List.cons_append]
    exact List.perm_middle.symm

/-- The run that `countRun` counts, in the descending case, read backwards. -/
theorem countRun_chain_desc {α : Type} (c : α → α → JSNumber) :
    ∀ (rest : List α) (previous : α),
      List.Chain' (flip (LocallyOrdered c)) (previous :: rest.take (countRun c true previous rest)) := by
  intro rest
  induction rest with
  | nil => intro previous; simp [countRun]
  | cons current rest ih =>
    intro previous
    simp only [countRun, if_true]
    split_ifs with hlt
    · rw [List.take_succ_cons, List.chain'_cons]
      exact ⟨locallyOrdered_of_orderLt c current previous hlt, ih current⟩
    · simp

theorem countRun_chain_asc {α : Type} (c : α → α → JSNumber) :
    ∀ (rest : List α) (previous : α),
      List.Chain' (LocallyOrdered c) (previous :: rest.take (countRun c false previous rest)) := by
  intro rest
  induction rest with
  | nil => intro previous; simp [countRun]
  | cons current rest ih =>
    intro previous
    simp only [countRun, Bool.false_eq_true, if_false]
    split_ifs with hlt
    · simp
    · rw [List.take_succ_cons, List.chain'_cons]
      exact ⟨locallyOrdered_of_not_orderLt c current previous (by simpa using hlt), ih current⟩

theorem countAndMakeRun_perm {α : Type} (c : α → α → JSNumber) (work : List α) :
    (countAndMakeRun c work).2.Perm work := by
  unfold countAndMakeRun
  split
  · exact List.Perm.refl _
  · exact List.Perm.refl _
  · simp only []
    split_ifs
    · refine (List.Perm.append_right _ (List.reverse_perm _)).trans ?_
      rw [List.take_append_drop]
    · exact List.Perm.refl _

theorem countAndMakeRun_length {α : Type} (c : α → α → JSNumber) (work : List α) :
    (countAndMakeRun c work).2.length = work.length :=
  (countAndMakeRun_perm c work).length_eq

theorem countAndMakeRun_pos {α : Type} (c : α → α → JSNumber) (work : List α)
    (h : work ≠ []) : 0 < (countAndMakeRun c work).1 := by
  unfold countAndMakeRun
  split
  · exact absurd rfl h
  · simp
  · simp only []
    split_ifs <;> simp

theorem countRun_le {α : Type} (c : α → α → JSNumber) (d : Bool) :
    ∀ (rest : List α) (previous : α), countRun c d previous rest ≤ rest.length := by
  intro rest
  induction rest with
  | nil => intro previous; simp [countRun]
  | cons current rest ih =>
    intro previous
    simp only [countRun, List.length_cons]
    have := ih current
    split_ifs <;> omega

theorem countAndMakeRun_le {α : Type} (c : α → α → JSNumber) (work : List α) :
    (countAndMakeRun c work).1 ≤ work.length := by
  unfold countAndMakeRun
  split
  · simp
  · simp
  · rename_i elementHigh elementLow rest
    simp only [List.length_cons]
    have := countRun_le c (orderLt c elementLow elementHigh) rest elementLow
    split_ifs <;> simp only [] <;> omega

theorem countAndMakeRun_chain {α : Type} (c : α → α → JSNumber) (work : List α) :
    List.Chain' (LocallyOrdered c) ((countAndMakeRun c work).2.take (countAndMakeRun c work).1) := by
  unfold countAndMakeRun
  split
  · simp
  · simp
  · rename_i elementHigh elementLow rest
    simp only []
    split_ifs with hd
    · have hle := countRun_le c true rest elementLow
      have hd1 := hd
      rw [hd]
      have hlen : (List.take (countRun c true elementLow rest + 2)
          (elementHigh :: elementLow :: rest)).reverse.length
          = countRun c true elementLow rest + 2 := by
        simp only [List.length_reverse, List.length_take, List.length_cons]
        omega
      rw [List.take_append_eq_append_take, hlen, Nat.sub_self, List.take_zero,
        List.append_nil, List.take_of_length_le (le_of_eq hlen), List.chain'_reverse,
        List.take_succ_cons, List.take_succ_cons, List.chain'_cons]
      exact ⟨locallyOrdered_of_orderLt c elementLow elementHigh hd1,
        countRun_chain_desc c rest elementLow⟩
    · rw [List.take_succ_cons, List.take_succ_cons, List.chain'_cons]
      have hd0 : orderLt c elementLow elementHigh = false := by simpa using hd
      rw [hd0]
      exact ⟨locallyOrdered_of_not_orderLt c elementLow elementHigh hd0,
        countRun_chain_asc c rest elementLow⟩

theorem getLastOpt_of_final {α : Type} {l1 l : List α} (h : l1 <:+ l) (hne : l1 ≠ []) :
    l1.getLast? = l.getLast? := by
  obtain ⟨t, rfl⟩ := h
  rw [List.getLast?_append]
  cases hl : l1.getLast? with
  | none => exact absurd (List.getLast?_eq_none_iff.mp hl) hne
  | some x => rfl

theorem headOpt_of_initial {α : Type} {l1 l : List α} (h : l1 <+: l) (hne : l1 ≠ []) :
    l1.head? = l.head? := by
  obtain ⟨t, rfl⟩ := h
  cases l1 with
  | nil => exact absurd rfl hne
  | cons x xs => rfl

theorem headOpt_eq_getLastOpt_of_length_one {α : Type} {l : List α} (h : l.length = 1) :
    l.head? = l.getLast? := by
  match l, h with
  | [x], _ => rfl

/-- Writing the front `a.take k` of a run and then `key`, after `e`. -/
theorem chain_emit {α : Type} {R : α → α → Prop} (e key : α) (a rest : List α) (k : Nat)
    (ha : List.Chain' R (e :: a)) (h0 : a.take k = [] → R e key)
    (hfit : ∀ x ∈ (a.take k).getLast?, R x key)
    (hrest : List.Chain' R (key :: rest)) :
    List.Chain' R (e :: (a.take k ++ key :: rest)) := by
  rw [← List.cons_append, List.chain'_split]
  refine ⟨?_, hrest⟩
  rw [List.chain'_append]
  refine ⟨?_, List.chain'_singleton _, ?_⟩
  · have := ha.take (k + 1)
    rwa [List.take_succ_cons] at this
  · intro x hx y hy
    simp only [List.head?_cons, Option.mem_def, Option.some.injEq] at hy
    subst hy
    rw [List.getLast?_cons] at hx
    cases hl : (a.take k).getLast? with
    | none =>
      rw [hl] at hx
      simp only [Option.getD_none, Option.mem_def, Option.some.injEq] at hx
      subst hx
      exact h0 (List.getLast?_eq_none_iff.mp hl)
    | some z =>
      rw [hl] at hx
      simp only [Option.getD_some, Option.mem_def, Option.some.injEq] at hx
      subst hx
      exact hfit _ hl

/-- The rest `a.drop k` of a run after `key`. -/
theorem chain_cons_drop {α : Type} {R : α → α → Prop} (key : α) (a post : List α) (k : Nat)
    (ha : List.Chain' R (a ++ post)) (hfit : ∀ y ∈ (a.drop k).head?, R key y)
    (hne : a.drop k ≠ []) : List.Chain' R (key :: (a.drop k ++ post)) := by
  rw [List.chain'_cons']
  constructor
  · intro y hy
    apply hfit
    cases hd : a.drop k with
    | nil => exact absurd hd hne
    | cons z zs => rw [hd] at hy; exact hy
  · have h : a ++ post = a.take k ++ (a.drop k ++ post) := by
      rw [← List.append_assoc, List.take_append_drop]
    rw [h] at ha
    exact ha.right_of_append

/-- What is left of one run, then what is left of the other. -/
theorem chain_copy {α : Type} {R : α → α → Prop} (e : α) (b a post : List α)
    (hb : List.Chain' R (e :: b)) (ha : List.Chain' R (a ++ post))
    (hj : ∀ x ∈ (e :: b).getLast?, ∀ y ∈ a.head?, R x y) (ha0 : a ≠ []) :
    List.Chain' R (e :: (b ++ (a ++ post))) := by
  rw [← List.cons_append, List.chain'_append]
  refine ⟨hb, ha, ?_⟩
  intro x hx y hy
  apply hj x hx
  cases a with
  | nil => exact absurd rfl ha0
  | cons z zs => exact hy

theorem chain_cons_of_append {α : Type} {R : α → α → Prop} {e : α} {a post : List α}
    (h : List.Chain' R (e :: (a ++ post))) : List.Chain' R (e :: a) := by
  rw [← List.cons_append] at h
  exact h.left_of_append

theorem chain_drop_append {α : Type} {R : α → α → Prop} {a post : List α} (k : Nat)
    (h : List.Chain' R (a ++ post)) : List.Chain' R (a.drop k ++ post) := by
  have h1 : a ++ post = a.take k ++ (a.drop k ++ post) := by
    rw [← List.append_assoc, List.take_append_drop]
  rw [h1] at h
  exact h.right_of_append

theorem mergeLowLoop_chain {α : Type} (c : α → α → JSNumber) :
    ∀ (fuel : Nat) (galloping : Bool) (mg wa wb : Nat) (a b post : List α) (e : α),
      a.length + b.length ≤ fuel → 1 < a.length → 0 < b.length →
      List.Chain' (LocallyOrdered c) (e :: (a ++ post)) →
      List.Chain' (LocallyOrdered c) (e :: (b ++ post)) →
      (∀ x ∈ b.getLast?, ∀ y ∈ a.getLast?, LocallyOrdered c x y) →
      List.Chain' (LocallyOrdered c)
        (e :: ((mergeLowLoop c fuel galloping mg wa wb a b).1 ++ post)) := by
  intro fuel
  induction fuel with
  | zero =>
    intro galloping mg wa wb a b post e hf ha hb
    omega
  | succ fuel ih =>
    intro galloping mg wa wb a b post e hf hla hlb hA hB hS
    cases galloping with
    | false =>
      match a, b, hla, hlb with
      | ea :: a1, eb :: b1, hla, hlb =>
        simp only [List.length_cons] at hf hla
        simp only [mergeLowLoop]
        have hA1 : List.Chain' (LocallyOrdered c) (ea :: (a1 ++ post)) := by
          rw [List.cons_append] at hA; exact hA.tail
        have hB1 : List.Chain' (LocallyOrdered c) (eb :: (b1 ++ post)) := by
          rw [List.cons_append] at hB; exact hB.tail
        have hea : LocallyOrdered c e ea := by
          rw [List.cons_append, List.chain'_cons] at hA; exact hA.1
        have heb : LocallyOrdered c e eb := by
          rw [List.cons_append, List.chain'_cons] at hB; exact hB.1
        split_ifs with hlt hb0 hg ha1 hg
        · -- Succeed
          simp only [List.cons_append]
          rw [List.chain'_cons, List.chain'_cons]
          exact ⟨heb, locallyOrdered_of_orderLt c eb ea hlt, hA1⟩
        · have hS1 : ∀ x ∈ b1.getLast?, ∀ y ∈ (ea :: a1).getLast?, LocallyOrdered c x y := by
            intro x hx y hy
            refine hS x ?_ y hy
            rwa [← getLastOpt_of_final (List.suffix_cons eb b1)
              (by intro h; rw [h] at hb0; exact hb0 rfl)]
          have := ih true (mg + 1) 0 (wb + 1) (ea :: a1) b1 post eb
            (by simp only [List.length_cons]; omega) (by simp only [List.length_cons]; omega)
            (by omega)
            (by rw [List.cons_append, List.chain'_cons]
                exact ⟨locallyOrdered_of_orderLt c eb ea hlt, hA1⟩) hB1 hS1
          simp only [List.cons_append]
          rw [List.chain'_cons]
          exact ⟨heb, this⟩
        · have hS1 : ∀ x ∈ b1.getLast?, ∀ y ∈ (ea :: a1).getLast?, LocallyOrdered c x y := by
            intro x hx y hy
            refine hS x ?_ y hy
            rwa [← getLastOpt_of_final (List.suffix_cons eb b1)
              (by intro h; rw [h] at hb0; exact hb0 rfl)]
          have := ih false mg 0 (wb + 1) (ea :: a1) b1 post eb
            (by simp only [List.length_cons]; omega) (by simp only [List.length_cons]; omega)
            (by omega)
            (by rw [List.cons_append, List.chain'_cons]
                exact ⟨locallyOrdered_of_orderLt c eb ea hlt, hA1⟩) hB1 hS1
          simp only [List.cons_append]
          rw [List.chain'_cons]
          exact ⟨heb, this⟩
        · -- CopyB
          have hlt0 : orderLt c eb ea = false := by simpa using hlt
          simp only [List.cons_append]
          rw [List.chain'_cons, List.append_assoc]
          refine ⟨hea, ?_⟩
          have hne : a1 ≠ [] := by intro h; rw [h] at ha1; simp at ha1
          have := chain_copy ea (eb :: b1) a1 post
            (by rw [List.chain'_cons]
                exact ⟨locallyOrdered_of_not_orderLt c eb ea hlt0, chain_cons_of_append hB1⟩)
            hA1.tail
            (by intro x hx y hy
                rw [List.getLast?_cons_cons] at hx
                refine hS x hx y ?_
                rw [← getLastOpt_of_final (List.suffix_cons ea a1) hne,
                  ← headOpt_eq_getLastOpt_of_length_one ha1]
                exact hy)
            hne
          simpa using this
        · have hlt0 : orderLt c eb ea = false := by simpa using hlt
          have hne : a1 ≠ [] := by intro h; rw [h] at hla; simp at hla
          have hS1 : ∀ x ∈ (eb :: b1).getLast?, ∀ y ∈ a1.getLast?, LocallyOrdered c x y := by
            intro x hx y hy
            refine hS x hx y ?_
            rwa [← getLastOpt_of_final (List.suffix_cons ea a1) hne]
          have := ih true (mg + 1) (wa + 1) 0 a1 (eb :: b1) post ea
            (by simp only [List.length_cons] at *; omega) (by omega)
            (by simp only [List.length_cons]; omega)
            hA1
            (by rw [List.cons_append, List.chain'_cons]
                exact ⟨locallyOrdered_of_not_orderLt c eb ea hlt0, hB1⟩) hS1
          simp only [List.cons_append]
          rw [List.chain'_cons]
          exact ⟨hea, this⟩
        · have hlt0 : orderLt c eb ea = false := by simpa using hlt
          have hne : a1 ≠ [] := by intro h; rw [h] at hla; simp at hla
          have hS1 : ∀ x ∈ (eb :: b1).getLast?, ∀ y ∈ a1.getLast?, LocallyOrdered c x y := by
            intro x hx y hy
            refine hS x hx y ?_
            rwa [← getLastOpt_of_final (List.suffix_cons ea a1) hne]
          have := ih false mg (wa + 1) 0 a1 (eb :: b1) post ea
            (by simp only [List.length_cons] at *; omega) (by omega)
            (by simp only [List.length_cons]; omega)
            hA1
            (by rw [List.cons_append, List.chain'_cons]
                exact ⟨locallyOrdered_of_not_orderLt c eb ea hlt0, hB1⟩) hS1
          simp only [List.cons_append]
          rw [List.chain'_cons]
          exact ⟨hea, this⟩
    | true =>
      match b, hlb with
      | eb :: b1, hlb =>
        simp only [mergeLowLoop]
        obtain ⟨hk, hfitA⟩ := gallopRight_fits c a eb 0 (by omega)
        generalize gallopRight c a eb 0 = k at *
        have hB1 : List.Chain' (LocallyOrdered c) (eb :: (b1 ++ post)) := by
          rw [List.cons_append] at hB; exact hB.tail
        have heb : LocallyOrdered c e eb := by
          rw [List.cons_append, List.chain'_cons] at hB; exact hB.1
        have hAt : List.Chain' (LocallyOrdered c) (a ++ post) := hA.tail
        have hlenA := List.length_drop k a
        split_ifs with h1 h2 h3
        · -- CopyB
          have hne : a.drop k ≠ [] := by
            intro h; rw [h] at h1; simp at h1
          simp only [List.append_assoc, List.cons_append]
          refine chain_emit e eb a _ k (chain_cons_of_append hA) (fun _ => heb) hfitA.1 ?_
          refine chain_copy eb b1 (a.drop k) post (chain_cons_of_append hB1)
            (chain_drop_append k hAt) ?_ hne
          intro x hx y hy
          refine hS x hx y ?_
          rw [← getLastOpt_of_final (List.drop_suffix k a) hne,
            ← headOpt_eq_getLastOpt_of_length_one h1.2]
          exact hy
        · -- Succeed, run A used up
          simp only [List.append_assoc, List.cons_append]
          exact chain_emit e eb a _ k (chain_cons_of_append hA) (fun _ => heb) hfitA.1 hB1
        · -- Succeed, run B used up
          have hne : a.drop k ≠ [] := by
            intro h
            have h0 : (a.drop k).length = 0 := by rw [h]; rfl
            have hk0 : ¬ 0 < k := fun hk0 => h2 ⟨hk0, h0⟩
            omega
          simp only [List.append_assoc, List.cons_append]
          exact chain_emit e eb a _ k (chain_cons_of_append hA) (fun _ => heb) hfitA.1
            (chain_cons_drop eb a post k hAt hfitA.2 hne)
        · have hne : a.drop k ≠ [] := by
            intro h
            have h0 : (a.drop k).length = 0 := by rw [h]; rfl
            have hk0 : ¬ 0 < k := fun hk0 => h2 ⟨hk0, h0⟩
            omega
          split
          · rename_i heq
            exact absurd heq hne
          · rename_i ea a2 heq
            have hb1 : 0 < b1.length := Nat.pos_of_ne_zero h3
            obtain ⟨hm, hfitB⟩ := gallopLeft_fits c b1 ea 0 hb1
            generalize gallopLeft c b1 ea 0 = m at *
            have hlenB := List.length_drop m b1
            have hlenA2 : a.length - k = a2.length + 1 := by
              rw [← hlenA, heq]; rfl
            have hA2 : List.Chain' (LocallyOrdered c) (ea :: (a2 ++ post)) := by
              have := chain_drop_append k hAt
              rwa [heq] at this
            have hebea : LocallyOrdered c eb ea := by
              apply hfitA.2
              rw [heq]; rfl
            have hsufA : a2 <:+ a :=
              (List.suffix_cons ea a2).trans (heq ▸ List.drop_suffix k a)
            split_ifs with h4 h5 h6
            · -- Succeed, run B used up
              simp only [List.append_assoc, List.cons_append]
              refine chain_emit e eb a _ k (chain_cons_of_append hA) (fun _ => heb) hfitA.1 ?_
              rw [heq, List.cons_append]
              exact chain_emit eb ea b1 _ m (chain_cons_of_append hB1) (fun _ => hebea)
                hfitB.1 hA2
            · -- CopyB
              have hneB : b1.drop m ≠ [] := by
                intro h
                have h0 : (b1.drop m).length = 0 := by rw [h]; rfl
                have hm0 : ¬ 0 < m := fun hm0 => h4 ⟨hm0, h0⟩
                omega
              have hneA2 : a2 ≠ [] := by
                intro h; rw [h] at h5; simp at h5
              simp only [List.append_assoc, List.cons_append]
              refine chain_emit e eb a _ k (chain_cons_of_append hA) (fun _ => heb) hfitA.1 ?_
              refine chain_emit eb ea b1 _ m (chain_cons_of_append hB1) (fun _ => hebea)
                hfitB.1 ?_
              refine chain_copy ea (b1.drop m) a2 post
                (chain_cons_of_append (chain_cons_drop ea b1 post m hB1.tail hfitB.2 hneB))
                hA2.tail ?_ hneA2
              intro x hx y hy
              rw [← getLastOpt_of_final (List.suffix_cons ea (b1.drop m)) hneB,
                getLastOpt_of_final (List.drop_suffix m b1) hneB,
                getLastOpt_of_final (List.suffix_cons eb b1) (by
                  intro h; rw [h] at hb1; simp at hb1)] at hx
              refine hS x hx y ?_
              rw [← getLastOpt_of_final hsufA hneA2, ← headOpt_eq_getLastOpt_of_length_one h5]
              exact hy
            · have hneB : b1.drop m ≠ [] := by
                intro h
                have h0 : (b1.drop m).length = 0 := by rw [h]; rfl
                have hm0 : ¬ 0 < m := fun hm0 => h4 ⟨hm0, h0⟩
                omega
              have hlenB0 : 0 < (b1.drop m).length := List.length_pos.mpr hneB
              have hlenA1 : 1 < a2.length := by
                by_cases hk0 : 0 < k
                · have : ¬ (a.drop k).length = 1 := fun h => h1 ⟨hk0, h⟩
                  omega
                · omega
              have hneA2 : a2 ≠ [] := by
                intro h; rw [h] at hlenA1; simp at hlenA1
              simp only [List.append_assoc, List.cons_append]
              refine chain_emit e eb a _ k (chain_cons_of_append hA) (fun _ => heb) hfitA.1 ?_
              refine chain_emit eb ea b1 _ m (chain_cons_of_append hB1) (fun _ => hebea)
                hfitB.1 ?_
              refine ih true _ _ _ a2 (b1.drop m) post ea
                (by simp only [List.length_cons] at hf; omega) hlenA1 hlenB0 hA2
                (chain_cons_drop ea b1 post m hB1.tail hfitB.2 hneB) ?_
              intro x hx y hy
              rw [getLastOpt_of_final (List.drop_suffix m b1) hneB,
                getLastOpt_of_final (List.suffix_cons eb b1) (by
                  intro h; rw [h] at hb1; simp at hb1)] at hx
              refine hS x hx y ?_
              rw [← getLastOpt_of_final hsufA hneA2]
              exact hy
            · have hneB : b1.drop m ≠ [] := by
                intro h
                have h0 : (b1.drop m).length = 0 := by rw [h]; rfl
                have hm0 : ¬ 0 < m := fun hm0 => h4 ⟨hm0, h0⟩
                omega
              have hlenB0 : 0 < (b1.drop m).length := List.length_pos.mpr hneB
              have hlenA1 : 1 < a2.length := by
                by_cases hk0 : 0 < k
                · have : ¬ (a.drop k).length = 1 := fun h => h1 ⟨hk0, h⟩
                  omega
                · omega
              have hneA2 : a2 ≠ [] := by
                intro h; rw [h] at hlenA1; simp at hlenA1
              simp only [List.append_assoc, List.cons_append]
              refine chain_emit e eb a _ k (chain_cons_of_append hA) (fun _ => heb) hfitA.1 ?_
              refine chain_emit eb ea b1 _ m (chain_cons_of_append hB1) (fun _ => hebea)
                hfitB.1 ?_
              refine ih false _ _ _ a2 (b1.drop m) post ea
                (by simp only [List.length_cons] at hf; omega) hlenA1 hlenB0 hA2
                (chain_cons_drop ea b1 post m hB1.tail hfitB.2 hneB) ?_
              intro x hx y hy
              rw [getLastOpt_of_final (List.drop_suffix m b1) hneB,
                getLastOpt_of_final (List.suffix_cons eb b1) (by
                  intro h; rw [h] at hb1; simp at hb1)] at hx
              refine hS x hx y ?_
              rw [← getLastOpt_of_final hsufA hneA2]
              exact hy

theorem mergeLow_chain {α : Type} (c : α → α → JSNumber) (mg : Nat) (a b pre post : List α)
    (hla : 0 < a.length) (hlb : 0 < b.length)
    (hA : List.Chain' (LocallyOrdered c) (pre ++ (a ++ post)))
    (hB : List.Chain' (LocallyOrdered c) (pre ++ (b ++ post)))
    (hS1 : ∀ x ∈ b.head?, ∀ y ∈ a.head?, LocallyOrdered c x y)
    (hS2 : ∀ x ∈ b.getLast?, ∀ y ∈ a.getLast?, LocallyOrdered c x y) :
    List.Chain' (LocallyOrdered c) (pre ++ ((mergeLow c mg a b).1 ++ post)) := by
  match b, hlb with
  | eb :: b1, hlb =>
    have hneA : a ≠ [] := List.length_pos.mp hla
    have hpre : List.Chain' (LocallyOrdered c) (pre ++ [eb]) := by
      rw [List.cons_append, List.chain'_split] at hB
      exact hB.1
    have hB1 : List.Chain' (LocallyOrdered c) (eb :: (b1 ++ post)) := by
      rw [List.cons_append, List.chain'_split] at hB
      exact hB.2
    have hAt : List.Chain' (LocallyOrdered c) (a ++ post) := hA.right_of_append
    have hA1 : List.Chain' (LocallyOrdered c) (eb :: (a ++ post)) := by
      rw [List.chain'_cons']
      refine ⟨?_, hAt⟩
      intro y hy
      rw [List.head?_append_of_ne_nil _ hneA] at hy
      exact hS1 eb rfl y hy
    simp only [mergeLow]
    split_ifs with h1 h2
    · simp only [List.cons_append]
      rw [List.chain'_split]
      exact ⟨hpre, hA1⟩
    · simp only [List.cons_append, List.append_assoc]
      rw [List.chain'_split]
      refine ⟨hpre, chain_copy eb b1 a post (chain_cons_of_append hB1) hAt ?_ hneA⟩
      intro x hx y hy
      refine hS2 x hx y ?_
      rw [← headOpt_eq_getLastOpt_of_length_one h2]
      exact hy
    · have hne1 : b1 ≠ [] := by
        intro h; rw [h] at h1; exact h1 rfl
      simp only [List.cons_append]
      rw [List.chain'_split]
      refine ⟨hpre, mergeLowLoop_chain c _ false mg 0 0 a b1 post eb (le_refl _) (by omega)
        (Nat.pos_of_ne_zero h1) hA1 hB1 ?_⟩
      intro x hx y hy
      refine hS2 x ?_ y hy
      rwa [← getLastOpt_of_final (List.suffix_cons eb b1) hne1]

/-- Writing, from the right, the end `a.drop k` of a run and then `key` in
front of it, before `e`. -/
theorem chain_emit_back {α : Type} {R : α → α → Prop} (e key : α) (a rest : List α) (k : Nat)
    (ha : List.Chain' R (a ++ [e])) (h0 : a.drop k = [] → R key e)
    (hfit : ∀ y ∈ (a.drop k).head?, R key y)
    (hrest : List.Chain' R (rest ++ [key])) :
    List.Chain' R (rest ++ key :: (a.drop k ++ [e])) := by
  rw [List.chain'_split]
  refine ⟨hrest, ?_⟩
  rw [List.chain'_cons']
  constructor
  · intro y hy
    cases hd : a.drop k with
    | nil =>
      rw [hd] at hy
      simp only [List.nil_append, List.head?_cons, Option.mem_def, Option.some.injEq] at hy
      subst hy
      exact h0 hd
    | cons z zs =>
      rw [hd] at hy
      apply hfit
      rw [hd]
      exact hy
  · have h : a ++ [e] = a.take k ++ (a.drop k ++ [e]) := by
      rw [← List.append_assoc, List.take_append_drop]
    rw [h] at ha
    exact ha.right_of_append

/-- The front `a.take k` of a run before `key`. -/
theorem chain_take_snoc {α : Type} {R : α → α → Prop} (key : α) (a pre : List α) (k : Nat)
    (ha : List.Chain' R (pre ++ a)) (hfit : ∀ x ∈ (a.take k).getLast?, R x key)
    (hne : a.take k ≠ []) : List.Chain' R (pre ++ (a.take k ++ [key])) := by
  rw [← List.append_assoc, List.chain'_append]
  refine ⟨?_, List.chain'_singleton _, ?_⟩
  · have h : pre ++ a = (pre ++ a.take k) ++ a.drop k := by
      rw [List.append_assoc, List.take_append_drop]
    rw [h] at ha
    exact ha.left_of_append
  · intro x hx y hy
    simp only [List.head?_cons, Option.mem_def, Option.some.injEq] at hy
    subst hy
    apply hfit
    rwa [getLastOpt_of_final (List.suffix_append pre (a.take k)) hne]

/-- What is left of one run, then what is left of the other, from the right. -/
theorem chain_copy_back {α : Type} {R : α → α → Prop} (e : α) (b a pre : List α)
    (hb : List.Chain' R (pre ++ b)) (ha : List.Chain' R (a ++ [e]))
    (hj : ∀ x ∈ b.getLast?, ∀ y ∈ (a ++ [e]).head?, R x y) (hb0 : b ≠ []) :
    List.Chain' R (pre ++ (b ++ (a ++ [e]))) := by
  rw [← List.append_assoc, List.chain'_append]
  refine ⟨hb, ha, ?_⟩
  intro x hx y hy
  refine hj x ?_ y hy
  rwa [getLastOpt_of_final (List.suffix_append pre b) hb0]

theorem chain_take_append {α : Type} {R : α → α → Prop} {a pre : List α} (k : Nat)
    (h : List.Chain' R (pre ++ a)) : List.Chain' R (pre ++ a.take k) := by
  have h1 : pre ++ a = (pre ++ a.take k) ++ a.drop k := by
    rw [List.append_assoc, List.take_append_drop]
  rw [h1] at h
  exact h.left_of_append

theorem exists_concat_of_ne_nil {α : Type} {l : List α} (h : l ≠ []) :
    ∃ l1 x, l = l1 ++ [x] :=
  ⟨l.dropLast, l.getLast h, (List.dropLast_append_getLast h).symm⟩

theorem chain_snoc_snoc {α : Type} {R : α → α → Prop} (pre X : List α) (x e : α)
    (h : List.Chain' R (pre ++ (X ++ [x]))) (hr : R x e) :
    List.Chain' R (pre ++ ((X ++ [x]) ++ [e])) := by
  rw [List.append_assoc, ← List.append_assoc, List.singleton_append, List.chain'_split,
    List.append_assoc]
  exact ⟨h, List.chain'_pair.mpr hr⟩

theorem chain_of_snoc_snoc {α : Type} {R : α → α → Prop} {pre X : List α} {x e : α}
    (h : List.Chain' R (pre ++ ((X ++ [x]) ++ [e]))) :
    List.Chain' R (pre ++ (X ++ [x])) ∧ R x e := by
  rw [List.append_assoc, ← List.append_assoc, List.singleton_append, List.chain'_split,
    List.append_assoc] at h
  exact ⟨h.1, List.chain'_pair.mp h.2⟩

theorem chain_left {α : Type} {R : α → α → Prop} {pre X Y : List α}
    (h : List.Chain' R (pre ++ (X ++ Y))) : List.Chain' R (pre ++ X) := by
  rw [← List.append_assoc] at h
  exact h.left_of_append

theorem mergeHighLoop_chain {α : Type} (c : α → α → JSNumber) :
    ∀ (fuel : Nat) (galloping : Bool) (mg wa wb : Nat) (a b pre : List α) (e : α),
      a.length + b.length ≤ fuel → 0 < a.length → 1 < b.length →
      List.Chain' (LocallyOrdered c) (pre ++ (a ++ [e])) →
      List.Chain' (LocallyOrdered c) (pre ++ (b ++ [e])) →
      (∀ x ∈ b.head?, ∀ y ∈ a.head?, LocallyOrdered c x y) →
      List.Chain' (LocallyOrdered c)
        (pre ++ ((mergeHighLoop c fuel galloping mg wa wb a b).1 ++ [e])) := by
  intro fuel
  induction fuel with
  | zero =>
    intro galloping mg wa wb a b pre e hf ha hb
    omega
  | succ fuel ih =>
    intro galloping mg wa wb a b pre e hf hla hlb hA hB hS
    have hneA : a ≠ [] := List.length_pos.mp hla
    have hneB : b ≠ [] := by
      intro h; rw [h] at hlb; simp at hlb
    obtain ⟨b1, eb, rfl⟩ := exists_concat_of_ne_nil hneB
    simp only [List.length_append, List.length_singleton] at hf hlb
    have hlb1 : 0 < b1.length := by omega
    have hneB1 : b1 ≠ [] := List.length_pos.mp hlb1
    obtain ⟨hBp, hebe⟩ := chain_of_snoc_snoc hB
    cases galloping with
    | false =>
      obtain ⟨a1, ea, rfl⟩ := exists_concat_of_ne_nil hneA
      simp only [List.length_append, List.length_singleton] at hf hla
      obtain ⟨hAp, heae⟩ := chain_of_snoc_snoc hA
      simp only [mergeHighLoop, List.getLast?_concat, List.dropLast_concat]
      split_ifs with hlt ha0 hg hb1 hg
      · -- Succeed
        refine chain_snoc_snoc pre (b1 ++ [eb]) ea e ?_ heae
        exact chain_snoc_snoc pre b1 eb ea hBp (locallyOrdered_of_orderLt c eb ea hlt)
      · have hne1 : a1 ≠ [] := by
          intro h; rw [h] at ha0; exact ha0 rfl
        refine chain_snoc_snoc pre _ ea e ?_ heae
        refine ih true _ _ _ a1 (b1 ++ [eb]) pre ea
          (by simp only [List.length_append, List.length_singleton]; omega)
          (Nat.pos_of_ne_zero ha0)
          (by simp only [List.length_append, List.length_singleton]; omega)
          hAp (chain_snoc_snoc pre b1 eb ea hBp (locallyOrdered_of_orderLt c eb ea hlt)) ?_
        intro x hx y hy
        refine hS x hx y ?_
        rwa [← headOpt_of_initial (List.prefix_append a1 [ea]) hne1]
      · have hne1 : a1 ≠ [] := by
          intro h; rw [h] at ha0; exact ha0 rfl
        refine chain_snoc_snoc pre _ ea e ?_ heae
        refine ih false _ _ _ a1 (b1 ++ [eb]) pre ea
          (by simp only [List.length_append, List.length_singleton]; omega)
          (Nat.pos_of_ne_zero ha0)
          (by simp only [List.length_append, List.length_singleton]; omega)
          hAp (chain_snoc_snoc pre b1 eb ea hBp (locallyOrdered_of_orderLt c eb ea hlt)) ?_
        intro x hx y hy
        refine hS x hx y ?_
        rwa [← headOpt_of_initial (List.prefix_append a1 [ea]) hne1]
      · -- CopyA
        have hlt0 : orderLt c eb ea = false := by simpa using hlt
        have hj := locallyOrdered_of_not_orderLt c eb ea hlt0
        have s1 := chain_copy_back ea b1 a1 pre (chain_left hBp) hAp.right_of_append
          (by intro x hx y hy
              refine hS x ?_ y hy
              rw [← headOpt_of_initial (List.prefix_append b1 [eb]) hneB1,
                headOpt_eq_getLastOpt_of_length_one hb1]
              exact hx) hneB1
        have s2 := chain_snoc_snoc pre (b1 ++ a1) ea eb
          (by simpa only [List.append_assoc] using s1) hj
        have s3 := chain_snoc_snoc pre ((b1 ++ a1) ++ [ea]) eb e s2 hebe
        simpa only [List.append_assoc] using s3
      · have hlt0 : orderLt c eb ea = false := by simpa using hlt
        have hj := locallyOrdered_of_not_orderLt c eb ea hlt0
        refine chain_snoc_snoc pre _ eb e ?_ hebe
        refine ih true _ _ _ (a1 ++ [ea]) b1 pre eb
          (by simp only [List.length_append, List.length_singleton]; omega)
          (by simp only [List.length_append, List.length_singleton]; omega)
          (by omega)
          (chain_snoc_snoc pre a1 ea eb hAp hj) hBp ?_
        intro x hx y hy
        refine hS x ?_ y hy
        rwa [← headOpt_of_initial (List.prefix_append b1 [eb]) hneB1]
      · have hlt0 : orderLt c eb ea = false := by simpa using hlt
        have hj := locallyOrdered_of_not_orderLt c eb ea hlt0
        refine chain_snoc_snoc pre _ eb e ?_ hebe
        refine ih false _ _ _ (a1 ++ [ea]) b1 pre eb
          (by simp only [List.length_append, List.length_singleton]; omega)
          (by simp only [List.length_append, List.length_singleton]; omega)
          (by omega)
          (chain_snoc_snoc pre a1 ea eb hAp hj) hBp ?_
        intro x hx y hy
        refine hS x ?_ y hy
        rwa [← headOpt_of_initial (List.prefix_append b1 [eb]) hneB1]
    | true =>
      simp only [mergeHighLoop, List.getLast?_concat, List.dropLast_concat]
      obtain ⟨hk, hfitA⟩ := gallopRight_fits c a eb (a.length - 1) (by omega)
      generalize gallopRight c a eb (a.length - 1) = k at *
      have hAe : List.Chain' (LocallyOrdered c) (a ++ [e]) := hA.right_of_append
      have hBe : List.Chain' (LocallyOrdered c) (b1 ++ [eb]) := hBp.right_of_append
      have hlenT := List.length_take k a
      have hneT : 0 < a.length - k ∧ (List.take k a).length = 0 ∨ List.take k a ≠ [] := by
        by_cases hT : List.take k a = []
        · left
          rw [hT] at hlenT
          simp only [List.length_nil] at hlenT
          constructor
          · omega
          · rw [hT]; rfl
        · exact Or.inr hT
      by_cases h1 : 0 < a.length - k ∧ (List.take k a).length = 0
      · rw [if_pos h1]
        have key := chain_emit_back e eb a (pre ++ b1) k hAe (fun _ => hebe) hfitA.2
          (by simpa only [List.append_assoc] using hBp)
        simpa only [List.append_assoc, List.cons_append, List.singleton_append,
          List.nil_append] using key
      · rw [if_neg h1]
        have hneT : List.take k a ≠ [] := hneT.resolve_left h1
        have hheadT : (List.take k a).head? = a.head? :=
          headOpt_of_initial (List.take_prefix k a) hneT
        have hheadB : b1.head? = (b1 ++ [eb]).head? :=
          headOpt_of_initial (List.prefix_append b1 [eb]) hneB1
        by_cases h2 : b1.length = 1
        · rw [if_pos h2]
          -- CopyA
          have hTk : List.Chain' (LocallyOrdered c) (List.take k a ++ [eb]) := by
            have := chain_take_snoc eb a [] k (by simpa using hAe.left_of_append) hfitA.1 hneT
            simpa using this
          have hrest := chain_copy_back eb b1 (List.take k a) pre (chain_left hBp) hTk
            (by intro x hx y hy
                rw [List.head?_append_of_ne_nil _ hneT, hheadT] at hy
                refine hS x ?_ y hy
                rw [← hheadB, headOpt_eq_getLastOpt_of_length_one h2]
                exact hx) hneB1
          have key := chain_emit_back e eb a (pre ++ (b1 ++ List.take k a)) k hAe
            (fun _ => hebe) hfitA.2 (by simpa only [List.append_assoc] using hrest)
          simpa only [List.append_assoc, List.cons_append, List.singleton_append,
            List.nil_append] using key
        · rw [if_neg h2]
          split
          · rename_i heq
            exact absurd (List.getLast?_eq_none_iff.mp heq) hneT
          · rename_i ea heq
            obtain ⟨hj, hfitB⟩ := gallopLeft_fits c b1 ea (b1.length - 1) (by omega)
            generalize gallopLeft c b1 ea (b1.length - 1) = j at *
            have hlenTj := List.length_take j b1
            have heaeb : LocallyOrdered c ea eb := hfitA.1 ea heq
            obtain ⟨a2, ha2⟩ := List.getLast?_eq_some_iff.mp heq
            have hlenA2 : a2.length + 1 = min k a.length := by
              rw [← hlenT, ha2]; simp
            have hTa : List.Chain' (LocallyOrdered c) (pre ++ (a2 ++ [ea])) := by
              have := chain_take_append k (chain_left hA)
              rwa [ha2] at this
            simp only [ha2, List.dropLast_concat]
            rw [ha2] at hheadT
            by_cases h4 : 0 < b1.length - j ∧ (List.take j b1).length = 1
            · rw [if_pos h4]
              -- CopyA
              have hneTj : List.take j b1 ≠ [] := by
                intro h; rw [h] at h4; simp at h4
              have hrest2 := chain_copy_back ea (List.take j b1) a2 pre
                (chain_take_append j (chain_left hBp)) hTa.right_of_append
                (by intro x hx y hy
                    rw [hheadT] at hy
                    refine hS x ?_ y hy
                    rw [← hheadB, ← headOpt_of_initial (List.take_prefix j b1) hneTj,
                      headOpt_eq_getLastOpt_of_length_one h4.2]
                    exact hx) hneTj
              have key2 := chain_emit_back eb ea b1 (pre ++ (List.take j b1 ++ a2)) j hBe
                (fun _ => heaeb) hfitB.2 (by simpa only [List.append_assoc] using hrest2)
              have key := chain_emit_back e eb a
                (pre ++ (List.take j b1 ++ (a2 ++ ea :: List.drop j b1))) k hAe
                (fun _ => hebe) hfitA.2
                (by simpa only [List.append_assoc, List.cons_append, List.singleton_append,
                  List.nil_append] using key2)
              simpa only [List.append_assoc, List.cons_append, List.singleton_append,
                List.nil_append] using key
            · rw [if_neg h4]
              by_cases h5 : 0 < b1.length - j ∧ (List.take j b1).length = 0
              · rw [if_pos h5]
                -- Succeed, run B used up
                have key2 := chain_emit_back eb ea b1 (pre ++ a2) j hBe
                  (fun _ => heaeb) hfitB.2 (by simpa only [List.append_assoc] using hTa)
                have key := chain_emit_back e eb a (pre ++ (a2 ++ ea :: List.drop j b1)) k hAe
                  (fun _ => hebe) hfitA.2
                  (by simpa only [List.append_assoc, List.cons_append, List.singleton_append,
                    List.nil_append] using key2)
                simpa only [List.append_assoc, List.cons_append, List.singleton_append,
                  List.nil_append] using key
              · rw [if_neg h5]
                have hneTj : List.take j b1 ≠ [] := by
                  intro h
                  rw [h] at hlenTj h5
                  simp only [List.length_nil] at hlenTj
                  exact h5 ⟨by omega, rfl⟩
                by_cases h6 : a2.length = 0
                · rw [if_pos h6]
                  -- Succeed, run A used up
                  have key2 := chain_emit_back eb ea b1 (pre ++ List.take j b1) j hBe
                    (fun _ => heaeb) hfitB.2
                    (by simpa only [List.append_assoc] using
                      chain_take_snoc ea b1 pre j (chain_left hBp) hfitB.1 hneTj)
                  have key := chain_emit_back e eb a
                    (pre ++ (List.take j b1 ++ ea :: List.drop j b1)) k hAe
                    (fun _ => hebe) hfitA.2
                    (by simpa only [List.append_assoc, List.cons_append, List.singleton_append,
                      List.nil_append] using key2)
                  simpa only [List.append_assoc, List.cons_append, List.singleton_append,
                    List.nil_append] using key
                · rw [if_neg h6]
                  have hneA2 : a2 ≠ [] := by
                    intro h; rw [h] at h6; exact h6 rfl
                  have hS2 : ∀ x ∈ (List.take j b1).head?, ∀ y ∈ a2.head?,
                      LocallyOrdered c x y := by
                    intro x hx y hy
                    rw [headOpt_of_initial (List.prefix_append a2 [ea]) hneA2, hheadT] at hy
                    refine hS x ?_ y hy
                    rw [← hheadB, ← headOpt_of_initial (List.take_prefix j b1) hneTj]
                    exact hx
                  split_ifs with h7
                  · have r1 := ih true (max 1 (mg - 1)) (a.length - k) (b1.length - j) a2 (List.take j b1) pre ea
                      (by omega) (Nat.pos_of_ne_zero h6) (by omega) hTa
                      (chain_take_snoc ea b1 pre j (chain_left hBp) hfitB.1 hneTj) hS2
                    have key2 := chain_emit_back eb ea b1 (pre ++ _) j hBe (fun _ => heaeb)
                      hfitB.2 (by simpa only [List.append_assoc] using r1)
                    have key := chain_emit_back e eb a (pre ++ (_ ++ ea :: List.drop j b1)) k hAe
                      (fun _ => hebe) hfitA.2
                      (by simpa only [List.append_assoc, List.cons_append, List.singleton_append,
                        List.nil_append] using key2)
                    simpa only [List.append_assoc, List.cons_append, List.singleton_append,
                      List.nil_append] using key
                  · have r1 := ih false (max 1 (mg - 1) + 1) 0 0 a2 (List.take j b1) pre ea
                      (by omega) (Nat.pos_of_ne_zero h6) (by omega) hTa
                      (chain_take_snoc ea b1 pre j (chain_left hBp) hfitB.1 hneTj) hS2
                    have key2 := chain_emit_back eb ea b1 (pre ++ _) j hBe (fun _ => heaeb)
                      hfitB.2 (by simpa only [List.append_assoc] using r1)
                    have key := chain_emit_back e eb a (pre ++ (_ ++ ea :: List.drop j b1)) k hAe
                      (fun _ => hebe) hfitA.2
                      (by simpa only [List.append_assoc, List.cons_append, List.singleton_append,
                        List.nil_append] using key2)
                    simpa only [List.append_assoc, List.cons_append, List.singleton_append,
                      List.nil_append] using key

theorem chain_glue {α : Type} {R : α → α → Prop} (L T : List α) (x : α)
    (h1 : List.Chain' R (L ++ [x])) (h2 : List.Chain' R (x :: T)) :
    List.Chain' R (L ++ x :: T) :=
  List.chain'_split.mpr ⟨h1, h2⟩

theorem mergeHigh_chain {α : Type} (c : α → α → JSNumber) (mg : Nat) (a b pre post : List α)
    (hla : 0 < a.length) (hlb : 0 < b.length)
    (hA : List.Chain' (LocallyOrdered c) (pre ++ (a ++ post)))
    (hB : List.Chain' (LocallyOrdered c) (pre ++ (b ++ post)))
    (hS1 : ∀ x ∈ b.head?, ∀ y ∈ a.head?, LocallyOrdered c x y)
    (hS2 : ∀ x ∈ b.getLast?, ∀ y ∈ a.getLast?, LocallyOrdered c x y) :
    List.Chain' (LocallyOrdered c) (pre ++ ((mergeHigh c mg a b).1 ++ post)) := by
  have hneA : a ≠ [] := List.length_pos.mp hla
  have hneB : b ≠ [] := List.length_pos.mp hlb
  obtain ⟨a1, ea, rfl⟩ := exists_concat_of_ne_nil hneA
  have hpost : List.Chain' (LocallyOrdered c) (ea :: post) := by
    have h1 : pre ++ (a1 ++ [ea] ++ post) = (pre ++ a1) ++ (ea :: post) := by
      simp only [List.append_assoc, List.singleton_append]
    rw [h1] at hA
    exact hA.right_of_append
  have hAp : List.Chain' (LocallyOrdered c) (pre ++ (a1 ++ [ea])) := chain_left hA
  have hBp : List.Chain' (LocallyOrdered c) (pre ++ b) := chain_left hB
  have hBe : List.Chain' (LocallyOrdered c) (pre ++ (b ++ [ea])) := by
    rw [← List.append_assoc, List.chain'_append]
    refine ⟨hBp, List.chain'_singleton _, ?_⟩
    intro x hx y hy
    simp only [List.head?_cons, Option.mem_def, Option.some.injEq] at hy
    subst hy
    rw [← getLastOpt_of_final (List.suffix_append pre b) hneB] at hx
    exact hS2 x hx ea (by simp)
  simp only [mergeHigh, List.getLast?_concat, List.dropLast_concat]
  split_ifs with h1 h2
  · have key := chain_glue (pre ++ b) post ea
      (by simpa only [List.append_assoc] using hBe) hpost
    simpa only [List.append_assoc, List.cons_append, List.singleton_append,
      List.nil_append] using key
  · have s1 : List.Chain' (LocallyOrdered c) (pre ++ (b ++ (a1 ++ [ea]))) := by
      rw [← List.append_assoc, List.chain'_append]
      refine ⟨hBp, hAp.right_of_append, ?_⟩
      intro x hx y hy
      rw [← getLastOpt_of_final (List.suffix_append pre b) hneB,
        ← headOpt_eq_getLastOpt_of_length_one h2] at hx
      exact hS1 x hx y hy
    have key := chain_glue (pre ++ (b ++ a1)) post ea
      (by simpa only [List.append_assoc] using s1) hpost
    simpa only [List.append_assoc, List.cons_append, List.singleton_append,
      List.nil_append] using key
  · have hne1 : a1 ≠ [] := by
      intro h; rw [h] at h1; exact h1 rfl
    have r1 := mergeHighLoop_chain c _ false mg 0 0 a1 b pre ea (le_refl _)
      (Nat.pos_of_ne_zero h1) (by omega) hAp hBe
      (by intro x hx y hy
          refine hS1 x hx y ?_
          rwa [← headOpt_of_initial (List.prefix_append a1 [ea]) hne1])
    have key := chain_glue (pre ++ _) post ea
      (by simpa only [List.append_assoc] using r1) hpost
    simpa only [List.append_assoc, List.cons_append, List.singleton_append,
      List.nil_append] using key

theorem mergeRuns_chain {α : Type} (c : α → α → JSNumber) (mg : Nat) (a b : List α)
    (hA : List.Chain' (LocallyOrdered c) a) (hB : List.Chain' (LocallyOrdered c) b) :
    List.Chain' (LocallyOrdered c) (mergeRuns c mg a b).1 := by
  match b with
  | [] => simpa [mergeRuns] using hA
  | keyRight :: b1 =>
    simp only [mergeRuns]
    by_cases ha0 : a = []
    · subst ha0
      simpa using hB
    · obtain ⟨hk, hfitA⟩ := gallopRight_fits c a keyRight 0 (List.length_pos.mpr ha0)
      generalize gallopRight c a keyRight 0 = k at *
      split
      · rename_i heq
        have hd : a.drop k = [] := List.getLast?_eq_none_iff.mp heq
        have ht : a.take k = a := by
          rw [List.take_of_length_le (List.drop_eq_nil_iff.mp hd)]
        simp only []
        rw [List.chain'_append]
        refine ⟨hA, hB, ?_⟩
        intro x hx y hy
        simp only [List.head?_cons, Option.mem_def, Option.some.injEq] at hy
        subst hy
        apply hfitA.1
        rw [ht]; exact hx
      · rename_i keyLeft heq
        have hneD : a.drop k ≠ [] := by
          intro h; rw [h] at heq; cases heq
        have hlast : a.getLast? = some keyLeft := by
          rw [← getLastOpt_of_final (List.drop_suffix k a) hneD]; exact heq
        obtain ⟨hj, hfitB⟩ := gallopLeft_fits c (keyRight :: b1) keyLeft
          ((keyRight :: b1).length - 1) (by simp)
        generalize gallopLeft c (keyRight :: b1) keyLeft ((keyRight :: b1).length - 1) = j at *
        split_ifs with hj0 hlow
        · simp only []
          rw [List.chain'_append]
          refine ⟨hA, hB, ?_⟩
          intro x hx y hy
          rw [hlast] at hx
          simp only [Option.mem_def, Option.some.injEq] at hx
          subst hx
          apply hfitB.2
          rw [hj0]; exact hy
        all_goals
          have hneT : (keyRight :: b1).take j ≠ [] := by
            intro h
            rcases List.take_eq_nil_iff.mp h with h | h
            · exact hj0 h
            · cases h
          have hHA : List.Chain' (LocallyOrdered c)
              (a.take k ++ (a.drop k ++ (keyRight :: b1).drop j)) := by
            rw [← List.append_assoc, List.take_append_drop, List.chain'_append]
            refine ⟨hA, hB.drop j, ?_⟩
            intro x hx y hy
            rw [hlast] at hx
            simp only [Option.mem_def, Option.some.injEq] at hx
            subst hx
            exact hfitB.2 y hy
          have hHB : List.Chain' (LocallyOrdered c)
              (a.take k ++ ((keyRight :: b1).take j ++ (keyRight :: b1).drop j)) := by
            rw [List.take_append_drop, List.chain'_append]
            refine ⟨hA.take k, hB, ?_⟩
            intro x hx y hy
            simp only [List.head?_cons, Option.mem_def, Option.some.injEq] at hy
            subst hy
            exact hfitA.1 x hx
          have hS1 : ∀ x ∈ ((keyRight :: b1).take j).head?, ∀ y ∈ (a.drop k).head?,
              LocallyOrdered c x y := by
            intro x hx y hy
            rw [headOpt_of_initial (List.take_prefix j _) hneT] at hx
            simp only [List.head?_cons, Option.mem_def, Option.some.injEq] at hx
            subst hx
            exact hfitA.2 y hy
          have hS2 : ∀ x ∈ ((keyRight :: b1).take j).getLast?, ∀ y ∈ (a.drop k).getLast?,
              LocallyOrdered c x y := by
            intro x hx y hy
            rw [heq] at hy
            simp only [Option.mem_def, Option.some.injEq] at hy
            subst hy
            exact hfitB.1 x hx
          simp only []
        · exact mergeLow_chain c mg (a.drop k) ((keyRight :: b1).take j) (a.take k)
            ((keyRight :: b1).drop j) (List.length_pos.mpr hneD) (List.length_pos.mpr hneT)
            hHA hHB hS1 hS2
        · exact mergeHigh_chain c mg (a.drop k) ((keyRight :: b1).take j) (a.take k)
            ((keyRight :: b1).drop j) (List.length_pos.mpr hneD) (List.length_pos.mpr hneT)
            hHA hHB hS1 hS2

theorem mergeAt_forall {α : Type} (c : α → α → JSNumber) (P : List α → Prop)
    (hmerge : ∀ mg a b, P a → P b → P (mergeRuns c mg a b).1)
    (sortState : SortState α) (i : Nat) (h : ∀ run ∈ sortState.pendingRuns, P run) :
    ∀ run ∈ (mergeAt c sortState i).pendingRuns, P run := by
  unfold mergeAt
  split
  · rename_i a b ha hb
    intro run hrun
    simp only [List.mem_append, List.mem_cons] at hrun
    rcases hrun with hrun | hrun | hrun
    · exact h run (List.mem_of_mem_take hrun)
    · rw [hrun]
      exact hmerge _ a b (h a (List.getElem?_mem ha)) (h b (List.getElem?_mem hb))
    · exact h run (List.mem_of_mem_drop hrun)
  · exact h

theorem mergeAt_length {α : Type} (c : α → α → JSNumber) (sortState : SortState α) (i : Nat)
    (h : i + 1 < sortState.pendingRuns.length) :
    (mergeAt c sortState i).pendingRuns.length + 1 = sortState.pendingRuns.length := by
  unfold mergeAt
  rw [List.getElem?_eq_getElem (by omega : i < sortState.pendingRuns.length),
    List.getElem?_eq_getElem h]
  simp only [List.length_append, List.length_take, List.length_cons, List.length_drop]
  omega

theorem mergeCollapse_forall {α : Type} (c : α → α → JSNumber) (P : List α → Prop)
    (hmerge : ∀ mg a b, P a → P b → P (mergeRuns c mg a b).1) :
    ∀ (fuel : Nat) (sortState : SortState α), (∀ run ∈ sortState.pendingRuns, P run) →
      ∀ run ∈ (mergeCollapse c fuel sortState).pendingRuns, P run := by
  intro fuel
  induction fuel with
  | zero => intro sortState h; exact h
  | succ fuel ih =>
    intro sortState h
    simp only [mergeCollapse]
    split_ifs
    · exact ih _ (mergeAt_forall c P hmerge sortState _ h)
    · exact ih _ (mergeAt_forall c P hmerge sortState _ h)
    · exact ih _ (mergeAt_forall c P hmerge sortState _ h)
    · exact h
    · exact h

theorem mergeForceCollapse_forall {α : Type} (c : α → α → JSNumber) (P : List α → Prop)
    (hmerge : ∀ mg a b, P a → P b → P (mergeRuns c mg a b).1) :
    ∀ (fuel : Nat) (sortState : SortState α), (∀ run ∈ sortState.pendingRuns, P run) →
      ∀ run ∈ (mergeForceCollapse c fuel sortState).pendingRuns, P run := by
  intro fuel
  induction fuel with
  | zero => intro sortState h; exact h
  | succ fuel ih =>
    intro sortState h
    simp only [mergeForceCollapse]
    split_ifs
    · exact ih _ (mergeAt_forall c P hmerge sortState _ h)
    · exact ih _ (mergeAt_forall c P hmerge sortState _ h)
    · exact h

/-- The stack holds one run at most when `MergeForceCollapse` is over. -/
theorem mergeForceCollapse_length {α : Type} (c : α → α → JSNumber) :
    ∀ (fuel : Nat) (sortState : SortState α), sortState.pendingRuns.length ≤ fuel + 1 →
      (mergeForceCollapse c fuel sortState).pendingRuns.length ≤ 1 := by
  intro fuel
  induction fuel with
  | zero => intro sortState h; exact h
  | succ fuel ih =>
    intro sortState h
    simp only [mergeForceCollapse]
    split_ifs with h1 h2
    · apply ih
      have := mergeAt_length c sortState (sortState.pendingRuns.length - 2 - 1) (by omega)
      omega
    · apply ih
      have := mergeAt_length c sortState (sortState.pendingRuns.length - 2) (by omega)
      omega
    · omega

theorem timSortLoop_chain {α : Type} (c : α → α → JSNumber) (minRunLength : Nat) :
    ∀ (fuel : Nat) (remaining : List α) (sortState : SortState α),
      (∀ run ∈ sortState.pendingRuns, List.Chain' (LocallyOrdered c) run) →
      ∀ run ∈ (timSortLoop c minRunLength fuel remaining sortState).pendingRuns,
        List.Chain' (LocallyOrdered c) run := by
  intro fuel
  induction fuel with
  | zero => intro remaining sortState h; exact h
  | succ fuel ih =>
    intro remaining sortState h
    simp only [timSortLoop]
    split_ifs with h0 h1
    · exact h
    · apply ih
      apply mergeCollapse_forall c _ (fun mg a b => mergeRuns_chain c mg a b)
      intro run hrun
      simp only [List.mem_append, List.mem_singleton] at hrun
      rcases hrun with hrun | hrun
      · exact h run hrun
      · rw [hrun]
        exact binaryInsertionSort_chain c _ _ (countAndMakeRun_chain c remaining)
    · apply ih
      apply mergeCollapse_forall c _ (fun mg a b => mergeRuns_chain c mg a b)
      intro run hrun
      simp only [List.mem_append, List.mem_singleton] at hrun
      rcases hrun with hrun | hrun
      · exact h run hrun
      · rw [hrun]
        exact countAndMakeRun_chain c remaining

/-- The fuel of `mergeCollapse` is never used up: with one unit for each pending
run, one more changes nothing. -/
theorem mergeCollapse_fuel {α : Type} (c : α → α → JSNumber) :
    ∀ (fuel : Nat) (sortState : SortState α), sortState.pendingRuns.length ≤ fuel + 1 →
      mergeCollapse c (fuel + 1) sortState = mergeCollapse c fuel sortState := by
  intro fuel
  induction fuel with
  | zero =>
    intro sortState h
    simp only [mergeCollapse, if_neg (show ¬ 1 < sortState.pendingRuns.length by omega)]
  | succ fuel ih =>
    intro sortState h
    rw [mergeCollapse]
    conv_rhs => rw [mergeCollapse]
    simp only []
    split_ifs with h1 h2 h3 h4
    · apply ih
      have := mergeAt_length c sortState (sortState.pendingRuns.length - 2 - 1) (by omega)
      omega
    · apply ih
      have := mergeAt_length c sortState (sortState.pendingRuns.length - 2) (by omega)
      omega
    · apply ih
      have := mergeAt_length c sortState (sortState.pendingRuns.length - 2) (by omega)
      omega
    · rfl
    · rfl

/-- Every two neighbours of the array that TimSort leaves are locally ordered,
whatever the comparator. -/
theorem timSort_chain {α : Type} (c : α → α → JSNumber) (array : List α) :
    List.Chain' (LocallyOrdered c) (timSort c array) := by
  unfold timSort
  split_ifs with h
  · match array, h with
    | [], _ => exact List.chain'_nil
    | [x], _ => exact List.chain'_singleton x
  · simp only []
    generalize hst : timSortLoop c (computeMinRunLength array.length array.length 0)
      array.length array { pendingRuns := [], minGallop := kMinGallopWins } = st
    have hall : ∀ run ∈ st.pendingRuns, List.Chain' (LocallyOrdered c) run := by
      rw [← hst]
      apply timSortLoop_chain
      intro run hrun
      cases hrun
    have hfin := mergeForceCollapse_forall c _ (fun mg a b => mergeRuns_chain c mg a b)
      st.pendingRuns.length st hall
    have hlen := mergeForceCollapse_length c st.pendingRuns.length st (by omega)
    generalize (mergeForceCollapse c st.pendingRuns.length st).pendingRuns = runs at *
    match runs, hlen, hfin with
    | [], _, _ => exact List.chain'_nil
    | [run], _, hfin =>
      simp only [List.flatten_cons, List.flatten_nil, List.append_nil]
      exact hfin run (List.mem_singleton.mpr rfl)

theorem count_take_add_drop {α : Type} [DecidableEq α] (x : α) (k : Nat) (l : List α) :
    List.count x (l.take k) + List.count x (l.drop k) = List.count x l := by
  rw [← List.count_append, List.take_append_drop]

theorem mergeLowLoop_count {α : Type} [DecidableEq α] (c : α → α → JSNumber) (x : α) :
    ∀ (fuel : Nat) (galloping : Bool) (mg wa wb : Nat) (a b : List α),
      List.count x (mergeLowLoop c fuel galloping mg wa wb a b).1
        = List.count x a + List.count x b := by
  intro fuel
  induction fuel with
  | zero =>
    intro galloping mg wa wb a b
    simp only [mergeLowLoop, List.count_append]
  | succ fuel ih =>
    intro galloping mg wa wb a b
    cases galloping with
    | false =>
      simp only [mergeLowLoop]
      split
      · rename_i ea a1 eb b1
        have c1 := List.count_le_length x b1
        split_ifs <;>
          simp only [List.count_append, List.count_cons, List.count_nil, ih] <;> omega
      · simp only [List.count_append]
    | true =>
      simp only [mergeLowLoop]
      split
      · simp
      · rename_i eb b1
        generalize gallopRight c a eb 0 = k
        have hA := count_take_add_drop x k a
        have c1 := List.count_le_length x b1
        by_cases h1 : 0 < k ∧ (List.drop k a).length = 1
        · rw [if_pos h1]
          simp only [List.count_append, List.count_cons, List.count_nil]
          omega
        · rw [if_neg h1]
          by_cases h2 : 0 < k ∧ (List.drop k a).length = 0
          · rw [if_pos h2]
            have h0 : List.drop k a = [] := List.length_eq_zero.mp h2.2
            rw [h0] at hA
            simp only [List.count_append, List.count_cons, List.count_nil] at hA ⊢
            omega
          · rw [if_neg h2]
            by_cases h3 : b1.length = 0
            · rw [if_pos h3]
              simp only [List.count_append, List.count_cons, List.count_nil]
              omega
            · rw [if_neg h3]
              split
              · rename_i heq
                rw [heq] at hA
                simp only [List.count_append, List.count_cons, List.count_nil] at hA ⊢
                omega
              · rename_i ea a2 heq
                generalize gallopLeft c b1 ea 0 = m
                have hB := count_take_add_drop x m b1
                split_ifs with h4 h5 h6
                · have h0 : List.drop m b1 = [] := List.length_eq_zero.mp h4.2
                  rw [h0] at hB
                  simp only [List.count_append, List.count_cons, List.count_nil] at hA hB ⊢
                  omega
                all_goals
                  rw [heq] at hA
                  simp only [List.count_append, List.count_cons, List.count_nil, ih] at hA hB ⊢
                  omega

theorem mergeLow_count {α : Type} [DecidableEq α] (c : α → α → JSNumber) (x : α) (mg : Nat)
    (a b : List α) :
    List.count x (mergeLow c mg a b).1 = List.count x a + List.count x b := by
  simp only [mergeLow]
  split
  · simp
  · rename_i eb b1
    have c1 := List.count_le_length x b1
    split_ifs <;>
      simp only [List.count_append, List.count_cons, List.count_nil, mergeLowLoop_count] <;>
      omega

theorem count_dropLast_add {α : Type} [DecidableEq α] (x e : α) (l : List α)
    (h : l.getLast? = some e) :
    List.count x l.dropLast + List.count x [e] = List.count x l := by
  obtain ⟨l1, rfl⟩ := List.getLast?_eq_some_iff.mp h
  rw [List.dropLast_concat, List.count_append]

theorem mergeHighLoop_count {α : Type} [DecidableEq α] (c : α → α → JSNumber) (x : α) :
    ∀ (fuel : Nat) (galloping : Bool) (mg wa wb : Nat) (a b : List α),
      List.count x (mergeHighLoop c fuel galloping mg wa wb a b).1
        = List.count x a + List.count x b := by
  intro fuel
  induction fuel with
  | zero =>
    intro galloping mg wa wb a b
    simp only [mergeHighLoop, List.count_append]
  | succ fuel ih =>
    intro galloping mg wa wb a b
    cases galloping with
    | false =>
      simp only [mergeHighLoop]
      split
      · rename_i ea eb hea heb
        have hA := count_dropLast_add x ea a hea
        have hB := count_dropLast_add x eb b heb
        have c1 := List.count_le_length x a.dropLast
        split_ifs <;>
          simp only [List.count_append, List.count_cons, List.count_nil, ih] at hA hB ⊢ <;>
          omega
      · simp only [List.count_append]
    | true =>
      simp only [mergeHighLoop]
      split
      · rename_i heb
        rw [List.getLast?_eq_none_iff.mp heb]
        simp
      · rename_i eb heb
        have hB := count_dropLast_add x eb b heb
        generalize gallopRight c a eb (a.length - 1) = k
        have hA := count_take_add_drop x k a
        by_cases h1 : 0 < a.length - k ∧ (List.take k a).length = 0
        · rw [if_pos h1]
          have h0 : List.take k a = [] := List.length_eq_zero.mp h1.2
          rw [h0] at hA
          simp only [List.count_append, List.count_cons, List.count_nil] at hA hB ⊢
          omega
        · rw [if_neg h1]
          by_cases h2 : b.dropLast.length = 1
          · rw [if_pos h2]
            simp only [List.count_append, List.count_cons, List.count_nil] at hA hB ⊢
            omega
          · rw [if_neg h2]
            split
            · rename_i heq
              rw [List.getLast?_eq_none_iff.mp heq] at hA
              simp only [List.count_append, List.count_cons, List.count_nil] at hA hB ⊢
              omega
            · rename_i ea heq
              have hA2 := count_dropLast_add x ea _ heq
              generalize gallopLeft c b.dropLast ea (b.dropLast.length - 1) = j
              have hB2 := count_take_add_drop x j b.dropLast
              have c1 := List.count_le_length x (List.take k a).dropLast
              split_ifs with h4 h5 h6
              · simp only [List.count_append, List.count_cons, List.count_nil] at hA hB hB2 ⊢
                omega
              · have h0 : List.take j b.dropLast = [] := List.length_eq_zero.mp h5.2
                rw [h0] at hB2
                simp only [List.count_append, List.count_cons, List.count_nil] at hA hB hB2 ⊢
                omega
              all_goals
                simp only [List.count_append, List.count_cons, List.count_nil, ih]
                  at hA hA2 hB hB2 ⊢
                omega

theorem mergeHigh_count {α : Type} [DecidableEq α] (c : α → α → JSNumber) (x : α) (mg : Nat)
    (a b : List α) :
    List.count x (mergeHigh c mg a b).1 = List.count x a + List.count x b := by
  simp only [mergeHigh]
  split
  · rename_i hea
    rw [List.getLast?_eq_none_iff.mp hea]
    simp
  · rename_i ea hea
    have hA := count_dropLast_add x ea a hea
    have c1 := List.count_le_length x a.dropLast
    split_ifs <;>
      simp only [List.count_append, List.count_cons, List.count_nil, mergeHighLoop_count]
        at hA ⊢ <;>
      omega

theorem mergeRuns_count {α : Type} [DecidableEq α] (c : α → α → JSNumber) (x : α) (mg : Nat)
    (a b : List α) :
    List.count x (mergeRuns c mg a b).1 = List.count x a + List.count x b := by
  simp only [mergeRuns]
  split
  · simp
  · rename_i keyRight b1
    generalize gallopRight c a keyRight 0 = k
    have hA := count_take_add_drop x k a
    split
    · simp only [List.count_append]
    · rename_i keyLeft heq
      generalize gallopLeft c (keyRight :: b1) keyLeft ((keyRight :: b1).length - 1) = j
      have hB := count_take_add_drop x j (keyRight :: b1)
      split_ifs <;>
        simp only [List.count_append, mergeLow_count, mergeHigh_count] at hA hB ⊢ <;>
        omega

theorem mergeRuns_perm {α : Type} (c : α → α → JSNumber) (mg : Nat) (a b : List α) :
    (mergeRuns c mg a b).1.Perm (a ++ b) := by
  classical
  rw [List.perm_iff_count]
  intro x
  rw [mergeRuns_count, List.count_append]

theorem mergeAt_perm {α : Type} (c : α → α → JSNumber) (sortState : SortState α) (i : Nat) :
    (mergeAt c sortState i).pendingRuns.flatten.Perm sortState.pendingRuns.flatten := by
  unfold mergeAt
  split
  · rename_i a b ha hb
    obtain ⟨h1, e1⟩ := List.getElem?_eq_some.mp ha
    obtain ⟨h2, e2⟩ := List.getElem?_eq_some.mp hb
    have hsplit : sortState.pendingRuns
        = sortState.pendingRuns.take i ++ a :: b :: sortState.pendingRuns.drop (i + 2) := by
      conv_lhs => rw [← List.take_append_drop i sortState.pendingRuns]
      rw [List.drop_eq_getElem_cons h1, List.drop_eq_getElem_cons h2, e1, e2]
    simp only []
    conv_rhs => rw [hsplit]
    simp only [List.flatten_append, List.flatten_cons]
    refine List.Perm.append_left _ ?_
    rw [← List.append_assoc]
    exact List.Perm.append_right _ (mergeRuns_perm c _ a b)
  · exact List.Perm.refl _

theorem mergeCollapse_perm {α : Type} (c : α → α → JSNumber) :
    ∀ (fuel : Nat) (sortState : SortState α),
      (mergeCollapse c fuel sortState).pendingRuns.flatten.Perm
        sortState.pendingRuns.flatten := by
  intro fuel
  induction fuel with
  | zero => intro sortState; exact List.Perm.refl _
  | succ fuel ih =>
    intro sortState
    simp only [mergeCollapse]
    split_ifs
    · exact (ih _).trans (mergeAt_perm c sortState _)
    · exact (ih _).trans (mergeAt_perm c sortState _)
    · exact (ih _).trans (mergeAt_perm c sortState _)
    · exact List.Perm.refl _
    · exact List.Perm.refl _

theorem mergeForceCollapse_perm {α : Type} (c : α → α → JSNumber) :
    ∀ (fuel : Nat) (sortState : SortState α),
      (mergeForceCollapse c fuel sortState).pendingRuns.flatten.Perm
        sortState.pendingRuns.flatten := by
  intro fuel
  induction fuel with
  | zero => intro sortState; exact List.Perm.refl _
  | succ fuel ih =>
    intro sortState
    simp only [mergeForceCollapse]
    split_ifs
    · exact (ih _).trans (mergeAt_perm c sortState _)
    · exact (ih _).trans (mergeAt_perm c sortState _)
    · exact List.Perm.refl _

theorem timSortLoop_perm {α : Type} (c : α → α → JSNumber) (minRunLength : Nat) :
    ∀ (fuel : Nat) (remaining : List α) (sortState : SortState α),
      remaining.length ≤ fuel →
      (timSortLoop c minRunLength fuel remaining sortState).pendingRuns.flatten.Perm
        (sortState.pendingRuns.flatten ++ remaining) := by
  intro fuel
  induction fuel with
  | zero =>
    intro remaining sortState h
    have h0 : remaining = [] := List.length_eq_zero.mp (by omega)
    subst h0
    simp [timSortLoop]
  | succ fuel ih =>
    intro remaining sortState h
    simp only [timSortLoop]
    split_ifs with h0 h1
    · have h0 : remaining = [] := List.length_eq_zero.mp h0
      subst h0
      simp
    · have hne : remaining ≠ [] := fun hn => h0 (by rw [hn]; rfl)
      have hpos := countAndMakeRun_pos c remaining hne
      have hle := countAndMakeRun_le c remaining
      have hlen := countAndMakeRun_length c remaining
      have hperm := countAndMakeRun_perm c remaining
      generalize countAndMakeRun c remaining = r at *
      have hrem : 0 < remaining.length := Nat.pos_of_ne_zero h0
      refine (ih _ _ (by
        simp only [List.length_drop]
        omega)).trans ?_
      refine (List.Perm.append_right _ (mergeCollapse_perm c _ _)).trans ?_
      simp only [List.flatten_append, List.flatten_cons, List.flatten_nil, List.append_nil,
        List.append_assoc]
      refine List.Perm.append_left _ ?_
      refine (List.Perm.append_right _ (binaryInsertionSort_perm c _ _)).trans ?_
      have ht : List.take r.1 r.2
          = List.take r.1 (List.take (min minRunLength remaining.length) r.2) := by
        rw [List.take_take]
        congr 1
        omega
      rw [ht, List.take_append_drop, List.take_append_drop]
      exact hperm
    · have hne : remaining ≠ [] := fun hn => h0 (by rw [hn]; rfl)
      have hpos := countAndMakeRun_pos c remaining hne
      have hle := countAndMakeRun_le c remaining
      have hlen := countAndMakeRun_length c remaining
      have hperm := countAndMakeRun_perm c remaining
      generalize countAndMakeRun c remaining = r at *
      refine (ih _ _ (by
        simp only [List.length_drop]
        omega)).trans ?_
      refine (List.Perm.append_right _ (mergeCollapse_perm c _ _)).trans ?_
      simp only [List.flatten_append, List.flatten_cons, List.flatten_nil, List.append_nil,
        List.append_assoc]
      refine List.Perm.append_left _ ?_
      rw [List.take_append_drop]
      exact hperm

/-- The array that TimSort leaves holds the elements it was given. -/
theorem timSort_perm {α : Type} (c : α → α → JSNumber) (array : List α) :
    (timSort c array).Perm array := by
  unfold timSort
  split_ifs with h
  · exact List.Perm.refl _
  · simp only []
    refine (mergeForceCollapse_perm c _ _).trans ?_
    have := timSortLoop_perm c (computeMinRunLength array.length array.length 0)
      array.length array { pendingRuns := [], minGallop := kMinGallopWins } (le_refl _)
    simpa using this

namespace TodoApp

theorem sortCompare_pinned_unpinned (h : Host) (mode : String) (a b : Task)
    (ha : a.pinned = true) (hb : b.pinned = false) :
    sortCompare (compareTasks h mode) a b = -1 := by
  simp [sortCompare, compareTasks, ha, hb]

theorem sortCompare_unpinned_pinned (h : Host) (mode : String) (a b : Task)
    (ha : a.pinned = false) (hb : b.pinned = true) :
    sortCompare (compareTasks h mode) a b = 1 := by
  simp [sortCompare, compareTasks, ha, hb]

theorem sortInsert_pinned_first (h : Host) (mode : String) (x : Task) (l : List Task)
    (hl : l.Pairwise (fun a b => ¬(a.pinned = false ∧ b.pinned = true))) :
    (sortInsert (compareTasks h mode) x l).Pairwise
      (fun a b => ¬(a.pinned = false ∧ b.pinned = true)) := by
  induction l with
  | nil => simp [sortInsert]
  | cons y ys ih =>
    rw [List.pairwise_cons] at hl
    unfold sortInsert
    split_ifs with hle
    · refine List.pairwise_cons.mpr ⟨?_, List.pairwise_cons.mpr hl⟩
      have hxy : ¬(x.pinned = false ∧ y.pinned = true) := by
        rintro ⟨hx, hy⟩
        rw [sortCompare_unpinned_pinned h mode x y hx hy] at hle
        exact absurd hle (by decide)
      intro b hb
      rcases List.mem_cons.mp hb with rfl | hb
      · exact hxy
      · rintro ⟨hx, hbp⟩
        cases hy : y.pinned with
        | true => exact hxy ⟨hx, hy⟩
        | false => exact hl.1 b hb ⟨hy, hbp⟩
    · refine List.pairwise_cons.mpr ⟨?_, ih hl.2⟩
      intro b hb
      rcases (mem_sortInsert _ _ _ _).mp hb with rfl | hb
      · rintro ⟨hy, hx⟩
        rw [sortCompare_pinned_unpinned h mode b y hx hy] at hle
        exact hle (by decide)
      · exact hl.1 b hb

theorem applySorting_pinned_first (h : Host) (mode : String) (l : List Task) :
    (applySorting h mode l).Pairwise (fun a b => ¬(a.pinned = false ∧ b.pinned = true)) := by
  unfold applySorting
  induction l with
  | nil => simp [arraySort]
  | cons x xs ih => exact sortInsert_pinned_first h mode x _ ih

theorem not_locallyOrdered_unpinned_pinned (h : Host) (mode : String) (a b : Task)
    (ha : a.pinned = false) (hb : b.pinned = true) :
    ¬ LocallyOrdered (compareTasks h mode) a b := by
  unfold LocallyOrdered
  rw [sortCompare_unpinned_pinned h mode a b ha hb,
    sortCompare_pinned_unpinned h mode b a hb ha]
  decide

theorem chain_unpinned (h : Host) (mode : String) :
    ∀ (l : List Task) (x : Task), x.pinned = false →
      List.Chain' (LocallyOrdered (compareTasks h mode)) (x :: l) →
      ∀ b ∈ l, b.pinned = false := by
  intro l
  induction l with
  | nil => intro x _ _ b hb; cases hb
  | cons y ys ih =>
    intro x hx hc b hb
    rw [List.chain'_cons] at hc
    have hy : y.pinned = false := by
      cases hyp : y.pinned with
      | false => rfl
      | true => exact absurd hc.1 (not_locallyOrdered_unpinned_pinned h mode x y hx hyp)
    rcases List.mem_cons.mp hb with rfl | hb
    · exact hy
    · exact ih y hy hc.2 b hb

/-- In an order of tasks whose neighbours are all locally ordered by the
comparator of `applySorting`, no unpinned task stands before a pinned one. -/
theorem pinned_first_of_locallyOrdered (h : Host) (mode : String) (out : List Task)
    (hc : List.Chain' (LocallyOrdered (compareTasks h mode)) out) :
    out.Pairwise (fun a b => ¬(a.pinned = false ∧ b.pinned = true)) := by
  induction out with
  | nil => exact List.Pairwise.nil
  | cons x xs ih =>
    refine List.pairwise_cons.mpr ⟨?_, ih hc.tail⟩
    rintro b hb ⟨hx, hbp⟩
    rw [chain_unpinned h mode xs x hx hc b hb] at hbp
    cases hbp

theorem applySortingTimSort_pinned_first (h : Host) (mode : String) (l : List Task) :
    (applySortingTimSort h mode l).Pairwise
      (fun a b => ¬(a.pinned = false ∧ b.pinned = true)) :=
  pinned_first_of_locallyOrdered h mode _ (timSort_chain (compareTasks h mode) l)

theorem applySortingTimSort_perm (h : Host) (mode : String) (l : List Task) :
    (applySortingTimSort h mode l).Perm (applySorting h mode l) := by
  unfold applySortingTimSort applySorting
  rw [arraySort_eq_insertionSort]
  exact (timSort_perm _ l).trans (List.perm_insertionSort _ l).symm

/-- C7: for every host, store, filter and sort mode (any string), no unpinned
task stands before a pinned one in the list `getFilteredTasks` returns, be the
engine's sort the stable insertion sort or the TimSort of V8, which returns the
same tasks; the same holds of every order of the tasks in which the comparator
leaves each two neighbours in place.  For `A` (unpinned, text `B`) followed by
`C` (pinned, text `Z`) both sorts return `[C, A]` under every sort mode, and on
the store with numbers and ISO strings in `createdAt`, where the two sorts
differ, the pinned task is first in both. -/
theorem getFilteredTasks_pinned_first (h : Host) (now : Int) (app : TodoApp) (mode : String) :
    (getFilteredTasks h now app).1.Pairwise
        (fun a b => ¬(a.pinned = false ∧ b.pinned = true)) ∧
    (getFilteredTasksTimSort h now app).1.Pairwise
        (fun a b => ¬(a.pinned = false ∧ b.pinned = true)) ∧
    (getFilteredTasksTimSort h now app).1.Perm (getFilteredTasks h now app).1 ∧
    (getFilteredTasksTimSort h now app).2 = (getFilteredTasks h now app).2 ∧
    (∀ out : List Task,
      List.Chain' (LocallyOrdered (compareTasks h app.currentSort)) out →
      out.Pairwise (fun a b => ¬(a.pinned = false ∧ b.pinned = true))) ∧
    (getFilteredTasks h now (pinnedFirstApp mode)).1
      = [{ sampleTask "c" "Z" with pinned := true }, sampleTask "a" "B"] ∧
    (getFilteredTasksTimSort h now (pinnedFirstApp mode)).1
      = [{ sampleTask "c" "Z" with pinned := true }, sampleTask "a" "B"] ∧
    (getFilteredTasks sampleHost 0 mixedCreatedApp).1.map (fun t => (t.id, t.pinned))
      = [("p", true), ("b", false), ("a", false), ("c", false), ("d", false)] ∧
    (getFilteredTasksTimSort sampleHost 0 mixedCreatedApp).1.map (fun t => (t.id, t.pinned))
      = [("p", true), ("d", false), ("b", false), ("a", false), ("c", false)] := by
  refine ⟨applySorting_pinned_first h _ _, applySortingTimSort_pinned_first h _ _,
    applySortingTimSort_perm h _ _, rfl,
    fun out hc => pinned_first_of_locallyOrdered h _ out hc, ?_, ?_, by decide, by decide⟩
  · simp [getFilteredTasks, filterTasks, pinnedFirstApp, appWith, emptyApp, applySorting,
      arraySort, sortInsert, sortCompare, compareTasks, sampleTask]
  · simp [getFilteredTasksTimSort, filterTasks, pinnedFirstApp, appWith, emptyApp,
      applySortingTimSort, timSort, timSortLoop, computeMinRunLength, countAndMakeRun,
      countRun, orderLt, mergeCollapse, mergeForceCollapse, sortCompare, compareTasks,
      sampleTask, kMinGallopWins]

end TodoApp

namespace TodoApp

/-- C8: two tasks created by `addTask`, `First` and a day later `Second`, are
stored newest first with ISO-string `createdAt` values; under sort mode
`date-created` the comparator subtracts the two strings, which gives `NaN`,
so `getFilteredTasks` returns them newest first, not in ascending order of
`createdAt`. -/
theorem date_created_returns_newest_first :
    twoAddedApp.currentSort = "date-created" ∧
    (twoAddedApp.tasks.map fun t => (t.text, t.pinned, t.createdAt)) =
      [("Second", false, TimeVal.iso 1704153600000),
       ("First", false, TimeVal.iso 1704067200000)] ∧
    compareTasks sampleHost "date-created"
      { sampleTask "a" "Second" with createdAt := TimeVal.iso 1704153600000 }
      { sampleTask "b" "First" with createdAt := TimeVal.iso 1704067200000 } = JSNumber.nan ∧
    ((getFilteredTasks sampleHost 1704240000000 twoAddedApp).1.map
      fun t => (t.text, t.createdAt)) =
      [("Second", TimeVal.iso 1704153600000), ("First", TimeVal.iso 1704067200000)] := by
  decide

/-- C9: two tasks completed through `toggleTask`, `Second` first and `First` a day
later, have ISO-string `completedAt` values; under sort mode `date-closed`
the comparator subtracts the two strings, which gives `NaN`, so
`getFilteredTasks` returns them in store order, the earlier-completed task
first, not in descending order of `completedAt`. -/
theorem date_closed_keeps_store_order :
    twoClosedApp.currentSort = "date-closed" ∧
    (twoClosedApp.tasks.map fun t => (t.text, t.pinned, t.completed, t.completedAt)) =
      [("Second", false, true, TimeVal.iso 1704240000000),
       ("First", false, true, TimeVal.iso 1704326400000)] ∧
    ((getFilteredTasks sampleHost 1704412800000 twoClosedApp).1.map
      fun t => (t.text, t.completedAt)) =
      [("Second", TimeVal.iso 1704240000000), ("First", TimeVal.iso 1704326400000)] := by
  decide

end TodoApp

/-! ## Sorting with a consistent comparator -/

theorem arraySort_pair_stable {α : Type} (comparefn : α → α → JSNumber) (a b : α) (l : List α)
    (hab : sortCompare comparefn a b ≤ 0) (hsub : [a, b].Sublist l) :
    [a, b].Sublist (arraySort comparefn l) := by
  rw [arraySort_eq_insertionSort]
  exact List.pair_sublist_insertionSort hab hsub

theorem arraySort_pairwise {α : Type} (comparefn : α → α → JSNumber)
    (htotal : ∀ a b, sortCompare comparefn a b ≤ 0 ∨ sortCompare comparefn b a ≤ 0)
    (htrans : ∀ a b c, sortCompare comparefn a b ≤ 0 → sortCompare comparefn b c ≤ 0 →
      sortCompare comparefn a c ≤ 0)
    (l : List α) :
    (arraySort comparefn l).Pairwise (fun a b => sortCompare comparefn a b ≤ 0) := by
  rw [arraySort_eq_insertionSort]
  exact @List.sorted_insertionSort α (fun a b => sortCompare comparefn a b ≤ 0) _
    ⟨htotal⟩ ⟨htrans⟩ l

theorem compareChars_total (a b : List Char) :
    compareChars a b ≤ 0 ∨ compareChars b a ≤ 0 := by
  induction a generalizing b with
  | nil => cases b <;> simp [compareChars]
  | cons x xs ih =>
    cases b with
    | nil => simp [compareChars]
    | cons y ys =>
      simp only [compareChars]
      by_cases h1 : x.toNat < y.toNat
      · simp [h1]
      · by_cases h2 : y.toNat < x.toNat
        · simp [h2]
        · simpa [h1, h2] using ih ys

theorem compareChars_trans (a b c : List Char) (hab : compareChars a b ≤ 0)
    (hbc : compareChars b c ≤ 0) : compareChars a c ≤ 0 := by
  induction a generalizing b c with
  | nil => cases c <;> simp [compareChars]
  | cons x xs ih =>
    cases b with
    | nil => simp [compareChars] at hab
    | cons y ys =>
      cases c with
      | nil => simp [compareChars] at hbc
      | cons z zs =>
        simp only [compareChars] at hab hbc ⊢
        by_cases h1 : x.toNat < y.toNat
        · by_cases h2 : y.toNat < z.toNat
          · have : x.toNat < z.toNat := by omega
            simp [this]
          · by_cases h3 : z.toNat < y.toNat
            · simp [h2, h3] at hbc
            · have : x.toNat < z.toNat := by omega
              simp [this]
        · by_cases h1' : y.toNat < x.toNat
          · simp [h1, h1'] at hab
          · simp only [h1, h1', if_false] at hab
            by_cases h2 : y.toNat < z.toNat
            · have : x.toNat < z.toNat := by omega
              simp [this]
            · by_cases h3 : z.toNat < y.toNat
              · simp [h2, h3] at hbc
              · simp only [h2, h3, if_false] at hbc
                have e1 : ¬ x.toNat < z.toNat := by omega
                have e2 : ¬ z.toNat < x.toNat := by omega
                simp only [e1, e2, if_false]
                exact ih ys zs hab hbc

theorem sampleHost_consistent : sampleHost.CollationConsistent :=
  ⟨fun a b => compareChars_total a.data b.data,
   fun a b c => compareChars_trans a.data b.data c.data⟩

namespace TodoApp

theorem filterOverdue_sublist (h : Host) (now : Int) (ts : List Task) (app : TodoApp) :
    (filterOverdue h now ts app).1.Sublist ts := by
  induction ts generalizing app with
  | nil => exact List.Sublist.refl _
  | cons t ts ih =>
    simp only [filterOverdue]
    split_ifs
    · exact (ih _).cons₂ t
    · exact (ih _).cons t

theorem filterTasks_sublist (h : Host) (now : Int) (app : TodoApp) :
    (filterTasks h now app).1.Sublist app.tasks := by
  unfold filterTasks
  split_ifs <;>
    first
    | exact List.filter_sublist _
    | exact filterOverdue_sublist h now _ _
    | exact List.Sublist.refl _

theorem sortCompare_alphabet_az (h : Host) (a b : Task) :
    sortCompare (compareTasks h "alphabet-az") a b =
      if (a.pinned && !b.pinned) = true then -1
      else if (!a.pinned && b.pinned) = true then 1
      else h.localeCompare (h.toLowerCase a.text) (h.toLowerCase b.text) := by
  unfold sortCompare compareTasks
  split_ifs <;> simp_all

theorem sortCompare_alphabet_za (h : Host) (a b : Task) :
    sortCompare (compareTasks h "alphabet-za") a b =
      if (a.pinned && !b.pinned) = true then -1
      else if (!a.pinned && b.pinned) = true then 1
      else h.localeCompare (h.toLowerCase b.text) (h.toLowerCase a.text) := by
  unfold sortCompare compareTasks
  split_ifs <;> simp_all

theorem pinThen_total (k : Task → Task → Int) (htotal : ∀ a b, k a b ≤ 0 ∨ k b a ≤ 0)
    (a b : Task) :
    (if (a.pinned && !b.pinned) = true then (-1 : Int)
      else if (!a.pinned && b.pinned) = true then 1 else k a b) ≤ 0 ∨
    (if (b.pinned && !a.pinned) = true then (-1 : Int)
      else if (!b.pinned && a.pinned) = true then 1 else k b a) ≤ 0 := by
  cases ha : a.pinned <;> cases hb : b.pinned <;> simp [htotal a b]

theorem pinThen_trans (k : Task → Task → Int)
    (htrans : ∀ a b c, k a b ≤ 0 → k b c ≤ 0 → k a c ≤ 0) (a b c : Task)
    (hab : (if (a.pinned && !b.pinned) = true then (-1 : Int)
      else if (!a.pinned && b.pinned) = true then 1 else k a b) ≤ 0)
    (hbc : (if (b.pinned && !c.pinned) = true then (-1 : Int)
      else if (!b.pinned && c.pinned) = true then 1 else k b c) ≤ 0) :
    (if (a.pinned && !c.pinned) = true then (-1 : Int)
      else if (!a.pinned && c.pinned) = true then 1 else k a c) ≤ 0 := by
  cases ha : a.pinned <;> cases hb : b.pinned <;> cases hc : c.pinned <;>
    simp [ha, hb, hc] at hab hbc ⊢ <;> exact htrans a b c hab hbc

end TodoApp

namespace TodoApp

/-- C10: for a host whose collation is consistent, under sort mode `alphabet-az`
any two tasks of one pin group appear in the result of `getFilteredTasks` in
non-decreasing order of their lower-cased texts (the earlier one does not sort
after the later one), under `alphabet-za` in non-increasing order, and in both
modes two tasks of one pin group with equal lower-cased texts keep the order
they have in the filtered list, which is in store order.  With code-point
collation the unpinned tasks `Banana`, `apple`, `Cherry` come out as `apple`,
`Banana`, `Cherry` under `alphabet-az`. -/
theorem getFilteredTasks_alphabet (h : Host) (hc : h.CollationConsistent) (now : Int)
    (app : TodoApp) :
    (filterTasks h now app).1.Sublist app.tasks ∧
    (app.currentSort = "alphabet-az" →
      (getFilteredTasks h now app).1.Pairwise (fun a b => a.pinned = b.pinned →
        h.localeCompare (h.toLowerCase a.text) (h.toLowerCase b.text) ≤ 0) ∧
      ∀ a b, [a, b].Sublist (filterTasks h now app).1 → a.pinned = b.pinned →
        h.toLowerCase a.text = h.toLowerCase b.text →
        [a, b].Sublist (getFilteredTasks h now app).1) ∧
    (app.currentSort = "alphabet-za" →
      (getFilteredTasks h now app).1.Pairwise (fun a b => a.pinned = b.pinned →
        h.localeCompare (h.toLowerCase b.text) (h.toLowerCase a.text) ≤ 0) ∧
      ∀ a b, [a, b].Sublist (filterTasks h now app).1 → a.pinned = b.pinned →
        h.toLowerCase a.text = h.toLowerCase b.text →
        [a, b].Sublist (getFilteredTasks h now app).1) ∧
    ((getFilteredTasks sampleHost 1704153600000 fruitApp).1.map fun t => t.text)
      = ["apple", "Banana", "Cherry"] := by
  have hrefl : ∀ s, h.localeCompare s s ≤ 0 := fun s => (hc.1 s s).elim id id
  refine ⟨filterTasks_sublist h now app, ?_, ?_, by decide⟩
  · intro hmode
    simp only [getFilteredTasks, applySorting, hmode]
    constructor
    · refine (arraySort_pairwise (compareTasks h "alphabet-az") ?_ ?_ _).imp ?_
      · intro a b
        rw [sortCompare_alphabet_az, sortCompare_alphabet_az]
        exact pinThen_total
          (fun a b => h.localeCompare (h.toLowerCase a.text) (h.toLowerCase b.text))
          (fun a b => hc.1 _ _) a b
      · intro a b c
        rw [sortCompare_alphabet_az, sortCompare_alphabet_az, sortCompare_alphabet_az]
        exact pinThen_trans
          (fun a b => h.localeCompare (h.toLowerCase a.text) (h.toLowerCase b.text))
          (fun a b c => hc.2 _ _ _) a b c
      · intro a b hab hpin
        rw [sortCompare_alphabet_az] at hab
        cases ha : a.pinned <;> cases hb : b.pinned <;> simp_all
    · intro a b hsub hpin htext
      refine arraySort_pair_stable _ a b _ ?_ hsub
      rw [sortCompare_alphabet_az, htext]
      cases ha : a.pinned <;> cases hb : b.pinned <;> simp_all
  · intro hmode
    simp only [getFilteredTasks, applySorting, hmode]
    constructor
    · refine (arraySort_pairwise (compareTasks h "alphabet-za") ?_ ?_ _).imp ?_
      · intro a b
        rw [sortCompare_alphabet_za, sortCompare_alphabet_za]
        exact pinThen_total
          (fun a b => h.localeCompare (h.toLowerCase b.text) (h.toLowerCase a.text))
          (fun a b => hc.1 _ _) a b
      · intro a b c
        rw [sortCompare_alphabet_za, sortCompare_alphabet_za, sortCompare_alphabet_za]
        exact pinThen_trans
          (fun a b => h.localeCompare (h.toLowerCase b.text) (h.toLowerCase a.text))
          (fun a b c hab hbc => hc.2 _ _ _ hbc hab) a b c
      · intro a b hab hpin
        rw [sortCompare_alphabet_za] at hab
        cases ha : a.pinned <;> cases hb : b.pinned <;> simp_all
    · intro a b hsub hpin htext
      refine arraySort_pair_stable _ a b _ ?_ hsub
      rw [sortCompare_alphabet_za, htext]
      cases ha : a.pinned <;> cases hb : b.pinned <;> simp_all

/-- C10 with code-point collation on `Banana`, `apple`, `Cherry`, in both modes. -/
theorem getFilteredTasks_alphabet_witness :
    sampleHost.CollationConsistent ∧
    ((getFilteredTasks sampleHost 1704153600000 fruitApp).1.Pairwise
        (fun a b => a.pinned = b.pinned →
          sampleHost.localeCompare (sampleHost.toLowerCase a.text)
            (sampleHost.toLowerCase b.text) ≤ 0) ∧
      ∀ a b, [a, b].Sublist (filterTasks sampleHost 1704153600000 fruitApp).1 →
        a.pinned = b.pinned →
        sampleHost.toLowerCase a.text = sampleHost.toLowerCase b.text →
        [a, b].Sublist (getFilteredTasks sampleHost 1704153600000 fruitApp).1) ∧
    ((getFilteredTasks sampleHost 1704153600000
          { fruitApp with currentSort := "alphabet-za" }).1.Pairwise
        (fun a b => a.pinned = b.pinned →
          sampleHost.localeCompare (sampleHost.toLowerCase b.text)
            (sampleHost.toLowerCase a.text) ≤ 0)) ∧
    ((getFilteredTasks sampleHost 1704153600000 fruitApp).1.map fun t => t.text)
      = ["apple", "Banana", "Cherry"] ∧
    ((getFilteredTasks sampleHost 1704153600000
        { fruitApp with currentSort := "alphabet-za" }).1.map fun t => t.text)
      = ["Cherry", "Banana", "apple"] :=
  ⟨sampleHost_consistent,
    (getFilteredTasks_alphabet sampleHost sampleHost_consistent 1704153600000 fruitApp).2.1
      (by decide),
    ((getFilteredTasks_alphabet sampleHost sampleHost_consistent 1704153600000
      { fruitApp with currentSort := "alphabet-za" }).2.2.1 (by decide)).1,
    by decide, by decide⟩

end TodoApp

/-! ## Overdue tasks -/

namespace TodoApp

theorem isOverdue_fst (h : Host) (now : Int) (app : TodoApp) (task : Task) :
    (isOverdue h now app task).1 =
      match task.dueDate with
      | none => false
      | some due =>
        if due = "" then false
        else
          match h.parseDate due with
          | none => false
          | some d => decide (h.startOfDay d < effectiveToday h now app) && !task.completed := by
  unfold isOverdue effectiveToday
  cases task.dueDate with
  | none => rfl
  | some due =>
    dsimp only
    split_ifs
    · rfl
    · cases h.parseDate due <;> rfl

theorem isOverdue_snd (h : Host) (now : Int) (app : TodoApp) (task : Task) :
    (isOverdue h now app task).2 = app ∨
    (isOverdue h now app task).2 = { app with cachedToday := some (effectiveToday h now app) } := by
  unfold isOverdue effectiveToday
  cases task.dueDate with
  | none => exact Or.inl rfl
  | some due =>
    dsimp only
    split_ifs
    · exact Or.inl rfl
    · cases h.parseDate due <;> exact Or.inr rfl

theorem effectiveToday_isOverdue (h : Host) (now : Int) (app : TodoApp) (task : Task) :
    effectiveToday h now (isOverdue h now app task).2 = effectiveToday h now app := by
  rcases isOverdue_snd h now app task with h1 | h1 <;> rw [h1]
  rfl

theorem isOverdue_fst_congr (h : Host) (now : Int) (a b : TodoApp) (task : Task)
    (hab : effectiveToday h now a = effectiveToday h now b) :
    (isOverdue h now a task).1 = (isOverdue h now b task).1 := by
  rw [isOverdue_fst, isOverdue_fst, hab]

theorem filterOverdue_fst (h : Host) (now : Int) (ts : List Task) (app app0 : TodoApp)
    (h0 : effectiveToday h now app = effectiveToday h now app0) :
    (filterOverdue h now ts app).1 = ts.filter (fun t => (isOverdue h now app0 t).1) := by
  induction ts generalizing app with
  | nil => rfl
  | cons t ts ih =>
    simp only [filterOverdue, List.filter_cons]
    rw [ih _ ((effectiveToday_isOverdue h now app t).trans h0),
      isOverdue_fst_congr h now app app0 t h0]

theorem arraySort_perm {α : Type} (comparefn : α → α → JSNumber) (l : List α) :
    (arraySort comparefn l).Perm l := by
  rw [arraySort_eq_insertionSort]
  exact List.perm_insertionSort _ l

/-- C11: the list `getFilteredTasks` returns is a permutation of the tasks of the
store that satisfy the predicate of the current filter: status `pending`,
status `in-progress`, `completed` true, `isOverdue` true, `pinned` true; for
every other filter value (`all` or unknown) it is a permutation of all the
tasks. -/
theorem getFilteredTasks_perm_filter (h : Host) (now : Int) (app : TodoApp) :
    (app.currentFilter = "pending" →
      (getFilteredTasks h now app).1.Perm (app.tasks.filter fun t => t.status == "pending")) ∧
    (app.currentFilter = "in-progress" →
      (getFilteredTasks h now app).1.Perm
        (app.tasks.filter fun t => t.status == "in-progress")) ∧
    (app.currentFilter = "completed" →
      (getFilteredTasks h now app).1.Perm (app.tasks.filter fun t => t.completed)) ∧
    (app.currentFilter = "overdue" →
      (getFilteredTasks h now app).1.Perm
        (app.tasks.filter fun t => (isOverdue h now app t).1)) ∧
    (app.currentFilter = "pinned" →
      (getFilteredTasks h now app).1.Perm (app.tasks.filter fun t => t.pinned)) ∧
    (app.currentFilter ≠ "pending" → app.currentFilter ≠ "in-progress" →
      app.currentFilter ≠ "completed" → app.currentFilter ≠ "overdue" →
      app.currentFilter ≠ "pinned" →
      (getFilteredTasks h now app).1.Perm app.tasks) := by
  have hsort : (getFilteredTasks h now app).1.Perm (filterTasks h now app).1 :=
    arraySort_perm _ _
  refine ⟨?_, ?_, ?_, ?_, ?_, ?_⟩
  · intro hf
    refine hsort.trans ?_
    simp [filterTasks, hf]
  · intro hf
    refine hsort.trans ?_
    simp [filterTasks, hf]
  · intro hf
    refine hsort.trans ?_
    simp [filterTasks, hf]
  · intro hf
    refine hsort.trans ?_
    simp only [filterTasks, hf]
    simp only [String.reduceEq, if_false, if_true]
    rw [filterOverdue_fst h now app.tasks app app rfl]
  · intro hf
    refine hsort.trans ?_
    simp [filterTasks, hf]
  · intro h1 h2 h3 h4 h5
    refine hsort.trans ?_
    simp [filterTasks, h1, h2, h3, h4, h5]

/-- C12: a task with `completed` true is not overdue, whatever its due date, the
cached day and the clock are. -/
theorem isOverdue_completed (h : Host) (now : Int) (app : TodoApp) (task : Task)
    (hc : task.completed = true) : (isOverdue h now app task).1 = false := by
  rw [isOverdue_fst]
  cases task.dueDate with
  | none => rfl
  | some due =>
    dsimp only
    split_ifs
    · rfl
    · cases h.parseDate due <;> simp [hc]

/-- C12 on the completed task of the statistics scenario, due on 2024-01-03 and
looked at on 2024-01-10. -/
theorem isOverdue_completed_witness :
    (statsTask "1" "File taxes" "2024-01-03" "completed" true).completed = true ∧
    (isOverdue sampleHost 1704844800000 statsApp
      (statsTask "1" "File taxes" "2024-01-03" "completed" true)).1 = false ∧
    (isOverdue sampleHost 1704844800000 statsApp
      (statsTask "1" "File taxes" "2024-01-03" "pending" false)).1 = true :=
  ⟨rfl,
    isOverdue_completed sampleHost 1704844800000 statsApp
      (statsTask "1" "File taxes" "2024-01-03" "completed" true) rfl,
    by decide⟩

/-- The result of `isOverdue` in the host's own terms: it is false for a task
without a due date (missing or empty);
for a task whose due date parses to the instant `d` it is true exactly when
the start of the day of `d` is strictly before the day the store takes as
today (the cached day, else the start of the current day) and `completed`
is false, so a task due on that day is not overdue; for a due date that does
not parse it is false.  At noon of 2024-01-05 (UTC days) a pending task due
on 2024-01-05 is not overdue and one due on 2024-01-04 is. -/
theorem isOverdue_iff (h : Host) (now : Int) (app : TodoApp) (task : Task) :
    (task.dueDate = none ∨ task.dueDate = some "" → (isOverdue h now app task).1 = false) ∧
    (∀ due d, task.dueDate = some due → due ≠ "" → h.parseDate due = some d →
      ((isOverdue h now app task).1 = true ↔
        h.startOfDay d < effectiveToday h now app ∧ task.completed = false) ∧
      (h.startOfDay d = effectiveToday h now app → (isOverdue h now app task).1 = false)) ∧
    (∀ due, task.dueDate = some due → h.parseDate due = none →
      (isOverdue h now app task).1 = false) ∧
    (app.cachedToday = none → effectiveToday h now app = h.startOfDay now) ∧
    (isOverdue sampleHost 1704456000000 emptyApp
      { sampleTask "1" "Pay rent" with dueDate := some "2024-01-05" }).1 = false ∧
    (isOverdue sampleHost 1704456000000 emptyApp
      { sampleTask "1" "Pay rent" with dueDate := some "2024-01-04" }).1 = true := by
  refine ⟨?_, ?_, ?_, ?_, by decide, by decide⟩
  · rintro (hd | hd)
    · rw [isOverdue_fst, hd]
    · rw [isOverdue_fst, hd]
      rfl
  · intro due d hd hne hp
    rw [isOverdue_fst, hd]
    simp only [hne, if_false, hp]
    constructor
    · simp
    · intro heq
      simp [heq]
  · intro due hd hp
    rw [isOverdue_fst, hd]
    dsimp only
    split_ifs
    · rfl
    · rw [hp]
  · intro hc
    simp [effectiveToday, hc]

end TodoApp

/-! ## Statistics -/

namespace TodoApp

theorem updateStats_foldl_counts (h : Host) (now : Int) (app0 : TodoApp) (ts : List Task)
    (acc : Stats × TodoApp) (h0 : effectiveToday h now acc.2 = effectiveToday h now app0) :
    (ts.foldl
      (fun (acc : Stats × TodoApp) task =>
        let r := isOverdue h now acc.2 task
        (({ total := acc.1.total + 1
            completed := if task.completed then acc.1.completed + 1 else acc.1.completed
            pending := if task.status = "pending" then acc.1.pending + 1 else acc.1.pending
            overdue := if r.1 then acc.1.overdue + 1 else acc.1.overdue } : Stats), r.2))
      acc).1 =
      { total := acc.1.total + ts.length
        completed := acc.1.completed + ts.countP (fun t => t.completed)
        pending := acc.1.pending + ts.countP (fun t => t.status == "pending")
        overdue := acc.1.overdue + ts.countP (fun t => (isOverdue h now app0 t).1) } := by
  induction ts generalizing acc with
  | nil => simp
  | cons t ts ih =>
    simp only [List.foldl_cons]
    rw [ih _ ((effectiveToday_isOverdue h now acc.2 t).trans h0)]
    simp only [List.length_cons, List.countP_cons, isOverdue_fst_congr h now acc.2 app0 t h0]
    congr 1
    · omega
    · split_ifs <;> omega
    · split_ifs <;> first | omega | simp_all
    · split_ifs <;> omega

/-- C14: `updateStats` computes `total` as the number of tasks, `completed` as the
number of tasks with `completed` true, `pending` as the number of tasks with
status `pending` and `overdue` as the number of tasks for which `isOverdue`
holds; for one completed task, one overdue pending task and one pending task
due later the counters are 3, 1, 2 and 1. -/
theorem updateStats_counts (h : Host) (now : Int) (app : TodoApp) :
    (updateStats h now app).1 =
      { total := app.tasks.length
        completed := app.tasks.countP (fun t => t.completed)
        pending := app.tasks.countP (fun t => t.status == "pending")
        overdue := app.tasks.countP (fun t => (isOverdue h now app t).1) } ∧
    (updateStats sampleHost 1704844800000 statsApp).1 =
      { total := 3, completed := 1, pending := 2, overdue := 1 } := by
  refine ⟨?_, by decide⟩
  unfold updateStats
  rw [updateStats_foldl_counts h now app app.tasks _ rfl]
  simp

end TodoApp

namespace TodoApp

/-- C15: for forty tasks of which twenty-three are completed, `updateStats`
computes the progress 57, while the integer nearest to `100 * 23 / 40 = 57.5`
with a half rounding up is 58: the double quotient `23 / 40` is
`5179139571476070 / 2 ^ 53`, just below `0.575`, its double product with `100`
is `8092405580431359 / 2 ^ 47`, just below `57.5`, and `Math.round` takes it
down.  For one completed task out of three the progress is 33, and for no
task it is 0. -/
theorem progress_forty_tasks :
    (updateStats sampleHost 1704844800000 fortyApp).1 =
      { total := 40, completed := 23, pending := 17, overdue := 0 } ∧
    Double.divNat 23 40 = { mant := 5179139571476070, scale := 53 } ∧
    (Double.divNat 23 40).mulNat 100 = { mant := 8092405580431359, scale := 47 } ∧
    progress (updateStats sampleHost 1704844800000 fortyApp).1 = 57 ∧
    nearestPercent 23 40 = 58 ∧
    progress (updateStats sampleHost 1704844800000 statsApp).1 = 33 ∧
    nearestPercent 1 3 = 33 ∧
    progress (updateStats sampleHost 1704844800000 emptyApp).1 = 0 := by
  decide

/-! ## Adding a task: validation and result -/

theorem addTask_accepted (h : Host) (now : Int) (rnd : String) (form : TaskForm)
    (app : TodoApp) (text startDate dueDate : String)
    (htext : form.taskInput = some text) (hstart : form.startDateInput = some startDate)
    (hdue : form.dueDateInput = some dueDate) (hne : trim text ≠ "")
    (hvs : isValidDate h startDate = true) (hvd : isValidDate h dueDate = true)
    (hord : dateAfter h startDate dueDate = false)
    (hfresh : ∀ t ∈ app.tasks, h.toLowerCase t.text ≠ h.toLowerCase (trim text)) :
    (addTask h now rnd form app).tasks =
      { id := (generateId now rnd app).1
        text := trim text
        startDate := some startDate
        dueDate := some dueDate
        notes := match form.noteInput with
          | some v => trim v
          | none => ""
        status := "pending"
        completed := false
        pinned := false
        subtasks := []
        showSubtaskForm := false
        createdAt := TimeVal.iso now
        completedAt := TimeVal.absent } :: app.tasks := by
  have hs : startDate ≠ "" := by
    intro hs
    simp [isValidDate, hs] at hvs
  have hd : dueDate ≠ "" := by
    intro hd
    simp [isValidDate, hd] at hvd
  have hany : app.tasks.any
      (fun t => h.toLowerCase t.text == h.toLowerCase (trim text)) = false := by
    rw [List.any_eq_false]
    intro t ht
    simpa using hfresh t ht
  unfold addTask
  rw [htext, hstart, hdue]
  dsimp only
  rw [hany]
  simp only [hne, hs, hd, hvs, hvd, hord, decide_False, Bool.or_self, Bool.not_true,
    Bool.false_eq_true, if_false]
  rw [renderAndStats_tasks]
  rfl

/-- C16: `addTask` changes nothing when the trimmed text is empty, when the start
date or the due date is empty or does not parse, or when the start date is
after the due date (an input element missing from the document counts as an
empty value); with a non-empty new text and a valid start date equal to the
due date the task is added. -/
theorem addTask_validation (h : Host) (now : Int) (rnd : String) (form : TaskForm)
    (app : TodoApp) :
    (((∀ text, form.taskInput = some text → trim text = "") ∨
      (∀ s, form.startDateInput = some s → isValidDate h s = false) ∨
      (∀ d, form.dueDateInput = some d → isValidDate h d = false) ∨
      (∃ s d, form.startDateInput = some s ∧ form.dueDateInput = some d ∧
        dateAfter h s d = true)) →
      addTask h now rnd form app = app ∧ (addTask h now rnd form app).tasks = app.tasks) ∧
    (∀ text date, form.taskInput = some text → form.startDateInput = some date →
      form.dueDateInput = some date → trim text ≠ "" → isValidDate h date = true →
      (∀ t ∈ app.tasks, h.toLowerCase t.text ≠ h.toLowerCase (trim text)) →
      ∃ task, (addTask h now rnd form app).tasks = task :: app.tasks ∧
        task.text = trim text ∧ task.startDate = some date ∧ task.dueDate = some date) := by
  constructor
  · intro hbad
    have key : addTask h now rnd form app = app := by
      unfold addTask
      cases ht : form.taskInput with
      | none => rfl
      | some text =>
        cases hs : form.startDateInput with
        | none => rfl
        | some s =>
          cases hd : form.dueDateInput with
          | none => rfl
          | some d =>
            dsimp only
            rcases hbad with hb | hb | hb | ⟨s', d', hs', hd', hb⟩
            · simp [hb text ht]
            · have := hb s hs
              split_ifs <;> simp_all
            · have := hb d hd
              split_ifs <;> simp_all
            · rw [hs] at hs'
              rw [hd] at hd'
              cases hs'
              cases hd'
              split_ifs <;> simp_all
    exact ⟨key, by rw [key]⟩
  · intro text date ht hs hd hne hv hfresh
    have hord : dateAfter h date date = false := by
      unfold dateAfter
      cases h.parseDate date <;> simp
    exact ⟨_, addTask_accepted h now rnd form app text date date ht hs hd hne hv hv hord hfresh,
      rfl, rfl, rfl⟩

/-- C16 on the store with `Buy milk`: an empty text, an empty start date, a due
date that does not parse and a start date after the due date are rejected; a
start date equal to the due date is accepted. -/
theorem addTask_validation_witness :
    addTask sampleHost 1704153600000 "q7" (sampleForm "   " "2024-01-01" "2024-01-10") milkApp
      = milkApp ∧
    addTask sampleHost 1704153600000 "q7" (sampleForm "Buy bread" "" "2024-01-10") milkApp
      = milkApp ∧
    addTask sampleHost 1704153600000 "q7" (sampleForm "Buy bread" "2024-01-01" "2024-02-30")
      milkApp = milkApp ∧
    addTask sampleHost 1704153600000 "q7" (sampleForm "Buy bread" "2024-01-11" "2024-01-10")
      milkApp = milkApp ∧
    (∃ task,
      (addTask sampleHost 1704153600000 "q7" (sampleForm "Buy bread" "2024-01-10" "2024-01-10")
        milkApp).tasks = task :: milkApp.tasks ∧
      task.text = trim "Buy bread" ∧ task.startDate = some "2024-01-10" ∧
      task.dueDate = some "2024-01-10") :=
  ⟨((addTask_validation sampleHost 1704153600000 "q7"
      (sampleForm "   " "2024-01-01" "2024-01-10") milkApp).1
      (Or.inl (fun text ht => by cases ht; decide))).1,
   ((addTask_validation sampleHost 1704153600000 "q7"
      (sampleForm "Buy bread" "" "2024-01-10") milkApp).1
      (Or.inr (Or.inl (fun s hs => by cases hs; decide)))).1,
   ((addTask_validation sampleHost 1704153600000 "q7"
      (sampleForm "Buy bread" "2024-01-01" "2024-02-30") milkApp).1
      (Or.inr (Or.inr (Or.inl (fun d hd => by cases hd; decide))))).1,
   ((addTask_validation sampleHost 1704153600000 "q7"
      (sampleForm "Buy bread" "2024-01-11" "2024-01-10") milkApp).1
      (Or.inr (Or.inr (Or.inr ⟨"2024-01-11", "2024-01-10", rfl, rfl, by decide⟩)))).1,
   (addTask_validation sampleHost 1704153600000 "q7"
      (sampleForm "Buy bread" "2024-01-10" "2024-01-10") milkApp).2
      "Buy bread" "2024-01-10" rfl rfl rfl (by decide) (by decide) (by decide)⟩

/-- C17: when the add form passes validation (non-empty trimmed text, both dates
valid, start date not after due date, no task with the same lower-cased text),
the task sequence after `addTask` is the new task followed by the previous
sequence; the new task has the generated id, the trimmed text, the given
dates, status `pending`, `completed` and `pinned` false, no subtasks and no
`completedAt`. -/
theorem addTask_prepends (h : Host) (now : Int) (rnd : String) (form : TaskForm)
    (app : TodoApp) (text startDate dueDate : String)
    (htext : form.taskInput = some text) (hstart : form.startDateInput = some startDate)
    (hdue : form.dueDateInput = some dueDate) (hne : trim text ≠ "")
    (hvs : isValidDate h startDate = true) (hvd : isValidDate h dueDate = true)
    (hord : dateAfter h startDate dueDate = false)
    (hfresh : ∀ t ∈ app.tasks, h.toLowerCase t.text ≠ h.toLowerCase (trim text)) :
    ∃ task, (addTask h now rnd form app).tasks = task :: app.tasks ∧
      task.id = (generateId now rnd app).1 ∧
      task.text = trim text ∧ task.startDate = some startDate ∧
      task.dueDate = some dueDate ∧ task.status = "pending" ∧ task.completed = false ∧
      task.pinned = false ∧ task.subtasks = [] ∧ task.completedAt = TimeVal.absent ∧
      task.createdAt = TimeVal.iso now :=
  ⟨_, addTask_accepted h now rnd form app text startDate dueDate htext hstart hdue hne hvs hvd
    hord hfresh, rfl, rfl, rfl, rfl, rfl, rfl, rfl, rfl, rfl, rfl⟩

/-- C17 on the store with `Buy milk`: adding `  Buy bread ` puts `Buy bread` at the
head, before `Buy milk`. -/
theorem addTask_prepends_witness :
    ∃ task,
      (addTask sampleHost 1704153600000 "q7" (sampleForm "  Buy bread " "2024-01-01" "2024-01-10")
        milkApp).tasks = task :: milkApp.tasks ∧
      task.id = "1704153600000-1704067200001-q7" ∧
      task.text = "Buy bread" ∧ task.startDate = some "2024-01-01" ∧
      task.dueDate = some "2024-01-10" ∧ task.status = "pending" ∧ task.completed = false ∧
      task.pinned = false ∧ task.subtasks = [] ∧ task.completedAt = TimeVal.absent ∧
      task.createdAt = TimeVal.iso 1704153600000 := by
  obtain ⟨task, h1, h2, h3, h4⟩ :=
    addTask_prepends sampleHost 1704153600000 "q7"
      (sampleForm "  Buy bread " "2024-01-01" "2024-01-10") milkApp "  Buy bread " "2024-01-01"
      "2024-01-10" rfl rfl rfl (by decide) (by decide) (by decide) (by decide) (by decide)
  refine ⟨task, h1, ?_, ?_, h4⟩
  · rw [h2]
    decide
  · rw [h3]
    decide

end TodoApp

/-! ## Adding a subtask or a sub-subtask -/

namespace TodoApp

theorem generateId_tasks (now : Int) (rnd : String) (app : TodoApp) :
    (generateId now rnd app).2.tasks = app.tasks := rfl

theorem addSubtask_accepted (h : Host) (now : Int) (rnd : String)
    (taskId text notes : String) (app : TodoApp) (task : Task)
    (htask : app.tasks.find? (fun t => t.id == taskId) = some task)
    (hne : trim text ≠ "")
    (hfresh : ∀ s ∈ task.subtasks, h.toLowerCase s.text ≠ h.toLowerCase (trim text)) :
    ∃ pre post, app.tasks = pre ++ task :: post ∧ (∀ t ∈ pre, t.id ≠ taskId) ∧
      (addSubtask h now rnd taskId text notes app).tasks =
        pre ++ { task with
          subtasks := task.subtasks ++
            [{ id := (generateId now rnd app).1
               text := trim text
               completed := false
               pinned := false
               notes := notes
               subsubtasks := []
               showSubSubtaskForm := false }] } :: post := by
  have hany : task.subtasks.any
      (fun s => h.toLowerCase s.text == h.toLowerCase (trim text)) = false := by
    rw [List.any_eq_false]
    intro s hs
    simpa using hfresh s hs
  obtain ⟨pre, post, h1, h2, h3⟩ := putTask_tasks_of_find taskId
    { task with
      subtasks := task.subtasks ++
        [{ id := (generateId now rnd app).1
           text := trim text
           completed := false
           pinned := false
           notes := notes
           subsubtasks := []
           showSubSubtaskForm := false }] }
    (generateId now rnd app).2 task htask
  refine ⟨pre, post, h1, h2, ?_⟩
  unfold addSubtask
  rw [htask]
  dsimp only
  rw [hany]
  simp only [hne, if_false, Bool.false_eq_true]
  rw [render_tasks]
  exact h3

theorem addSubSubtask_accepted (h : Host) (now : Int) (rnd : String)
    (taskId subtaskId text notes : String) (app : TodoApp) (task : Task) (subtask : Subtask)
    (htask : app.tasks.find? (fun t => t.id == taskId) = some task)
    (hsub : task.subtasks.find? (fun s => s.id == subtaskId) = some subtask)
    (hne : trim text ≠ "")
    (hfresh : ∀ ss ∈ subtask.subsubtasks, h.toLowerCase ss.text ≠ h.toLowerCase (trim text)) :
    ∃ pre post spre spost, app.tasks = pre ++ task :: post ∧ (∀ t ∈ pre, t.id ≠ taskId) ∧
      task.subtasks = spre ++ subtask :: spost ∧ (∀ s ∈ spre, s.id ≠ subtaskId) ∧
      (addSubSubtask h now rnd taskId subtaskId text notes app).tasks =
        pre ++ { task with
          subtasks := spre ++ { subtask with
            subsubtasks := subtask.subsubtasks ++
              [{ id := (generateId now rnd app).1
                 text := trim text
                 completed := false
                 pinned := false
                 notes := notes }] } :: spost } :: post := by
  have hany : subtask.subsubtasks.any
      (fun ss => h.toLowerCase ss.text == h.toLowerCase (trim text)) = false := by
    rw [List.any_eq_false]
    intro ss hss
    simpa using hfresh ss hss
  obtain ⟨spre, spost, hs1, hs2, hs3⟩ := putSubtask_subtasks_of_find subtaskId
    { subtask with
      subsubtasks := subtask.subsubtasks ++
        [{ id := (generateId now rnd app).1
           text := trim text
           completed := false
           pinned := false
           notes := notes }] }
    task subtask hsub
  obtain ⟨pre, post, h1, h2, h3⟩ := putTask_tasks_of_find taskId
    (putSubtask subtaskId
      { subtask with
        subsubtasks := subtask.subsubtasks ++
          [{ id := (generateId now rnd app).1
             text := trim text
             completed := false
             pinned := false
             notes := notes }] }
      task)
    (generateId now rnd app).2 task htask
  refine ⟨pre, post, spre, spost, h1, h2, hs1, hs2, ?_⟩
  unfold addSubSubtask
  rw [htask]
  dsimp only
  rw [hsub]
  dsimp only
  rw [hany]
  simp only [hne, if_false, Bool.false_eq_true]
  rw [render_tasks, h3]
  unfold putSubtask at hs3 ⊢
  simp only at hs3
  rw [hs3]

end TodoApp

namespace TodoApp

/-- C18: an accepted `addSubtask` on an existing task leaves every other task in
place and replaces the task by a copy whose subtask sequence is the previous
one followed by the new subtask, which has the trimmed text, `completed` and
`pinned` false and no sub-subtasks; an accepted `addSubSubtask` on an existing
task and subtask does the same one level down: only the sub-subtask sequence
of that subtask changes, by the new sub-subtask at its end. -/
theorem addSubtask_addSubSubtask_append (h : Host) (now : Int) (rnd : String)
    (taskId subtaskId text1 notes1 text2 notes2 : String) (app : TodoApp) (task : Task)
    (subtask : Subtask)
    (htask : app.tasks.find? (fun t => t.id == taskId) = some task)
    (hsub : task.subtasks.find? (fun s => s.id == subtaskId) = some subtask)
    (hne1 : trim text1 ≠ "")
    (hfresh1 : ∀ s ∈ task.subtasks, h.toLowerCase s.text ≠ h.toLowerCase (trim text1))
    (hne2 : trim text2 ≠ "")
    (hfresh2 : ∀ ss ∈ subtask.subsubtasks,
      h.toLowerCase ss.text ≠ h.toLowerCase (trim text2)) :
    (∃ pre post child, app.tasks = pre ++ task :: post ∧ (∀ t ∈ pre, t.id ≠ taskId) ∧
      (addSubtask h now rnd taskId text1 notes1 app).tasks =
        pre ++ { task with subtasks := task.subtasks ++ [child] } :: post ∧
      child.text = trim text1 ∧ child.completed = false ∧ child.pinned = false ∧
      child.subsubtasks = [] ∧ child.id = (generateId now rnd app).1) ∧
    (∃ pre post spre spost child,
      app.tasks = pre ++ task :: post ∧ (∀ t ∈ pre, t.id ≠ taskId) ∧
      task.subtasks = spre ++ subtask :: spost ∧ (∀ s ∈ spre, s.id ≠ subtaskId) ∧
      (addSubSubtask h now rnd taskId subtaskId text2 notes2 app).tasks =
        pre ++ { task with
          subtasks := spre ++
            { subtask with subsubtasks := subtask.subsubtasks ++ [child] } :: spost } :: post ∧
      child.text = trim text2 ∧ child.completed = false ∧ child.pinned = false ∧
      child.id = (generateId now rnd app).1) := by
  constructor
  · obtain ⟨pre, post, h1, h2, h3⟩ :=
      addSubtask_accepted h now rnd taskId text1 notes1 app task htask hne1 hfresh1
    exact ⟨pre, post, _, h1, h2, h3, rfl, rfl, rfl, rfl, rfl⟩
  · obtain ⟨pre, post, spre, spost, h1, h2, h3, h4, h5⟩ :=
      addSubSubtask_accepted h now rnd taskId subtaskId text2 notes2 app task subtask htask hsub
        hne2 hfresh2
    exact ⟨pre, post, spre, spost, _, h1, h2, h3, h4, h5, rfl, rfl, rfl, rfl⟩

/-- C18 on the sample tree: the subtask ` Publish ` is added after `Draft` and
`Review`, and the sub-subtask `Intro` after `Outline` and `Sources`. -/
theorem addSubtask_addSubSubtask_append_witness :
    ((∃ pre post child, treeApp.tasks = pre ++ treeTask :: post ∧ (∀ t ∈ pre, t.id ≠ "t1") ∧
      (addSubtask sampleHost 1704153600000 "q7" "t1" " Publish " "" treeApp).tasks =
        pre ++ { treeTask with subtasks := treeTask.subtasks ++ [child] } :: post ∧
      child.text = trim " Publish " ∧ child.completed = false ∧ child.pinned = false ∧
      child.subsubtasks = [] ∧ child.id = (generateId 1704153600000 "q7" treeApp).1) ∧
    (∃ pre post spre spost child,
      treeApp.tasks = pre ++ treeTask :: post ∧ (∀ t ∈ pre, t.id ≠ "t1") ∧
      treeTask.subtasks = spre ++
        sampleSubtask "s1" "Draft" false
          [sampleSubSubtask "u1" "Outline" false, sampleSubSubtask "u2" "Sources" true]
        :: spost ∧
      (∀ s ∈ spre, s.id ≠ "s1") ∧
      (addSubSubtask sampleHost 1704153600000 "q7" "t1" "s1" "Intro" "" treeApp).tasks =
        pre ++ { treeTask with
          subtasks := spre ++
            { sampleSubtask "s1" "Draft" false
                [sampleSubSubtask "u1" "Outline" false, sampleSubSubtask "u2" "Sources" true] with
              subsubtasks :=
                (sampleSubtask "s1" "Draft" false
                  [sampleSubSubtask "u1" "Outline" false,
                   sampleSubSubtask "u2" "Sources" true]).subsubtasks ++ [child] }
            :: spost } :: post ∧
      child.text = trim "Intro" ∧ child.completed = false ∧ child.pinned = false ∧
      child.id = (generateId 1704153600000 "q7" treeApp).1)) ∧
    ((addSubtask sampleHost 1704153600000 "q7" "t1" " Publish " "" treeApp).tasks.map
      fun t => (t.text, t.subtasks.map fun s => s.text)) =
      [("Buy milk", []), ("Write report", ["Draft", "Review", "Publish"]), ("Call bank", [])] ∧
    ((addSubSubtask sampleHost 1704153600000 "q7" "t1" "s1" "Intro" "" treeApp).tasks.map
      fun t => (t.text, t.subtasks.map fun s => (s.text, s.subsubtasks.map fun ss => ss.text))) =
      [("Buy milk", []),
       ("Write report", [("Draft", ["Outline", "Sources", "Intro"]), ("Review", [])]),
       ("Call bank", [])] :=
  ⟨addSubtask_addSubSubtask_append sampleHost 1704153600000 "q7" "t1" "s1" " Publish " ""
      "Intro" "" treeApp treeTask
      (sampleSubtask "s1" "Draft" false
        [sampleSubSubtask "u1" "Outline" false, sampleSubSubtask "u2" "Sources" true])
      (by decide) (by decide) (by decide) (by decide) (by decide) (by decide),
    by decide, by decide⟩

/-- C19: on an existing task `addSubtask` changes nothing when the trimmed text is
empty or equals, after lower-casing, the text of a subtask of that task; any
other text is added at the end of the task's subtasks, whatever the texts of
tasks, of subtasks of other tasks and of sub-subtasks are. -/
theorem addSubtask_sibling_uniqueness (h : Host) (now : Int) (rnd : String)
    (taskId text notes : String) (app : TodoApp) (task : Task)
    (htask : app.tasks.find? (fun t => t.id == taskId) = some task) :
    ((trim text = "" ∨
        ∃ s ∈ task.subtasks, h.toLowerCase s.text = h.toLowerCase (trim text)) →
      addSubtask h now rnd taskId text notes app = app) ∧
    (trim text ≠ "" →
      (∀ s ∈ task.subtasks, h.toLowerCase s.text ≠ h.toLowerCase (trim text)) →
      ∃ pre post child, app.tasks = pre ++ task :: post ∧ (∀ t ∈ pre, t.id ≠ taskId) ∧
        (addSubtask h now rnd taskId text notes app).tasks =
          pre ++ { task with subtasks := task.subtasks ++ [child] } :: post ∧
        child.text = trim text) := by
  constructor
  · intro hbad
    unfold addSubtask
    rw [htask]
    dsimp only
    rcases hbad with hb | ⟨s, hs, heq⟩
    · simp [hb]
    · have hany : task.subtasks.any
          (fun s => h.toLowerCase s.text == h.toLowerCase (trim text)) = true :=
        List.any_eq_true.mpr ⟨s, hs, by simp [heq]⟩
      rw [hany]
      simp
  · intro hne hfresh
    obtain ⟨pre, post, h1, h2, h3⟩ :=
      addSubtask_accepted h now rnd taskId text notes app task htask hne hfresh
    exact ⟨pre, post, _, h1, h2, h3, rfl⟩

/-- C19 on the sample tree: under `Write report`, an empty text and ` draft ` are
rejected, while `Write report` (the text of the task) and `Outline` (the text
of a sub-subtask) are added; under `Buy milk`, `Draft` (a subtask of another
task) is added. -/
theorem addSubtask_sibling_uniqueness_witness :
    addSubtask sampleHost 1704153600000 "q7" "t1" "  " "" treeApp = treeApp ∧
    addSubtask sampleHost 1704153600000 "q7" "t1" " draft " "" treeApp = treeApp ∧
    ((addSubtask sampleHost 1704153600000 "q7" "t1" "Write report" "" treeApp).tasks.map
      fun t => t.subtasks.map fun s => s.text) = [[], ["Draft", "Review", "Write report"], []] ∧
    ((addSubtask sampleHost 1704153600000 "q7" "t1" "Outline" "" treeApp).tasks.map
      fun t => t.subtasks.map fun s => s.text) = [[], ["Draft", "Review", "Outline"], []] ∧
    ((addSubtask sampleHost 1704153600000 "q7" "t0" "Draft" "" treeApp).tasks.map
      fun t => t.subtasks.map fun s => s.text) = [["Draft"], ["Draft", "Review"], []] :=
  ⟨(addSubtask_sibling_uniqueness sampleHost 1704153600000 "q7" "t1" "  " "" treeApp treeTask
      (by decide)).1 (Or.inl (by decide)),
   (addSubtask_sibling_uniqueness sampleHost 1704153600000 "q7" "t1" " draft " "" treeApp
      treeTask (by decide)).1
      (Or.inr ⟨sampleSubtask "s1" "Draft" false
        [sampleSubSubtask "u1" "Outline" false, sampleSubSubtask "u2" "Sources" true],
        by decide, by decide⟩),
   by decide, by decide, by decide⟩

end TodoApp

/-! ## The completion fields stay consistent -/

theorem mem_modifyFirst_const {α : Type} (p : α → Bool) (b : α) (l : List α) (x : α)
    (hx : x ∈ modifyFirst p (fun _ => b) l) : x ∈ l ∨ x = b := by
  induction l with
  | nil => simp [modifyFirst] at hx
  | cons y ys ih =>
    unfold modifyFirst at hx
    split_ifs at hx
    · rcases List.mem_cons.mp hx with rfl | hx
      · exact Or.inr rfl
      · exact Or.inl (List.mem_cons_of_mem _ hx)
    · rcases List.mem_cons.mp hx with rfl | hx
      · exact Or.inl (List.mem_cons_self _ _)
      · rcases ih hx with hx | hx
        · exact Or.inl (List.mem_cons_of_mem _ hx)
        · exact Or.inr hx

theorem Task.StatusConsistent.of_same {t t1 : Task} (hs : t.SameCompletion t1)
    (ht : t.StatusConsistent) : t1.StatusConsistent := by
  obtain ⟨h1, h2, h3⟩ := hs
  unfold Task.StatusConsistent at ht ⊢
  rw [h1, h2, h3]
  exact ht

namespace TodoApp

theorem allConsistent_of_tasks_eq {app app1 : TodoApp} (heq : app1.tasks = app.tasks)
    (hinv : app.AllConsistent) : app1.AllConsistent := by
  unfold AllConsistent
  rw [heq]
  exact hinv

theorem allConsistent_putTask {app : TodoApp} (id : String) (task1 : Task)
    (hinv : app.AllConsistent) (h1 : task1.StatusConsistent) :
    (putTask id task1 app).AllConsistent := by
  intro t ht
  rcases mem_modifyFirst_const _ _ _ _ ht with ht | rfl
  · exact hinv t ht
  · exact h1

theorem allConsistent_putSame {app : TodoApp} (id : String) (task task1 : Task)
    (hinv : app.AllConsistent) (hfind : app.tasks.find? (fun t => t.id == id) = some task)
    (hs : task.SameCompletion task1) : (putTask id task1 app).AllConsistent :=
  allConsistent_putTask id task1 hinv
    ((hinv task (List.mem_of_find?_eq_some hfind)).of_same hs)

theorem allConsistent_render {app : TodoApp} (h : Host) (now : Int)
    (hinv : app.AllConsistent) : (render h now app).AllConsistent :=
  allConsistent_of_tasks_eq (render_tasks h now app) hinv

theorem allConsistent_renderAndStats {app : TodoApp} (h : Host) (now : Int)
    (hinv : app.AllConsistent) : (renderAndStats h now app).AllConsistent :=
  allConsistent_of_tasks_eq (renderAndStats_tasks h now app) hinv

theorem allConsistent_generateId {app : TodoApp} (now : Int) (rnd : String)
    (hinv : app.AllConsistent) : (generateId now rnd app).2.AllConsistent :=
  allConsistent_of_tasks_eq rfl hinv

theorem putSubtask_same (id : String) (subtask : Subtask) (task : Task) :
    task.SameCompletion (putSubtask id subtask task) :=
  ⟨rfl, rfl, rfl⟩

theorem allConsistent_addTask {app : TodoApp} (h : Host) (now : Int) (rnd : String)
    (form : TaskForm) (hinv : app.AllConsistent) : (addTask h now rnd form app).AllConsistent := by
  unfold addTask
  split
  · dsimp only
    split_ifs
    · exact hinv
    · exact hinv
    · exact hinv
    · refine allConsistent_renderAndStats h now ?_
      intro t ht
      rcases List.mem_cons.mp ht with rfl | ht
      · simp [Task.StatusConsistent]
      · exact hinv t ht
  · exact hinv

theorem updateTaskText_same (h : Host) (app : TodoApp) (id : String) (form : EditForm)
    (task task1 : Task) (h1 : updateTaskText h app id form task = some task1) :
    task.SameCompletion task1 := by
  unfold updateTaskText at h1
  split at h1
  · cases h1
    exact ⟨rfl, rfl, rfl⟩
  · dsimp only at h1
    split_ifs at h1
    cases h1
    exact ⟨rfl, rfl, rfl⟩

theorem updateTaskDates_same (h : Host) (form : EditForm) (task task1 : Task)
    (h1 : updateTaskDates h form task = some task1) : task.SameCompletion task1 := by
  unfold updateTaskDates at h1
  split at h1
  · split_ifs at h1
    cases h1
    exact ⟨rfl, rfl, rfl⟩
  · cases h1
    exact ⟨rfl, rfl, rfl⟩

theorem updateTaskNotes_same (form : EditForm) (task : Task) :
    task.SameCompletion (updateTaskNotes form task) := by
  unfold updateTaskNotes
  split <;> exact ⟨rfl, rfl, rfl⟩

theorem updateTaskStatus_consistent (now : Int) (form : EditForm) (task : Task)
    (ht : task.StatusConsistent) : (updateTaskStatus now form task).StatusConsistent := by
  unfold updateTaskStatus
  cases form.editStatusInput with
  | none => exact ht
  | some v =>
    obtain ⟨h1, h2⟩ := ht
    unfold Task.StatusConsistent
    dsimp only
    by_cases hv : v = "completed" <;> cases hc : task.completed <;> simp_all

theorem allConsistent_updateTask {app : TodoApp} (h : Host) (now : Int) (form : EditForm)
    (hinv : app.AllConsistent) : (updateTask h now form app).AllConsistent := by
  unfold updateTask
  cases app.editingTaskId with
  | none => exact hinv
  | some id =>
    dsimp only
    cases hfind : app.tasks.find? (fun t => t.id == id) with
    | none => exact hinv
    | some task =>
      have htask : task.StatusConsistent := hinv task (List.mem_of_find?_eq_some hfind)
      dsimp only
      cases htext : updateTaskText h app id form task with
      | none => exact hinv
      | some task1 =>
        have h1 : task1.StatusConsistent :=
          htask.of_same (updateTaskText_same h app id form task task1 htext)
        dsimp only
        cases hdates : updateTaskDates h form task1 with
        | none => exact allConsistent_putTask id task1 hinv h1
        | some task2 =>
          have h2 : task2.StatusConsistent :=
            h1.of_same (updateTaskDates_same h form task1 task2 hdates)
          have h3 : (updateTaskNotes form task2).StatusConsistent :=
            h2.of_same (updateTaskNotes_same form task2)
          exact allConsistent_of_tasks_eq rfl
            (allConsistent_renderAndStats h now
              (allConsistent_putTask id _ hinv (updateTaskStatus_consistent now form _ h3)))

theorem toggleCompletion_consistent (now : Int) (task : Task) :
    (toggleCompletion now task).StatusConsistent := by
  unfold toggleCompletion Task.StatusConsistent
  cases task.completed <;> simp

theorem allConsistent_toggleTask {app : TodoApp} (h : Host) (now : Int) (id : String)
    (hinv : app.AllConsistent) : (toggleTask h now id app).AllConsistent := by
  unfold toggleTask
  cases app.tasks.find? (fun t => t.id == id) with
  | none => exact hinv
  | some task =>
    exact allConsistent_renderAndStats h now
      (allConsistent_putTask id _ hinv (toggleCompletion_consistent now task))

theorem allConsistent_togglePin {app : TodoApp} (h : Host) (now : Int) (id : String)
    (hinv : app.AllConsistent) : (togglePin h now id app).AllConsistent := by
  unfold togglePin
  cases hfind : app.tasks.find? (fun t => t.id == id) with
  | none => exact hinv
  | some task =>
    exact allConsistent_renderAndStats h now
      (allConsistent_putSame id task _ hinv hfind ⟨rfl, rfl, rfl⟩)

theorem allConsistent_deleteTask {app : TodoApp} (h : Host) (now : Int) (confirmed : Bool)
    (id : String) (hinv : app.AllConsistent) :
    (deleteTask h now confirmed id app).AllConsistent := by
  unfold deleteTask
  split_ifs
  · refine allConsistent_renderAndStats h now ?_
    intro t ht
    exact hinv t (List.mem_filter.mp ht).1
  · exact hinv

end TodoApp

namespace TodoApp

theorem allConsistent_render_putSame {app : TodoApp} (h : Host) (now : Int) (base : TodoApp)
    (id : String) (task task1 : Task) (hbase : base.tasks = app.tasks)
    (hinv : app.AllConsistent) (hfind : app.tasks.find? (fun t => t.id == id) = some task)
    (hs : task.SameCompletion task1) : (render h now (putTask id task1 base)).AllConsistent :=
  allConsistent_render h now
    (allConsistent_putSame id task task1 (allConsistent_of_tasks_eq hbase hinv)
      (hbase ▸ hfind) hs)

theorem allConsistent_addSubtask {app : TodoApp} (h : Host) (now : Int) (rnd : String)
    (taskId text notes : String) (hinv : app.AllConsistent) :
    (addSubtask h now rnd taskId text notes app).AllConsistent := by
  unfold addSubtask
  cases hfind : app.tasks.find? (fun t => t.id == taskId) with
  | none => exact hinv
  | some task =>
    dsimp only
    split_ifs
    · exact hinv
    · exact hinv
    · exact allConsistent_render_putSame h now _ taskId task _ rfl hinv hfind ⟨rfl, rfl, rfl⟩

theorem allConsistent_toggleSubtask {app : TodoApp} (h : Host) (now : Int)
    (taskId subtaskId : String) (hinv : app.AllConsistent) :
    (toggleSubtask h now taskId subtaskId app).AllConsistent := by
  unfold toggleSubtask
  cases hfind : app.tasks.find? (fun t => t.id == taskId) with
  | none => exact hinv
  | some task =>
    dsimp only
    cases task.subtasks.find? (fun s => s.id == subtaskId) with
    | none => exact hinv
    | some subtask =>
      exact allConsistent_render_putSame h now _ taskId task _ rfl hinv hfind
        (putSubtask_same _ _ _)

theorem allConsistent_editSubtask {app : TodoApp} (h : Host) (now : Int)
    (taskId subtaskId newText : String) (hinv : app.AllConsistent) :
    (editSubtask h now taskId subtaskId newText app).AllConsistent := by
  unfold editSubtask
  cases hfind : app.tasks.find? (fun t => t.id == taskId) with
  | none => exact hinv
  | some task =>
    dsimp only
    split_ifs
    · exact hinv
    · cases task.subtasks.find? (fun s => s.id == subtaskId) <;> exact hinv
    · cases task.subtasks.find? (fun s => s.id == subtaskId) with
      | none => exact hinv
      | some subtask =>
        exact allConsistent_render_putSame h now _ taskId task _ rfl hinv hfind
          (putSubtask_same _ _ _)

theorem pinSubtaskToggled_same (subtaskId : String) (subtask : Subtask) (task : Task) :
    task.SameCompletion (pinSubtaskToggled subtaskId subtask task) := by
  unfold pinSubtaskToggled
  dsimp only
  split_ifs <;> exact ⟨rfl, rfl, rfl⟩

theorem allConsistent_toggleSubtaskPin {app : TodoApp} (h : Host) (now : Int)
    (taskId subtaskId : String) (hinv : app.AllConsistent) :
    (toggleSubtaskPin h now taskId subtaskId app).AllConsistent := by
  unfold toggleSubtaskPin
  cases hfind : app.tasks.find? (fun t => t.id == taskId) with
  | none => exact hinv
  | some task =>
    dsimp only
    cases task.subtasks.find? (fun s => s.id == subtaskId) with
    | none => exact hinv
    | some subtask =>
      exact allConsistent_render_putSame h now _ taskId task _ rfl hinv hfind
        (pinSubtaskToggled_same _ _ _)

theorem allConsistent_deleteSubtask {app : TodoApp} (h : Host) (now : Int)
    (taskId subtaskId : String) (hinv : app.AllConsistent) :
    (deleteSubtask h now taskId subtaskId app).AllConsistent := by
  unfold deleteSubtask
  cases hfind : app.tasks.find? (fun t => t.id == taskId) with
  | none => exact hinv
  | some task =>
    exact allConsistent_render_putSame h now _ taskId task _ rfl hinv hfind ⟨rfl, rfl, rfl⟩

theorem allConsistent_addSubSubtask {app : TodoApp} (h : Host) (now : Int) (rnd : String)
    (taskId subtaskId text notes : String) (hinv : app.AllConsistent) :
    (addSubSubtask h now rnd taskId subtaskId text notes app).AllConsistent := by
  unfold addSubSubtask
  cases hfind : app.tasks.find? (fun t => t.id == taskId) with
  | none => exact hinv
  | some task =>
    dsimp only
    split_ifs
    · exact hinv
    · cases task.subtasks.find? (fun s => s.id == subtaskId) with
      | none => exact hinv
      | some subtask =>
        dsimp only
        split_ifs
        · exact hinv
        · exact allConsistent_render_putSame h now _ taskId task _ rfl hinv hfind
            (putSubtask_same _ _ _)

theorem allConsistent_toggleSubSubtask {app : TodoApp} (h : Host) (now : Int)
    (taskId subtaskId subsubtaskId : String) (hinv : app.AllConsistent) :
    (toggleSubSubtask h now taskId subtaskId subsubtaskId app).AllConsistent := by
  unfold toggleSubSubtask
  cases hfind : app.tasks.find? (fun t => t.id == taskId) with
  | none => exact hinv
  | some task =>
    dsimp only
    cases task.subtasks.find? (fun s => s.id == subtaskId) with
    | none => exact hinv
    | some subtask =>
      dsimp only
      cases subtask.subsubtasks.find? (fun ss => ss.id == subsubtaskId) with
      | none => exact hinv
      | some subsubtask =>
        exact allConsistent_render_putSame h now _ taskId task _ rfl hinv hfind
          (putSubtask_same _ _ _)

theorem allConsistent_toggleSubSubtaskPin {app : TodoApp} (h : Host) (now : Int)
    (taskId subtaskId subsubtaskId : String) (hinv : app.AllConsistent) :
    (toggleSubSubtaskPin h now taskId subtaskId subsubtaskId app).AllConsistent := by
  unfold toggleSubSubtaskPin
  cases hfind : app.tasks.find? (fun t => t.id == taskId) with
  | none => exact hinv
  | some task =>
    dsimp only
    cases task.subtasks.find? (fun s => s.id == subtaskId) with
    | none => exact hinv
    | some subtask =>
      dsimp only
      cases subtask.subsubtasks.find? (fun ss => ss.id == subsubtaskId) with
      | none => exact hinv
      | some subsubtask =>
        refine allConsistent_render_putSame h now _ taskId task _ rfl hinv hfind ?_
        dsimp only
        split_ifs <;> exact ⟨rfl, rfl, rfl⟩

theorem allConsistent_deleteSubSubtask {app : TodoApp} (h : Host) (now : Int)
    (taskId subtaskId subsubtaskId : String) (hinv : app.AllConsistent) :
    (deleteSubSubtask h now taskId subtaskId subsubtaskId app).AllConsistent := by
  unfold deleteSubSubtask
  cases hfind : app.tasks.find? (fun t => t.id == taskId) with
  | none => exact hinv
  | some task =>
    dsimp only
    cases task.subtasks.find? (fun s => s.id == subtaskId) with
    | none => exact hinv
    | some subtask =>
      exact allConsistent_render_putSame h now _ taskId task _ rfl hinv hfind
        (putSubtask_same _ _ _)

theorem allConsistent_toggleSubtaskForm {app : TodoApp} (h : Host) (now : Int)
    (taskId : String) (hinv : app.AllConsistent) :
    (toggleSubtaskForm h now taskId app).AllConsistent := by
  unfold toggleSubtaskForm
  cases hfind : app.tasks.find? (fun t => t.id == taskId) with
  | none => exact hinv
  | some task =>
    exact allConsistent_render_putSame h now _ taskId task _ rfl hinv hfind ⟨rfl, rfl, rfl⟩

theorem allConsistent_toggleSubSubtaskForm {app : TodoApp} (h : Host) (now : Int)
    (taskId subtaskId : String) (hinv : app.AllConsistent) :
    (toggleSubSubtaskForm h now taskId subtaskId app).AllConsistent := by
  unfold toggleSubSubtaskForm
  cases hfind : app.tasks.find? (fun t => t.id == taskId) with
  | none => exact hinv
  | some task =>
    dsimp only
    cases task.subtasks.find? (fun s => s.id == subtaskId) with
    | none => exact hinv
    | some subtask =>
      exact allConsistent_render_putSame h now _ taskId task _ rfl hinv hfind
        (putSubtask_same _ _ _)

theorem allConsistent_addSubtaskFromForm {app : TodoApp} (h : Host) (now : Int) (rnd : String)
    (taskId : String) (input noteInput : Option String) (hinv : app.AllConsistent) :
    (addSubtaskFromForm h now rnd taskId input noteInput app).AllConsistent := by
  unfold addSubtaskFromForm
  cases input with
  | none => exact hinv
  | some v =>
    dsimp only
    split_ifs
    · exact hinv
    · have h1 := allConsistent_addSubtask h now rnd taskId v
        (match noteInput with
          | some n => trim n
          | none => "") hinv
      split
      · exact h1
      · next task hfind => exact allConsistent_putSame taskId task _ h1 hfind ⟨rfl, rfl, rfl⟩

theorem allConsistent_addSubSubtaskFromForm {app : TodoApp} (h : Host) (now : Int)
    (rnd : String) (taskId subtaskId : String) (input noteInput : Option String)
    (hinv : app.AllConsistent) :
    (addSubSubtaskFromForm h now rnd taskId subtaskId input noteInput app).AllConsistent := by
  unfold addSubSubtaskFromForm
  cases input with
  | none => exact hinv
  | some v =>
    dsimp only
    split_ifs
    · exact hinv
    · have h1 := allConsistent_addSubSubtask h now rnd taskId subtaskId v
        (match noteInput with
          | some n => trim n
          | none => "") hinv
      split
      · exact h1
      · next task hfind =>
        split
        · exact h1
        · exact allConsistent_putSame taskId task _ h1 hfind (putSubtask_same _ _ _)

end TodoApp

theorem allConsistent_step (h : Host) (op : Op) (app : TodoApp) (hinv : app.AllConsistent) :
    (step h op app).AllConsistent := by
  cases op with
  | addTask now rnd form => exact TodoApp.allConsistent_addTask h now rnd form hinv
  | editTask id =>
    simp only [step, TodoApp.editTask]
    split
    · exact hinv
    · exact hinv
  | updateTask now form => exact TodoApp.allConsistent_updateTask h now form hinv
  | closeModal => exact hinv
  | toggleTask now id => exact TodoApp.allConsistent_toggleTask h now id hinv
  | togglePin now id => exact TodoApp.allConsistent_togglePin h now id hinv
  | deleteTask now confirmed id => exact TodoApp.allConsistent_deleteTask h now confirmed id hinv
  | addSubtask now rnd taskId text notes =>
    exact TodoApp.allConsistent_addSubtask h now rnd taskId text notes hinv
  | toggleSubtask now taskId subtaskId =>
    exact TodoApp.allConsistent_toggleSubtask h now taskId subtaskId hinv
  | editSubtask now taskId subtaskId newText =>
    exact TodoApp.allConsistent_editSubtask h now taskId subtaskId newText hinv
  | toggleSubtaskPin now taskId subtaskId =>
    exact TodoApp.allConsistent_toggleSubtaskPin h now taskId subtaskId hinv
  | deleteSubtask now taskId subtaskId =>
    exact TodoApp.allConsistent_deleteSubtask h now taskId subtaskId hinv
  | addSubSubtask now rnd taskId subtaskId text notes =>
    exact TodoApp.allConsistent_addSubSubtask h now rnd taskId subtaskId text notes hinv
  | toggleSubSubtask now taskId subtaskId subsubtaskId =>
    exact TodoApp.allConsistent_toggleSubSubtask h now taskId subtaskId subsubtaskId hinv
  | toggleSubSubtaskPin now taskId subtaskId subsubtaskId =>
    exact TodoApp.allConsistent_toggleSubSubtaskPin h now taskId subtaskId subsubtaskId hinv
  | deleteSubSubtask now taskId subtaskId subsubtaskId =>
    exact TodoApp.allConsistent_deleteSubSubtask h now taskId subtaskId subsubtaskId hinv
  | setFilter now filter => exact TodoApp.allConsistent_render h now hinv
  | setSort now sort => exact TodoApp.allConsistent_render h now hinv
  | toggleSubtaskForm now taskId => exact TodoApp.allConsistent_toggleSubtaskForm h now taskId hinv
  | toggleSubSubtaskForm now taskId subtaskId =>
    exact TodoApp.allConsistent_toggleSubSubtaskForm h now taskId subtaskId hinv
  | addSubtaskFromForm now rnd taskId input noteInput =>
    exact TodoApp.allConsistent_addSubtaskFromForm h now rnd taskId input noteInput hinv
  | addSubSubtaskFromForm now rnd taskId subtaskId input noteInput =>
    exact TodoApp.allConsistent_addSubSubtaskFromForm h now rnd taskId subtaskId input
      noteInput hinv

theorem reachable_run (h : Host) (ops : List Op) (app : TodoApp) (hr : Reachable h app) :
    Reachable h (run h ops app) := by
  induction ops generalizing app with
  | nil => exact hr
  | cons op ops ih => exact ih _ (Reachable.step app op hr)

/-- C20: in every state reachable from a store without tasks by the operations of
the store (adding, editing, toggling, pinning and deleting at the three
levels, the filter and sort settings and the subtask forms), every task has
`completed` true exactly when its status is `completed`, and `completedAt`
present exactly when `completed` is true. -/
theorem reachable_status_consistent (h : Host) (app : TodoApp) (hr : Reachable h app) :
    ∀ t ∈ app.tasks,
      (t.completed = true ↔ t.status = "completed") ∧
      (t.completedAt ≠ TimeVal.absent ↔ t.completed = true) := by
  induction hr with
  | init app hempty =>
    intro t ht
    rw [hempty] at ht
    cases ht
  | step app op _ ih => exact allConsistent_step h op app ih

/-- C20 on the sample session, which ends with `Second` completed through the
edit dialog and `First` in progress. -/
theorem reachable_status_consistent_witness :
    Reachable sampleHost (run sampleHost sampleSession emptyApp) ∧
    ((run sampleHost sampleSession emptyApp).tasks.map
      fun t => (t.text, t.status, t.completed, t.completedAt)) =
      [("Second", "completed", true, TimeVal.iso 1704499200000),
       ("First", "in-progress", false, TimeVal.absent)] ∧
    ∀ t ∈ (run sampleHost sampleSession emptyApp).tasks,
      (t.completed = true ↔ t.status = "completed") ∧
      (t.completedAt ≠ TimeVal.absent ↔ t.completed = true) :=
  ⟨reachable_run sampleHost sampleSession emptyApp (Reachable.init emptyApp rfl),
   by decide,
   reachable_status_consistent sampleHost (run sampleHost sampleSession emptyApp)
     (reachable_run sampleHost sampleSession emptyApp (Reachable.init emptyApp rfl))⟩

/-! ## Loading -/

/-- C22: for a blob of an older schema whose task, subtask and sub-subtask have
only `id` and `text`, the loaded task has `notes`, `status`, `completed`,
`pinned`, `createdAt` and `subtasks`, the subtask has `notes` and
`subsubtasks`, and the sub-subtask has `notes`; but neither the subtask nor
the sub-subtask has `completed` or `pinned`: the constructor defaults these
two only on tasks. -/
theorem construct_legacy_subtask_flags_missing :
    ((construct 1704067200000 legacyBlob).tasks.map fun t =>
      (t.has "notes", t.has "status", t.has "completed", t.has "pinned", t.has "createdAt",
        t.has "subtasks")) = [(true, true, true, true, true, true)] ∧
    ((construct 1704067200000 legacyBlob).tasks.map fun t =>
      (Json.itemsOf (t.prop "subtasks")).map fun s =>
        (s.has "notes", s.has "subsubtasks", s.has "completed", s.has "pinned")) =
      [[(true, true, false, false)]] ∧
    ((construct 1704067200000 legacyBlob).tasks.map fun t =>
      (Json.itemsOf (t.prop "subtasks")).map fun s =>
        (Json.itemsOf (s.prop "subsubtasks")).map fun u =>
          (u.has "notes", u.has "completed", u.has "pinned")) =
      [[[(true, false, false)]]] := by
  decide

theorem mapThrowing_none_of_mem {α β : Type} (f : α → Option β) (l : List α) (x : α)
    (hx : x ∈ l) (hf : f x = none) : mapThrowing f l = none := by
  induction l with
  | nil => cases hx
  | cons y ys ih =>
    unfold mapThrowing
    rcases List.mem_cons.mp hx with rfl | hx
    · rw [hf]
    · cases f y with
      | none => rfl
      | some z =>
        dsimp only
        rw [ih hx]

/-- C24, as stated, fails: the blob `[1]` parses to a sequence that holds no task,
and loading it gives a task sequence with one record. -/
theorem construct_number_array_not_empty :
    (construct 1704067200000 (Blob.parsed (Json.arr [Json.num 1]))).tasks.length = 1 ∧
    ((construct 1704067200000 (Blob.parsed (Json.arr [Json.num 1]))).tasks.map fun t =>
      (t.has "id", t.has "text", t.has "status", t.has "createdAt")) =
      [(false, false, true, true)] := by
  decide

/-- Blobs that load as the empty sequence: for a blob that is absent, on which parsing throws, that parses
to a value other than an array (null, a boolean, a number, a string, an
object) or to an array with a `null` item, the constructor ends with an empty
task sequence. -/
theorem construct_empty (now : Int) (blob : Blob)
    (hblob : blob = Blob.absent ∨ blob = Blob.malformed ∨
      (∃ v, blob = Blob.parsed v ∧ ∀ items, v ≠ Json.arr items) ∨
      (∃ items, blob = Blob.parsed (Json.arr items) ∧ Json.null ∈ items)) :
    (construct now blob).tasks = [] := by
  rcases hblob with rfl | rfl | ⟨v, rfl, hv⟩ | ⟨items, rfl, hnull⟩
  · rfl
  · rfl
  · unfold construct
    dsimp only
    split_ifs
    · cases v with
      | arr items => exact absurd rfl (hv items)
      | null => rfl
      | bool b => rfl
      | num n => rfl
      | str s => rfl
      | obj fields => rfl
    · rfl
  · have hthrow : normalize now items = none :=
      mapThrowing_none_of_mem (normalizeTask now) items Json.null hnull rfl
    unfold construct
    dsimp only
    rw [hthrow]
    simp [Json.truthy]

/-- The empty load on the blobs that are absent, malformed, the object `{}`, the
string `tasks`, the number `5` and the array `[null]`. -/
theorem construct_empty_witness :
    (construct 1704067200000 Blob.absent).tasks = [] ∧
    (construct 1704067200000 Blob.malformed).tasks = [] ∧
    (construct 1704067200000 (Blob.parsed (Json.obj []))).tasks = [] ∧
    (construct 1704067200000 (Blob.parsed (Json.str "tasks"))).tasks = [] ∧
    (construct 1704067200000 (Blob.parsed (Json.num 5))).tasks = [] ∧
    (construct 1704067200000 (Blob.parsed (Json.arr [Json.null]))).tasks = [] :=
  ⟨construct_empty 1704067200000 Blob.absent (Or.inl rfl),
   construct_empty 1704067200000 Blob.malformed (Or.inr (Or.inl rfl)),
   construct_empty 1704067200000 (Blob.parsed (Json.obj []))
     (Or.inr (Or.inr (Or.inl ⟨Json.obj [], rfl, fun _ hne => by cases hne⟩))),
   construct_empty 1704067200000 (Blob.parsed (Json.str "tasks"))
     (Or.inr (Or.inr (Or.inl ⟨Json.str "tasks", rfl, fun _ hne => by cases hne⟩))),
   construct_empty 1704067200000 (Blob.parsed (Json.num 5))
     (Or.inr (Or.inr (Or.inl ⟨Json.num 5, rfl, fun _ hne => by cases hne⟩))),
   construct_empty 1704067200000 (Blob.parsed (Json.arr [Json.null]))
     (Or.inr (Or.inr (Or.inr ⟨[Json.null], rfl, List.mem_singleton.mpr rfl⟩)))⟩

/-! ## Normalization is idempotent -/

namespace Json

theorem lookup_setKey_same (k : String) (v : Json) (fs : List (String × Json)) :
    lookup k (setKey k v fs) = some v := by
  induction fs with
  | nil => simp [setKey, lookup]
  | cons p rest ih =>
    obtain ⟨k1, v1⟩ := p
    by_cases hk : k1 = k
    · simp [setKey, lookup, hk]
    · simp [setKey, lookup, hk, ih]

theorem lookup_setKey_ne (k k1 : String) (v : Json) (fs : List (String × Json))
    (hne : k1 ≠ k) : lookup k (setKey k1 v fs) = lookup k fs := by
  induction fs with
  | nil => simp [setKey, lookup, hne]
  | cons p rest ih =>
    obtain ⟨k2, v2⟩ := p
    by_cases hk : k2 = k1
    · subst hk
      simp [setKey, lookup, hne]
    · by_cases hk2 : k2 = k
      · subst hk2
        simp [setKey, lookup, hk]
      · simp [setKey, lookup, hk, hk2, ih]

theorem setKey_of_lookup (k : String) (v : Json) (fs : List (String × Json))
    (hl : lookup k fs = some v) : setKey k v fs = fs := by
  induction fs with
  | nil => simp [lookup] at hl
  | cons p rest ih =>
    obtain ⟨k1, v1⟩ := p
    by_cases hk : k1 = k
    · simp [lookup, hk] at hl
      simp [setKey, hk, hl]
    · simp [lookup, hk] at hl
      simp [setKey, hk, ih hl]

theorem truthy_orDefault (x : Option Json) (d : Json) (hd : d.truthy = true) :
    (orDefault x d).truthy = true := by
  unfold orDefault
  cases x with
  | none => exact hd
  | some v =>
    dsimp only
    split_ifs with hv
    · exact hv
    · exact hd

theorem orDefault_some_of_truthy (v d : Json) (hv : v.truthy = true) :
    orDefault (some v) d = v := by
  simp [orDefault, hv]

theorem orDefault_orDefault (x : Option Json) (d : Json) :
    orDefault (some (orDefault x d)) d = orDefault x d := by
  unfold orDefault
  cases x with
  | none =>
    dsimp only
    split_ifs <;> rfl
  | some v =>
    dsimp only
    by_cases hv : v.truthy = true
    · simp [hv]
    · simp [hv]

end Json

theorem mapThrowing_fixed {α : Type} (f : α → Option α) (l l1 : List α)
    (hf : ∀ x y, f x = some y → f y = some y) (hl : mapThrowing f l = some l1) :
    mapThrowing f l1 = some l1 := by
  induction l generalizing l1 with
  | nil =>
    simp [mapThrowing] at hl
    subst hl
    rfl
  | cons x xs ih =>
    unfold mapThrowing at hl
    cases hx : f x with
    | none => simp [hx] at hl
    | some y =>
      cases hxs : mapThrowing f xs with
      | none => simp [hx, hxs] at hl
      | some ys =>
        simp [hx, hxs] at hl
        subst hl
        unfold mapThrowing
        rw [hf x y hx]
        dsimp only
        rw [ih ys hxs]

theorem mapThrowing_of_fixed {α : Type} (f : α → Option α) (l : List α)
    (hf : ∀ x ∈ l, f x = some x) : mapThrowing f l = some l := by
  induction l with
  | nil => rfl
  | cons x xs ih =>
    unfold mapThrowing
    rw [hf x (List.mem_cons_self _ _)]
    dsimp only
    rw [ih (fun y hy => hf y (List.mem_cons_of_mem _ hy))]

theorem normalizeSubSubtask_fixed (u u1 : Json) (hu : normalizeSubSubtask u = some u1) :
    normalizeSubSubtask u1 = some u1 := by
  unfold normalizeSubSubtask at hu
  split_ifs at hu
  cases hu
  simp [normalizeSubSubtask, Json.isNull, Json.prop, Json.spread, Json.lookup_setKey_same,
    Json.orDefault_orDefault, Json.setKey_of_lookup]

theorem normalizeSubtask_fixed (s s1 : Json) (hs : normalizeSubtask s = some s1) :
    normalizeSubtask s1 = some s1 := by
  unfold normalizeSubtask at hs
  split_ifs at hs
  obtain ⟨items, _, hs⟩ := Option.bind_eq_some.mp hs
  obtain ⟨subs, hsubs, rfl⟩ := Option.map_eq_some'.mp hs
  have hfix := mapThrowing_fixed normalizeSubSubtask items subs normalizeSubSubtask_fixed hsubs
  simp [normalizeSubtask, Json.isNull, Json.prop, Json.spread, Json.lookup_setKey_same,
    Json.lookup_setKey_ne, Json.orDefault_orDefault, Json.setKey_of_lookup, Json.orEmptyArray,
    Json.truthy, hfix]

theorem Json.prop_obj (fs : List (String × Json)) (k : String) :
    (Json.obj fs).prop k = Json.lookup k fs := rfl

theorem Json.spread_obj (fs : List (String × Json)) : (Json.obj fs).spread = fs := rfl

theorem normalizeTask_fixed (now1 now2 : Int) (t t1 : Json) (hnow : now1 ≠ 0)
    (ht : normalizeTask now1 t = some t1) : normalizeTask now2 t1 = some t1 := by
  unfold normalizeTask at ht
  split_ifs at ht
  obtain ⟨items, _, ht⟩ := Option.bind_eq_some.mp ht
  obtain ⟨subs, hsubs, rfl⟩ := Option.map_eq_some'.mp ht
  have hfix := mapThrowing_fixed normalizeSubtask items subs normalizeSubtask_fixed hsubs
  have hc : (Json.orDefault (t.prop "createdAt")
      (Json.orDefault (t.prop "id") (Json.num now1))).truthy = true :=
    Json.truthy_orDefault _ _ (Json.truthy_orDefault _ _ (by simp [Json.truthy, hnow]))
  simp [normalizeTask, Json.isNull, Json.prop_obj, Json.spread_obj, Json.lookup_setKey_same,
    Json.lookup_setKey_ne, Json.orDefault_orDefault, Json.setKey_of_lookup, Json.orEmptyArray,
    Json.truthy, hfix, Json.orDefault_some_of_truthy _ _ hc]

theorem subSubtask_toJson_fixed (ss : SubSubtask) :
    normalizeSubSubtask ss.toJson = some ss.toJson := by
  by_cases hn : ss.notes = "" <;>
    simp [normalizeSubSubtask, SubSubtask.toJson, Json.isNull, Json.prop, Json.spread,
      Json.lookup, Json.setKey, Json.orDefault, Json.truthy, hn]

theorem subtask_toJson_fixed (s : Subtask) : normalizeSubtask s.toJson = some s.toJson := by
  have hsubs : mapThrowing normalizeSubSubtask (s.subsubtasks.map SubSubtask.toJson)
      = some (s.subsubtasks.map SubSubtask.toJson) := by
    apply mapThrowing_of_fixed
    intro x hx
    obtain ⟨ss, _, rfl⟩ := List.mem_map.mp hx
    exact subSubtask_toJson_fixed ss
  by_cases hn : s.notes = "" <;>
    simp [normalizeSubtask, Subtask.toJson, Json.isNull, Json.prop, Json.spread,
      Json.lookup, Json.setKey, Json.orDefault, Json.orEmptyArray, Json.truthy, hn, hsubs]

theorem Json.lookup_append (k : String) (l1 l2 : List (String × Json)) :
    Json.lookup k (l1 ++ l2) = (Json.lookup k l1).orElse fun _ => Json.lookup k l2 := by
  induction l1 with
  | nil => rfl
  | cons p rest ih =>
    obtain ⟨k1, v1⟩ := p
    by_cases hk : k1 = k
    · simp [Json.lookup, hk]
    · simp [Json.lookup, hk, ih]

theorem Json.lookup_optionalField_ne (k k1 : String) (v : Option Json) (hne : k1 ≠ k) :
    Json.lookup k (optionalField k1 v) = none := by
  cases v <;> simp [optionalField, Json.lookup, hne]

theorem Json.lookup_optionalField_same (k : String) (v : Option Json) :
    Json.lookup k (optionalField k v) = v := by
  cases v <;> simp [optionalField, Json.lookup]

theorem normalizeTask_obj_fixed (now : Int) (fs : List (String × Json)) (subs : List Json)
    (st cp p n c : Json)
    (h1 : Json.lookup "subtasks" fs = some (Json.arr subs))
    (hsubs : mapThrowing normalizeSubtask subs = some subs)
    (h2 : Json.lookup "status" fs = some st)
    (hst : Json.orDefault (some st) (Json.str "pending") = st)
    (h3 : Json.lookup "completed" fs = some cp)
    (hcp : Json.orDefault (some cp) (Json.bool false) = cp)
    (h4 : Json.lookup "pinned" fs = some p)
    (hp : Json.orDefault (some p) (Json.bool false) = p)
    (h5 : Json.lookup "notes" fs = some n)
    (hn : Json.orDefault (some n) (Json.str "") = n)
    (h6 : Json.lookup "createdAt" fs = some c) (hc : c.truthy = true) :
    normalizeTask now (Json.obj fs) = some (Json.obj fs) := by
  simp [normalizeTask, Json.isNull, Json.prop_obj, Json.spread_obj, h1, Json.orEmptyArray,
    Json.truthy, hsubs, h2, hst, h3, hcp, h4, hp, h5, hn, h6,
    Json.orDefault_some_of_truthy _ _ hc, Json.setKey_of_lookup]

theorem toISOString_ne_empty (n : Int) : toISOString n ≠ "" := by
  intro hn
  have := congrArg String.length hn
  simp [toISOString, String.length_append] at this
  exact absurd this.2 (by decide)

theorem task_toJson_fixed (now : Int) (t : Task) (hstatus : t.status ≠ "")
    (hcreated : t.createdAt.truthy = true) : normalizeTask now t.toJson = some t.toJson := by
  have hsubs : mapThrowing normalizeSubtask (t.subtasks.map Subtask.toJson)
      = some (t.subtasks.map Subtask.toJson) := by
    apply mapThrowing_of_fixed
    intro x hx
    obtain ⟨s, _, rfl⟩ := List.mem_map.mp hx
    exact subtask_toJson_fixed s
  obtain ⟨c, hc, hct⟩ : ∃ c, t.createdAt.toJson = some c ∧ c.truthy = true := by
    cases hca : t.createdAt with
    | absent => simp [hca, TimeVal.truthy] at hcreated
    | millis n =>
      refine ⟨Json.num n, rfl, ?_⟩
      simpa [hca, TimeVal.truthy, Json.truthy] using hcreated
    | iso n =>
      exact ⟨Json.str (toISOString n), rfl, by simp [Json.truthy, toISOString_ne_empty]⟩
  unfold Task.toJson
  refine normalizeTask_obj_fixed now _ (t.subtasks.map Subtask.toJson) (Json.str t.status)
    (Json.bool t.completed) (Json.bool t.pinned) (Json.str t.notes) c ?_ hsubs ?_ ?_ ?_ ?_ ?_ ?_
    ?_ ?_ ?_ hct
  · simp [Json.lookup_append, Json.lookup_optionalField_ne, Json.lookup]
  · simp [Json.lookup_append, Json.lookup_optionalField_ne, Json.lookup]
  · simp [Json.orDefault, Json.truthy, hstatus]
  · simp [Json.lookup_append, Json.lookup_optionalField_ne, Json.lookup]
  · cases t.completed <;> simp [Json.orDefault, Json.truthy]
  · simp [Json.lookup_append, Json.lookup_optionalField_ne, Json.lookup]
  · cases t.pinned <;> simp [Json.orDefault, Json.truthy]
  · simp [Json.lookup_append, Json.lookup_optionalField_ne, Json.lookup]
  · by_cases hn : t.notes = "" <;> simp [Json.orDefault, Json.truthy, hn]
  · simp [Json.lookup_append, Json.lookup_optionalField_ne, Json.lookup_optionalField_same,
      Json.lookup, hc]

/-! ## What an operation does to each task -/

theorem forall₂_self {α : Type} (R : α → α → Prop) (hrefl : ∀ a, R a a) (l : List α) :
    List.Forall₂ R l l := by
  induction l with
  | nil => exact List.Forall₂.nil
  | cons x xs ih => exact List.Forall₂.cons (hrefl x) ih

theorem forall₂_modifyFirst {α : Type} (R : α → α → Prop) (hrefl : ∀ a, R a a)
    (p : α → Bool) (l : List α) (a b : α) (hfind : l.find? p = some a) (hab : R a b) :
    List.Forall₂ R l (modifyFirst p (fun _ => b) l) := by
  induction l with
  | nil => simp at hfind
  | cons x xs ih =>
    by_cases hx : p x = true
    · have hxa : x = a := by simpa [List.find?, hx] using hfind
      subst hxa
      simp only [modifyFirst, hx, if_true]
      exact List.Forall₂.cons hab (forall₂_self R hrefl xs)
    · have hxs : xs.find? p = some a := by simpa [List.find?, hx] using hfind
      simp only [modifyFirst, hx]
      exact List.Forall₂.cons (hrefl x) (ih hxs)

theorem forall₂_trans {α : Type} (R : α → α → Prop)
    (htrans : ∀ a b c, R a b → R b c → R a c) {l1 l2 l3 : List α}
    (h12 : List.Forall₂ R l1 l2) (h23 : List.Forall₂ R l2 l3) : List.Forall₂ R l1 l3 := by
  induction h12 generalizing l3 with
  | nil =>
    cases h23
    exact List.Forall₂.nil
  | cons hab _ ih =>
    cases h23 with
    | cons hbc hrest => exact List.Forall₂.cons (htrans _ _ _ hab hbc) (ih hrest)

namespace TodoApp

theorem rel_putTask {ok : EditForm → Prop} {R : Task → Task → Prop} (hR : TaskRelClosed ok R)
    (app : TodoApp) (id : String) (task task1 : Task)
    (hfind : app.tasks.find? (fun t => t.id == id) = some task) (hrel : R task task1) :
    List.Forall₂ R app.tasks (putTask id task1 app).tasks :=
  forall₂_modifyFirst R hR.refl _ app.tasks task task1 hfind hrel

theorem rel_render_putTask {ok : EditForm → Prop} {R : Task → Task → Prop}
    (hR : TaskRelClosed ok R) (h : Host) (now : Int) (app base : TodoApp) (id : String)
    (task task1 : Task) (hbase : base.tasks = app.tasks)
    (hfind : app.tasks.find? (fun t => t.id == id) = some task) (hrel : R task task1) :
    List.Forall₂ R app.tasks (render h now (putTask id task1 base)).tasks := by
  rw [render_tasks]
  have := rel_putTask hR base id task task1 (hbase ▸ hfind) hrel
  rwa [hbase] at this

theorem rel_renderAndStats_putTask {ok : EditForm → Prop} {R : Task → Task → Prop}
    (hR : TaskRelClosed ok R) (h : Host) (now : Int) (app : TodoApp) (id : String)
    (task task1 : Task)
    (hfind : app.tasks.find? (fun t => t.id == id) = some task) (hrel : R task task1) :
    List.Forall₂ R app.tasks (renderAndStats h now (putTask id task1 app)).tasks := by
  rw [renderAndStats_tasks]
  exact rel_putTask hR app id task task1 hfind hrel

theorem rel_putSubtask {ok : EditForm → Prop} {R : Task → Task → Prop}
    (hR : TaskRelClosed ok R) (id : String) (subtask : Subtask) (task : Task) :
    R task (putSubtask id subtask task) :=
  hR.subtasks task _

theorem rel_updateTask {ok : EditForm → Prop} {R : Task → Task → Prop}
    (hR : TaskRelClosed ok R) (h : Host) (now : Int) (form : EditForm) (hform : ok form)
    (app : TodoApp) : List.Forall₂ R app.tasks (updateTask h now form app).tasks := by
  have hself := forall₂_self R hR.refl app.tasks
  unfold updateTask
  cases app.editingTaskId with
  | none => exact hself
  | some id =>
    dsimp only
    cases hfind : app.tasks.find? (fun t => t.id == id) with
    | none => exact hself
    | some task =>
      dsimp only
      have htext : ∀ task1, updateTaskText h app id form task = some task1 → R task task1 := by
        intro task1 h1
        unfold updateTaskText at h1
        split at h1
        · cases h1
          exact hR.refl _
        · dsimp only at h1
          split_ifs at h1
          cases h1
          exact hR.text _ _
      have hdates : ∀ t1 t2, updateTaskDates h form t1 = some t2 → R t1 t2 := by
        intro t1 t2 h1
        unfold updateTaskDates at h1
        split at h1
        · split_ifs at h1
          cases h1
          exact hR.dates _ _ _
        · cases h1
          exact hR.refl _
      have hnotes : ∀ t1, R t1 (updateTaskNotes form t1) := by
        intro t1
        unfold updateTaskNotes
        split
        · exact hR.notes _ _
        · exact hR.refl _
      cases h1 : updateTaskText h app id form task with
      | none => exact hself
      | some task1 =>
        dsimp only
        cases h2 : updateTaskDates h form task1 with
        | none => exact rel_putTask hR app id task task1 hfind (htext task1 h1)
        | some task2 =>
          dsimp only
          have hrel : R task (updateTaskStatus now form (updateTaskNotes form task2)) :=
            hR.trans _ _ _ (htext task1 h1)
              (hR.trans _ _ _ (hdates task1 task2 h2)
                (hR.trans _ _ _ (hnotes task2) (hR.status now form _ hform)))
          exact rel_renderAndStats_putTask hR h now app id task _ hfind hrel

theorem rel_addSubtask {ok : EditForm → Prop} {R : Task → Task → Prop}
    (hR : TaskRelClosed ok R) (h : Host) (now : Int) (rnd taskId text notes : String)
    (app : TodoApp) :
    List.Forall₂ R app.tasks (addSubtask h now rnd taskId text notes app).tasks := by
  have hself := forall₂_self R hR.refl app.tasks
  unfold addSubtask
  cases hfind : app.tasks.find? (fun t => t.id == taskId) with
  | none => exact hself
  | some task =>
    dsimp only
    split_ifs
    · exact hself
    · exact hself
    · exact rel_render_putTask hR h now app _ taskId task _ rfl hfind (hR.subtasks _ _)

theorem rel_addSubSubtask {ok : EditForm → Prop} {R : Task → Task → Prop}
    (hR : TaskRelClosed ok R) (h : Host) (now : Int) (rnd taskId subtaskId text notes : String)
    (app : TodoApp) :
    List.Forall₂ R app.tasks
      (addSubSubtask h now rnd taskId subtaskId text notes app).tasks := by
  have hself := forall₂_self R hR.refl app.tasks
  unfold addSubSubtask
  cases hfind : app.tasks.find? (fun t => t.id == taskId) with
  | none => exact hself
  | some task =>
    dsimp only
    split_ifs
    · exact hself
    · cases task.subtasks.find? (fun s => s.id == subtaskId) with
      | none => exact hself
      | some subtask =>
        dsimp only
        split_ifs
        · exact hself
        · exact rel_render_putTask hR h now app _ taskId task _ rfl hfind
            (rel_putSubtask hR _ _ _)

end TodoApp

theorem step_tasks_rel {ok : EditForm → Prop} {R : Task → Task → Prop}
    (hR : TaskRelClosed ok R) (h : Host) (op : Op) (app : TodoApp) (hform : op.FormOk ok)
    (hlen : op.changesLength = false) : List.Forall₂ R app.tasks (step h op app).tasks := by
  have hself := forall₂_self R hR.refl app.tasks
  cases op with
  | addTask now rnd form => cases hlen
  | deleteTask now confirmed id => cases hlen
  | editTask id =>
    simp only [step, TodoApp.editTask]
    split <;> exact hself
  | updateTask now form => exact TodoApp.rel_updateTask hR h now form hform app
  | closeModal => exact hself
  | toggleTask now id =>
    simp only [step, TodoApp.toggleTask]
    cases hfind : app.tasks.find? (fun t => t.id == id) with
    | none => exact hself
    | some task =>
      exact TodoApp.rel_renderAndStats_putTask hR h now app id task _ hfind (hR.toggle now task)
  | togglePin now id =>
    simp only [step, TodoApp.togglePin]
    cases hfind : app.tasks.find? (fun t => t.id == id) with
    | none => exact hself
    | some task =>
      exact TodoApp.rel_renderAndStats_putTask hR h now app id task _ hfind (hR.pinned task _)
  | addSubtask now rnd taskId text notes =>
    exact TodoApp.rel_addSubtask hR h now rnd taskId text notes app
  | toggleSubtask now taskId subtaskId =>
    simp only [step, TodoApp.toggleSubtask]
    cases hfind : app.tasks.find? (fun t => t.id == taskId) with
    | none => exact hself
    | some task =>
      dsimp only
      cases task.subtasks.find? (fun s => s.id == subtaskId) with
      | none => exact hself
      | some subtask =>
        exact TodoApp.rel_render_putTask hR h now app _ taskId task _ rfl hfind
          (TodoApp.rel_putSubtask hR _ _ _)
  | editSubtask now taskId subtaskId newText =>
    simp only [step, TodoApp.editSubtask]
    cases hfind : app.tasks.find? (fun t => t.id == taskId) with
    | none => exact hself
    | some task =>
      dsimp only
      split_ifs
      · exact hself
      · cases task.subtasks.find? (fun s => s.id == subtaskId) <;> exact hself
      · cases task.subtasks.find? (fun s => s.id == subtaskId) with
        | none => exact hself
        | some subtask =>
          exact TodoApp.rel_render_putTask hR h now app _ taskId task _ rfl hfind
            (TodoApp.rel_putSubtask hR _ _ _)
  | toggleSubtaskPin now taskId subtaskId =>
    simp only [step, TodoApp.toggleSubtaskPin]
    cases hfind : app.tasks.find? (fun t => t.id == taskId) with
    | none => exact hself
    | some task =>
      dsimp only
      cases task.subtasks.find? (fun s => s.id == subtaskId) with
      | none => exact hself
      | some subtask =>
        refine TodoApp.rel_render_putTask hR h now app _ taskId task _ rfl hfind ?_
        unfold TodoApp.pinSubtaskToggled
        dsimp only
        split_ifs
        · exact hR.trans _ _ _ (TodoApp.rel_putSubtask hR _ _ _) (hR.pinned _ _)
        · exact TodoApp.rel_putSubtask hR _ _ _
  | deleteSubtask now taskId subtaskId =>
    simp only [step, TodoApp.deleteSubtask]
    cases hfind : app.tasks.find? (fun t => t.id == taskId) with
    | none => exact hself
    | some task =>
      exact TodoApp.rel_render_putTask hR h now app _ taskId task _ rfl hfind (hR.subtasks _ _)
  | addSubSubtask now rnd taskId subtaskId text notes =>
    exact TodoApp.rel_addSubSubtask hR h now rnd taskId subtaskId text notes app
  | toggleSubSubtask now taskId subtaskId subsubtaskId =>
    simp only [step, TodoApp.toggleSubSubtask]
    cases hfind : app.tasks.find? (fun t => t.id == taskId) with
    | none => exact hself
    | some task =>
      dsimp only
      cases task.subtasks.find? (fun s => s.id == subtaskId) with
      | none => exact hself
      | some subtask =>
        dsimp only
        cases subtask.subsubtasks.find? (fun ss => ss.id == subsubtaskId) with
        | none => exact hself
        | some subsubtask =>
          exact TodoApp.rel_render_putTask hR h now app _ taskId task _ rfl hfind
            (TodoApp.rel_putSubtask hR _ _ _)
  | toggleSubSubtaskPin now taskId subtaskId subsubtaskId =>
    simp only [step, TodoApp.toggleSubSubtaskPin]
    cases hfind : app.tasks.find? (fun t => t.id == taskId) with
    | none => exact hself
    | some task =>
      dsimp only
      cases task.subtasks.find? (fun s => s.id == subtaskId) with
      | none => exact hself
      | some subtask =>
        dsimp only
        cases subtask.subsubtasks.find? (fun ss => ss.id == subsubtaskId) with
        | none => exact hself
        | some subsubtask =>
          refine TodoApp.rel_render_putTask hR h now app _ taskId task _ rfl hfind ?_
          dsimp only
          split_ifs
          · exact hR.trans _ _ _ (TodoApp.rel_putSubtask hR _ _ _) (hR.pinned _ _)
          · exact TodoApp.rel_putSubtask hR _ _ _
  | deleteSubSubtask now taskId subtaskId subsubtaskId =>
    simp only [step, TodoApp.deleteSubSubtask]
    cases hfind : app.tasks.find? (fun t => t.id == taskId) with
    | none => exact hself
    | some task =>
      dsimp only
      cases task.subtasks.find? (fun s => s.id == subtaskId) with
      | none => exact hself
      | some subtask =>
        exact TodoApp.rel_render_putTask hR h now app _ taskId task _ rfl hfind
          (TodoApp.rel_putSubtask hR _ _ _)
  | setFilter now filter =>
    simp only [step, TodoApp.setFilter]
    rw [TodoApp.render_tasks]
    exact hself
  | setSort now sort =>
    simp only [step, TodoApp.setSort]
    rw [TodoApp.render_tasks]
    exact hself
  | toggleSubtaskForm now taskId =>
    simp only [step, TodoApp.toggleSubtaskForm]
    cases hfind : app.tasks.find? (fun t => t.id == taskId) with
    | none => exact hself
    | some task =>
      exact TodoApp.rel_render_putTask hR h now app _ taskId task _ rfl hfind (hR.showForm _ _)
  | toggleSubSubtaskForm now taskId subtaskId =>
    simp only [step, TodoApp.toggleSubSubtaskForm]
    cases hfind : app.tasks.find? (fun t => t.id == taskId) with
    | none => exact hself
    | some task =>
      dsimp only
      cases task.subtasks.find? (fun s => s.id == subtaskId) with
      | none => exact hself
      | some subtask =>
        exact TodoApp.rel_render_putTask hR h now app _ taskId task _ rfl hfind
          (TodoApp.rel_putSubtask hR _ _ _)
  | addSubtaskFromForm now rnd taskId input noteInput =>
    simp only [step, TodoApp.addSubtaskFromForm]
    cases input with
    | none => exact hself
    | some v =>
      dsimp only
      split_ifs
      · exact hself
      · split
        · exact TodoApp.rel_addSubtask hR h now rnd taskId v _ app
        · next task hfind =>
          exact forall₂_trans R hR.trans (TodoApp.rel_addSubtask hR h now rnd taskId v _ app)
            (TodoApp.rel_putTask hR _ taskId task _ hfind (hR.showForm _ _))
  | addSubSubtaskFromForm now rnd taskId subtaskId input noteInput =>
    simp only [step, TodoApp.addSubSubtaskFromForm]
    cases input with
    | none => exact hself
    | some v =>
      dsimp only
      split_ifs
      · exact hself
      · split
        · exact TodoApp.rel_addSubSubtask hR h now rnd taskId subtaskId v _ app
        · next task hfind =>
          split
          · exact TodoApp.rel_addSubSubtask hR h now rnd taskId subtaskId v _ app
          · exact forall₂_trans R hR.trans
              (TodoApp.rel_addSubSubtask hR h now rnd taskId subtaskId v _ app)
              (TodoApp.rel_putTask hR _ taskId task _ hfind (TodoApp.rel_putSubtask hR _ _ _))

theorem step_addTask_tasks (h : Host) (now : Int) (rnd : String) (form : TaskForm)
    (app : TodoApp) :
    (step h (Op.addTask now rnd form) app).tasks = app.tasks ∨
    ∃ task, (step h (Op.addTask now rnd form) app).tasks = task :: app.tasks ∧
      task.Fresh now ∧ task.id = (TodoApp.generateId now rnd app).1 := by
  simp only [step, TodoApp.addTask]
  split
  · split_ifs with h1 h2 h3
    · exact Or.inl rfl
    · exact Or.inl rfl
    · exact Or.inl rfl
    · right
      rename_i taskInput startDate dueDate _ _ _
      have hne : trim taskInput ≠ "" := fun hempty => h1 (by simp [hempty])
      rw [TodoApp.renderAndStats_tasks]
      exact ⟨_, rfl, ⟨hne, rfl, rfl, rfl, rfl, rfl, rfl⟩, rfl⟩
  · exact Or.inl rfl

theorem step_deleteTask_tasks (h : Host) (now : Int) (confirmed : Bool) (id : String)
    (app : TodoApp) :
    (step h (Op.deleteTask now confirmed id) app).tasks = app.tasks ∨
    (step h (Op.deleteTask now confirmed id) app).tasks
      = app.tasks.filter (fun t => t.id != id) := by
  simp only [step, TodoApp.deleteTask]
  split_ifs
  · right
    rw [TodoApp.renderAndStats_tasks]
  · exact Or.inl rfl

/-! ## Properties of every task that the operations keep -/

theorem forall₂_all {α : Type} {P : α → Prop} {l1 l2 : List α}
    (hrel : List.Forall₂ (fun a b => P a → P b) l1 l2) (hall : ∀ a ∈ l1, P a) :
    ∀ b ∈ l2, P b := by
  induction hrel with
  | nil => exact hall
  | cons hab _ ih =>
    intro b hb
    rcases List.mem_cons.1 hb with rfl | hb
    · exact hab (hall _ (List.mem_cons_self _ _))
    · exact ih (fun a ha => hall a (List.mem_cons_of_mem _ ha)) b hb

theorem step_tasks_all {ok : EditForm → Prop} {P : Task → Prop}
    (hR : TaskRelClosed ok (fun t t1 => P t → P t1))
    (hfresh : ∀ now t, Task.Fresh now t → P t) (h : Host) (op : Op) (app : TodoApp)
    (hform : op.FormOk ok) (hall : ∀ t ∈ app.tasks, P t) :
    ∀ t ∈ (step h op app).tasks, P t := by
  cases hlen : op.changesLength with
  | false => exact forall₂_all (step_tasks_rel hR h op app hform hlen) hall
  | true =>
    cases op with
    | addTask now rnd form =>
      rcases step_addTask_tasks h now rnd form app with heq | ⟨task, heq, hf, _⟩
      · rw [heq]
        exact hall
      · rw [heq]
        intro t ht
        rcases List.mem_cons.1 ht with rfl | ht
        · exact hfresh now _ hf
        · exact hall t ht
    | deleteTask now confirmed id =>
      rcases step_deleteTask_tasks h now confirmed id app with heq | heq
      · rw [heq]
        exact hall
      · rw [heq]
        intro t ht
        exact hall t (List.mem_filter.1 ht).1
    | _ => cases hlen

theorem run_cons (h : Host) (op : Op) (ops : List Op) (app : TodoApp) :
    run h (op :: ops) app = run h ops (step h op app) := rfl

theorem run_tasks_all {ok : EditForm → Prop} {P : Task → Prop}
    (hR : TaskRelClosed ok (fun t t1 => P t → P t1))
    (hfresh : ∀ now t, Task.Fresh now t → P t) (h : Host) (ops : List Op) (app : TodoApp)
    (hforms : ∀ op ∈ ops, op.FormOk ok) (hall : ∀ t ∈ app.tasks, P t) :
    ∀ t ∈ (run h ops app).tasks, P t := by
  induction ops generalizing app with
  | nil => exact hall
  | cons op ops ih =>
    rw [run_cons]
    exact ih (step h op app) (fun o ho => hforms o (List.mem_cons_of_mem _ ho))
      (step_tasks_all hR hfresh h op app (hforms op (List.mem_cons_self _ _)) hall)

theorem storable_closed :
    TaskRelClosed EditForm.StatusChosen (fun t t1 => t.Storable → t1.Storable) where
  refl := fun _ hp => hp
  trans := fun _ _ _ h12 h23 hp => h23 (h12 hp)
  text := fun _ _ hp => hp
  dates := fun _ _ _ hp => hp
  notes := fun _ _ hp => hp
  pinned := fun _ _ hp => hp
  subtasks := fun _ _ hp => hp
  showForm := fun _ _ hp => hp
  toggle := by
    intro now t hp
    refine ⟨?_, hp.2⟩
    simp only [TodoApp.toggleCompletion]
    split_ifs <;> decide
  status := by
    intro now form t hok hp
    unfold TodoApp.updateTaskStatus
    split
    · next v hv => exact ⟨hok v hv, hp.2⟩
    · exact hp

theorem storable_of_fresh (now : Int) (t : Task) (hf : t.Fresh now) : t.Storable := by
  obtain ⟨_, hstatus, _, _, _, hcreated, _⟩ := hf
  refine ⟨?_, ?_⟩
  · rw [hstatus]
    decide
  · rw [hcreated]
    rfl

theorem mapThrowing_mem {α β : Type} (f : α → Option β) (l : List α) (l1 : List β)
    (hl : mapThrowing f l = some l1) : ∀ y ∈ l1, ∃ x ∈ l, f x = some y := by
  induction l generalizing l1 with
  | nil =>
    simp [mapThrowing] at hl
    subst hl
    intro y hy
    cases hy
  | cons x xs ih =>
    unfold mapThrowing at hl
    cases hx : f x with
    | none => simp [hx] at hl
    | some y1 =>
      cases hxs : mapThrowing f xs with
      | none => simp [hx, hxs] at hl
      | some ys =>
        simp [hx, hxs] at hl
        subst hl
        intro y hy
        rcases List.mem_cons.1 hy with rfl | hy
        · exact ⟨x, List.mem_cons_self _ _, hx⟩
        · obtain ⟨x1, hx1, hfx1⟩ := ih ys hxs y hy
          exact ⟨x1, List.mem_cons_of_mem _ hx1, hfx1⟩

theorem normalize_fixed (now1 now2 : Int) (raw ts : List Json) (hnow : now1 ≠ 0)
    (hraw : normalize now1 raw = some ts) : normalize now2 ts = some ts := by
  apply mapThrowing_of_fixed
  intro y hy
  obtain ⟨x, _, hx⟩ := mapThrowing_mem _ raw ts hraw y hy
  exact normalizeTask_fixed now1 now2 x y hnow hx

theorem normalize_serialize (now : Int) (tasks : List Task)
    (hall : ∀ t ∈ tasks, t.Storable) : normalize now (serialize tasks) = some (serialize tasks) := by
  apply mapThrowing_of_fixed
  intro x hx
  obtain ⟨t, ht, rfl⟩ := List.mem_map.mp hx
  exact task_toJson_fixed now t (hall t ht).1 (hall t ht).2

/-- Where the load-time defaulting is idempotent and a round trip through storage
changes nothing.  Loading what a load produced gives the same records, for every
parsed sequence and whenever the clock of the first load does not read 0; and
loading the serialized task sequence of a state reached from the empty store
(the status field of the edit dialog never holding the empty string) gives back
exactly the serialized records. -/
theorem normalize_idempotent_round_trip (h : Host) (now1 now2 : Int) (raw : List Json)
    (ops : List Op) (app : TodoApp) (hnow : now1 ≠ 0) (hstart : app.tasks = [])
    (hforms : ∀ op ∈ ops, op.FormOk EditForm.StatusChosen) :
    (∀ ts, normalize now1 raw = some ts → normalize now2 ts = some ts) ∧
    (construct now2
        (Blob.parsed (Json.arr (construct now1 (Blob.parsed (Json.arr raw))).tasks))).tasks
      = (construct now1 (Blob.parsed (Json.arr raw))).tasks ∧
    (construct now2 (Blob.parsed (Json.arr (serialize (run h ops app).tasks)))).tasks
      = serialize (run h ops app).tasks := by
  refine ⟨fun ts hts => normalize_fixed now1 now2 raw ts hnow hts, ?_, ?_⟩
  · cases hraw : normalize now1 raw with
    | none =>
      simp only [construct, Json.truthy, hraw, if_true]
      rfl
    | some ts =>
      simp only [construct, Json.truthy, hraw, if_true,
        normalize_fixed now1 now2 raw ts hnow hraw]
  · have hall : ∀ t ∈ (run h ops app).tasks, t.Storable :=
      run_tasks_all storable_closed storable_of_fresh h ops app hforms
        (by rw [hstart]; intro t ht; cases ht)
    simp only [construct, Json.truthy, if_true, normalize_serialize now2 _ hall]

/-- The round trip at a concrete session: the sample session, and a legacy record loaded at
the clock reading 1704067200000. -/
theorem normalize_idempotent_round_trip_witness :
    (1704067200000 : Int) ≠ 0 ∧ emptyApp.tasks = [] ∧
    ((∀ ts, normalize 1704067200000 [Json.obj [("text", Json.str "Write report")]] = some ts →
        normalize 5 ts = some ts) ∧
    (construct 5 (Blob.parsed (Json.arr (construct 1704067200000
        (Blob.parsed (Json.arr [Json.obj [("text", Json.str "Write report")]]))).tasks))).tasks
      = (construct 1704067200000
        (Blob.parsed (Json.arr [Json.obj [("text", Json.str "Write report")]]))).tasks ∧
    (construct 5 (Blob.parsed (Json.arr
        (serialize (run sampleHost sampleSession emptyApp).tasks)))).tasks
      = serialize (run sampleHost sampleSession emptyApp).tasks) :=
  ⟨by decide, rfl,
    normalize_idempotent_round_trip sampleHost 1704067200000 5
      [Json.obj [("text", Json.str "Write report")]] sampleSession emptyApp (by decide) rfl
      (by
        intro op hop
        simp only [sampleSession, List.mem_cons, List.mem_singleton, List.not_mem_nil,
          or_false] at hop
        rcases hop with rfl | rfl | rfl | rfl | rfl | rfl | rfl | rfl
        all_goals first
          | trivial
          | (intro v hv; cases hv; decide))⟩

/-! ## Lookup misses -/

theorem modifyFirst_same {α : Type} (p : α → Bool) (l : List α) (a : α)
    (hfind : l.find? p = some a) : modifyFirst p (fun _ => a) l = l := by
  obtain ⟨pre, post, h1, _, h3⟩ := modifyFirst_of_find p (fun _ => a) l a hfind
  rw [h3]
  exact h1.symm

theorem filter_not_of_find_none {α : Type} (p : α → Bool) (l : List α)
    (hfind : l.find? p = none) : l.filter (fun x => !p x) = l := by
  rw [List.filter_eq_self]
  intro x hx
  have := List.find?_eq_none.1 hfind x hx
  simpa using this

namespace TodoApp

theorem putTask_of_same (id : String) (task : Task) (app : TodoApp)
    (hfind : app.tasks.find? (fun t => t.id == id) = some task) :
    (putTask id task app).tasks = app.tasks :=
  modifyFirst_same _ _ _ hfind

theorem putSubtask_of_same (id : String) (subtask : Subtask) (task : Task)
    (hfind : task.subtasks.find? (fun s => s.id == id) = some subtask) :
    putSubtask id subtask task = task := by
  unfold putSubtask
  rw [modifyFirst_same _ _ _ hfind]

/-- C25: a lookup miss is a silent no-op.  When no task has the id `taskId`,
`toggleTask`, `togglePin`, `deleteTask` and `addSubtask` leave the task sequence
as it was; when the task found has no subtask with the id `subtaskId` (or no
task is found), so do `toggleSubtask`, `editSubtask`, `toggleSubtaskPin`,
`deleteSubtask` and `addSubSubtask`; and when the subtask found has no
sub-subtask with the id `subsubtaskId` (or none is found), so do
`toggleSubSubtask`, `toggleSubSubtaskPin` and `deleteSubSubtask`.  Every one of
these calls returns a state: none of them throws. -/
theorem lookup_miss_is_noop (h : Host) (now : Int) (rnd : String) (confirmed : Bool)
    (taskId subtaskId subsubtaskId text notes : String) (app : TodoApp) :
    (hasTask taskId app = false →
      (toggleTask h now taskId app).tasks = app.tasks ∧
      (togglePin h now taskId app).tasks = app.tasks ∧
      (deleteTask h now confirmed taskId app).tasks = app.tasks ∧
      (addSubtask h now rnd taskId text notes app).tasks = app.tasks) ∧
    (hasSubtask taskId subtaskId app = false →
      (toggleSubtask h now taskId subtaskId app).tasks = app.tasks ∧
      (editSubtask h now taskId subtaskId text app).tasks = app.tasks ∧
      (toggleSubtaskPin h now taskId subtaskId app).tasks = app.tasks ∧
      (deleteSubtask h now taskId subtaskId app).tasks = app.tasks ∧
      (addSubSubtask h now rnd taskId subtaskId text notes app).tasks = app.tasks) ∧
    (hasSubSubtask taskId subtaskId subsubtaskId app = false →
      (toggleSubSubtask h now taskId subtaskId subsubtaskId app).tasks = app.tasks ∧
      (toggleSubSubtaskPin h now taskId subtaskId subsubtaskId app).tasks = app.tasks ∧
      (deleteSubSubtask h now taskId subtaskId subsubtaskId app).tasks = app.tasks) := by
  refine ⟨?_, ?_, ?_⟩
  · intro hmiss
    have hfind : app.tasks.find? (fun t => t.id == taskId) = none := by
      simpa [hasTask] using hmiss
    refine ⟨?_, ?_, ?_, ?_⟩
    · simp only [toggleTask, hfind]
    · simp only [togglePin, hfind]
    · unfold deleteTask
      split_ifs
      · rw [renderAndStats_tasks]
        exact filter_not_of_find_none (fun t : Task => t.id == taskId) app.tasks hfind
      · rfl
    · simp only [addSubtask, hfind]
  · intro hmiss
    cases hfind : app.tasks.find? (fun t => t.id == taskId) with
    | none =>
      refine ⟨?_, ?_, ?_, ?_, ?_⟩
      · simp only [toggleSubtask, hfind]
      · simp only [editSubtask, hfind]
      · simp only [toggleSubtaskPin, hfind]
      · simp only [deleteSubtask, hfind]
      · simp only [addSubSubtask, hfind]
    | some task =>
      have hsub : task.subtasks.find? (fun s => s.id == subtaskId) = none := by
        simpa [hasSubtask, hfind] using hmiss
      refine ⟨?_, ?_, ?_, ?_, ?_⟩
      · simp only [toggleSubtask, hfind, hsub]
      · simp only [editSubtask, hfind, hsub]
        split_ifs <;> rfl
      · simp only [toggleSubtaskPin, hfind, hsub]
      · simp only [deleteSubtask, hfind]
        rw [render_tasks]
        have hkeep : task.subtasks.filter (fun s => s.id != subtaskId) = task.subtasks :=
          filter_not_of_find_none (fun s : Subtask => s.id == subtaskId) task.subtasks hsub
        rw [hkeep]
        exact putTask_of_same taskId task app hfind
      · simp only [addSubSubtask, hfind, hsub]
        split_ifs <;> rfl
  · intro hmiss
    cases hfind : app.tasks.find? (fun t => t.id == taskId) with
    | none =>
      refine ⟨?_, ?_, ?_⟩
      · simp only [toggleSubSubtask, hfind]
      · simp only [toggleSubSubtaskPin, hfind]
      · simp only [deleteSubSubtask, hfind]
    | some task =>
      cases hsub : task.subtasks.find? (fun s => s.id == subtaskId) with
      | none =>
        refine ⟨?_, ?_, ?_⟩
        · simp only [toggleSubSubtask, hfind, hsub]
        · simp only [toggleSubSubtaskPin, hfind, hsub]
        · simp only [deleteSubSubtask, hfind, hsub]
      | some subtask =>
        have hsubsub :
            subtask.subsubtasks.find? (fun ss => ss.id == subsubtaskId) = none := by
          simpa [hasSubSubtask, hfind, hsub] using hmiss
        refine ⟨?_, ?_, ?_⟩
        · simp only [toggleSubSubtask, hfind, hsub, hsubsub]
        · simp only [toggleSubSubtaskPin, hfind, hsub, hsubsub]
        · simp only [deleteSubSubtask, hfind, hsub]
          rw [render_tasks]
          have hkeep : subtask.subsubtasks.filter (fun ss => ss.id != subsubtaskId)
              = subtask.subsubtasks :=
            filter_not_of_find_none (fun ss : SubSubtask => ss.id == subsubtaskId)
              subtask.subsubtasks hsubsub
          rw [hkeep]
          have hsame : putSubtask subtaskId { subtask with subsubtasks := subtask.subsubtasks }
              task = task := putSubtask_of_same subtaskId subtask task hsub
          rw [hsame]
          exact putTask_of_same taskId task app hfind

/-- C25 at the sample tree: an id that matches no task, no subtask of `t1` and no
sub-subtask of `s1`. -/
theorem lookup_miss_is_noop_witness :
    hasTask "gone" treeApp = false ∧ hasSubtask "t1" "gone" treeApp = false ∧
    hasSubSubtask "t1" "s1" "gone" treeApp = false ∧
    (deleteTask sampleHost 0 true "gone" treeApp).tasks = treeApp.tasks ∧
    (deleteSubtask sampleHost 0 "t1" "gone" treeApp).tasks = treeApp.tasks ∧
    (deleteSubSubtask sampleHost 0 "t1" "s1" "gone" treeApp).tasks = treeApp.tasks :=
  ⟨by decide, by decide, by decide,
    ((lookup_miss_is_noop sampleHost 0 "r" true "gone" "s1" "u1" "x" "" treeApp).1
      (by decide)).2.2.1,
    ((lookup_miss_is_noop sampleHost 0 "r" true "t1" "gone" "u1" "x" "" treeApp).2.1
      (by decide)).2.2.2.1,
    ((lookup_miss_is_noop sampleHost 0 "r" true "t1" "s1" "gone" "x" "" treeApp).2.2
      (by decide)).2.2⟩

end TodoApp

/-! ## The creation stamp -/

theorem createdAt_closed :
    TaskRelClosed (fun _ => True) (fun t t1 => t1.id = t.id ∧ t1.createdAt = t.createdAt) where
  refl := fun _ => ⟨rfl, rfl⟩
  trans := fun _ _ _ h12 h23 => ⟨h23.1.trans h12.1, h23.2.trans h12.2⟩
  text := fun _ _ => ⟨rfl, rfl⟩
  dates := fun _ _ _ => ⟨rfl, rfl⟩
  notes := fun _ _ => ⟨rfl, rfl⟩
  pinned := fun _ _ => ⟨rfl, rfl⟩
  subtasks := fun _ _ => ⟨rfl, rfl⟩
  showForm := fun _ _ => ⟨rfl, rfl⟩
  toggle := fun _ _ => ⟨rfl, rfl⟩
  status := by
    intro now form t _
    unfold TodoApp.updateTaskStatus
    split
    · exact ⟨rfl, rfl⟩
    · exact ⟨rfl, rfl⟩

theorem formOk_true (op : Op) : op.FormOk (fun _ => True) := by
  cases op <;> trivial

/-- C28: `createdAt` is never changed.  Through any sequence of operations other
than `addTask` and `deleteTask` (so `updateTask`, `toggleTask`, `togglePin` and
every subtask and sub-subtask operation, whether they accept or reject), the
store keeps its tasks position by position, each with the id and the `createdAt`
value it had before. -/
theorem createdAt_never_changed (h : Host) (ops : List Op) (app : TodoApp)
    (hops : ∀ op ∈ ops, op.changesLength = false) :
    List.Forall₂ (fun t t1 => t1.id = t.id ∧ t1.createdAt = t.createdAt)
      app.tasks (run h ops app).tasks := by
  induction ops generalizing app with
  | nil => exact forall₂_self _ createdAt_closed.refl app.tasks
  | cons op ops ih =>
    rw [run_cons]
    exact forall₂_trans _ createdAt_closed.trans
      (step_tasks_rel createdAt_closed h op app (formOk_true op)
        (hops op (List.mem_cons_self _ _)))
      (ih (step h op app) (fun o ho => hops o (List.mem_cons_of_mem _ ho)))

/-- C28 at the sample tree: a toggle, a pin, an edit of the status and subtask
operations. -/
theorem createdAt_never_changed_witness :
    (∀ op ∈ [Op.toggleTask 5 "t1", Op.togglePin 6 "t1", Op.editTask "t1",
        Op.updateTask 7
          { editTaskInput := some "Write report"
            editStartDateInput := some "2024-01-01"
            editDueDateInput := some "2024-01-10"
            editNoteInput := some "n"
            editStatusInput := some "in-progress" },
        Op.addSubtask 8 "r" "t1" "Publish" "", Op.deleteSubtask 9 "t1" "s2"],
      op.changesLength = false) ∧
    List.Forall₂ (fun t t1 => t1.id = t.id ∧ t1.createdAt = t.createdAt)
      TodoApp.treeApp.tasks
      (run sampleHost [Op.toggleTask 5 "t1", Op.togglePin 6 "t1", Op.editTask "t1",
        Op.updateTask 7
          { editTaskInput := some "Write report"
            editStartDateInput := some "2024-01-01"
            editDueDateInput := some "2024-01-10"
            editNoteInput := some "n"
            editStatusInput := some "in-progress" },
        Op.addSubtask 8 "r" "t1" "Publish" "", Op.deleteSubtask 9 "t1" "s2"]
        TodoApp.treeApp).tasks :=
  ⟨by decide, createdAt_never_changed sampleHost _ TodoApp.treeApp (by decide)⟩

/-! ## Completing a subtask or a sub-subtask -/

theorem modifyFirst_of_find_all {α : Type} (p : α → Bool) (l : List α) (a : α)
    (hfind : l.find? p = some a) :
    ∃ pre post, l = pre ++ a :: post ∧ (∀ x ∈ pre, p x = false) ∧
      ∀ f : α → α, modifyFirst p f l = pre ++ f a :: post := by
  induction l with
  | nil => simp at hfind
  | cons x xs ih =>
    by_cases hx : p x = true
    · have hxa : x = a := by simpa [List.find?, hx] using hfind
      subst hxa
      exact ⟨[], xs, rfl, by simp, fun f => by simp [modifyFirst, hx]⟩
    · have hxs : xs.find? p = some a := by simpa [List.find?, hx] using hfind
      obtain ⟨pre, post, h1, h2, h3⟩ := ih hxs
      refine ⟨x :: pre, post, by simp [h1], ?_, fun f => by simp [modifyFirst, hx, h3 f]⟩
      intro y hy
      rcases List.mem_cons.mp hy with rfl | hy
      · simpa using hx
      · exact h2 y hy

namespace TodoApp

theorem putTask_putSubtask_tasks (taskId subtaskId : String) (app : TodoApp) (task : Task)
    (subtask : Subtask)
    (htask : app.tasks.find? (fun t => t.id == taskId) = some task)
    (hsub : task.subtasks.find? (fun s => s.id == subtaskId) = some subtask) :
    ∃ pre post spre spost,
      app.tasks = pre ++ task :: post ∧ (∀ t ∈ pre, t.id ≠ taskId) ∧
      task.subtasks = spre ++ subtask :: spost ∧ (∀ s ∈ spre, s.id ≠ subtaskId) ∧
      ∀ (app1 : TodoApp) (subtask1 : Subtask), app1.tasks = app.tasks →
        (putTask taskId (putSubtask subtaskId subtask1 task) app1).tasks
          = pre ++ { task with subtasks := spre ++ subtask1 :: spost } :: post := by
  obtain ⟨spre, spost, hs1, hs2, hs3⟩ :=
    modifyFirst_of_find_all (fun s : Subtask => s.id == subtaskId) task.subtasks subtask hsub
  obtain ⟨pre, post, ht1, ht2, ht3⟩ :=
    modifyFirst_of_find_all (fun t : Task => t.id == taskId) app.tasks task htask
  refine ⟨pre, post, spre, spost, ht1, ?_, hs1, ?_, ?_⟩
  · intro t ht hid
    have := ht2 t ht
    simp [hid] at this
  · intro s hs hid
    have := hs2 s hs
    simp [hid] at this
  · intro app1 subtask1 happ
    unfold putTask putSubtask
    simp only [happ, ht3, hs3]

theorem putSubSubtask_subsubtasks_of_find (id : String) (subsubtask1 : SubSubtask)
    (subtask : Subtask) (subsubtask : SubSubtask)
    (hfind : subtask.subsubtasks.find? (fun ss => ss.id == id) = some subsubtask) :
    ∃ upre upost, subtask.subsubtasks = upre ++ subsubtask :: upost ∧
      (∀ ss ∈ upre, ss.id ≠ id) ∧
      putSubSubtask id subsubtask1 subtask
        = { subtask with subsubtasks := upre ++ subsubtask1 :: upost } := by
  obtain ⟨pre, post, h1, h2, h3⟩ :=
    modifyFirst_of_find (fun ss : SubSubtask => ss.id == id) (fun _ => subsubtask1)
      subtask.subsubtasks subsubtask hfind
  refine ⟨pre, post, h1, ?_, ?_⟩
  · intro t ht hid
    have := h2 t ht
    simp [hid] at this
  · unfold putSubSubtask
    rw [h3]

/-- C27: `toggleSubtask` on an existing task and subtask negates the `completed`
flag of that subtask and nothing else: the task sequence afterwards is the one
before with the subtask replaced, at its place, by the record that differs only
in `completed`, so the parent task keeps its `completed`, `status` and
`completedAt` and every other record is the same.  `toggleSubSubtask` does
the same one level down: only the `completed` flag of the sub-subtask found
changes, and the parent subtask and the grandparent task keep every other
field. -/
theorem toggleSubtask_flips_only_completed (h : Host) (now : Int)
    (taskId subtaskId subsubtaskId : String) (app : TodoApp) (task : Task) (subtask : Subtask)
    (htask : app.tasks.find? (fun t => t.id == taskId) = some task)
    (hsub : task.subtasks.find? (fun s => s.id == subtaskId) = some subtask) :
    ∃ pre post spre spost,
      app.tasks = pre ++ task :: post ∧ (∀ t ∈ pre, t.id ≠ taskId) ∧
      task.subtasks = spre ++ subtask :: spost ∧ (∀ s ∈ spre, s.id ≠ subtaskId) ∧
      (toggleSubtask h now taskId subtaskId app).tasks
        = pre ++ { task with
            subtasks := spre ++ { subtask with completed := !subtask.completed } :: spost }
          :: post ∧
      ∀ subsubtask,
        subtask.subsubtasks.find? (fun ss => ss.id == subsubtaskId) = some subsubtask →
        ∃ upre upost,
          subtask.subsubtasks = upre ++ subsubtask :: upost ∧
          (∀ ss ∈ upre, ss.id ≠ subsubtaskId) ∧
          (toggleSubSubtask h now taskId subtaskId subsubtaskId app).tasks
            = pre ++ { task with
                subtasks := spre ++ { subtask with
                  subsubtasks := upre ++
                    { subsubtask with completed := !subsubtask.completed } :: upost }
                  :: spost }
              :: post := by
  obtain ⟨pre, post, spre, spost, ht1, ht2, hs1, hs2, hput⟩ :=
    putTask_putSubtask_tasks taskId subtaskId app task subtask htask hsub
  refine ⟨pre, post, spre, spost, ht1, ht2, hs1, hs2, ?_, ?_⟩
  · unfold toggleSubtask
    rw [htask]
    dsimp only
    rw [hsub]
    dsimp only
    rw [render_tasks]
    exact hput app _ rfl
  · intro subsubtask hsubsub
    obtain ⟨upre, upost, hu1, hu2, hu3⟩ := putSubSubtask_subsubtasks_of_find subsubtaskId
      { subsubtask with completed := !subsubtask.completed } subtask subsubtask hsubsub
    refine ⟨upre, upost, hu1, hu2, ?_⟩
    unfold toggleSubSubtask
    rw [htask]
    dsimp only
    rw [hsub]
    dsimp only
    rw [hsubsub]
    dsimp only
    rw [render_tasks, hput app _ rfl, hu3]

/-- C27 on the sample tree: completing the subtask `Draft` of `Write report`, and
its sub-subtask `Sources`. -/
theorem toggleSubtask_flips_only_completed_witness :
    ∃ pre post spre spost,
      treeApp.tasks = pre ++ treeTask :: post ∧ (∀ t ∈ pre, t.id ≠ "t1") ∧
      treeTask.subtasks = spre ++
        sampleSubtask "s1" "Draft" false
          [sampleSubSubtask "u1" "Outline" false, sampleSubSubtask "u2" "Sources" true]
        :: spost ∧
      (∀ s ∈ spre, s.id ≠ "s1") ∧
      (toggleSubtask sampleHost 1704153600000 "t1" "s1" treeApp).tasks
        = pre ++ { treeTask with
            subtasks := spre ++
              { sampleSubtask "s1" "Draft" false
                  [sampleSubSubtask "u1" "Outline" false, sampleSubSubtask "u2" "Sources" true]
                with completed := true } :: spost }
          :: post ∧
      ∀ subsubtask,
        (sampleSubtask "s1" "Draft" false
          [sampleSubSubtask "u1" "Outline" false,
            sampleSubSubtask "u2" "Sources" true]).subsubtasks.find?
          (fun ss => ss.id == "u2") = some subsubtask →
        ∃ upre upost,
          (sampleSubtask "s1" "Draft" false
            [sampleSubSubtask "u1" "Outline" false,
              sampleSubSubtask "u2" "Sources" true]).subsubtasks
            = upre ++ subsubtask :: upost ∧
          (∀ ss ∈ upre, ss.id ≠ "u2") ∧
          (toggleSubSubtask sampleHost 1704153600000 "t1" "s1" "u2" treeApp).tasks
            = pre ++ { treeTask with
                subtasks := spre ++
                  { sampleSubtask "s1" "Draft" false
                      [sampleSubSubtask "u1" "Outline" false,
                        sampleSubSubtask "u2" "Sources" true]
                    with
                    subsubtasks := upre ++
                      { subsubtask with completed := !subsubtask.completed } :: upost }
                  :: spost }
              :: post :=
  toggleSubtask_flips_only_completed sampleHost 1704153600000 "t1" "s1" "u2" treeApp treeTask
    (sampleSubtask "s1" "Draft" false
      [sampleSubSubtask "u1" "Outline" false, sampleSubSubtask "u2" "Sources" true])
    (by decide) (by decide)

end TodoApp

/-! ## Editing a subtask -/

namespace TodoApp

/-- C29: `editSubtask` on an existing task and subtask checks uniqueness against
the other subtasks only.  A new text that is empty after trimming, or whose
lower-cased trimmed form equals the lower-cased text of a subtask of the same
task with a different id, is rejected and the state is the one before.  Any
other text is accepted, whatever the subtask's own current text is: the task
sequence afterwards is the one before with the subtask replaced, at its
place, by the record whose `text` is the trimmed new text and whose other
fields are the same. -/
theorem editSubtask_uniqueness_excludes_self (h : Host) (now : Int)
    (taskId subtaskId newText : String) (app : TodoApp) (task : Task) (subtask : Subtask)
    (htask : app.tasks.find? (fun t => t.id == taskId) = some task)
    (hsub : task.subtasks.find? (fun s => s.id == subtaskId) = some subtask) :
    ((trim newText = "" ∨
        ∃ s ∈ task.subtasks, s.id ≠ subtaskId ∧
          h.toLowerCase s.text = h.toLowerCase (trim newText)) →
      editSubtask h now taskId subtaskId newText app = app) ∧
    (trim newText ≠ "" →
      (∀ s ∈ task.subtasks, s.id ≠ subtaskId →
        h.toLowerCase s.text ≠ h.toLowerCase (trim newText)) →
      ∃ pre post spre spost,
        app.tasks = pre ++ task :: post ∧ (∀ t ∈ pre, t.id ≠ taskId) ∧
        task.subtasks = spre ++ subtask :: spost ∧ (∀ s ∈ spre, s.id ≠ subtaskId) ∧
        (editSubtask h now taskId subtaskId newText app).tasks
          = pre ++ { task with
              subtasks := spre ++ { subtask with text := trim newText } :: spost }
            :: post) := by
  refine ⟨?_, ?_⟩
  · intro hrej
    unfold editSubtask
    rw [htask]
    dsimp only
    by_cases hempty : trim newText = ""
    · rw [if_pos hempty]
    · rw [if_neg hempty, hsub]
      dsimp only
      rcases hrej with he | ⟨s, hs, hid, hlow⟩
      · exact absurd he hempty
      · have hany : task.subtasks.any (fun s =>
            s.id != subtaskId && h.toLowerCase s.text == h.toLowerCase (trim newText))
            = true := by
          rw [List.any_eq_true]
          exact ⟨s, hs, by simp [hid, hlow]⟩
        rw [if_pos hany]
  · intro hne huniq
    obtain ⟨pre, post, spre, spost, ht1, ht2, hs1, hs2, hput⟩ :=
      putTask_putSubtask_tasks taskId subtaskId app task subtask htask hsub
    refine ⟨pre, post, spre, spost, ht1, ht2, hs1, hs2, ?_⟩
    have hany : ¬ task.subtasks.any (fun s =>
        s.id != subtaskId && h.toLowerCase s.text == h.toLowerCase (trim newText))
        = true := by
      rw [List.any_eq_true]
      rintro ⟨s, hs, hc⟩
      simp only [Bool.and_eq_true, bne_iff_ne, ne_eq, beq_iff_eq] at hc
      exact huniq s hs hc.1 hc.2
    unfold editSubtask
    rw [htask]
    dsimp only
    rw [if_neg hne, hsub]
    dsimp only
    rw [if_neg hany, render_tasks]
    exact hput app _ rfl

/-- C29 on the sample tree: the subtask `Draft` renamed to `DRAFT`: the text does
not clash with the other subtask `Review`, and its own text is not looked at;
renaming it to `review` is rejected. -/
theorem editSubtask_uniqueness_excludes_self_witness :
    (editSubtask sampleHost 1704153600000 "t1" "s1" " review " treeApp = treeApp) ∧
    (∃ pre post spre spost,
      treeApp.tasks = pre ++ treeTask :: post ∧ (∀ t ∈ pre, t.id ≠ "t1") ∧
      treeTask.subtasks = spre ++
        sampleSubtask "s1" "Draft" false
          [sampleSubSubtask "u1" "Outline" false, sampleSubSubtask "u2" "Sources" true]
        :: spost ∧
      (∀ s ∈ spre, s.id ≠ "s1") ∧
      (editSubtask sampleHost 1704153600000 "t1" "s1" " DRAFT " treeApp).tasks
        = pre ++ { treeTask with
            subtasks := spre ++
              { sampleSubtask "s1" "Draft" false
                  [sampleSubSubtask "u1" "Outline" false, sampleSubSubtask "u2" "Sources" true]
                with text := trim " DRAFT " } :: spost }
          :: post) :=
  ⟨(editSubtask_uniqueness_excludes_self sampleHost 1704153600000 "t1" "s1" " review " treeApp
      treeTask
      (sampleSubtask "s1" "Draft" false
        [sampleSubSubtask "u1" "Outline" false, sampleSubSubtask "u2" "Sources" true])
      (by decide) (by decide)).1
      (Or.inr ⟨sampleSubtask "s2" "Review" false [], by decide, by decide, by decide⟩),
    (editSubtask_uniqueness_excludes_self sampleHost 1704153600000 "t1" "s1" " DRAFT " treeApp
      treeTask
      (sampleSubtask "s1" "Draft" false
        [sampleSubSubtask "u1" "Outline" false, sampleSubSubtask "u2" "Sources" true])
      (by decide) (by decide)).2 (by decide) (by decide)⟩

end TodoApp

/-! ## The cached day -/

namespace TodoApp

theorem effectiveToday_of_cached (h : Host) (now : Int) (app : TodoApp) (d : Int)
    (hc : app.cachedToday = some d) : effectiveToday h now app = d := by
  simp [effectiveToday, hc]

theorem isOverdue_keeps_cached (h : Host) (now : Int) (app : TodoApp) (task : Task) (d : Int)
    (hc : app.cachedToday = some d) : (isOverdue h now app task).2.cachedToday = some d := by
  rcases isOverdue_snd h now app task with h1 | h1
  · rw [h1]
    exact hc
  · rw [h1, effectiveToday_of_cached h now app d hc]

theorem foldl_isOverdue_keeps_cached (h : Host) (now : Int) (ts : List Task) (app : TodoApp)
    (d : Int) (hc : app.cachedToday = some d) :
    (ts.foldl (fun a t => (isOverdue h now a t).2) app).cachedToday = some d := by
  induction ts generalizing app with
  | nil => exact hc
  | cons t ts ih =>
    simp only [List.foldl_cons]
    exact ih _ (isOverdue_keeps_cached h now app t d hc)

theorem filterOverdue_keeps_cached (h : Host) (now : Int) (ts : List Task) (app : TodoApp)
    (d : Int) (hc : app.cachedToday = some d) :
    (filterOverdue h now ts app).2.cachedToday = some d := by
  induction ts generalizing app with
  | nil => exact hc
  | cons t ts ih =>
    simp only [filterOverdue]
    exact ih _ (isOverdue_keeps_cached h now app t d hc)

theorem filterTasks_keeps_cached (h : Host) (now : Int) (app : TodoApp) (d : Int)
    (hc : app.cachedToday = some d) : (filterTasks h now app).2.cachedToday = some d := by
  unfold filterTasks
  split_ifs
  · exact hc
  · exact hc
  · exact hc
  · exact filterOverdue_keeps_cached h now app.tasks app d hc
  · exact hc
  · exact hc

theorem render_keeps_cached (h : Host) (now : Int) (app : TodoApp) (d : Int)
    (hc : app.cachedToday = some d) : (render h now app).cachedToday = some d := by
  unfold render
  split_ifs
  · simp only [getFilteredTasks]
    exact foldl_isOverdue_keeps_cached h now _ _ d (filterTasks_keeps_cached h now app d hc)
  · exact hc

theorem updateStats_foldl_keeps_cached (h : Host) (now : Int) (ts : List Task)
    (acc : Stats × TodoApp) (d : Int) (hc : acc.2.cachedToday = some d) :
    (ts.foldl
      (fun (acc : Stats × TodoApp) task =>
        let r := isOverdue h now acc.2 task
        (({ total := acc.1.total + 1
            completed := if task.completed then acc.1.completed + 1 else acc.1.completed
            pending := if task.status = "pending" then acc.1.pending + 1 else acc.1.pending
            overdue := if r.1 then acc.1.overdue + 1 else acc.1.overdue } : Stats), r.2))
      acc).2.cachedToday = some d := by
  induction ts generalizing acc with
  | nil => exact hc
  | cons t ts ih =>
    simp only [List.foldl_cons]
    exact ih _ (isOverdue_keeps_cached h now _ t d hc)

theorem renderAndStats_keeps_cached (h : Host) (now : Int) (app : TodoApp) (d : Int)
    (hc : app.cachedToday = some d) : (renderAndStats h now app).cachedToday = some d := by
  unfold renderAndStats updateStats
  exact updateStats_foldl_keeps_cached h now _ _ d (render_keeps_cached h now app d hc)

theorem addSubtask_keeps_cached (h : Host) (now : Int) (rnd : String)
    (taskId text notes : String) (app : TodoApp) (d : Int) (hc : app.cachedToday = some d) :
    (addSubtask h now rnd taskId text notes app).cachedToday = some d := by
  unfold addSubtask
  split
  · exact hc
  · dsimp only
    split_ifs
    · exact hc
    · exact hc
    · exact render_keeps_cached h now _ d hc

theorem addSubSubtask_keeps_cached (h : Host) (now : Int) (rnd : String)
    (taskId subtaskId text notes : String) (app : TodoApp) (d : Int)
    (hc : app.cachedToday = some d) :
    (addSubSubtask h now rnd taskId subtaskId text notes app).cachedToday = some d := by
  simp only [addSubSubtask]
  repeat' split
  all_goals first
    | exact hc
    | exact render_keeps_cached h now _ d hc

end TodoApp

theorem step_keeps_cached (h : Host) (op : Op) (app : TodoApp) (d : Int)
    (hc : app.cachedToday = some d) : (step h op app).cachedToday = some d := by
  cases op with
  | addTask now rnd form =>
    simp only [step, TodoApp.addTask]
    repeat' split
    all_goals first
      | exact hc
      | exact TodoApp.renderAndStats_keeps_cached h now _ d hc
  | editTask id =>
    simp only [step, TodoApp.editTask]
    split <;> exact hc
  | updateTask now form =>
    simp only [step, TodoApp.updateTask, TodoApp.closeModal]
    repeat' split
    all_goals first
      | exact hc
      | exact TodoApp.renderAndStats_keeps_cached h now _ d hc
  | closeModal => exact hc
  | toggleTask now id =>
    simp only [step, TodoApp.toggleTask]
    split
    · exact hc
    · exact TodoApp.renderAndStats_keeps_cached h now _ d hc
  | togglePin now id =>
    simp only [step, TodoApp.togglePin]
    split
    · exact hc
    · exact TodoApp.renderAndStats_keeps_cached h now _ d hc
  | deleteTask now confirmed id =>
    simp only [step, TodoApp.deleteTask]
    split
    · exact TodoApp.renderAndStats_keeps_cached h now _ d hc
    · exact hc
  | addSubtask now rnd taskId text notes =>
    exact TodoApp.addSubtask_keeps_cached h now rnd taskId text notes app d hc
  | toggleSubtask now taskId subtaskId =>
    simp only [step, TodoApp.toggleSubtask]
    repeat' split
    all_goals first
      | exact hc
      | exact TodoApp.render_keeps_cached h now _ d hc
  | editSubtask now taskId subtaskId newText =>
    simp only [step, TodoApp.editSubtask]
    repeat' split
    all_goals first
      | exact hc
      | exact TodoApp.render_keeps_cached h now _ d hc
  | toggleSubtaskPin now taskId subtaskId =>
    simp only [step, TodoApp.toggleSubtaskPin]
    repeat' split
    all_goals first
      | exact hc
      | exact TodoApp.render_keeps_cached h now _ d hc
  | deleteSubtask now taskId subtaskId =>
    simp only [step, TodoApp.deleteSubtask]
    split
    · exact hc
    · exact TodoApp.render_keeps_cached h now _ d hc
  | addSubSubtask now rnd taskId subtaskId text notes =>
    exact TodoApp.addSubSubtask_keeps_cached h now rnd taskId subtaskId text notes app d hc
  | toggleSubSubtask now taskId subtaskId subsubtaskId =>
    simp only [step, TodoApp.toggleSubSubtask]
    repeat' split
    all_goals first
      | exact hc
      | exact TodoApp.render_keeps_cached h now _ d hc
  | toggleSubSubtaskPin now taskId subtaskId subsubtaskId =>
    simp only [step, TodoApp.toggleSubSubtaskPin]
    split
    · exact hc
    · split
      · exact hc
      · split
        · exact hc
        · exact TodoApp.render_keeps_cached h now _ d hc
  | deleteSubSubtask now taskId subtaskId subsubtaskId =>
    simp only [step, TodoApp.deleteSubSubtask]
    split
    · exact hc
    · split
      · exact hc
      · exact TodoApp.render_keeps_cached h now _ d hc
  | setFilter now filter => exact TodoApp.render_keeps_cached h now _ d hc
  | setSort now sort => exact TodoApp.render_keeps_cached h now _ d hc
  | toggleSubtaskForm now taskId =>
    simp only [step, TodoApp.toggleSubtaskForm]
    split
    · exact hc
    · exact TodoApp.render_keeps_cached h now _ d hc
  | toggleSubSubtaskForm now taskId subtaskId =>
    simp only [step, TodoApp.toggleSubSubtaskForm]
    repeat' split
    all_goals first
      | exact hc
      | exact TodoApp.render_keeps_cached h now _ d hc
  | addSubtaskFromForm now rnd taskId input noteInput =>
    simp only [step, TodoApp.addSubtaskFromForm]
    cases input with
    | none => exact hc
    | some v =>
      dsimp only
      split_ifs
      · exact hc
      · split
        · exact TodoApp.addSubtask_keeps_cached h now rnd taskId v _ app d hc
        · exact TodoApp.addSubtask_keeps_cached h now rnd taskId v _ app d hc
  | addSubSubtaskFromForm now rnd taskId subtaskId input noteInput =>
    simp only [step, TodoApp.addSubSubtaskFromForm]
    cases input with
    | none => exact hc
    | some v =>
      dsimp only
      split_ifs
      · exact hc
      · split
        · exact TodoApp.addSubSubtask_keeps_cached h now rnd taskId subtaskId v _ app d hc
        · split
          · exact TodoApp.addSubSubtask_keeps_cached h now rnd taskId subtaskId v _ app d hc
          · exact TodoApp.addSubSubtask_keeps_cached h now rnd taskId subtaskId v _ app d hc

theorem run_keeps_cached (h : Host) (ops : List Op) (app : TodoApp) (d : Int)
    (hc : app.cachedToday = some d) : (run h ops app).cachedToday = some d := by
  induction ops generalizing app with
  | nil => exact hc
  | cons op ops ih =>
    rw [run_cons]
    exact ih _ (step_keeps_cached h op app d hc)

namespace TodoApp

theorem isOverdue_fst_of_today (h : Host) (now1 now2 : Int) (a b : TodoApp) (t : Task)
    (hab : effectiveToday h now1 a = effectiveToday h now2 b) :
    (isOverdue h now1 a t).1 = (isOverdue h now2 b t).1 := by
  rw [isOverdue_fst, isOverdue_fst, hab]

theorem isOverdue_caches (h : Host) (now : Int) (app : TodoApp) (task : Task) (due : String)
    (hdue : task.dueDate = some due) (hne : due ≠ "") :
    (isOverdue h now app task).2.cachedToday = some (effectiveToday h now app) := by
  unfold isOverdue effectiveToday
  rw [hdue]
  simp only [hne, if_false]
  cases h.parseDate due <;> rfl

end TodoApp

/-- C30: the cached day is fixed once set.  After `isOverdue` has been evaluated
for a task with a non-empty due date, `cachedToday` holds the day that call
compared with (the day cached before, else the start of the day of that call's
clock reading); after any sequence of operations it still holds that day; a
later `isOverdue` call on any task, whatever the clock reads then, gives the
result the first call's day gives; and two later calls on the same task, with
any operations and clock readings in between, give the same result. -/
theorem cachedToday_fixed_once_set (h : Host) (now now1 now2 : Int) (app : TodoApp)
    (task t : Task) (ops ops1 : List Op) (due : String)
    (hdue : task.dueDate = some due) (hne : due ≠ "") :
    (TodoApp.isOverdue h now app task).2.cachedToday
      = some (TodoApp.effectiveToday h now app) ∧
    (run h ops (TodoApp.isOverdue h now app task).2).cachedToday
      = some (TodoApp.effectiveToday h now app) ∧
    (TodoApp.isOverdue h now1 (run h ops (TodoApp.isOverdue h now app task).2) t).1
      = (TodoApp.isOverdue h now app t).1 ∧
    (TodoApp.isOverdue h now2
        (run h ops1
          (TodoApp.isOverdue h now1 (run h ops (TodoApp.isOverdue h now app task).2) t).2)
        t).1
      = (TodoApp.isOverdue h now1 (run h ops (TodoApp.isOverdue h now app task).2) t).1 := by
  have h1 := TodoApp.isOverdue_caches h now app task due hdue hne
  have h2 := run_keeps_cached h ops _ _ h1
  have h3 := TodoApp.isOverdue_keeps_cached h now1 _ t _ h2
  have h4 := run_keeps_cached h ops1 _ _ h3
  refine ⟨h1, h2, ?_, ?_⟩
  · apply TodoApp.isOverdue_fst_of_today
    exact TodoApp.effectiveToday_of_cached h now1 _ _ h2
  · apply TodoApp.isOverdue_fst_of_today
    rw [TodoApp.effectiveToday_of_cached h now2 _ _ h4,
      TodoApp.effectiveToday_of_cached h now1 _ _ h2]

/-- C30 on the sample tree: the first call at noon of 2024-01-05, later calls ten
and twenty days on, for a task due on 2024-01-10. -/
theorem cachedToday_fixed_once_set_witness :
    TodoApp.treeTask.dueDate = some "2024-01-10" ∧ "2024-01-10" ≠ "" ∧
    ((TodoApp.isOverdue sampleHost 1704456000000 TodoApp.treeApp TodoApp.treeTask).2.cachedToday
      = some (TodoApp.effectiveToday sampleHost 1704456000000 TodoApp.treeApp) ∧
    (run sampleHost [Op.togglePin 1705320000000 "t1"]
        (TodoApp.isOverdue sampleHost 1704456000000 TodoApp.treeApp
          TodoApp.treeTask).2).cachedToday
      = some (TodoApp.effectiveToday sampleHost 1704456000000 TodoApp.treeApp) ∧
    (TodoApp.isOverdue sampleHost 1705320000000
        (run sampleHost [Op.togglePin 1705320000000 "t1"]
          (TodoApp.isOverdue sampleHost 1704456000000 TodoApp.treeApp TodoApp.treeTask).2)
        TodoApp.treeTask).1
      = (TodoApp.isOverdue sampleHost 1704456000000 TodoApp.treeApp TodoApp.treeTask).1 ∧
    (TodoApp.isOverdue sampleHost 1706184000000
        (run sampleHost [Op.setSort 1706184000000 "date-created"]
          (TodoApp.isOverdue sampleHost 1705320000000
            (run sampleHost [Op.togglePin 1705320000000 "t1"]
              (TodoApp.isOverdue sampleHost 1704456000000 TodoApp.treeApp
                TodoApp.treeTask).2)
            TodoApp.treeTask).2)
        TodoApp.treeTask).1
      = (TodoApp.isOverdue sampleHost 1705320000000
          (run sampleHost [Op.togglePin 1705320000000 "t1"]
            (TodoApp.isOverdue sampleHost 1704456000000 TodoApp.treeApp TodoApp.treeTask).2)
          TodoApp.treeTask).1) :=
  ⟨rfl, by decide,
    cachedToday_fixed_once_set sampleHost 1704456000000 1705320000000 1706184000000
      TodoApp.treeApp TodoApp.treeTask TodoApp.treeTask [Op.togglePin 1705320000000 "t1"]
      [Op.setSort 1706184000000 "date-created"] "2024-01-10" rfl (by decide)⟩

/-! ## Decimal numerals and id strings -/

theorem digitChar_value (d : Nat) (hd : d < 10) :
    (Nat.digitChar d).toNat - 48 = d ∧ Nat.digitChar d ≠ '-' := by
  interval_cases d <;> exact ⟨by decide, by decide⟩

theorem decimalValue_append_singleton (l : List Char) (c : Char) :
    decimalValue (l ++ [c]) = 10 * decimalValue l + (c.toNat - 48) := by
  simp [decimalValue, List.foldl_append]

theorem toDigitsCore_append (fuel n : Nat) (ds : List Char) :
    Nat.toDigitsCore 10 fuel n ds = Nat.toDigitsCore 10 fuel n [] ++ ds := by
  induction fuel generalizing n ds with
  | zero => simp [Nat.toDigitsCore]
  | succ fuel ih =>
    simp only [Nat.toDigitsCore]
    split_ifs
    · simp
    · rw [ih (n / 10) (Nat.digitChar (n % 10) :: ds), ih (n / 10) [Nat.digitChar (n % 10)]]
      simp

theorem toDigitsCore_spec (fuel n : Nat) (hn : n < fuel) :
    decimalValue (Nat.toDigitsCore 10 fuel n []) = n ∧
    (∀ c ∈ Nat.toDigitsCore 10 fuel n [], c ≠ '-') ∧
    Nat.toDigitsCore 10 fuel n [] ≠ [] := by
  induction fuel generalizing n with
  | zero => omega
  | succ fuel ih =>
    have hd := digitChar_value (n % 10) (Nat.mod_lt _ (by decide))
    simp only [Nat.toDigitsCore]
    split_ifs with h0
    · have hlt : n < 10 := by omega
      refine ⟨?_, ?_, by simp⟩
      · simp only [decimalValue, List.foldl_cons, List.foldl_nil]
        rw [hd.1]
        omega
      · intro c hc
        rw [List.mem_singleton] at hc
        rw [hc]
        exact hd.2
    · have hlt : n / 10 < fuel := by omega
      obtain ⟨h1, h2, h3⟩ := ih (n / 10) hlt
      rw [toDigitsCore_append]
      refine ⟨?_, ?_, by simp⟩
      · rw [decimalValue_append_singleton, h1, hd.1]
        omega
      · intro c hc
        rcases List.mem_append.1 hc with hc | hc
        · exact h2 c hc
        · rw [List.mem_singleton] at hc
          rw [hc]
          exact hd.2

theorem split_at_dash (a b x y : List Char) (ha : ∀ c ∈ a, c ≠ '-') (hb : ∀ c ∈ b, c ≠ '-')
    (heq : a ++ '-' :: x = b ++ '-' :: y) : a = b ∧ x = y := by
  induction a generalizing b with
  | nil =>
    cases b with
    | nil => simpa using heq
    | cons c cs =>
      simp only [List.nil_append, List.cons_append, List.cons.injEq] at heq
      exact absurd heq.1.symm (hb c (List.mem_cons_self _ _))
  | cons c cs ih =>
    cases b with
    | nil =>
      simp only [List.nil_append, List.cons_append, List.cons.injEq] at heq
      exact absurd heq.1 (ha c (List.mem_cons_self _ _))
    | cons d ds =>
      simp only [List.cons_append, List.cons.injEq] at heq
      obtain ⟨h1, h2⟩ := ih ds (fun e he => ha e (List.mem_cons_of_mem _ he))
        (fun e he => hb e (List.mem_cons_of_mem _ he)) heq.2
      exact ⟨by rw [heq.1, h1], h2⟩

theorem toString_nat_data (m : Nat) : (toString m).data = Nat.toDigits 10 m := rfl

theorem toString_int_data (z : Int) :
    (toString z).data =
      match z with
      | Int.ofNat m => Nat.toDigits 10 m
      | Int.negSucc m => '-' :: Nat.toDigits 10 (m + 1) := by
  cases z <;> rfl

theorem toDigits_spec (n : Nat) :
    decimalValue (Nat.toDigits 10 n) = n ∧ (∀ c ∈ Nat.toDigits 10 n, c ≠ '-') ∧
    Nat.toDigits 10 n ≠ [] :=
  toDigitsCore_spec (n + 1) n (Nat.lt_succ_self n)

theorem toDigits_split (m1 m2 : Nat) (x y : List Char)
    (heq : Nat.toDigits 10 m1 ++ '-' :: x = Nat.toDigits 10 m2 ++ '-' :: y) :
    m1 = m2 ∧ x = y := by
  obtain ⟨h1, h2⟩ := split_at_dash _ _ x y (toDigits_spec m1).2.1 (toDigits_spec m2).2.1 heq
  refine ⟨?_, h2⟩
  rw [← (toDigits_spec m1).1, ← (toDigits_spec m2).1, h1]

theorem toDigits_head_ne_dash (m : Nat) (x rest : List Char)
    (heq : Nat.toDigits 10 m ++ x = '-' :: rest) : False := by
  obtain ⟨_, h2, h3⟩ := toDigits_spec m
  cases hd : Nat.toDigits 10 m with
  | nil => exact h3 hd
  | cons c cs =>
    rw [hd] at heq h2
    simp only [List.cons_append, List.cons.injEq] at heq
    exact h2 c (List.mem_cons_self _ _) heq.1

theorem toString_int_split (z1 z2 : Int) (x y : List Char)
    (heq : (toString z1).data ++ '-' :: x = (toString z2).data ++ '-' :: y) :
    z1 = z2 ∧ x = y := by
  rw [toString_int_data, toString_int_data] at heq
  cases z1 with
  | ofNat m1 =>
    cases z2 with
    | ofNat m2 =>
      obtain ⟨h1, h2⟩ := toDigits_split m1 m2 x y heq
      exact ⟨by rw [h1], h2⟩
    | negSucc m2 => exact (toDigits_head_ne_dash m1 _ _ heq).elim
  | negSucc m1 =>
    cases z2 with
    | ofNat m2 => exact (toDigits_head_ne_dash m2 _ _ heq.symm).elim
    | negSucc m2 =>
      simp only [List.cons_append, List.cons.injEq, true_and] at heq
      obtain ⟨h1, h2⟩ := toDigits_split (m1 + 1) (m2 + 1) x y heq
      exact ⟨by rw [Nat.succ_injective h1], h2⟩

theorem idString_data (now counter : Int) (rnd : String) :
    (idString now counter rnd).data
      = (toString now).data ++ '-' :: ((toString counter).data ++ '-' :: rnd.data) := by
  simp [idString, String.data_append]

theorem idString_inj (n1 c1 n2 c2 : Int) (r1 r2 : String)
    (heq : idString n1 c1 r1 = idString n2 c2 r2) : n1 = n2 ∧ c1 = c2 ∧ r1 = r2 := by
  have hdata := congrArg String.data heq
  rw [idString_data, idString_data] at hdata
  obtain ⟨h1, h2⟩ := toString_int_split n1 n2 _ _ hdata
  obtain ⟨h3, h4⟩ := toString_int_split c1 c2 _ _ h2
  exact ⟨h1, h3, String.ext h4⟩

/-! ## Generated ids -/

namespace TodoApp

theorem generateId_of_counter (now : Int) (rnd : String) (app : TodoApp) (c : Int)
    (hc : app.idCounter = JSNumber.int c) :
    (generateId now rnd app).1 = idString now (c + 1) rnd ∧
    (generateId now rnd app).2.idCounter = JSNumber.int (c + 1) ∧
    (generateId now rnd app).2.tasks = app.tasks := by
  simp [generateId, hc, JSNumber.increment, JSNumber.render, idString]

end TodoApp

/-- C26: ids repeat in a session whose stored blob could not be parsed.  The
constructor then never assigns `idCounter`, the increment gives `NaN`, and two
calls of `generateId` with the same clock reading and the same random component
return the same string; two tasks added that way carry the same id.  In a
session started without a stored blob the counter is a number and two
consecutive calls return different strings whatever the clock and the random
source return. -/
theorem generateId_repeats_after_malformed_blob (now0 now now1 now2 : Int)
    (rnd rnd1 rnd2 : String) :
    (construct now0 Blob.malformed).idCounter = JSNumber.nan ∧
    (TodoApp.generateId now rnd
        (TodoApp.generateId now rnd (construct now0 Blob.malformed).session).2).1
      = (TodoApp.generateId now rnd (construct now0 Blob.malformed).session).1 ∧
    (TodoApp.generateId now2 rnd2
        (TodoApp.generateId now1 rnd1 (construct now0 Blob.absent).session).2).1
      ≠ (TodoApp.generateId now1 rnd1 (construct now0 Blob.absent).session).1 ∧
    (run sampleHost
        [Op.addTask 1704067200000 "k3" (sampleForm "First" "2024-01-01" "2024-01-10"),
         Op.addTask 1704067200000 "k3" (sampleForm "Second" "2024-01-01" "2024-01-10")]
        (construct 1704067200000 Blob.malformed).session).tasks.map (fun t => t.id)
      = ["1704067200000-NaN-k3", "1704067200000-NaN-k3"] := by
  refine ⟨rfl, rfl, ?_, by decide⟩
  have h1 := TodoApp.generateId_of_counter now1 rnd1 (construct now0 Blob.absent).session now0 rfl
  have h2 := TodoApp.generateId_of_counter now2 rnd2 _ (now0 + 1) h1.2.1
  rw [h1.1, h2.1]
  intro heq
  have := (idString_inj _ _ _ _ _ _ heq).2.1
  omega

/-! ## Sibling texts stay unique -/

theorem idBelow_mono {c c1 : Int} {id : String} (hle : c ≤ c1) (hid : IdBelow c id) :
    IdBelow c1 id := by
  obtain ⟨n, k, r, h1, h2⟩ := hid
  exact ⟨n, k, r, h1, le_trans h2 hle⟩

theorem idBelow_new (now c : Int) (rnd : String) : IdBelow (c + 1) (idString now (c + 1) rnd) :=
  ⟨now, c + 1, rnd, rfl, le_refl _⟩

theorem not_idBelow_new (now c : Int) (rnd : String) : ¬ IdBelow c (idString now (c + 1) rnd) := by
  rintro ⟨n, k, r, h1, h2⟩
  have := (idString_inj _ _ _ _ _ _ h1).2.1
  omega

theorem map_modifyFirst_of_same {α β : Type} (f : α → β) (p : α → Bool) (b : α) (l : List α)
    (hsame : ∀ a, l.find? p = some a → f b = f a) :
    (modifyFirst p (fun _ => b) l).map f = l.map f := by
  cases hfind : l.find? p with
  | none => rw [modifyFirst_of_find_none p _ l hfind]
  | some a =>
    obtain ⟨pre, post, h1, _, h3⟩ := modifyFirst_of_find p (fun _ => b) l a hfind
    rw [h3, h1]
    simp [hsame a hfind]

theorem textsUnique_nil (h : Host) : TextsUnique h [] := by
  refine ⟨?_, List.nodup_nil⟩
  intro x hx
  cases hx

theorem textsUnique_cons (h : Host) (x : String) (texts : List String) (hx : x ≠ "")
    (hfresh : ∀ y ∈ texts, h.toLowerCase y ≠ h.toLowerCase x) (ht : TextsUnique h texts) :
    TextsUnique h (x :: texts) := by
  refine ⟨?_, ?_⟩
  · intro y hy
    rcases List.mem_cons.1 hy with rfl | hy
    · exact hx
    · exact ht.1 y hy
  · rw [List.map_cons, List.nodup_cons]
    refine ⟨?_, ht.2⟩
    intro hmem
    obtain ⟨y, hy, heq⟩ := List.mem_map.1 hmem
    exact hfresh y hy heq

theorem textsUnique_append_singleton (h : Host) (x : String) (texts : List String) (hx : x ≠ "")
    (hfresh : ∀ y ∈ texts, h.toLowerCase y ≠ h.toLowerCase x) (ht : TextsUnique h texts) :
    TextsUnique h (texts ++ [x]) := by
  refine ⟨?_, ?_⟩
  · intro y hy
    rcases List.mem_append.1 hy with hy | hy
    · exact ht.1 y hy
    · rw [List.mem_singleton] at hy
      rw [hy]
      exact hx
  · rw [List.map_append, List.map_singleton, List.nodup_append]
    refine ⟨ht.2, List.nodup_singleton _, ?_⟩
    intro a ha hb
    rw [List.mem_singleton] at hb
    obtain ⟨y, hy, heq⟩ := List.mem_map.1 ha
    exact hfresh y hy (heq.trans hb)

theorem textsUnique_filter {α : Type} (h : Host) (txt : α → String) (p : α → Bool) (l : List α)
    (ht : TextsUnique h (l.map txt)) : TextsUnique h ((l.filter p).map txt) := by
  have hsub : ((l.filter p).map txt).Sublist (l.map txt) := (List.filter_sublist l).map txt
  exact ⟨fun x hx => ht.1 x (hsub.subset hx), (hsub.map h.toLowerCase).nodup ht.2⟩

theorem nodup_map_filter {α β : Type} (f : α → β) (p : α → Bool) (l : List α)
    (hn : (l.map f).Nodup) : ((l.filter p).map f).Nodup :=
  ((List.filter_sublist l).map f).nodup hn

theorem textsUnique_modifyFirst {α : Type} (h : Host) (key txt : α → String) (id : String)
    (b : α) (l : List α) (hkeys : (l.map key).Nodup) (htexts : TextsUnique h (l.map txt))
    (hne : txt b ≠ "")
    (hfresh : l.any (fun s => key s != id && h.toLowerCase (txt s) == h.toLowerCase (txt b))
      = false) :
    TextsUnique h ((modifyFirst (fun s => key s == id) (fun _ => b) l).map txt) := by
  cases hfind : l.find? (fun s => key s == id) with
  | none =>
    rw [modifyFirst_of_find_none _ _ l hfind]
    exact htexts
  | some a =>
    obtain ⟨pre, post, h1, _, h3⟩ :=
      modifyFirst_of_find (fun s => key s == id) (fun _ => b) l a hfind
    have hka : key a = id := by simpa using List.find?_some hfind
    rw [h3]
    rw [h1] at hkeys htexts hfresh
    have hother : ∀ s ∈ pre ++ post, h.toLowerCase (txt s) ≠ h.toLowerCase (txt b) := by
      intro s hs
      have hsl : s ∈ pre ++ a :: post := by
        rcases List.mem_append.1 hs with hs | hs
        · exact List.mem_append_left _ hs
        · exact List.mem_append_right _ (List.mem_cons_of_mem _ hs)
      have hks : key s ≠ id := by
        rw [← hka]
        intro heq
        rw [List.map_append, List.map_cons] at hkeys
        have hmid := (List.nodup_middle.1 hkeys)
        rw [List.nodup_cons] at hmid
        apply hmid.1
        rw [← heq, ← List.map_append]
        exact List.mem_map_of_mem key hs
      have hany := hfresh
      rw [List.any_eq_false] at hany
      have := hany s hsl
      simpa [hks] using this
    refine ⟨?_, ?_⟩
    · intro x hx
      rw [List.map_append, List.map_cons] at hx
      rcases List.mem_append.1 hx with hx | hx
      · exact htexts.1 x (by
          rw [List.map_append]
          exact List.mem_append_left _ hx)
      · rcases List.mem_cons.1 hx with rfl | hx
        · exact hne
        · exact htexts.1 x (by
            rw [List.map_append, List.map_cons]
            exact List.mem_append_right _ (List.mem_cons_of_mem _ hx))
    · have hold := htexts.2
      simp only [List.map_append, List.map_cons] at hold ⊢
      rw [List.nodup_middle, List.nodup_cons] at hold ⊢
      refine ⟨?_, hold.2⟩
      intro hmem
      rw [← List.map_append, ← List.map_append] at hmem
      obtain ⟨y, hy, heq⟩ := List.mem_map.1 hmem
      obtain ⟨s, hs, rfl⟩ := List.mem_map.1 hy
      exact hother s hs heq

theorem subtaskOk_mono {h : Host} {c c1 : Int} {s : Subtask} (hle : c ≤ c1) (hs : s.Ok h c) :
    s.Ok h c1 :=
  ⟨idBelow_mono hle hs.1, hs.2⟩

theorem taskOk_mono {h : Host} {c c1 : Int} {t : Task} (hle : c ≤ c1) (ht : t.Ok h c) :
    t.Ok h c1 :=
  ⟨idBelow_mono hle ht.1, fun s hs => subtaskOk_mono hle (ht.2.1 s hs), ht.2.2.1, ht.2.2.2⟩

theorem storeOk_mono {h : Host} {c c1 : Int} {tasks : List Task} (hle : c ≤ c1)
    (hok : StoreOk h c tasks) : StoreOk h c1 tasks :=
  ⟨fun t ht => taskOk_mono hle (hok.1 t ht), hok.2.1, hok.2.2⟩

theorem subtaskOk_congr {h : Host} {c : Int} {s s1 : Subtask} (hid : s1.id = s.id)
    (hsub : s1.subsubtasks = s.subsubtasks) (hs : s.Ok h c) : s1.Ok h c := by
  unfold Subtask.Ok
  rw [hid, hsub]
  exact hs

theorem taskOk_congr {h : Host} {c : Int} {t t1 : Task} (hid : t1.id = t.id)
    (hsub : t1.subtasks = t.subtasks) (ht : t.Ok h c) : t1.Ok h c := by
  unfold Task.Ok
  rw [hid, hsub]
  exact ht

theorem any_lower_false (h : Host) {α : Type} (txt : α → String) (x : String) (l : List α)
    (hany : ¬ l.any (fun s => h.toLowerCase (txt s) == h.toLowerCase x) = true) :
    ∀ y ∈ l.map txt, h.toLowerCase y ≠ h.toLowerCase x := by
  intro y hy heq
  obtain ⟨s, hs, rfl⟩ := List.mem_map.1 hy
  apply hany
  rw [List.any_eq_true]
  exact ⟨s, hs, by simp [heq]⟩

namespace TodoApp

theorem subtaskOk_putSubSubtask {h : Host} {c : Int} (id : String) (subsubtask1 : SubSubtask)
    (s : Subtask)
    (hsame : ∀ a, s.subsubtasks.find? (fun ss => ss.id == id) = some a →
      subsubtask1.text = a.text)
    (hs : s.Ok h c) : (putSubSubtask id subsubtask1 s).Ok h c := by
  refine ⟨hs.1, ?_⟩
  show TextsUnique h ((modifyFirst _ _ s.subsubtasks).map _)
  rw [map_modifyFirst_of_same (fun ss : SubSubtask => ss.text) _ _ _ hsame]
  exact hs.2

theorem subtaskOk_append {h : Host} {c : Int} (s : Subtask) (ss : SubSubtask)
    (hne : ss.text ≠ "")
    (hfresh : ¬ s.subsubtasks.any
      (fun x => h.toLowerCase x.text == h.toLowerCase ss.text) = true)
    (hs : s.Ok h c) :
    Subtask.Ok h c { s with subsubtasks := s.subsubtasks ++ [ss] } := by
  refine ⟨hs.1, ?_⟩
  show TextsUnique h ((s.subsubtasks ++ [ss]).map _)
  rw [List.map_append, List.map_singleton]
  exact textsUnique_append_singleton h _ _ hne
    (any_lower_false h (fun x : SubSubtask => x.text) ss.text s.subsubtasks hfresh) hs.2

theorem subtaskOk_filter {h : Host} {c : Int} (s : Subtask) (p : SubSubtask → Bool)
    (hs : s.Ok h c) : Subtask.Ok h c { s with subsubtasks := s.subsubtasks.filter p } :=
  ⟨hs.1, textsUnique_filter h _ p _ hs.2⟩

theorem taskOk_putSubtask_same {h : Host} {c : Int} (id : String) (subtask1 : Subtask)
    (t : Task) (subtask : Subtask)
    (hfind : t.subtasks.find? (fun s => s.id == id) = some subtask)
    (hid : subtask1.id = subtask.id) (htext : subtask1.text = subtask.text)
    (h1 : subtask1.Ok h c) (ht : t.Ok h c) : (putSubtask id subtask1 t).Ok h c := by
  refine ⟨ht.1, ?_, ?_, ?_⟩
  · intro s hs
    rcases mem_modifyFirst_const _ _ _ _ hs with hs | rfl
    · exact ht.2.1 s hs
    · exact h1
  · show ((modifyFirst _ _ t.subtasks).map _).Nodup
    rw [map_modifyFirst_of_same (fun s : Subtask => s.id) _ _ _
      (fun a ha => by rw [hfind] at ha; cases ha; exact hid)]
    exact ht.2.2.1
  · show TextsUnique h ((modifyFirst _ _ t.subtasks).map _)
    rw [map_modifyFirst_of_same (fun s : Subtask => s.text) _ _ _
      (fun a ha => by rw [hfind] at ha; cases ha; exact htext)]
    exact ht.2.2.2

theorem taskOk_putSubtask_text {h : Host} {c : Int} (id : String) (subtask1 : Subtask)
    (t : Task) (subtask : Subtask)
    (hfind : t.subtasks.find? (fun s => s.id == id) = some subtask)
    (hid : subtask1.id = subtask.id) (hne : subtask1.text ≠ "")
    (hfresh : t.subtasks.any (fun s =>
      s.id != id && h.toLowerCase s.text == h.toLowerCase subtask1.text) = false)
    (h1 : subtask1.Ok h c) (ht : t.Ok h c) : (putSubtask id subtask1 t).Ok h c := by
  refine ⟨ht.1, ?_, ?_, ?_⟩
  · intro s hs
    rcases mem_modifyFirst_const _ _ _ _ hs with hs | rfl
    · exact ht.2.1 s hs
    · exact h1
  · show ((modifyFirst _ _ t.subtasks).map _).Nodup
    rw [map_modifyFirst_of_same (fun s : Subtask => s.id) _ _ _
      (fun a ha => by rw [hfind] at ha; cases ha; exact hid)]
    exact ht.2.2.1
  · exact textsUnique_modifyFirst h (fun s : Subtask => s.id) (fun s : Subtask => s.text) id
      subtask1 t.subtasks ht.2.2.1 ht.2.2.2 hne hfresh

theorem taskOk_append {h : Host} {c : Int} (now : Int) (rnd : String) (t : Task) (s : Subtask)
    (hsid : s.id = idString now (c + 1) rnd) (hsub : s.subsubtasks = [])
    (hne : s.text ≠ "")
    (hfresh : ¬ t.subtasks.any (fun x => h.toLowerCase x.text == h.toLowerCase s.text) = true)
    (ht : t.Ok h c) : Task.Ok h (c + 1) { t with subtasks := t.subtasks ++ [s] } := by
  have hle : c ≤ c + 1 := by omega
  refine ⟨idBelow_mono hle ht.1, ?_, ?_, ?_⟩
  · intro x hx
    rcases List.mem_append.1 hx with hx | hx
    · exact subtaskOk_mono hle (ht.2.1 x hx)
    · rw [List.mem_singleton] at hx
      rw [hx]
      refine ⟨?_, ?_⟩
      · rw [hsid]
        exact idBelow_new now c rnd
      · rw [hsub]
        exact textsUnique_nil h
  · show ((t.subtasks ++ [s]).map _).Nodup
    rw [List.map_append, List.map_singleton, List.nodup_append]
    refine ⟨ht.2.2.1, List.nodup_singleton _, ?_⟩
    intro a ha hb
    rw [List.mem_singleton] at hb
    obtain ⟨x, hx, rfl⟩ := List.mem_map.1 ha
    have hbelow := (ht.2.1 x hx).1
    rw [hb, hsid] at hbelow
    exact not_idBelow_new now c rnd hbelow
  · show TextsUnique h ((t.subtasks ++ [s]).map _)
    rw [List.map_append, List.map_singleton]
    exact textsUnique_append_singleton h _ _ hne
      (any_lower_false h (fun x : Subtask => x.text) s.text t.subtasks hfresh) ht.2.2.2

theorem taskOk_filter {h : Host} {c : Int} (t : Task) (p : Subtask → Bool) (ht : t.Ok h c) :
    Task.Ok h c { t with subtasks := t.subtasks.filter p } :=
  ⟨ht.1, fun s hs => ht.2.1 s (List.mem_filter.1 hs).1, nodup_map_filter _ p _ ht.2.2.1,
    textsUnique_filter h _ p _ ht.2.2.2⟩

end TodoApp

theorem storeOk_modifyFirst_same {h : Host} {c : Int} (id : String) (task1 : Task)
    (tasks : List Task) (task : Task)
    (hfind : tasks.find? (fun t => t.id == id) = some task)
    (hid : task1.id = task.id) (htext : task1.text = task.text)
    (h1 : task1.Ok h c) (hok : StoreOk h c tasks) :
    StoreOk h c (modifyFirst (fun t => t.id == id) (fun _ => task1) tasks) := by
  refine ⟨?_, ?_, ?_⟩
  · intro t ht
    rcases mem_modifyFirst_const _ _ _ _ ht with ht | rfl
    · exact hok.1 t ht
    · exact h1
  · rw [map_modifyFirst_of_same (fun t : Task => t.id) _ _ _
      (fun a ha => by rw [hfind] at ha; cases ha; exact hid)]
    exact hok.2.1
  · rw [map_modifyFirst_of_same (fun t : Task => t.text) _ _ _
      (fun a ha => by rw [hfind] at ha; cases ha; exact htext)]
    exact hok.2.2

theorem storeOk_modifyFirst_text {h : Host} {c : Int} (id : String) (task1 : Task)
    (tasks : List Task) (task : Task)
    (hfind : tasks.find? (fun t => t.id == id) = some task)
    (hid : task1.id = task.id) (hne : task1.text ≠ "")
    (hfresh : tasks.any (fun t =>
      t.id != id && h.toLowerCase t.text == h.toLowerCase task1.text) = false)
    (h1 : task1.Ok h c) (hok : StoreOk h c tasks) :
    StoreOk h c (modifyFirst (fun t => t.id == id) (fun _ => task1) tasks) := by
  refine ⟨?_, ?_, ?_⟩
  · intro t ht
    rcases mem_modifyFirst_const _ _ _ _ ht with ht | rfl
    · exact hok.1 t ht
    · exact h1
  · rw [map_modifyFirst_of_same (fun t : Task => t.id) _ _ _
      (fun a ha => by rw [hfind] at ha; cases ha; exact hid)]
    exact hok.2.1
  · exact textsUnique_modifyFirst h (fun t : Task => t.id) (fun t : Task => t.text) id
      task1 tasks hok.2.1 hok.2.2 hne hfresh

theorem storeOk_cons {h : Host} {c : Int} (now : Int) (rnd : String) (tasks : List Task)
    (t : Task) (htid : t.id = idString now (c + 1) rnd) (hsub : t.subtasks = [])
    (hne : t.text ≠ "")
    (hfresh : ¬ tasks.any (fun x => h.toLowerCase x.text == h.toLowerCase t.text) = true)
    (hok : StoreOk h c tasks) : StoreOk h (c + 1) (t :: tasks) := by
  have hle : c ≤ c + 1 := by omega
  refine ⟨?_, ?_, ?_⟩
  · intro x hx
    rcases List.mem_cons.1 hx with rfl | hx
    · refine ⟨?_, ?_, ?_, ?_⟩
      · rw [htid]
        exact idBelow_new now c rnd
      · rw [hsub]
        intro s hs
        cases hs
      · rw [hsub]
        exact List.nodup_nil
      · rw [hsub]
        exact textsUnique_nil h
    · exact taskOk_mono hle (hok.1 x hx)
  · rw [List.map_cons, List.nodup_cons]
    refine ⟨?_, hok.2.1⟩
    intro hmem
    obtain ⟨x, hx, heq⟩ := List.mem_map.1 hmem
    have hbelow := (hok.1 x hx).1
    rw [heq, htid] at hbelow
    exact not_idBelow_new now c rnd hbelow
  · rw [List.map_cons]
    exact textsUnique_cons h _ _ hne
      (any_lower_false h (fun x : Task => x.text) t.text tasks hfresh) hok.2.2

theorem storeOk_filter {h : Host} {c : Int} (tasks : List Task) (p : Task → Bool)
    (hok : StoreOk h c tasks) : StoreOk h c (tasks.filter p) :=
  ⟨fun t ht => hok.1 t (List.mem_filter.1 ht).1, nodup_map_filter _ p _ hok.2.1,
    textsUnique_filter h _ p _ hok.2.2⟩

namespace TodoApp

theorem isOverdue_idCounter (h : Host) (now : Int) (app : TodoApp) (task : Task) :
    (isOverdue h now app task).2.idCounter = app.idCounter := by
  rcases isOverdue_snd h now app task with h1 | h1 <;> rw [h1]

theorem foldl_isOverdue_idCounter (h : Host) (now : Int) (ts : List Task) (app : TodoApp) :
    (ts.foldl (fun a t => (isOverdue h now a t).2) app).idCounter = app.idCounter := by
  induction ts generalizing app with
  | nil => rfl
  | cons t ts ih =>
    simp only [List.foldl_cons]
    rw [ih, isOverdue_idCounter]

theorem filterOverdue_idCounter (h : Host) (now : Int) (ts : List Task) (app : TodoApp) :
    (filterOverdue h now ts app).2.idCounter = app.idCounter := by
  induction ts generalizing app with
  | nil => rfl
  | cons t ts ih =>
    simp only [filterOverdue]
    rw [ih, isOverdue_idCounter]

theorem filterTasks_idCounter (h : Host) (now : Int) (app : TodoApp) :
    (filterTasks h now app).2.idCounter = app.idCounter := by
  unfold filterTasks
  split_ifs <;> first | rfl | exact filterOverdue_idCounter h now _ _

theorem render_idCounter (h : Host) (now : Int) (app : TodoApp) :
    (render h now app).idCounter = app.idCounter := by
  unfold render
  split_ifs
  · simp only [getFilteredTasks]
    rw [foldl_isOverdue_idCounter, filterTasks_idCounter]
  · rfl

theorem updateStats_foldl_idCounter (h : Host) (now : Int) (ts : List Task)
    (acc : Stats × TodoApp) :
    (ts.foldl
      (fun (acc : Stats × TodoApp) task =>
        let r := isOverdue h now acc.2 task
        (({ total := acc.1.total + 1
            completed := if task.completed then acc.1.completed + 1 else acc.1.completed
            pending := if task.status = "pending" then acc.1.pending + 1 else acc.1.pending
            overdue := if r.1 then acc.1.overdue + 1 else acc.1.overdue } : Stats), r.2))
      acc).2.idCounter = acc.2.idCounter := by
  induction ts generalizing acc with
  | nil => rfl
  | cons t ts ih =>
    simp only [List.foldl_cons]
    rw [ih]
    exact isOverdue_idCounter h now _ _

theorem renderAndStats_idCounter (h : Host) (now : Int) (app : TodoApp) :
    (renderAndStats h now app).idCounter = app.idCounter := by
  unfold renderAndStats updateStats
  rw [updateStats_foldl_idCounter, render_idCounter]

theorem sound_of_eq {h : Host} {app app1 : TodoApp} (ht : app1.tasks = app.tasks)
    (hc : app1.idCounter = app.idCounter) (hs : app.Sound h) : app1.Sound h := by
  obtain ⟨c, h1, h2⟩ := hs
  refine ⟨c, hc.trans h1, ?_⟩
  rw [ht]
  exact h2

theorem sound_render {h : Host} {app : TodoApp} (now : Int) (hs : app.Sound h) :
    (render h now app).Sound h :=
  sound_of_eq (render_tasks h now app) (render_idCounter h now app) hs

theorem sound_renderAndStats {h : Host} {app : TodoApp} (now : Int) (hs : app.Sound h) :
    (renderAndStats h now app).Sound h :=
  sound_of_eq (renderAndStats_tasks h now app) (renderAndStats_idCounter h now app) hs

theorem sound_putTask_base {h : Host} {app base : TodoApp} (id : String) (task task1 : Task)
    (hfind : app.tasks.find? (fun t => t.id == id) = some task)
    (hid : task1.id = task.id) (htext : task1.text = task.text)
    (hbase : base.tasks = app.tasks)
    (hstep : ∀ c, app.idCounter = JSNumber.int c → task.Ok h c →
      ∃ c1, c ≤ c1 ∧ base.idCounter = JSNumber.int c1 ∧ task1.Ok h c1)
    (hs : app.Sound h) : (putTask id task1 base).Sound h := by
  obtain ⟨c, hc, hok⟩ := hs
  obtain ⟨c1, hle, hb, h1⟩ := hstep c hc (hok.1 task (List.mem_of_find?_eq_some hfind))
  refine ⟨c1, hb, ?_⟩
  show StoreOk h c1 (modifyFirst _ _ base.tasks)
  rw [hbase]
  exact storeOk_modifyFirst_same id task1 _ task hfind hid htext h1 (storeOk_mono hle hok)

theorem sound_putTask_same {h : Host} {app : TodoApp} (id : String) (task task1 : Task)
    (hfind : app.tasks.find? (fun t => t.id == id) = some task)
    (hid : task1.id = task.id) (htext : task1.text = task.text)
    (hstep : ∀ c, task.Ok h c → task1.Ok h c)
    (hs : app.Sound h) : (putTask id task1 app).Sound h :=
  sound_putTask_base id task task1 hfind hid htext rfl
    (fun c hc ht => ⟨c, le_refl c, hc, hstep c ht⟩) hs

theorem sound_putTask_text {h : Host} {app : TodoApp} (id : String) (task task1 : Task)
    (hfind : app.tasks.find? (fun t => t.id == id) = some task)
    (hid : task1.id = task.id) (hsub : task1.subtasks = task.subtasks)
    (htext : task1.text = task.text ∨
      (task1.text ≠ "" ∧ app.tasks.any (fun t =>
        t.id != id && h.toLowerCase t.text == h.toLowerCase task1.text) = false))
    (hs : app.Sound h) : (putTask id task1 app).Sound h := by
  rcases htext with htext | ⟨hne, hfresh⟩
  · exact sound_putTask_same id task task1 hfind hid htext
      (fun c ht => taskOk_congr hid hsub ht) hs
  · obtain ⟨c, hc, hok⟩ := hs
    refine ⟨c, hc, ?_⟩
    exact storeOk_modifyFirst_text id task1 _ task hfind hid hne hfresh
      (taskOk_congr hid hsub (hok.1 task (List.mem_of_find?_eq_some hfind))) hok

theorem sound_addTask {h : Host} {app : TodoApp} (now : Int) (rnd : String) (form : TaskForm)
    (hs : app.Sound h) : (addTask h now rnd form app).Sound h := by
  unfold addTask
  split
  · dsimp only
    split_ifs with h1 h2 h3
    · exact hs
    · exact hs
    · exact hs
    · rename_i taskInput startDate dueDate _ _ _
      have hne : trim taskInput ≠ "" := fun hempty => h1 (by simp [hempty])
      refine sound_renderAndStats now ?_
      obtain ⟨c, hc, hok⟩ := hs
      have hg := generateId_of_counter now rnd app c hc
      refine ⟨c + 1, hg.2.1, ?_⟩
      exact storeOk_cons now rnd app.tasks _ hg.1 rfl hne h3 hok
  · exact hs

theorem updateTaskText_cases (h : Host) (app : TodoApp) (id : String) (form : EditForm)
    (task task1 : Task) (h1 : updateTaskText h app id form task = some task1) :
    task1.id = task.id ∧ task1.subtasks = task.subtasks ∧
    (task1.text = task.text ∨
      (task1.text ≠ "" ∧ app.tasks.any (fun t =>
        t.id != id && h.toLowerCase t.text == h.toLowerCase task1.text) = false)) := by
  unfold updateTaskText at h1
  split at h1
  · cases h1
    exact ⟨rfl, rfl, Or.inl rfl⟩
  · dsimp only at h1
    split_ifs at h1 with hempty hany
    cases h1
    exact ⟨rfl, rfl, Or.inr ⟨hempty, by simpa using hany⟩⟩

theorem updateTaskDates_cases (h : Host) (form : EditForm) (task task1 : Task)
    (h1 : updateTaskDates h form task = some task1) :
    task1.id = task.id ∧ task1.subtasks = task.subtasks ∧ task1.text = task.text := by
  unfold updateTaskDates at h1
  split at h1
  · split_ifs at h1
    cases h1
    exact ⟨rfl, rfl, rfl⟩
  · cases h1
    exact ⟨rfl, rfl, rfl⟩

theorem updateTaskNotes_cases (form : EditForm) (task : Task) :
    (updateTaskNotes form task).id = task.id ∧
    (updateTaskNotes form task).subtasks = task.subtasks ∧
    (updateTaskNotes form task).text = task.text := by
  unfold updateTaskNotes
  split <;> exact ⟨rfl, rfl, rfl⟩

theorem updateTaskStatus_cases (now : Int) (form : EditForm) (task : Task) :
    (updateTaskStatus now form task).id = task.id ∧
    (updateTaskStatus now form task).subtasks = task.subtasks ∧
    (updateTaskStatus now form task).text = task.text := by
  unfold updateTaskStatus
  split <;> exact ⟨rfl, rfl, rfl⟩

theorem sound_updateTask {h : Host} {app : TodoApp} (now : Int) (form : EditForm)
    (hs : app.Sound h) : (updateTask h now form app).Sound h := by
  unfold updateTask
  cases app.editingTaskId with
  | none => exact hs
  | some id =>
    dsimp only
    cases hfind : app.tasks.find? (fun t => t.id == id) with
    | none => exact hs
    | some task =>
      dsimp only
      cases htext : updateTaskText h app id form task with
      | none => exact hs
      | some task1 =>
        obtain ⟨hid1, hsub1, ht1⟩ := updateTaskText_cases h app id form task task1 htext
        dsimp only
        cases hdates : updateTaskDates h form task1 with
        | none => exact sound_putTask_text id task task1 hfind hid1 hsub1 ht1 hs
        | some task2 =>
          obtain ⟨hid2, hsub2, ht2⟩ := updateTaskDates_cases h form task1 task2 hdates
          obtain ⟨hid3, hsub3, ht3⟩ := updateTaskNotes_cases form task2
          obtain ⟨hid4, hsub4, ht4⟩ :=
            updateTaskStatus_cases now form (updateTaskNotes form task2)
          have htext4 : (updateTaskStatus now form (updateTaskNotes form task2)).text
              = task1.text := by rw [ht4, ht3, ht2]
          refine sound_of_eq rfl rfl (sound_renderAndStats now
            (sound_putTask_text id task _ hfind (by rw [hid4, hid3, hid2, hid1])
              (by rw [hsub4, hsub3, hsub2, hsub1]) ?_ hs))
          rw [htext4]
          exact ht1

theorem sound_toggleTask {h : Host} {app : TodoApp} (now : Int) (id : String)
    (hs : app.Sound h) : (toggleTask h now id app).Sound h := by
  unfold toggleTask
  cases hfind : app.tasks.find? (fun t => t.id == id) with
  | none => exact hs
  | some task =>
    exact sound_renderAndStats now
      (sound_putTask_text id task _ hfind rfl rfl (Or.inl rfl) hs)

theorem sound_togglePin {h : Host} {app : TodoApp} (now : Int) (id : String)
    (hs : app.Sound h) : (togglePin h now id app).Sound h := by
  unfold togglePin
  cases hfind : app.tasks.find? (fun t => t.id == id) with
  | none => exact hs
  | some task =>
    exact sound_renderAndStats now
      (sound_putTask_text id task _ hfind rfl rfl (Or.inl rfl) hs)

theorem sound_deleteTask {h : Host} {app : TodoApp} (now : Int) (confirmed : Bool)
    (id : String) (hs : app.Sound h) : (deleteTask h now confirmed id app).Sound h := by
  unfold deleteTask
  split_ifs
  · refine sound_renderAndStats now ?_
    obtain ⟨c, hc, hok⟩ := hs
    exact ⟨c, hc, storeOk_filter _ _ hok⟩
  · exact hs

end TodoApp

namespace TodoApp

theorem sound_render_putTask_same {h : Host} {app : TodoApp} (now : Int) (id : String)
    (task task1 : Task)
    (hfind : app.tasks.find? (fun t => t.id == id) = some task)
    (hid : task1.id = task.id) (htext : task1.text = task.text)
    (hstep : ∀ c, task.Ok h c → task1.Ok h c)
    (hs : app.Sound h) : (render h now (putTask id task1 app)).Sound h :=
  sound_render now (sound_putTask_same id task task1 hfind hid htext hstep hs)

theorem sound_addSubtask {h : Host} {app : TodoApp} (now : Int) (rnd : String)
    (taskId text notes : String) (hs : app.Sound h) :
    (addSubtask h now rnd taskId text notes app).Sound h := by
  unfold addSubtask
  cases hfind : app.tasks.find? (fun t => t.id == taskId) with
  | none => exact hs
  | some task =>
    dsimp only
    split_ifs with hempty hany
    · exact hs
    · exact hs
    · refine sound_render now
        (sound_putTask_base taskId task _ hfind rfl rfl rfl ?_ hs)
      intro c hc ht
      have hg := generateId_of_counter now rnd app c hc
      exact ⟨c + 1, by omega, hg.2.1,
        taskOk_append now rnd task _ hg.1 rfl hempty hany ht⟩

theorem sound_toggleSubtask {h : Host} {app : TodoApp} (now : Int)
    (taskId subtaskId : String) (hs : app.Sound h) :
    (toggleSubtask h now taskId subtaskId app).Sound h := by
  unfold toggleSubtask
  cases hfind : app.tasks.find? (fun t => t.id == taskId) with
  | none => exact hs
  | some task =>
    dsimp only
    cases hsub : task.subtasks.find? (fun s => s.id == subtaskId) with
    | none => exact hs
    | some subtask =>
      refine sound_render_putTask_same now taskId task _ hfind rfl rfl ?_ hs
      intro c ht
      exact taskOk_putSubtask_same subtaskId _ task subtask hsub rfl rfl
        (subtaskOk_congr rfl rfl (ht.2.1 subtask (List.mem_of_find?_eq_some hsub))) ht

theorem sound_editSubtask {h : Host} {app : TodoApp} (now : Int)
    (taskId subtaskId newText : String) (hs : app.Sound h) :
    (editSubtask h now taskId subtaskId newText app).Sound h := by
  unfold editSubtask
  cases hfind : app.tasks.find? (fun t => t.id == taskId) with
  | none => exact hs
  | some task =>
    dsimp only
    by_cases hempty : trim newText = ""
    · rw [if_pos hempty]
      exact hs
    · rw [if_neg hempty]
      cases hsub : task.subtasks.find? (fun s => s.id == subtaskId) with
      | none => exact hs
      | some subtask =>
        dsimp only
        by_cases hany : task.subtasks.any (fun s =>
            s.id != subtaskId && h.toLowerCase s.text == h.toLowerCase (trim newText)) = true
        · rw [if_pos hany]
          exact hs
        · rw [if_neg hany]
          refine sound_render_putTask_same now taskId task _ hfind rfl rfl ?_ hs
          intro c ht
          exact taskOk_putSubtask_text subtaskId _ task subtask hsub rfl hempty
            (by simpa using hany)
            (subtaskOk_congr rfl rfl (ht.2.1 subtask (List.mem_of_find?_eq_some hsub))) ht

theorem sound_toggleSubtaskPin {h : Host} {app : TodoApp} (now : Int)
    (taskId subtaskId : String) (hs : app.Sound h) :
    (toggleSubtaskPin h now taskId subtaskId app).Sound h := by
  unfold toggleSubtaskPin
  cases hfind : app.tasks.find? (fun t => t.id == taskId) with
  | none => exact hs
  | some task =>
    dsimp only
    cases hsub : task.subtasks.find? (fun s => s.id == subtaskId) with
    | none => exact hs
    | some subtask =>
      have hput : ∀ c, task.Ok h c →
          (putSubtask subtaskId { subtask with pinned := !subtask.pinned } task).Ok h c :=
        fun c ht => taskOk_putSubtask_same subtaskId _ task subtask hsub rfl rfl
          (subtaskOk_congr rfl rfl (ht.2.1 subtask (List.mem_of_find?_eq_some hsub))) ht
      refine sound_render_putTask_same now taskId task _ hfind ?_ ?_ ?_ hs
      · unfold pinSubtaskToggled
        dsimp only
        split_ifs <;> rfl
      · unfold pinSubtaskToggled
        dsimp only
        split_ifs <;> rfl
      · intro c ht
        unfold pinSubtaskToggled
        dsimp only
        split_ifs
        · exact taskOk_congr rfl rfl (hput c ht)
        · exact hput c ht

theorem sound_deleteSubtask {h : Host} {app : TodoApp} (now : Int)
    (taskId subtaskId : String) (hs : app.Sound h) :
    (deleteSubtask h now taskId subtaskId app).Sound h := by
  unfold deleteSubtask
  cases hfind : app.tasks.find? (fun t => t.id == taskId) with
  | none => exact hs
  | some task =>
    exact sound_render_putTask_same now taskId task _ hfind rfl rfl
      (fun c ht => taskOk_filter task _ ht) hs

theorem sound_addSubSubtask {h : Host} {app : TodoApp} (now : Int) (rnd : String)
    (taskId subtaskId text notes : String) (hs : app.Sound h) :
    (addSubSubtask h now rnd taskId subtaskId text notes app).Sound h := by
  unfold addSubSubtask
  cases hfind : app.tasks.find? (fun t => t.id == taskId) with
  | none => exact hs
  | some task =>
    dsimp only
    by_cases hempty : trim text = ""
    · rw [if_pos hempty]
      exact hs
    · rw [if_neg hempty]
      cases hsub : task.subtasks.find? (fun s => s.id == subtaskId) with
      | none => exact hs
      | some subtask =>
        dsimp only
        by_cases hany : subtask.subsubtasks.any (fun ss =>
            h.toLowerCase ss.text == h.toLowerCase (trim text)) = true
        · rw [if_pos hany]
          exact hs
        · rw [if_neg hany]
          refine sound_render now
            (sound_putTask_base taskId task _ hfind rfl rfl rfl ?_ hs)
          intro c hc ht
          have hg := generateId_of_counter now rnd app c hc
          have hle : c ≤ c + 1 := by omega
          have ht1 := taskOk_mono hle ht
          refine ⟨c + 1, hle, hg.2.1, ?_⟩
          exact taskOk_putSubtask_same subtaskId _ task subtask hsub rfl rfl
            (subtaskOk_append subtask _ hempty hany
              (ht1.2.1 subtask (List.mem_of_find?_eq_some hsub))) ht1

theorem subtaskOk_toggled {h : Host} {c : Int} (id : String) (subsubtask subsubtask1 : SubSubtask)
    (subtask : Subtask)
    (hfind : subtask.subsubtasks.find? (fun ss => ss.id == id) = some subsubtask)
    (htext : subsubtask1.text = subsubtask.text) (hs : subtask.Ok h c) :
    (putSubSubtask id subsubtask1 subtask).Ok h c :=
  subtaskOk_putSubSubtask id subsubtask1 subtask
    (fun a ha => by rw [hfind] at ha; cases ha; exact htext) hs

theorem sound_toggleSubSubtask {h : Host} {app : TodoApp} (now : Int)
    (taskId subtaskId subsubtaskId : String) (hs : app.Sound h) :
    (toggleSubSubtask h now taskId subtaskId subsubtaskId app).Sound h := by
  unfold toggleSubSubtask
  cases hfind : app.tasks.find? (fun t => t.id == taskId) with
  | none => exact hs
  | some task =>
    dsimp only
    cases hsub : task.subtasks.find? (fun s => s.id == subtaskId) with
    | none => exact hs
    | some subtask =>
      dsimp only
      cases hsubsub : subtask.subsubtasks.find? (fun ss => ss.id == subsubtaskId) with
      | none => exact hs
      | some subsubtask =>
        refine sound_render_putTask_same now taskId task _ hfind rfl rfl ?_ hs
        intro c ht
        exact taskOk_putSubtask_same subtaskId _ task subtask hsub rfl rfl
          (subtaskOk_toggled subsubtaskId subsubtask _ subtask hsubsub rfl
            (ht.2.1 subtask (List.mem_of_find?_eq_some hsub))) ht

theorem pinSubSubtaskToggled_ok {h : Host} {c : Int} (id : String) (subsubtask : SubSubtask)
    (subtask : Subtask)
    (hfind : subtask.subsubtasks.find? (fun ss => ss.id == id) = some subsubtask)
    (hs : subtask.Ok h c) :
    (pinSubSubtaskToggled id subsubtask subtask).id = subtask.id ∧
    (pinSubSubtaskToggled id subsubtask subtask).text = subtask.text ∧
    (pinSubSubtaskToggled id subsubtask subtask).Ok h c := by
  have hput := subtaskOk_toggled id subsubtask { subsubtask with pinned := !subsubtask.pinned }
    subtask hfind rfl hs
  unfold pinSubSubtaskToggled
  dsimp only
  split_ifs
  · exact ⟨rfl, rfl, subtaskOk_congr rfl rfl hput⟩
  · exact ⟨rfl, rfl, hput⟩

theorem sound_toggleSubSubtaskPin {h : Host} {app : TodoApp} (now : Int)
    (taskId subtaskId subsubtaskId : String) (hs : app.Sound h) :
    (toggleSubSubtaskPin h now taskId subtaskId subsubtaskId app).Sound h := by
  unfold toggleSubSubtaskPin
  cases hfind : app.tasks.find? (fun t => t.id == taskId) with
  | none => exact hs
  | some task =>
    dsimp only
    cases hsub : task.subtasks.find? (fun s => s.id == subtaskId) with
    | none => exact hs
    | some subtask =>
      dsimp only
      cases hsubsub : subtask.subsubtasks.find? (fun ss => ss.id == subsubtaskId) with
      | none => exact hs
      | some subsubtask =>
        have hput : ∀ c, task.Ok h c →
            (putSubtask subtaskId (pinSubSubtaskToggled subsubtaskId subsubtask subtask)
              task).Ok h c := by
          intro c ht
          obtain ⟨h1, h2, h3⟩ := pinSubSubtaskToggled_ok subsubtaskId subsubtask subtask
            hsubsub (ht.2.1 subtask (List.mem_of_find?_eq_some hsub))
          exact taskOk_putSubtask_same subtaskId _ task subtask hsub h1 h2 h3 ht
        dsimp only
        refine sound_render_putTask_same now taskId task _ hfind ?_ ?_ ?_ hs
        · split_ifs <;> rfl
        · split_ifs <;> rfl
        · intro c ht
          split_ifs
          · exact taskOk_congr rfl rfl (hput c ht)
          · exact hput c ht

theorem sound_deleteSubSubtask {h : Host} {app : TodoApp} (now : Int)
    (taskId subtaskId subsubtaskId : String) (hs : app.Sound h) :
    (deleteSubSubtask h now taskId subtaskId subsubtaskId app).Sound h := by
  unfold deleteSubSubtask
  cases hfind : app.tasks.find? (fun t => t.id == taskId) with
  | none => exact hs
  | some task =>
    dsimp only
    cases hsub : task.subtasks.find? (fun s => s.id == subtaskId) with
    | none => exact hs
    | some subtask =>
      refine sound_render_putTask_same now taskId task _ hfind rfl rfl ?_ hs
      intro c ht
      exact taskOk_putSubtask_same subtaskId _ task subtask hsub rfl rfl
        (subtaskOk_filter subtask _ (ht.2.1 subtask (List.mem_of_find?_eq_some hsub))) ht

theorem sound_toggleSubtaskForm {h : Host} {app : TodoApp} (now : Int) (taskId : String)
    (hs : app.Sound h) : (toggleSubtaskForm h now taskId app).Sound h := by
  unfold toggleSubtaskForm
  cases hfind : app.tasks.find? (fun t => t.id == taskId) with
  | none => exact hs
  | some task =>
    exact sound_render_putTask_same now taskId task _ hfind rfl rfl
      (fun c ht => taskOk_congr rfl rfl ht) hs

theorem sound_toggleSubSubtaskForm {h : Host} {app : TodoApp} (now : Int)
    (taskId subtaskId : String) (hs : app.Sound h) :
    (toggleSubSubtaskForm h now taskId subtaskId app).Sound h := by
  unfold toggleSubSubtaskForm
  cases hfind : app.tasks.find? (fun t => t.id == taskId) with
  | none => exact hs
  | some task =>
    dsimp only
    cases hsub : task.subtasks.find? (fun s => s.id == subtaskId) with
    | none => exact hs
    | some subtask =>
      refine sound_render_putTask_same now taskId task _ hfind rfl rfl ?_ hs
      intro c ht
      exact taskOk_putSubtask_same subtaskId _ task subtask hsub rfl rfl
        (subtaskOk_congr rfl rfl (ht.2.1 subtask (List.mem_of_find?_eq_some hsub))) ht

theorem sound_addSubtaskFromForm {h : Host} {app : TodoApp} (now : Int) (rnd : String)
    (taskId : String) (input noteInput : Option String) (hs : app.Sound h) :
    (addSubtaskFromForm h now rnd taskId input noteInput app).Sound h := by
  unfold addSubtaskFromForm
  cases input with
  | none => exact hs
  | some v =>
    dsimp only
    split_ifs
    · exact hs
    · have h1 := sound_addSubtask now rnd taskId v
        (match noteInput with
          | some n => trim n
          | none => "") hs
      split
      · exact h1
      · next task hfind =>
        exact sound_putTask_same taskId task _ hfind rfl rfl
          (fun c ht => taskOk_congr rfl rfl ht) h1

theorem sound_addSubSubtaskFromForm {h : Host} {app : TodoApp} (now : Int) (rnd : String)
    (taskId subtaskId : String) (input noteInput : Option String) (hs : app.Sound h) :
    (addSubSubtaskFromForm h now rnd taskId subtaskId input noteInput app).Sound h := by
  unfold addSubSubtaskFromForm
  cases input with
  | none => exact hs
  | some v =>
    dsimp only
    split_ifs
    · exact hs
    · have h1 := sound_addSubSubtask now rnd taskId subtaskId v
        (match noteInput with
          | some n => trim n
          | none => "") hs
      split
      · exact h1
      · next task hfind =>
        split
        · exact h1
        · next subtask hsub =>
          refine sound_putTask_same taskId task _ hfind rfl rfl ?_ h1
          intro c ht
          exact taskOk_putSubtask_same subtaskId _ task subtask hsub rfl rfl
            (subtaskOk_congr rfl rfl (ht.2.1 subtask (List.mem_of_find?_eq_some hsub))) ht

end TodoApp

theorem sound_step (h : Host) (op : Op) (app : TodoApp) (hs : app.Sound h) :
    (step h op app).Sound h := by
  cases op with
  | addTask now rnd form => exact TodoApp.sound_addTask now rnd form hs
  | editTask id =>
    simp only [step, TodoApp.editTask]
    split
    · exact hs
    · exact TodoApp.sound_of_eq rfl rfl hs
  | updateTask now form => exact TodoApp.sound_updateTask now form hs
  | closeModal => exact TodoApp.sound_of_eq rfl rfl hs
  | toggleTask now id => exact TodoApp.sound_toggleTask now id hs
  | togglePin now id => exact TodoApp.sound_togglePin now id hs
  | deleteTask now confirmed id => exact TodoApp.sound_deleteTask now confirmed id hs
  | addSubtask now rnd taskId text notes =>
    exact TodoApp.sound_addSubtask now rnd taskId text notes hs
  | toggleSubtask now taskId subtaskId =>
    exact TodoApp.sound_toggleSubtask now taskId subtaskId hs
  | editSubtask now taskId subtaskId newText =>
    exact TodoApp.sound_editSubtask now taskId subtaskId newText hs
  | toggleSubtaskPin now taskId subtaskId =>
    exact TodoApp.sound_toggleSubtaskPin now taskId subtaskId hs
  | deleteSubtask now taskId subtaskId =>
    exact TodoApp.sound_deleteSubtask now taskId subtaskId hs
  | addSubSubtask now rnd taskId subtaskId text notes =>
    exact TodoApp.sound_addSubSubtask now rnd taskId subtaskId text notes hs
  | toggleSubSubtask now taskId subtaskId subsubtaskId =>
    exact TodoApp.sound_toggleSubSubtask now taskId subtaskId subsubtaskId hs
  | toggleSubSubtaskPin now taskId subtaskId subsubtaskId =>
    exact TodoApp.sound_toggleSubSubtaskPin now taskId subtaskId subsubtaskId hs
  | deleteSubSubtask now taskId subtaskId subsubtaskId =>
    exact TodoApp.sound_deleteSubSubtask now taskId subtaskId subsubtaskId hs
  | setFilter now filter =>
    exact TodoApp.sound_render now (TodoApp.sound_of_eq rfl rfl hs)
  | setSort now sort =>
    exact TodoApp.sound_render now (TodoApp.sound_of_eq rfl rfl hs)
  | toggleSubtaskForm now taskId => exact TodoApp.sound_toggleSubtaskForm now taskId hs
  | toggleSubSubtaskForm now taskId subtaskId =>
    exact TodoApp.sound_toggleSubSubtaskForm now taskId subtaskId hs
  | addSubtaskFromForm now rnd taskId input noteInput =>
    exact TodoApp.sound_addSubtaskFromForm now rnd taskId input noteInput hs
  | addSubSubtaskFromForm now rnd taskId subtaskId input noteInput =>
    exact TodoApp.sound_addSubSubtaskFromForm now rnd taskId subtaskId input noteInput hs

theorem sound_run (h : Host) (ops : List Op) (app : TodoApp) (hs : app.Sound h) :
    (run h ops app).Sound h := by
  induction ops generalizing app with
  | nil => exact hs
  | cons op ops ih =>
    rw [run_cons]
    exact ih _ (sound_step h op app hs)

theorem sound_of_empty (h : Host) (app : TodoApp) (c : Int) (hempty : app.tasks = [])
    (hcounter : app.idCounter = JSNumber.int c) : app.Sound h := by
  refine ⟨c, hcounter, ?_⟩
  rw [hempty]
  refine ⟨?_, List.nodup_nil, textsUnique_nil h⟩
  intro t ht
  cases ht

theorem siblingTextsUnique_of_sound (h : Host) (app : TodoApp) (hs : app.Sound h) :
    app.SiblingTextsUnique h := by
  obtain ⟨c, _, hok⟩ := hs
  exact ⟨hok.2.2, fun t ht => ⟨(hok.1 t ht).2.2.2, fun s hs => ((hok.1 t ht).2.1 s hs).2⟩⟩

/-- Sibling texts stay non-empty and unique where ids cannot repeat.  In a session that starts with
no tasks and with a numeric id counter (the stored blob was absent or could be
parsed), after any sequence of operations the texts of the tasks are non-empty
and no two tasks have the same lower-cased text, and the same holds for the
subtasks of every task and for the sub-subtasks of every subtask.  The numeric
counter makes the generated ids pairwise different, which the self-exclusion
by id in `updateTask` and `editSubtask` relies on. -/
theorem reachable_sibling_texts_unique (h : Host) (ops : List Op) (app : TodoApp) (c : Int)
    (hempty : app.tasks = []) (hcounter : app.idCounter = JSNumber.int c) :
    (run h ops app).SiblingTextsUnique h :=
  siblingTextsUnique_of_sound h _ (sound_run h ops app (sound_of_empty h app c hempty hcounter))

/-- The sample session, run from the empty store, has unique sibling texts. -/
theorem reachable_sibling_texts_unique_witness :
    emptyApp.tasks = [] ∧ emptyApp.idCounter = JSNumber.int 1704067200000 ∧
    (run sampleHost sampleSession emptyApp).SiblingTextsUnique sampleHost :=
  ⟨rfl, rfl, reachable_sibling_texts_unique sampleHost sampleSession emptyApp 1704067200000 rfl rfl⟩

/-- C21: sibling texts can repeat.  After a stored blob that could not be parsed
the store is empty and the id counter is `NaN`; two tasks added at the same
clock reading with the same random component get the same id, and renaming
the newer one to `alpha` is accepted although the task `Alpha` is in the
store, because `updateTask` excludes by id. -/
theorem sibling_texts_repeat_after_malformed_blob :
    (construct 1704067200000 Blob.malformed).session.tasks = [] ∧
    (run sampleHost collidingSession
        (construct 1704067200000 Blob.malformed).session).tasks.map (fun t => t.text)
      = ["alpha", "Alpha"] ∧
    ¬ (run sampleHost collidingSession
        (construct 1704067200000 Blob.malformed).session).SiblingTextsUnique sampleHost := by
  have heval : (run sampleHost collidingSession
      (construct 1704067200000 Blob.malformed).session).tasks.map (fun t => t.text)
      = ["alpha", "Alpha"] := by decide
  refine ⟨rfl, heval, ?_⟩
  intro hs
  have hn := hs.1.2
  rw [heval] at hn
  exact absurd hn (by decide)

/-! ## Viewing the list leaves the store alone -/

namespace TodoApp

theorem isOverdue_frame (h : Host) (now : Int) (app : TodoApp) (task : Task) :
    (isOverdue h now app task).2
      = { app with cachedToday := (isOverdue h now app task).2.cachedToday } := by
  rcases isOverdue_snd h now app task with h1 | h1 <;> rw [h1]

theorem filterOverdue_frame (h : Host) (now : Int) (ts : List Task) (app : TodoApp) :
    (filterOverdue h now ts app).2
      = { app with cachedToday := (filterOverdue h now ts app).2.cachedToday } := by
  induction ts generalizing app with
  | nil => rfl
  | cons t ts ih =>
    simp only [filterOverdue]
    rw [ih, isOverdue_frame]

theorem filterTasks_frame (h : Host) (now : Int) (app : TodoApp) :
    (filterTasks h now app).2
      = { app with cachedToday := (filterTasks h now app).2.cachedToday } := by
  unfold filterTasks
  split_ifs <;> first | rfl | exact filterOverdue_frame h now _ _

/-- C31: `getFilteredTasks` is a query on the task store.  For every state, filter
and sort mode, the state after the call is the state before except possibly
for the cached day (which `isOverdue` fills in under the filter `overdue`): the
task sequence holds the same tasks in the same order, because filtering and
sorting work on a copy.  In the store `Banana`, `apple`, `Cherry` the returned
list is sorted and the store keeps its insertion order. -/
theorem getFilteredTasks_keeps_store (h : Host) (now : Int) (app : TodoApp)
    (filter sort : String) :
    (getFilteredTasks h now { app with currentFilter := filter, currentSort := sort }).2.tasks
      = app.tasks ∧
    (getFilteredTasks h now { app with currentFilter := filter, currentSort := sort }).2
      = { app with
          currentFilter := filter
          currentSort := sort
          cachedToday :=
            (getFilteredTasks h now
              { app with currentFilter := filter, currentSort := sort }).2.cachedToday } ∧
    (getFilteredTasks sampleHost 1704456000000 fruitApp).1.map (fun t => t.text)
      = ["apple", "Banana", "Cherry"] ∧
    (getFilteredTasks sampleHost 1704456000000 fruitApp).2.tasks.map (fun t => t.text)
      = ["Banana", "apple", "Cherry"] := by
  refine ⟨?_, ?_, by decide, by decide⟩
  · simp only [getFilteredTasks]
    rw [filterTasks_tasks]
  · simp only [getFilteredTasks]
    exact filterTasks_frame h now _

end TodoApp

/-! ## Overdue on the due date -/

/-- C13: a task due today is overdue on a host west of UTC.  On a host five hours
behind UTC the due date `2024-01-05` parses to midnight UTC, which is 19:00 of
the 4th there, so `setHours(0, 0, 0, 0)` takes it to local midnight of the 4th;
at local noon of the 5th the cached day is local midnight of the 5th, and
`isOverdue` is true for the pending task on its due date. -/
theorem isOverdue_due_today_west_of_utc :
    westHost.parseDate "2024-01-05" = some 1704412800000 ∧
    westHost.startOfDay 1704412800000 = 1704344400000 ∧
    westHost.startOfDay 1704474000000 = 1704430800000 ∧
    (TodoApp.isOverdue westHost 1704474000000 emptyApp
      { sampleTask "1" "Pay rent" with dueDate := some "2024-01-05" }).1 = true := by
  decide

/-! ## A round trip that changes a field -/

/-- C23: a round trip through storage can change a field.  From the empty store a
task is added and saved from the edit dialog with an empty status field;
`updateTask` stores the empty string as `status`, the serialized record holds
it, and loading that record gives `status` the value `pending`, so the loaded
sequence differs from the serialized one. -/
theorem round_trip_rewrites_empty_status :
    emptyApp.tasks = [] ∧
    (run sampleHost emptyStatusSession emptyApp).tasks.map (fun t => t.status) = [""] ∧
    (serialize (run sampleHost emptyStatusSession emptyApp).tasks).map
      (fun t => Json.stringOf (t.prop "status")) = [some ""] ∧
    (construct 1704326400000 (Blob.parsed (Json.arr
      (serialize (run sampleHost emptyStatusSession emptyApp).tasks)))).tasks.map
      (fun t => Json.stringOf (t.prop "status")) = [some "pending"] ∧
    (construct 1704326400000 (Blob.parsed (Json.arr
      (serialize (run sampleHost emptyStatusSession emptyApp).tasks)))).tasks
      ≠ serialize (run sampleHost emptyStatusSession emptyApp).tasks := by
  have h1 : (serialize (run sampleHost emptyStatusSession emptyApp).tasks).map
      (fun t => Json.stringOf (t.prop "status")) = [some ""] := by decide
  have h2 : (construct 1704326400000 (Blob.parsed (Json.arr
      (serialize (run sampleHost emptyStatusSession emptyApp).tasks)))).tasks.map
      (fun t => Json.stringOf (t.prop "status")) = [some "pending"] := by decide
  refine ⟨rfl, by decide, h1, h2, ?_⟩
  intro heq
  rw [heq, h1] at h2
  exact absurd h2 (by decide)

/-! ## Which blobs load as the empty sequence -/

theorem mapThrowing_eq_none_iff {α β : Type} (f : α → Option β) (l : List α) :
    mapThrowing f l = none ↔ ∃ x ∈ l, f x = none := by
  induction l with
  | nil => simp [mapThrowing]
  | cons x xs ih =>
    unfold mapThrowing
    cases hx : f x with
    | none => simp [hx]
    | some y =>
      cases hxs : mapThrowing f xs with
      | none =>
        obtain ⟨z, hz, hfz⟩ := ih.mp hxs
        simp only [true_iff]
        exact ⟨z, List.mem_cons_of_mem _ hz, hfz⟩
      | some ys =>
        constructor
        · intro hnone
          cases hnone
        · rintro ⟨z, hz, hfz⟩
          rcases List.mem_cons.mp hz with rfl | hz
          · rw [hx] at hfz
            cases hfz
          · have := ih.mpr ⟨z, hz, hfz⟩
            rw [hxs] at this
            cases this

theorem mapThrowing_length {α β : Type} (f : α → Option β) (l : List α) (l1 : List β)
    (hl : mapThrowing f l = some l1) : l1.length = l.length := by
  induction l generalizing l1 with
  | nil =>
    simp [mapThrowing] at hl
    subst hl
    rfl
  | cons x xs ih =>
    unfold mapThrowing at hl
    cases hx : f x with
    | none => simp [hx] at hl
    | some y =>
      cases hxs : mapThrowing f xs with
      | none => simp [hx, hxs] at hl
      | some ys =>
        simp [hx, hxs] at hl
        subst hl
        simp [ih ys hxs]

theorem orEmptyArray_eq_none_iff (x : Option Json) :
    Json.orEmptyArray x = none ↔ Json.mapThrows x = true := by
  cases x with
  | none => simp [Json.orEmptyArray, Json.mapThrows]
  | some v => cases v <;> simp [Json.orEmptyArray, Json.mapThrows, Json.truthy, Json.isArray]

theorem orEmptyArray_items (x : Option Json) (items : List Json)
    (hx : Json.orEmptyArray x = some items) : items = Json.itemsOf x := by
  cases x with
  | none =>
    simp [Json.orEmptyArray] at hx
    subst hx
    rfl
  | some v =>
    cases v with
    | null =>
      simp [Json.orEmptyArray, Json.truthy] at hx
      subst hx
      rfl
    | bool b =>
      cases b
      · simp [Json.orEmptyArray, Json.truthy] at hx
        subst hx
        rfl
      · simp [Json.orEmptyArray, Json.truthy] at hx
    | num n =>
      simp only [Json.orEmptyArray] at hx
      split_ifs at hx
      cases hx
      rfl
    | str s =>
      simp only [Json.orEmptyArray] at hx
      split_ifs at hx
      cases hx
      rfl
    | arr items1 =>
      simp [Json.orEmptyArray, Json.truthy] at hx
      subst hx
      rfl
    | obj fields => simp [Json.orEmptyArray, Json.truthy] at hx

theorem normalizeSubSubtask_eq_none_iff (u : Json) :
    normalizeSubSubtask u = none ↔ u.isNull = true := by
  unfold normalizeSubSubtask
  split_ifs with hnull
  · simp [hnull]
  · simp [hnull]

theorem normalizeSubtask_eq_none_iff (s : Json) :
    normalizeSubtask s = none ↔ s.subtaskThrows = true := by
  unfold normalizeSubtask Json.subtaskThrows
  by_cases hnull : s.isNull = true
  · simp [hnull]
  · rw [if_neg hnull]
    have hnull1 : s.isNull = false := by simpa using hnull
    cases hitems : Json.orEmptyArray (s.prop "subsubtasks") with
    | none =>
      have := (orEmptyArray_eq_none_iff _).mp hitems
      simp [this]
    | some items =>
      have hne : Json.mapThrows (s.prop "subsubtasks") = false := by
        cases hm : Json.mapThrows (s.prop "subsubtasks") with
        | false => rfl
        | true =>
          have := (orEmptyArray_eq_none_iff _).mpr hm
          rw [hitems] at this
          cases this
      have hit := orEmptyArray_items _ _ hitems
      subst hit
      simp only [Option.some_bind, Option.map_eq_none', hnull1, hne, Bool.false_or]
      rw [mapThrowing_eq_none_iff, List.any_eq_true]
      constructor
      · rintro ⟨u, hu, hfu⟩
        exact ⟨u, hu, (normalizeSubSubtask_eq_none_iff u).mp hfu⟩
      · rintro ⟨u, hu, hfu⟩
        exact ⟨u, hu, (normalizeSubSubtask_eq_none_iff u).mpr hfu⟩

theorem normalizeTask_eq_none_iff (now : Int) (t : Json) :
    normalizeTask now t = none ↔ t.taskThrows = true := by
  unfold normalizeTask Json.taskThrows
  by_cases hnull : t.isNull = true
  · simp [hnull]
  · rw [if_neg hnull]
    have hnull1 : t.isNull = false := by simpa using hnull
    cases hitems : Json.orEmptyArray (t.prop "subtasks") with
    | none =>
      have := (orEmptyArray_eq_none_iff _).mp hitems
      simp [this]
    | some items =>
      have hne : Json.mapThrows (t.prop "subtasks") = false := by
        cases hm : Json.mapThrows (t.prop "subtasks") with
        | false => rfl
        | true =>
          have := (orEmptyArray_eq_none_iff _).mpr hm
          rw [hitems] at this
          cases this
      have hit := orEmptyArray_items _ _ hitems
      subst hit
      simp only [Option.some_bind, Option.map_eq_none', hnull1, hne, Bool.false_or]
      rw [mapThrowing_eq_none_iff, List.any_eq_true]
      constructor
      · rintro ⟨u, hu, hfu⟩
        exact ⟨u, hu, (normalizeSubtask_eq_none_iff u).mp hfu⟩
      · rintro ⟨u, hu, hfu⟩
        exact ⟨u, hu, (normalizeSubtask_eq_none_iff u).mpr hfu⟩

theorem normalize_eq_none_iff (now : Int) (items : List Json) :
    normalize now items = none ↔ items.any Json.taskThrows = true := by
  unfold normalize
  rw [mapThrowing_eq_none_iff, List.any_eq_true]
  constructor
  · rintro ⟨u, hu, hfu⟩
    exact ⟨u, hu, (normalizeTask_eq_none_iff now u).mp hfu⟩
  · rintro ⟨u, hu, hfu⟩
    exact ⟨u, hu, (normalizeTask_eq_none_iff now u).mpr hfu⟩

theorem construct_array (now : Int) (items : List Json) :
    (items.any Json.taskThrows = true →
      (construct now (Blob.parsed (Json.arr items))).tasks = []) ∧
    (items.any Json.taskThrows = false →
      (construct now (Blob.parsed (Json.arr items))).tasks.length = items.length) := by
  constructor
  · intro hthrow
    have hn := (normalize_eq_none_iff now items).mpr hthrow
    simp only [construct, Json.truthy, if_true, hn]
  · intro hok
    cases hn : normalize now items with
    | none =>
      have := (normalize_eq_none_iff now items).mp hn
      rw [hok] at this
      cases this
    | some ts =>
      simp only [construct, Json.truthy, if_true, hn]
      exact mapThrowing_length _ _ _ hn

/-- C24 (amended): loading always ends with a task sequence, and that sequence is
empty exactly when the blob is absent, cannot be parsed, parses to a value that
is not an array, parses to the empty array, or parses to an array on which
filling in the defaults throws (an item is `null`, the `subtasks` of an item is
a truthy value that is not an array, a subtask is `null` or its `subsubtasks`
is a truthy value that is not an array, or a sub-subtask is `null`).  For every
other array the sequence has one record for each item, whatever the items
are. -/
theorem construct_empty_iff (now : Int) (blob : Blob) :
    ((construct now blob).tasks = [] ↔
      blob = Blob.absent ∨ blob = Blob.malformed ∨
      (∃ v, blob = Blob.parsed v ∧ ∀ items, v ≠ Json.arr items) ∨
      (∃ items, blob = Blob.parsed (Json.arr items) ∧
        (items = [] ∨ items.any Json.taskThrows = true))) ∧
    (∀ items, blob = Blob.parsed (Json.arr items) → items.any Json.taskThrows = false →
      (construct now blob).tasks.length = items.length) := by
  refine ⟨?_, ?_⟩
  · cases blob with
    | absent => simp [construct]
    | malformed => simp [construct]
    | parsed v =>
      cases v with
      | arr items =>
        cases hthrow : items.any Json.taskThrows with
        | true =>
          simp only [(construct_array now items).1 hthrow, true_iff]
          exact Or.inr (Or.inr (Or.inr ⟨items, rfl, Or.inr hthrow⟩))
        | false =>
          have hlen := (construct_array now items).2 hthrow
          constructor
          · intro hempty
            rw [hempty] at hlen
            refine Or.inr (Or.inr (Or.inr ⟨items, rfl, Or.inl ?_⟩))
            exact List.length_eq_zero.mp hlen.symm
          · rintro (hb | hb | ⟨v, hb, hv⟩ | ⟨items1, hb, hitems⟩)
            · cases hb
            · cases hb
            · cases hb
              exact absurd rfl (hv items)
            · cases hb
              rcases hitems with rfl | hitems
              · rfl
              · rw [hthrow] at hitems
                cases hitems
      | null =>
        simp only [construct, Json.truthy, Bool.false_eq_true, if_false, true_iff]
        exact Or.inr (Or.inr (Or.inl ⟨Json.null, rfl, fun _ hne => by cases hne⟩))
      | bool b =>
        have : (construct now (Blob.parsed (Json.bool b))).tasks = [] := by
          cases b <;> rfl
        simp only [this, true_iff]
        exact Or.inr (Or.inr (Or.inl ⟨Json.bool b, rfl, fun _ hne => by cases hne⟩))
      | num n =>
        have : (construct now (Blob.parsed (Json.num n))).tasks = [] := by
          simp only [construct]
          split_ifs <;> rfl
        simp only [this, true_iff]
        exact Or.inr (Or.inr (Or.inl ⟨Json.num n, rfl, fun _ hne => by cases hne⟩))
      | str s =>
        have : (construct now (Blob.parsed (Json.str s))).tasks = [] := by
          simp only [construct]
          split_ifs <;> rfl
        simp only [this, true_iff]
        exact Or.inr (Or.inr (Or.inl ⟨Json.str s, rfl, fun _ hne => by cases hne⟩))
      | obj fields =>
        have : (construct now (Blob.parsed (Json.obj fields))).tasks = [] := rfl
        simp only [this, true_iff]
        exact Or.inr (Or.inr (Or.inl ⟨Json.obj fields, rfl, fun _ hne => by cases hne⟩))
  · intro items hb hok
    subst hb
    exact (construct_array now items).2 hok

/-- C24 (amended) at concrete blobs: `[{"subtasks":"abc"}]`, `[{"subtasks":[null]}]`
and `[]` load as the empty sequence, `[1]` and `["ab", {}]` load as one record
for each item. -/
theorem construct_empty_iff_witness :
    (construct 1704067200000
      (Blob.parsed (Json.arr [Json.obj [("subtasks", Json.str "abc")]]))).tasks = [] ∧
    (construct 1704067200000
      (Blob.parsed (Json.arr [Json.obj [("subtasks", Json.arr [Json.null])]]))).tasks = [] ∧
    (construct 1704067200000 (Blob.parsed (Json.arr []))).tasks = [] ∧
    (construct 1704067200000 (Blob.parsed (Json.arr [Json.num 1]))).tasks.length = 1 ∧
    (construct 1704067200000
      (Blob.parsed (Json.arr [Json.str "ab", Json.obj []]))).tasks.length = 2 :=
  ⟨(construct_empty_iff 1704067200000 _).1.mpr
      (Or.inr (Or.inr (Or.inr ⟨_, rfl, Or.inr (by decide)⟩))),
    (construct_empty_iff 1704067200000 _).1.mpr
      (Or.inr (Or.inr (Or.inr ⟨_, rfl, Or.inr (by decide)⟩))),
    (construct_empty_iff 1704067200000 _).1.mpr
      (Or.inr (Or.inr (Or.inr ⟨_, rfl, Or.inl rfl⟩))),
    (construct_empty_iff 1704067200000 _).2 [Json.num 1] rfl (by decide),
    (construct_empty_iff 1704067200000 _).2 [Json.str "ab", Json.obj []] rfl (by decide)⟩

end Todo
